import Mathlib

/-!
# Distance index of a variation graph: embedding and checked properties

Shallow embedding of `src/distance.cpp` (class `DistanceIndex` with its nested
`SnarlIndex`, `ChainIndex` and `MaxDistanceIndex`).

Conventions of the embedding

* `size_t`, `uint64_t` values are natural numbers; `size_t` arithmetic is
  written with the wrapping operations `uadd`, `usub`, `umul`.
* `int64_t` values, node ids (`id_t`) among them, are integers; the conversions between the signed and the
  unsigned 64-bit types and the narrowing to `int` are explicit
  (`toInt64`, `toUInt64`, `toInt32`).
* `sdsl::int_vector<>` is a list of 64-bit words.  Reading or writing past the
  end of a vector, `map::at` on a missing key and dereferencing a null pointer
  or an end iterator have no defined result: the embedded function returns
  `none` there.
* `const Snarl*` and `const Chain*` are indices into the tables of the snarl
  manager; a nullable pointer is an `Option`.
-/

namespace vg

set_option maxRecDepth 8000

/-! ## Machine integers -/

/-- Addition of `size_t` / `uint64_t`. -/
def uadd (a b : Nat) : Nat := (a + b) % 2 ^ 64

/-- Subtraction of `size_t` / `uint64_t` (wraps below zero). -/
def usub (a b : Nat) : Nat := (a % 2 ^ 64 + (2 ^ 64 - b % 2 ^ 64)) % 2 ^ 64

/-- Multiplication of `size_t` / `uint64_t`. -/
def umul (a b : Nat) : Nat := (a * b) % 2 ^ 64

/-- Conversion of a 64-bit word to `int64_t`. -/
def toInt64 (w : Nat) : Int :=
  if w % 2 ^ 64 < 2 ^ 63 then ((w % 2 ^ 64 : Nat) : Int)
  else ((w % 2 ^ 64 : Nat) : Int) - 2 ^ 64

/-- Conversion of an `int64_t` to a 64-bit word. -/
def toUInt64 (x : Int) : Nat := (x % 2 ^ 64).toNat

/-- Narrowing conversion of an `int64_t` to `int` (32 bits, two's complement). -/
def toInt32 (x : Int) : Int := (x + 2 ^ 31) % 2 ^ 32 - 2 ^ 31

/-! ## `DistanceIndex::minPos` -/

/-- The lambda of `minPos`: `[](int x, int y)`; both arguments are already
`int`. -/
def minPosStep (x y : Int) : Int :=
  if x = -1 then y else if y = -1 then x else min x y

/-- `DistanceIndex::minPos`: `accumulate(vals.begin(), vals.end(), -1, lambda)`.
The initial value `-1` has type `int`, so the accumulator is an `int`, and the
lambda takes its two arguments as `int`: every element of `vals` is narrowed
to 32 bits when it is passed. -/
def minPos (vals : List Int) : Int :=
  vals.foldl (fun x y => minPosStep x (toInt32 y)) (-1)

/-! ## `SnarlIndex` -/

/-- An oriented node side, `pair<id_t, bool>`: node id and `is_reverse`. -/
abbrev Side := Int × Bool

/-- The other side of the same node. -/
def flipSide (s : Side) : Side := (s.1, !s.2)

/-- The node-to-slot tables of `DistanceIndex` that `SnarlIndex::index` reads:
`primary_snarls`, `secondary_snarls` (pairs of snarl slot and unit index) and
the bit vector `has_secondary_snarl`. -/
structure NodeLocator where
  primary_snarls : Int → Nat × Nat
  secondary_snarls : Nat → Nat × Nat
  has_secondary_snarl : List Bool

/-- `has_secondary_snarl.rank(i)`: the number of set bits before position `i`. -/
def NodeLocator.rank (loc : NodeLocator) (i : Int) : Nat :=
  ((loc.has_secondary_snarl.take i.toNat).filter (fun b => b)).length

/-- `unordered_map<id_t, size_t>` as an association list. -/
abbrev IdMap := List (Int × Nat)

/-- Lookup in an `IdMap` (`find`). -/
def IdMap.find (m : IdMap) (k : Int) : Option Nat :=
  (m.find? (fun p => p.1 == k)).map (fun p => p.2)

/-- The snarl index: `SnarlIndex` of `DistanceIndex`.
`currSnarlAssignment` is the slot of this snarl in `snarlIndexes`, the value
that `SnarlIndex::index` compares the primary snarl of a node with. -/
structure SnarlIndex where
  parent_index : Nat
  rev_in_parent : Bool
  in_chain : Bool
  num_nodes : Nat
  distances : List Nat
  visitToIndex : IdMap
  snarlStart : Side
  snarlEnd : Side
  parent : Side
  currSnarlAssignment : Nat

/-- The constructor `SnarlIndex(di, parentIndex, revInParent, size, inChain)`:
`distances` gets `((size+1)*size)/2 + size/2` cells, all `0`. -/
def SnarlIndex.new (parentIndex : Nat) (revInParent : Bool) (size : Nat)
    (inChain : Bool) (currSnarlAssignment : Nat) : SnarlIndex :=
  { parent_index := parentIndex
    rev_in_parent := revInParent
    in_chain := inChain
    num_nodes := size
    distances := List.replicate (uadd (umul (uadd size 1) size / 2) (size / 2)) 0
    visitToIndex := []
    snarlStart := (0, false)
    snarlEnd := (0, false)
    parent := (0, false)
    currSnarlAssignment := currSnarlAssignment }

/-- The unit index of a node in this snarl, as `SnarlIndex::index` computes
`nodeIndex1` and `nodeIndex2`: the primary entry when the node's primary snarl
is this snarl, else the secondary entry. -/
def SnarlIndex.nodeIndex (loc : NodeLocator) (si : SnarlIndex) (id : Int) : Nat :=
  if (loc.primary_snarls id).1 = si.currSnarlAssignment then
    (loc.primary_snarls id).2
  else (loc.secondary_snarls (loc.rank id)).2

/-- The pair of slots `(i1, i2)` that `SnarlIndex::index` ends up with.
Both `nodeIndex1` and `nodeIndex2` are computed from `start.first`, as in the
source. -/
def SnarlIndex.slots (loc : NodeLocator) (si : SnarlIndex) (start end_ : Side) :
    Nat × Nat :=
  let nodeIndex1 := si.nodeIndex loc start.1
  let nodeIndex2 := si.nodeIndex loc start.1
  let i1 := if start.2 then uadd 1 nodeIndex1 else nodeIndex1
  let i2 := if !end_.2 then uadd 1 nodeIndex2 else nodeIndex2
  if i1 > i2 then
    (if end_.2 then nodeIndex2 else uadd 1 nodeIndex2,
     if !start.2 then nodeIndex1 else uadd 1 nodeIndex1)
  else (i1, i2)

/-- The last three statements of `SnarlIndex::index`: the offset of the cell
of the slot pair `(i1, i2)` in a table of `length = num_nodes * 2` slots. -/
def indexOffset (num_nodes i1 i2 : Nat) : Nat :=
  let length := umul num_nodes 2
  let k := usub length i1
  uadd (usub (uadd (usub (umul (uadd length 1) length / 2)
    (umul (uadd k 1) k / 2)) i2) i1) (length / 2)

/-- `SnarlIndex::index(start, end)`. -/
def SnarlIndex.index (loc : NodeLocator) (si : SnarlIndex) (start end_ : Side) : Nat :=
  indexOffset si.num_nodes (si.slots loc start end_).1 (si.slots loc start end_).2

/-- `SnarlIndex::insertDistance(start, end, dist)`: `distances[i] = dist + 1`. -/
def SnarlIndex.insertDistance (loc : NodeLocator) (si : SnarlIndex)
    (start end_ : Side) (dist : Int) : Option SnarlIndex :=
  let i := si.index loc start end_
  if i < si.distances.length then
    some { si with distances := si.distances.set i (toUInt64 (dist + 1)) }
  else none

/-- `SnarlIndex::snarlDistanceShort(start, end)`: `int64_t(distances[i]) - 1`. -/
def SnarlIndex.snarlDistanceShort (loc : NodeLocator) (si : SnarlIndex)
    (start end_ : Side) : Option Int :=
  (si.distances[si.index loc start end_]?).map (fun v => toInt64 v - 1)

/-! ## Graph, positions and `MaxDistanceIndex` -/

/-- The part of the `HandleGraph` contract that the queries use:
`get_length(get_handle(id, is_reverse))`, which does not depend on the
orientation, and `follow_edges(handle, false, _)`, the sides reached by leaving
a side forwards. -/
structure HandleGraph where
  get_length : Int → Nat
  follow_edges : Side → List Side

/-- A position `pos_t`: node id, `is_rev` and offset (`get_id`, `is_rev`,
`get_offset`); the offset is unsigned. -/
structure Pos where
  id : Int
  is_rev : Bool
  offset : Nat

/-- Element access `v[i]` of an `int_vector<>` with an index computed in
`int64_t`. -/
def readVec (v : List Nat) (i : Int) : Option Nat :=
  if i < 0 then none else v[i.toNat]?

/-- The maximum distance index: `MaxDistanceIndex`. -/
structure MaxDistanceIndex where
  nodeToComponent : List Nat
  minDistances : List Nat
  maxDistances : List Nat
  numCycles : Nat
  cap : Nat

/-- The default constructor `MaxDistanceIndex()`. -/
def MaxDistanceIndex.empty : MaxDistanceIndex :=
  { nodeToComponent := [], minDistances := [], maxDistances := [],
    numCycles := 0, cap := 0 }

/-- The value `max(get_offset(pos), get_length(...) - get_offset(pos)) + 1`
of `MaxDistanceIndex::maxDistance`, computed in `size_t` and stored in an
`int64_t`. -/
def posLen (g : HandleGraph) (pos : Pos) : Int :=
  toInt64 (uadd (max pos.offset (usub (g.get_length pos.id) pos.offset)) 1)

/-- `MaxDistanceIndex::maxDistance(pos1, pos2)`; `minNodeID` is
`distIndex->minNodeID`. -/
def MaxDistanceIndex.maxDistance (g : HandleGraph) (minNodeID : Int)
    (mi : MaxDistanceIndex) (pos1 pos2 : Pos) : Option Int := do
  let len1 := posLen g pos1
  let len2 := posLen g pos2
  let comp1 ← readVec mi.nodeToComponent (pos1.id - minNodeID)
  let comp2 ← readVec mi.nodeToComponent (pos2.id - minNodeID)
  if comp1 ≠ comp2 ∨ comp1 ≤ mi.numCycles then
    pure (toInt64 mi.cap)
  else do
    let max1 ← readVec mi.maxDistances (pos1.id - minNodeID)
    let max2 ← readVec mi.maxDistances (pos2.id - minNodeID)
    let min1 ← readVec mi.minDistances (pos1.id - minNodeID)
    let min2 ← readVec mi.minDistances (pos2.id - minNodeID)
    let d1 := if max1 > min2 then usub max1 min2 else 0
    let d2 := if max2 > min1 then usub max2 min1 else 0
    pure (toInt64 (uadd (toUInt64 (len1 + len2)) (max d1 d2)))


/-! ## Snarl decomposition (the `SnarlManager` contract) -/

/-- A `Visit`: node id and `backward`. -/
structure Visit where
  node_id : Int
  backward : Bool
  deriving DecidableEq

/-- A `Snarl`: its `start()` visit (pointing in) and its `end()` visit
(pointing out). -/
structure Snarl where
  start : Visit
  end_ : Visit
  deriving DecidableEq

/-- A `const Snarl*` that is not null. -/
abbrev SnarlRef := Nat

/-- A `const Chain*`. -/
abbrev ChainRef := Nat

/-- The operations of the snarl manager that the queries call.  `snarl`
dereferences a snarl pointer; `get_start_of` and `get_end_of` are the bounding
visits of a chain. -/
structure SnarlManager where
  snarl : SnarlRef → Snarl
  parent_of : SnarlRef → Option SnarlRef
  in_nontrivial_chain : SnarlRef → Bool
  chain_of : SnarlRef → ChainRef
  chain_orientation_of : SnarlRef → Bool
  into_which_snarl : Int → Bool → Option SnarlRef
  get_start_of : ChainRef → Visit
  get_end_of : ChainRef → Visit

/-! ## Maps and signed arithmetic on words -/

/-- `m[k]` of an `unordered_map<id_t, size_t>`: the mapped value, and the map
afterwards; a missing key is inserted with the value `0`. -/
def IdMap.subscript (m : IdMap) (k : Int) : Nat × IdMap :=
  match m.find k with
  | some v => (v, m)
  | none => (0, m ++ [(k, 0)])

/-- The value of an expression computed in `uint64_t` and stored in an
`int64_t`. -/
def wrap64 (x : Int) : Int := toInt64 (toUInt64 x)

/-! ## `SnarlIndex` lookups -/

/-- `SnarlIndex::nodeLength(node)`: `distances[visitToIndex[node]] - 1`.
The subscript on `visitToIndex` can insert `node`. -/
def SnarlIndex.nodeLength (si : SnarlIndex) (node : Int) : Option (Int × SnarlIndex) :=
  let r := si.visitToIndex.subscript node
  match si.distances[r.1]? with
  | none => none
  | some v => some (toInt64 (usub v 1), { si with visitToIndex := r.2 })

/-- `SnarlIndex::snarlDistance(start, end)`. -/
def SnarlIndex.snarlDistance (loc : NodeLocator) (si : SnarlIndex)
    (start end_ : Side) : Option (Int × SnarlIndex) :=
  match si.distances[si.index loc start end_]? with
  | none => none
  | some v =>
    let dist := toInt64 v - 1
    if dist = -1 then some (-1, si)
    else
      match si.nodeLength start.1 with
      | none => none
      | some (len, si2) => some (dist + len, si2)

/-- `SnarlIndex::snarlLength()`. -/
def SnarlIndex.snarlLength (loc : NodeLocator) (si : SnarlIndex) :
    Option (Int × SnarlIndex) :=
  match si.snarlDistanceShort loc si.snarlStart si.snarlEnd with
  | none => none
  | some dist =>
    if dist = -1 then some (-1, si)
    else
      match si.nodeLength si.snarlEnd.1 with
      | none => none
      | some (lenEnd, si2) =>
        match si2.nodeLength si2.snarlStart.1 with
        | none => none
        | some (lenStart, si3) => some (dist + (lenEnd + lenStart), si3)

/-- The guard `d == -1 || dist == -1 ? -1 : dist + d` that the queries apply
before every `minPos`. -/
def addDist (d dist : Int) : Int :=
  if d = -1 ∨ dist = -1 then -1 else dist + d

/-- `SnarlIndex::distToEnds(graph, ng, node, rev, distL, distR)`. -/
def SnarlIndex.distToEnds (loc : NodeLocator) (si : SnarlIndex) (node : Int)
    (rev : Bool) (distL distR : Int) : Option ((Int × Int) × SnarlIndex) := do
  let dL := if rev then distR else distL
  let dR := if rev then distL else distR
  let snarlEndRev : Side := (si.snarlEnd.1, !si.snarlEnd.2)
  let (dsl0, s1) ← si.snarlDistance loc si.snarlStart (node, false)
  let (dsr0, s2) ← s1.snarlDistance loc s1.snarlStart (node, true)
  let (der0, s3) ← s2.snarlDistance loc snarlEndRev (node, true)
  let (del0, s4) ← s3.snarlDistance loc snarlEndRev (node, false)
  let dsl1 := if node = si.snarlStart.1 ∧ rev = si.snarlStart.2 then 0 else dsl0
  let dsr1 := if node = si.snarlStart.1 ∧ rev ≠ si.snarlStart.2 then 0 else dsr0
  let del1 := if node = si.snarlEnd.1 ∧ rev = !si.snarlEnd.2 then 0 else del0
  let der1 := if node = si.snarlEnd.1 ∧ rev ≠ !si.snarlEnd.2 then 0 else der0
  let dsl := addDist dsl1 dL
  let dsr := addDist dsr1 dR
  let der := addDist der1 dR
  let del := addDist del1 dL
  pure ((minPos [dsr, dsl], minPos [der, del]), s4)

/-! ## `ChainIndex` -/

/-- The chain index: `ChainIndex` of `DistanceIndex`. -/
structure ChainIndex where
  parent_index : Nat
  rev_in_parent : Bool
  prefixSum : List Nat
  loopFd : List Nat
  loopRev : List Nat
  snarlToIndex : IdMap
  chainStartID : Int
  chainEndID : Int
  parent : Side

/-- The rank of a side in `chainDistance` and the side with its id resolved:
`snarlToIndex.at(id)`, or, in a call with `recurse == false` and the id `-1`,
`snarlToIndex.size()` with the id replaced by `chainEndID`. -/
def ChainIndex.rankOf (ci : ChainIndex) (recurse : Bool) (s : Side) :
    Option (Nat × Side) :=
  if !recurse ∧ s.1 = -1 then some (ci.snarlToIndex.length, (ci.chainEndID, s.2))
  else (ci.snarlToIndex.find s.1).map (fun i => (i, s))

/-- The part of `chainDistance` after `loopDist` is known: the four cases on
the orientations `rev1`, `rev2` (source lines 2239 to 2306). -/
def ChainIndex.chainCases (g : HandleGraph) (ci : ChainIndex) (start end_ : Side)
    (i1 i2 : Nat) (rev1 rev2 : Bool) (loopDist : Int) : Option Int := do
  let p1 ← ci.prefixSum[i1]?
  let p2 ← ci.prefixSum[i2]?
  let len1 := toInt64 (g.get_length start.1)
  let len2 := toInt64 (g.get_length end_.1)
  let fwd := wrap64 ((p2 : Int) - (p1 : Int))
  let bwd := wrap64 (((p1 : Int) + len1) - ((p2 : Int) + len2))
  if !rev1 ∧ !rev2 then
    if i1 ≤ i2 then pure (minPos [loopDist, fwd])
    else do
      let revID1 := toInt64 (usub (← ci.loopFd[i1]?) 1)
      let revID2 := toInt64 (usub (← ci.loopRev[i2]?) 1)
      pure (minPos [loopDist, if revID1 = -1 ∨ revID2 = -1 then -1
        else bwd + revID1 + revID2])
  else if rev1 ∧ rev2 then
    if i1 ≥ i2 then pure (minPos [loopDist, bwd])
    else do
      let revID1 := toInt64 (usub (← ci.loopRev[i1]?) 1)
      let revID2 := toInt64 (usub (← ci.loopFd[i2]?) 1)
      pure (minPos [loopDist, if revID1 = -1 ∨ revID2 = -1 then -1
        else fwd + revID1 + revID2])
  else if !rev1 ∧ rev2 then
    if i1 ≤ i2 then do
      let rev := toInt64 (usub (← ci.loopFd[i2]?) 1)
      pure (minPos [loopDist, if rev = -1 then -1 else rev + fwd])
    else do
      let rev := toInt64 (usub (← ci.loopFd[i1]?) 1)
      pure (minPos [loopDist, if rev = -1 then -1 else rev + bwd])
  else
    if i1 ≤ i2 then do
      let rev := toInt64 (usub (← ci.loopRev[i1]?) 1)
      pure (minPos [loopDist, if rev = -1 then -1 else rev + fwd])
    else do
      let rev := toInt64 (usub (← ci.loopRev[i2]?) 1)
      pure (minPos [loopDist, if rev = -1 then -1 else rev + bwd])

/-- The body of `ChainIndex::chainDistance(start, end, startSnarl, endSnarl,
recurse)`.  `inner` stands for the nested calls, which all pass
`recurse = false`.  The two subscripts `snarlToIndex[...]` can insert the start
nodes of the two snarls. -/
def ChainIndex.chainDistanceBody (g : HandleGraph) (sm : SnarlManager)
    (inner : ChainIndex → Side → Side → Option (Int × ChainIndex))
    (ci : ChainIndex) (start end_ : Side) (startSnarl endSnarl : Option SnarlRef)
    (recurse : Bool) : Option (Int × ChainIndex) := do
  let (i1, start) ← ci.rankOf recurse start
  let (i2, end_) ← ci.rankOf recurse end_
  let ss ← startSnarl
  let es ← endSnarl
  let r1 := ci.snarlToIndex.subscript (sm.snarl ss).start.node_id
  let snarlRev1 :=
    if i1 = r1.1 then (sm.snarl ss).start.backward else (sm.snarl ss).end_.backward
  let r2 := r1.2.subscript (sm.snarl es).start.node_id
  let snarlRev2 :=
    if i2 = r2.1 then (sm.snarl es).start.backward else (sm.snarl es).end_.backward
  let ci1 : ChainIndex := { ci with snarlToIndex := r2.2 }
  let chainRev1 := if sm.chain_orientation_of ss then !snarlRev1 else snarlRev1
  let chainRev2 := if sm.chain_orientation_of es then !snarlRev2 else snarlRev2
  let rev1 := if chainRev1 then !start.2 else start.2
  let rev2 := if chainRev2 then !end_.2 else end_.2
  let (loopDist, ci2) ←
    if ci1.chainStartID = ci1.chainEndID ∧ i1 ≠ i2 ∧ recurse then
      if i1 = 0 then inner ci1 (-1, start.2) end_
      else if i2 = 0 then inner ci1 start (-1, end_.2)
      else if i1 < i2 ∧ start.2 then do
        let (a, c1) ← inner ci1 start (ci1.chainStartID, start.2)
        let (b, c2) ← inner c1 (-1, start.2) end_
        pure (a + b, c2)
      else if i1 > i2 ∧ !rev1 then do
        let (a, c1) ← inner ci1 start (-1, start.2)
        let (b, c2) ← inner c1 (ci1.chainStartID, start.2) end_
        pure (a + b, c2)
      else pure (-1, ci1)
    else pure (-1, ci1)
  let d ← ci2.chainCases g start end_ i1 i2 rev1 rev2 loopDist
  pure (d, ci2)

/-- `chainDistance` with `recurse = false`: it makes no nested call. -/
def ChainIndex.chainDistanceNoRecurse (g : HandleGraph) (sm : SnarlManager)
    (startSnarl endSnarl : Option SnarlRef) (ci : ChainIndex) (start end_ : Side) :
    Option (Int × ChainIndex) :=
  ChainIndex.chainDistanceBody g sm (fun _ _ _ => none) ci start end_ startSnarl endSnarl
    false

/-- `ChainIndex::chainDistance(start, end, startSnarl, endSnarl)` with the
default `recurse = true`. -/
def ChainIndex.chainDistance (g : HandleGraph) (sm : SnarlManager) (ci : ChainIndex)
    (start end_ : Side) (startSnarl endSnarl : Option SnarlRef) :
    Option (Int × ChainIndex) :=
  ChainIndex.chainDistanceBody g sm
    (ChainIndex.chainDistanceNoRecurse g sm startSnarl endSnarl) ci start end_
    startSnarl endSnarl true

/-- `ChainIndex::chainDistanceShort(graph, start, end, startSnarl, endSnarl)`.
The differences `d - get_length(...)` are computed in `size_t`, and so is
their `min`. -/
def ChainIndex.chainDistanceShort (g : HandleGraph) (sm : SnarlManager)
    (ci : ChainIndex) (start end_ : Side) (startSnarl endSnarl : Option SnarlRef) :
    Option (Int × ChainIndex) := do
  let (d1, c1) ← ci.chainDistance g sm start end_ startSnarl endSnarl
  let (d2, c2) ← c1.chainDistance g sm (end_.1, !end_.2) (start.1, !start.2)
    startSnarl endSnarl
  let lenS : Int := g.get_length start.1
  let lenE : Int := g.get_length end_.1
  if start = end_ then pure (toInt64 (g.get_length start.1), c2)
  else if d1 = -1 ∧ d2 = -1 then pure (-1, c2)
  else if d2 = -1 then pure (wrap64 (d1 - lenS), c2)
  else if d1 = -1 then pure (wrap64 (d2 - lenE), c2)
  else pure (toInt64 (min (toUInt64 (d1 - lenS)) (toUInt64 (d2 - lenE))), c2)

/-- `ChainIndex::chainLength()`: `prefixSum[prefixSum.size()-1] - 1`. -/
def ChainIndex.chainLength (ci : ChainIndex) : Option Int :=
  (ci.prefixSum[usub ci.prefixSum.length 1]?).map (fun v => toInt64 (usub v 1))

/-! ## `DistanceIndex` -/

/-- The members of `DistanceIndex` that the queries and the constructor use.
`snarlDistances` and `chainDistances` are the maps that the queries and
`load` use; `snarlIndexes`, `chainIndexes` and the locator tables are what
the constructor fills. -/
structure DistanceIndex where
  snarlDistances : List (Side × SnarlIndex)
  chainDistances : List (Int × ChainIndex)
  nodeToSnarl : List Nat
  minNodeID : Int
  maxNodeID : Int
  maxIndex : MaxDistanceIndex
  include_maximum : Bool
  loc : NodeLocator
  snarlIndexes : List SnarlIndex
  chainIndexes : List ChainIndex

/-- `snarlDistances.find(key)`. -/
def DistanceIndex.findSnarl (idx : DistanceIndex) (key : Side) : Option SnarlIndex :=
  (idx.snarlDistances.find? (fun p => p.1 == key)).map (fun p => p.2)

/-- Writing through a reference into `snarlDistances`. -/
def DistanceIndex.setSnarl (idx : DistanceIndex) (key : Side) (si : SnarlIndex) :
    DistanceIndex :=
  { idx with snarlDistances :=
      idx.snarlDistances.map (fun p => if p.1 == key then (p.1, si) else p) }

/-- `chainDistances.at(key)`. -/
def DistanceIndex.chainAt (idx : DistanceIndex) (key : Int) : Option ChainIndex :=
  (idx.chainDistances.find? (fun p => p.1 == key)).map (fun p => p.2)

/-- Writing through a reference into `chainDistances`. -/
def DistanceIndex.setChain (idx : DistanceIndex) (key : Int) (ci : ChainIndex) :
    DistanceIndex :=
  { idx with chainDistances :=
      idx.chainDistances.map (fun p => if p.1 == key then (p.1, ci) else p) }

/-- The lookup of a snarl's index that the queries repeat:
`find(first)`, and `find(second)` when the first key is missing; the entry
is then dereferenced.  Returns the key found and the index. -/
def DistanceIndex.findSnarl2 (idx : DistanceIndex) (first second : Side) :
    Option (Side × SnarlIndex) :=
  match idx.findSnarl first with
  | some si => some (first, si)
  | none => (idx.findSnarl second).map (fun si => (second, si))

/-- `DistanceIndex::snarlOf(nodeID)`; the inner option is the pointer, which
can be null. -/
def DistanceIndex.snarlOf (idx : DistanceIndex) (sm : SnarlManager) (nodeID : Int) :
    Option (Option SnarlRef) :=
  (readVec idx.nodeToSnarl (nodeID - idx.minNodeID)).map (fun w =>
    sm.into_which_snarl (Int.shiftRight (toInt64 w) 1)
      (decide (Int.tmod (toInt64 w) 2 = 1)))

/-- `DistanceIndex::maxDistance(pos1, pos2)`: `assert(include_maximum)` and
the query of the maximum index. -/
def DistanceIndex.maxDistance (idx : DistanceIndex) (g : HandleGraph)
    (pos1 pos2 : Pos) : Option Int :=
  if idx.include_maximum then idx.maxIndex.maxDistance g idx.minNodeID pos1 pos2
  else none

/-- The four chain distances and the two minima by which
`distToCommonAncestor` (lines 1678 to 1697) and `minDistance` (lines 1271 to
1291 and 1311 to 1329) move a pair `(distL, distR)` from the ends of a snarl
to the ends of its chain.  Returns the new pair, the chain start side and the
index with the chain written back. -/
def DistanceIndex.toChainEnds (idx : DistanceIndex) (g : HandleGraph) (sm : SnarlManager)
    (snarl : SnarlRef) (nodeSide endSide : Side) (distL distR : Int) :
    Option ((Int × Int) × Side × DistanceIndex) := do
  let chain := sm.chain_of snarl
  let chainStart := sm.get_start_of chain
  let chainEnd := sm.get_end_of chain
  let chainStartIn : Side := (chainStart.node_id, chainStart.backward)
  let chainEndIn : Side := (chainEnd.node_id, !chainEnd.backward)
  let startSnarl := sm.into_which_snarl chainStart.node_id chainStart.backward
  let endSnarl := sm.into_which_snarl chainEndIn.1 chainEndIn.2
  let cd ← idx.chainAt chainStartIn.1
  let (dsl, c1) ← cd.chainDistance g sm chainStartIn nodeSide startSnarl (some snarl)
  let (dsr, c2) ← c1.chainDistance g sm chainStartIn endSide startSnarl (some snarl)
  let (der, c3) ← c2.chainDistance g sm chainEndIn endSide endSnarl (some snarl)
  let (del, c4) ← c3.chainDistance g sm chainEndIn nodeSide endSnarl (some snarl)
  let dsl := addDist dsl distL
  let dsr := addDist dsr distR
  let der := addDist der distR
  let del := addDist del distL
  pure ((minPos [dsr, dsl], minPos [der, del]), chainStartIn,
    idx.setChain chainStartIn.1 c4)

/-- The step to the ends of the chain, taken only when `inChain` holds (the
`if` around each of the three copies of the block). -/
def DistanceIndex.toChainEndsIf (idx : DistanceIndex) (g : HandleGraph)
    (sm : SnarlManager) (inChain : Bool) (snarl : SnarlRef) (nodeSide endSide : Side)
    (distL distR : Int) : Option ((Int × Int) × Side × DistanceIndex) :=
  if inChain then idx.toChainEnds g sm snarl nodeSide endSide distL distR
  else some ((distL, distR), nodeSide, idx)

/-- Whether the start visit of a snarl is the start visit of the common
ancestor (`distToCommonAncestor` compares node id and orientation). -/
def sameStart (sm : SnarlManager) (a b : SnarlRef) : Bool :=
  decide ((sm.snarl a).start.node_id = (sm.snarl b).start.node_id ∧
    (sm.snarl a).start.backward = (sm.snarl b).start.backward)

/-- The `while` loop of `distToCommonAncestor` (lines 1648 to 1728); `fuel`
bounds the number of iterations. -/
def DistanceIndex.climbToAncestor (g : HandleGraph) (sm : SnarlManager)
    (commonAncestor : Option SnarlRef) :
    Nat → DistanceIndex → SnarlRef → Side → Int → Int →
      Option (((Int × Int) × SnarlRef) × DistanceIndex)
  | 0, _, _, _, _, _ => none
  | fuel + 1, idx, snarl, nodeSide, distL, distR =>
    let continue? : Option Bool :=
      match commonAncestor with
      | none => some (sm.parent_of snarl).isSome
      | some ca => (sm.parent_of snarl).map (fun p => !sameStart sm p ca)
    match continue? with
    | none => none
    | some false => some (((distL, distR), snarl), idx)
    | some true => do
      let endSide : Side := ((sm.snarl snarl).end_.node_id, !(sm.snarl snarl).end_.backward)
      let ((dL, dR), side1, idx1) ←
        idx.toChainEndsIf g sm (sm.in_nontrivial_chain snarl) snarl nodeSide endSide
          distL distR
      let par ← sm.parent_of snarl
      let startNode : Side := ((sm.snarl par).start.node_id, (sm.snarl par).start.backward)
      let (key, sd) ← idx1.findSnarl2 startNode (startNode.1, !startNode.2)
      let ((eL, eR), sd1) ← sd.distToEnds idx1.loc side1.1 side1.2 dL dR
      DistanceIndex.climbToAncestor g sm commonAncestor fuel (idx1.setSnarl key sd1) par
        startNode eL eR

/-- `DistanceIndex::distToCommonAncestor(snarl, commonAncestor, pos, rev)`. -/
def DistanceIndex.distToCommonAncestor (fuel : Nat) (idx : DistanceIndex)
    (g : HandleGraph) (sm : SnarlManager) (snarl commonAncestor : Option SnarlRef)
    (pos : Pos) (rev : Bool) : Option (((Int × Int) × SnarlRef) × DistanceIndex) := do
  let offset := toInt64 pos.offset
  let lenMinus := wrap64 ((g.get_length pos.id : Int) - offset)
  let distL0 := if pos.is_rev then lenMinus else offset + 1
  let distR0 := if pos.is_rev then offset + 1 else lenMinus
  let distL := if rev = pos.is_rev then -1 else distL0
  let distR := if rev = pos.is_rev then distR0 else -1
  let s ← snarl
  if (match commonAncestor with
      | none => false
      | some ca => sameStart sm s ca) then
    pure (((distL, distR), s), idx)
  else do
    let startID := (sm.snarl s).start.node_id
    let startRev := (sm.snarl s).start.backward
    let (key, sd) ← idx.findSnarl2 (startID, startRev) (startID, !startRev)
    let ((eL, eR), sd1) ← sd.distToEnds idx.loc pos.id false distL distR
    DistanceIndex.climbToAncestor g sm commonAncestor fuel (idx.setSnarl key sd1) s
      (startID, startRev) eL eR

/-! ## `DistanceIndex::minDistance` -/

/-- The guard `(a == -1 || b == -1 || d == -1) ? -1 : a + b + d`. -/
def addDist3 (a b d : Int) : Int :=
  if a = -1 ∨ b = -1 ∨ d = -1 then -1 else a + b + d

/-- The guard `(a == -1 || b == -1 || d == -1) ? -1 : a + b - d`, used when
two snarls of a chain share a node. -/
def subDist3 (a b d : Int) : Int :=
  if a = -1 ∨ b = -1 ∨ d = -1 then -1 else a + b - d

/-- The first loop of `minDistance` (lines 1095 to 1102): the start visits of
the snarl and of all its ancestors. -/
def ancestorsOf (sm : SnarlManager) : Nat → Option SnarlRef → Option (List Side)
  | _, none => some []
  | 0, some _ => none
  | fuel + 1, some s =>
    (ancestorsOf sm fuel (sm.parent_of s)).map (fun rest =>
      ((sm.snarl s).start.node_id, (sm.snarl s).start.backward) :: rest)

/-- The second loop of `minDistance` (lines 1110 to 1125): the first ancestor
of the second snarl whose start visit is in the set. -/
def findCommonAncestor (sm : SnarlManager) (ancestors1 : List Side) :
    Nat → Option SnarlRef → Option (Option SnarlRef)
  | _, none => some none
  | 0, some _ => none
  | fuel + 1, some s =>
    if ((sm.snarl s).start.node_id, (sm.snarl s).start.backward) ∈ ancestors1 then
      some (some s)
    else findCommonAncestor sm ancestors1 fuel (sm.parent_of s)

/-- The same-chain block of `minDistance` (lines 1182 to 1244): the value of
`chainDist`, and the index afterwards. -/
def DistanceIndex.sameChainDist (idx : DistanceIndex) (g : HandleGraph)
    (sm : SnarlManager) (commonAncestor : Option SnarlRef) (snarl1 snarl2 : SnarlRef)
    (node1 node2 end1 end2 : Side) (distL1 distR1 distL2 distR2 : Int) :
    Option (Int × DistanceIndex) :=
  if some snarl1 ≠ commonAncestor ∧ some snarl2 ≠ commonAncestor ∧
      sm.in_nontrivial_chain snarl1 ∧ sm.in_nontrivial_chain snarl2 ∧
      sm.chain_of snarl1 = sm.chain_of snarl2 then do
    let chainStartID := (sm.get_start_of (sm.chain_of snarl1)).node_id
    let cd ← idx.chainAt chainStartID
    let (c1, cd1) ← cd.chainDistanceShort g sm (node1.1, !node1.2) node2
      (some snarl1) (some snarl2)
    let d1 := addDist3 distL1 distL2 c1
    let (c2, cd2) ← cd1.chainDistanceShort g sm (node1.1, !node1.2) (end2.1, !end2.2)
      (some snarl1) (some snarl2)
    let d2 := if node1.1 = end2.1 then subDist3 distL1 distR2 c2
      else addDist3 distL1 distR2 c2
    let (c3, cd3) ← cd2.chainDistanceShort g sm end1 node2 (some snarl1) (some snarl2)
    let d3 := if end1.1 = node2.1 then subDist3 distR1 distL2 c3
      else addDist3 distR1 distL2 c3
    let (c4, cd4) ← cd3.chainDistanceShort g sm end1 (end2.1, !end2.2)
      (some snarl1) (some snarl2)
    let d4 := addDist3 distR1 distR2 c4
    pure (minPos [d1, d2, d3, d4], idx.setChain chainStartID cd4)
  else pure (-1, idx)

/-- The variables of the climb loop of `minDistance`. -/
structure ClimbState where
  startID : Int
  startRev : Bool
  endID : Int
  endRev : Bool
  distL1 : Int
  distR1 : Int
  distL2 : Int
  distR2 : Int
  shortestDistance : Int

/-- The chain step of the climb loop (lines 1418 to 1502).  The four
assignments to `distL1`, `distL2`, `distR1`, `distR2` are made one after the
other, so the last two read the new `distL1` and `distL2`. -/
def DistanceIndex.climbChain (idx : DistanceIndex) (g : HandleGraph) (sm : SnarlManager)
    (currSnarl : SnarlRef) (st : ClimbState) : Option (ClimbState × DistanceIndex) := do
  let chain := sm.chain_of currSnarl
  let key := (sm.get_start_of chain).node_id
  let cd ← idx.chainAt key
  let cur := some currSnarl
  let (c1, cd1) ← cd.chainDistanceShort g sm (st.startID, !st.startRev)
    (st.startID, st.startRev) cur cur
  let d1 := addDist3 st.distL1 st.distL2 c1
  let (d, cd2) ← cd1.chainDistanceShort g sm (st.startID, !st.startRev)
    (st.endID, !st.endRev) cur cur
  let d2 := addDist3 st.distL1 st.distR2 d
  let d3 := addDist3 st.distR1 st.distL2 d
  let (c4, cd3) ← cd2.chainDistanceShort g sm (st.endID, st.endRev)
    (st.endID, !st.endRev) cur cur
  let d4 := addDist3 st.distR1 st.distR2 c4
  let shortest := minPos [st.shortestDistance, d1, d2, d3, d4]
  let chainStart := sm.get_start_of chain
  let chainEnd := sm.get_end_of chain
  let chainStartIn : Side := (chainStart.node_id, chainStart.backward)
  let chainEndIn : Side := (chainEnd.node_id, !chainEnd.backward)
  let startSnarl := sm.into_which_snarl chainStart.node_id chainStart.backward
  let endSnarl := sm.into_which_snarl chainEndIn.1 chainEndIn.2
  let (dsl, cd4) ← cd3.chainDistance g sm chainStartIn (st.startID, st.startRev)
    startSnarl cur
  let (dsr, cd5) ← cd4.chainDistance g sm chainStartIn (st.endID, !st.endRev)
    startSnarl cur
  let (der, cd6) ← cd5.chainDistance g sm chainEndIn (st.endID, !st.endRev)
    endSnarl cur
  let (del, cd7) ← cd6.chainDistance g sm chainEndIn (st.startID, st.startRev)
    endSnarl cur
  let distL1 := minPos [addDist dsr st.distR1, addDist dsl st.distL1]
  let distL2 := minPos [addDist dsr st.distR2, addDist dsl st.distL2]
  let distR1 := minPos [addDist der st.distR1, addDist del distL1]
  let distR2 := minPos [addDist der st.distR2, addDist del distL2]
  pure ({ startID := chainStartIn.1, startRev := chainStartIn.2,
          endID := chainStartIn.1, endRev := !chainEndIn.2,
          distL1 := distL1, distR1 := distR1, distL2 := distL2, distR2 := distR2,
          shortestDistance := shortest }, idx.setChain key cd7)

/-- The snarl step of the climb loop (lines 1506 to 1567), for a parent
snarl that is not null. -/
def DistanceIndex.climbSnarl (idx : DistanceIndex) (sm : SnarlManager)
    (parentSnarl : SnarlRef) (st : ClimbState) : Option (ClimbState × DistanceIndex) := do
  let par := sm.snarl parentSnarl
  let (key, sd) ← idx.findSnarl2 (par.start.node_id, par.start.backward)
    (par.end_.node_id, !par.end_.backward)
  let s : Side := (st.startID, st.startRev)
  let sRev : Side := (st.startID, !st.startRev)
  let d1 := addDist3 st.distL1 st.distL2 (← sd.snarlDistanceShort idx.loc sRev s)
  let d2 := addDist3 st.distR1 st.distR2 (← sd.snarlDistanceShort idx.loc s sRev)
  let dtemp ← sd.snarlDistanceShort idx.loc s s
  let d3 := addDist3 st.distL1 st.distR2 dtemp
  let d4 := addDist3 st.distR1 st.distL2 dtemp
  let shortest := minPos [d1, d2, d3, d4, st.shortestDistance]
  let ((l1, r1), sd1) ← sd.distToEnds idx.loc st.startID st.startRev st.distL1 st.distR1
  let ((l2, r2), sd2) ← sd1.distToEnds idx.loc st.startID st.startRev st.distL2 st.distR2
  pure ({ startID := par.start.node_id, startRev := par.start.backward,
          endID := par.end_.node_id, endRev := par.end_.backward,
          distL1 := l1, distR1 := r1, distL2 := l2, distR2 := r2,
          shortestDistance := shortest }, idx.setSnarl key sd2)

/-- The climb loop of `minDistance` (lines 1415 to 1568): returns the final
`shortestDistance`; `fuel` bounds the number of iterations. -/
def DistanceIndex.climb (g : HandleGraph) (sm : SnarlManager) :
    Nat → DistanceIndex → SnarlRef → ClimbState → Option (Int × DistanceIndex)
  | 0, _, _, _ => none
  | fuel + 1, idx, currSnarl, st =>
    match (if sm.in_nontrivial_chain currSnarl then idx.climbChain g sm currSnarl st
      else some (st, idx)) with
    | none => none
    | some (st1, idx1) =>
      match sm.parent_of currSnarl with
      | none => some (st1.shortestDistance, idx1)
      | some parentSnarl =>
        match idx1.climbSnarl sm parentSnarl st1 with
        | none => none
        | some (st2, idx2) => DistanceIndex.climb g sm fuel idx2 parentSnarl st2

/-- The lines 1341 to 1392 of `minDistance`: the four combinations through
the table of the common ancestor and the distances to its ends. -/
def DistanceIndex.atCommonAncestor (idx : DistanceIndex) (sm : SnarlManager)
    (ca : SnarlRef) (node1 node2 : Side) (distL1 distR1 distL2 distR2 : Int)
    (chainDist shortestDistance : Int) : Option (ClimbState × DistanceIndex) := do
  let c := sm.snarl ca
  let (key, sd) ← idx.findSnarl2 (c.start.node_id, c.start.backward)
    (c.end_.node_id, !c.end_.backward)
  let d1 := addDist3 distR1 distL2 (← sd.snarlDistanceShort idx.loc node1 node2)
  let d2 := addDist3 distR1 distR2
    (← sd.snarlDistanceShort idx.loc node1 (node2.1, !node2.2))
  let d3 := addDist3 distL1 distL2
    (← sd.snarlDistanceShort idx.loc (node1.1, !node1.2) node2)
  let d4 := addDist3 distL1 distR2
    (← sd.snarlDistanceShort idx.loc (node1.1, !node1.2) (node2.1, !node2.2))
  let shortest := minPos [d1, d2, d3, d4, chainDist, shortestDistance]
  let ((l1, r1), sd1) ← sd.distToEnds idx.loc node1.1 node1.2 distL1 distR1
  let ((l2, r2), sd2) ← sd1.distToEnds idx.loc node2.1 node2.2 distL2 distR2
  pure ({ startID := c.start.node_id, startRev := c.start.backward,
          endID := c.end_.node_id, endRev := c.end_.backward,
          distL1 := l1, distR1 := r1, distL2 := l2, distR2 := r2,
          shortestDistance := shortest }, idx.setSnarl key sd2)

/-- The part of `minDistance` after the same-chain block when a common
ancestor `ca` was found (lines 1251 to 1571). -/
def DistanceIndex.minDistanceAtAncestor (fuel : Nat) (idx : DistanceIndex)
    (g : HandleGraph) (sm : SnarlManager) (ca s1 s2 : SnarlRef) (node1 node2 : Side)
    (distL1 distR1 distL2 distR2 chainDist shortest0 : Int) :
    Option (Int × DistanceIndex) := do
  let end1 : Side := ((sm.snarl s1).end_.node_id, (sm.snarl s1).end_.backward)
  let end2 : Side := ((sm.snarl s2).end_.node_id, (sm.snarl s2).end_.backward)
  let ((dL1, dR1), n1, idx4) ←
    idx.toChainEndsIf g sm (decide (s1 ≠ ca) && sm.in_nontrivial_chain s1) s1 node1
      (end1.1, !end1.2) distL1 distR1
  let ((dL2, dR2), n2, idx5) ←
    idx4.toChainEndsIf g sm (decide (s2 ≠ ca) && sm.in_nontrivial_chain s2) s2 node2
      (end2.1, !end2.2) distL2 distR2
  let (st, idx6) ← idx5.atCommonAncestor sm ca n1 n2 dL1 dR1 dL2 dR2 chainDist shortest0
  let (shortest, idx7) ← DistanceIndex.climb g sm fuel idx6 ca st
  pure (if shortest = -1 then -1 else shortest - 1, idx7)

/-- `DistanceIndex::minDistance(snarl1, snarl2, pos1, pos2)`; `fuel` bounds
the number of iterations of each of its loops.  The result is the returned
distance and the index afterwards. -/
def DistanceIndex.minDistanceIn (fuel : Nat) (idx : DistanceIndex) (g : HandleGraph)
    (sm : SnarlManager) (snarl1 snarl2 : Option SnarlRef) (pos1 pos2 : Pos) :
    Option (Int × DistanceIndex) := do
  let offset1 := toInt64 pos1.offset
  let offset2 := toInt64 pos2.offset
  let shortest0 : Int :=
    if pos1.id = pos2.id ∧ pos1.is_rev = pos2.is_rev ∧ offset1 ≤ offset2 then
      offset2 - offset1 + 1
    else -1
  let ancestors1 ← ancestorsOf sm fuel snarl1
  let commonAncestor ← findCommonAncestor sm ancestors1 fuel snarl2
  let (((distL1, distR1), s1), idx1) ←
    idx.distToCommonAncestor fuel g sm snarl1 commonAncestor pos1 false
  let node1 : Side :=
    if some s1 ≠ commonAncestor then
      ((sm.snarl s1).start.node_id, (sm.snarl s1).start.backward)
    else (pos1.id, false)
  let (((distL2, distR2), s2), idx2) ←
    idx1.distToCommonAncestor fuel g sm snarl2 commonAncestor pos2 true
  let node2 : Side :=
    if some s2 ≠ commonAncestor then
      ((sm.snarl s2).start.node_id, (sm.snarl s2).start.backward)
    else (pos2.id, false)
  let end1 : Side := ((sm.snarl s1).end_.node_id, (sm.snarl s1).end_.backward)
  let end2 : Side := ((sm.snarl s2).end_.node_id, (sm.snarl s2).end_.backward)
  let (chainDist, idx3) ← idx2.sameChainDist g sm commonAncestor s1 s2 node1 node2
    end1 end2 distL1 distR1 distL2 distR2
  match commonAncestor with
  | none =>
    pure (minPos [if chainDist = -1 then -1 else chainDist - 1,
      if shortest0 = -1 then -1 else shortest0 - 1], idx3)
  | some ca =>
    idx3.minDistanceAtAncestor fuel g sm ca s1 s2 node1 node2 distL1 distR1 distL2 distR2
      chainDist shortest0

/-- `DistanceIndex::minDistance(pos1, pos2)`. -/
def DistanceIndex.minDistance (fuel : Nat) (idx : DistanceIndex) (g : HandleGraph)
    (sm : SnarlManager) (pos1 pos2 : Pos) : Option (Int × DistanceIndex) := do
  let snarl1 ← idx.snarlOf sm pos1.id
  let snarl2 ← idx.snarlOf sm pos2.id
  idx.minDistanceIn fuel g sm snarl1 snarl2 pos1 pos2

/-! ## The constructor and the reference distance -/

/-- The index right after the constructor
`DistanceIndex(vg, snarlManager, cap, include_maximum)` (lines 13 to 81).
The constructor and `calculateMinIndex` assign `include_maximum`, the locator
tables, `snarlIndexes`, `chainIndexes` and `maxIndex`: these are the
arguments, left arbitrary.  Neither function contains an assignment to
`snarlDistances`, `chainDistances` or `nodeToSnarl` (only `load` fills them),
so the three are empty; `minNodeID` and `maxNodeID` are not assigned either
(the constructor sets `min_node_id` and `max_node_id`), so their values are
arbitrary arguments too. -/
def DistanceIndex.constructed (loc : NodeLocator) (snarlIndexes : List SnarlIndex)
    (chainIndexes : List ChainIndex) (maxIndex : MaxDistanceIndex)
    (include_maximum : Bool) (minNodeID maxNodeID : Int) : DistanceIndex :=
  { snarlDistances := [], chainDistances := [], nodeToSnarl := []
    minNodeID := minNodeID, maxNodeID := maxNodeID
    maxIndex := maxIndex, include_maximum := include_maximum
    loc := loc, snarlIndexes := snarlIndexes, chainIndexes := chainIndexes }

/-- The minimum of two optional lengths, `none` being "no walk". -/
def optMin : Option Nat → Option Nat → Option Nat
  | none, b => b
  | a, none => a
  | some a, some b => some (min a b)

/-- One round of relaxation over all oriented sides: the length of a shortest
walk to the start of each side, given the lengths known so far. -/
def relaxSides (g : HandleGraph) (tbl : List (Side × Option Nat)) :
    List (Side × Option Nat) :=
  tbl.map (fun p =>
    (p.1, (tbl.filterMap (fun q =>
      if p.1 ∈ g.follow_edges q.1 then q.2.map (fun d => d + g.get_length q.1.1)
      else none)).foldl (fun acc d => optMin acc (some d)) p.2))

/-- The reference of the specification: the length of a shortest walk from
`pos1` to `pos2` over the oriented node sides of the raw graph with node list
`nodes`, not counting the start base, or `none` when there is no walk.  The
relaxation is run once per oriented side, which is as far as an unbounded
Dijkstra can improve a distance. -/
def specShortestWalk (g : HandleGraph) (nodes : List Int) (pos1 pos2 : Pos) :
    Option Nat :=
  let sides : List Side := nodes.flatMap (fun n => [(n, false), (n, true)])
  let init : List (Side × Option Nat) := sides.map (fun t =>
    (t, if t ∈ g.follow_edges (pos1.id, pos1.is_rev) then
      some (g.get_length pos1.id - pos1.offset) else none))
  let final := Nat.iterate (relaxSides g) sides.length init
  let through : Option Nat :=
    ((final.find? (fun p => p.1 == (pos2.id, pos2.is_rev))).bind (fun p => p.2)).map
      (fun d => d + pos2.offset)
  let inside : Option Nat :=
    if pos1.id = pos2.id ∧ pos1.is_rev = pos2.is_rev ∧ pos1.offset ≤ pos2.offset then
      some (pos2.offset - pos1.offset) else none
  optMin inside through

/-! ## The chain part of `calculateMinIndex`

`calculateMinIndex(chain, parentIndex, revInParent, trivialChain)` creates the
`ChainIndex` of a non-trivial chain, fills one `SnarlIndex` per snarl of the
chain, and then fills the three vectors of the `ChainIndex`.  The definitions
below are the statements that create and fill the `ChainIndex`; the table `sd`
of a snarl enters them as it is after the snarl's own loop.  The source names
the three vectors `prefix_sum`, `loop_fd`, `loop_rev` in the constructor and
`prefixSum`, `loopFd`, `loopRev` everywhere else; they are one member each
here. -/

/-- The assignment `v[i] = x` of an `int_vector`; there is no result past the
end. -/
def writeVec (v : List Nat) (i x : Nat) : Option (List Nat) :=
  if i < v.length then some (v.set i x) else none

/-- The constructor `ChainIndex(di, parentIndex, revInParent, length)`: the
three vectors get `length` zero entries. -/
def ChainIndex.new (parentIndex : Nat) (revInParent : Bool) (length : Nat) : ChainIndex :=
  { parent_index := parentIndex, rev_in_parent := revInParent
    prefixSum := List.replicate length 0
    loopFd := List.replicate length 0
    loopRev := List.replicate length 0
    snarlToIndex := [], chainStartID := 0, chainEndID := 0, parent := (0, false) }

/-- A `Chain`: the snarls of the chain in order, each with the flag that it is
traversed backward in the chain. -/
abbrev Chain := List (SnarlRef × Bool)

/-- The `ChainIndex` that `calculateMinIndex` creates for a non-trivial chain:
`chainIndexes.emplace_back(this, parentIndex, revInParent, chain.size())`. -/
def calculateMinIndex.newChain (chain : Chain) (parentIndex : Nat) (revInParent : Bool) :
    ChainIndex :=
  ChainIndex.new parentIndex revInParent chain.length

/-- The prefix-sum statements at the end of the loop body for one snarl:
`dist` is the distance through the snarl in the direction of the chain and
`cd.prefixSum[currChainRank+1] = cd.prefixSum[curChainRank]+dist` (the second
index is spelled `curChainRank` in the source; it is read as
`currChainRank`). -/
def calculateMinIndex.prefixSum (loc : NodeLocator) (s : Snarl) (snarlRevInChain : Bool)
    (currChainRank : Nat) (sd : SnarlIndex) (cd : ChainIndex) :
    Option (SnarlIndex × ChainIndex) := do
  let (dist, sd1) ←
    if snarlRevInChain then
      sd.snarlDistance loc (s.end_.node_id, !s.end_.backward)
        (s.start.node_id, !s.start.backward)
    else
      sd.snarlDistance loc (s.start.node_id, s.start.backward)
        (s.end_.node_id, s.end_.backward)
  let prev ← cd.prefixSum[currChainRank]?
  let v ← writeVec cd.prefixSum (uadd currChainRank 1) (toUInt64 ((prev : Int) + dist))
  pure (sd1, { cd with prefixSum := v })

/-- The prefix-sum statements over the whole chain: the loop over the snarls
with `currChainRank` counting from 0, each snarl given with its table. -/
def calculateMinIndex.prefixSums (loc : NodeLocator) :
    List ((Snarl × Bool) × SnarlIndex) → Nat → ChainIndex → Option ChainIndex
  | [], _, cd => some cd
  | ((s, rev), sd) :: rest, currChainRank, cd =>
    match calculateMinIndex.prefixSum loc s rev currChainRank sd cd with
    | none => none
    | some (_, cd1) => calculateMinIndex.prefixSums loc rest (uadd currChainRank 1) cd1

/-- A call `sd.f(...)` on the element `snarlIndexes[slot]`, which it may
change. -/
def onSnarl {α : Type} (sis : List SnarlIndex) (slot : Nat)
    (f : SnarlIndex → Option (α × SnarlIndex)) : Option (α × List SnarlIndex) :=
  match sis[slot]? with
  | none => none
  | some sd =>
    match f sd with
    | none => none
    | some (a, sd2) => some (a, sis.set slot sd2)

/-- The slot of the table `sd` that the two loop passes use for a snarl:
`primary_snarls[snarlStartID].second` when the snarl is reversed in the chain
and `primary_snarls[snarlEndID].second` otherwise; `slotOf` stands for
`primary_snarls[...].second`. -/
def calculateMinIndex.loopSlot (slotOf : Int → Nat) (s : Snarl) (snarlRevInChain : Bool) :
    Nat :=
  if snarlRevInChain then slotOf s.start.node_id else slotOf s.end_.node_id

/-- The statements of the reverse-loop pass for the first snarl of the chain:
the loop at the first node, joined when the chain is circular with the loop
of the last snarl, goes to `cd.loopRev[0]`. -/
def calculateMinIndex.loopRevFirst (loc : NodeLocator) (sm : SnarlManager) (chain : Chain)
    (chainStart chainEnd : Visit) (slot : Nat) (s : Snarl) (snarlRevInChain : Bool)
    (st : List SnarlIndex × ChainIndex) : Option (List SnarlIndex × ChainIndex) := do
  let (first, sis1) ← onSnarl st.1 slot (fun sd =>
    if snarlRevInChain then
      sd.snarlDistance loc (s.end_.node_id, s.end_.backward)
        (s.end_.node_id, !s.end_.backward)
    else
      sd.snarlDistance loc (s.start.node_id, !s.start.backward)
        (s.start.node_id, s.start.backward))
  let (firstRevDist, sis2) ←
    if chainStart.node_id = chainEnd.node_id then do
      let (lastSnarl, lastRev) ← chain.getLast?
      let l := sm.snarl lastSnarl
      let snarlI :=
        if snarlRevInChain then loc.rank s.end_.node_id else loc.rank s.start.node_id
      let (d, sis) ← onSnarl sis1 (loc.secondary_snarls snarlI).1 (fun sdLast =>
        if lastRev then
          sdLast.snarlDistance loc (l.start.node_id, l.start.backward)
            (l.start.node_id, !l.start.backward)
        else
          sdLast.snarlDistance loc (l.end_.node_id, !l.end_.backward)
            (l.end_.node_id, l.end_.backward))
      pure (minPos [first, d], sis)
    else pure (first, sis1)
  let v ← writeVec st.2.loopRev 0 (toUInt64 firstRevDist)
  pure (sis2, { st.2 with loopRev := v })

/-- The statements of the reverse-loop pass for every snarl: the loop
`revLoopDist` at the far node of the snarl, the entry `lastLoop` at
`currChainRank`, and the new entry at `currChainRank + 1`. -/
def calculateMinIndex.loopRevStep (loc : NodeLocator) (slot : Nat) (s : Snarl)
    (snarlRevInChain : Bool) (currChainRank : Nat) (st : List SnarlIndex × ChainIndex) :
    Option (List SnarlIndex × ChainIndex) := do
  let (revLoopDist, sis1) ← onSnarl st.1 slot (fun sd =>
    if snarlRevInChain then
      sd.snarlDistance loc (s.start.node_id, s.start.backward)
        (s.start.node_id, !s.start.backward)
    else
      sd.snarlDistance loc (s.end_.node_id, !s.end_.backward)
        (s.end_.node_id, s.end_.backward))
  let lastLoop := toInt64 (← st.2.loopRev[currChainRank]?)
  let rank := uadd currChainRank 1
  if lastLoop = -1 then do
    let v ← writeVec st.2.loopRev rank (toUInt64 revLoopDist)
    pure (sis1, { st.2 with loopRev := v })
  else do
    let (back, sis2) ← onSnarl sis1 slot (fun sd =>
      sd.snarlDistance loc (s.end_.node_id, !s.end_.backward)
        (s.start.node_id, !s.start.backward))
    let (forth, sis3) ← onSnarl sis2 slot (fun sd =>
      sd.snarlDistance loc (s.start.node_id, s.start.backward)
        (s.end_.node_id, s.end_.backward))
    let v ← writeVec st.2.loopRev rank
      (toUInt64 (minPos [revLoopDist, lastLoop + back + forth]))
    pure (sis3, { st.2 with loopRev := v })

/-- The loop of the reverse-loop pass, forward over the chain. -/
def calculateMinIndex.loopRevFrom (loc : NodeLocator) (sm : SnarlManager) (chain : Chain)
    (chainStart chainEnd : Visit) (slotOf : Int → Nat) :
    List (SnarlRef × Bool) → Bool → Nat → List SnarlIndex × ChainIndex →
      Option (List SnarlIndex × ChainIndex)
  | [], _, _, st => some st
  | (r, rev) :: rest, isFirst, currChainRank, st =>
    let s := sm.snarl r
    let slot := calculateMinIndex.loopSlot slotOf s rev
    let st1 :=
      if isFirst then
        calculateMinIndex.loopRevFirst loc sm chain chainStart chainEnd slot s rev st
      else some st
    match st1 with
    | none => none
    | some st1 =>
      match calculateMinIndex.loopRevStep loc slot s rev currChainRank st1 with
      | none => none
      | some st2 =>
        calculateMinIndex.loopRevFrom loc sm chain chainStart chainEnd slotOf rest false
          (uadd currChainRank 1) st2

/-- The reverse-loop pass: `currChainRank` starts at 0. -/
def calculateMinIndex.loopRev (loc : NodeLocator) (sm : SnarlManager) (chain : Chain)
    (chainStart chainEnd : Visit) (slotOf : Int → Nat)
    (st : List SnarlIndex × ChainIndex) : Option (List SnarlIndex × ChainIndex) :=
  calculateMinIndex.loopRevFrom loc sm chain chainStart chainEnd slotOf chain true 0 st

/-- The statements of the forward-loop pass for the last snarl of the chain:
the loop at the last node, joined when the chain is circular with the loop of
the first snarl, goes to `cd.loopFd[currChainRank]`. -/
def calculateMinIndex.loopFdLast (loc : NodeLocator) (sm : SnarlManager) (chain : Chain)
    (chainStart chainEnd : Visit) (slotOf : Int → Nat) (slot : Nat) (s : Snarl)
    (snarlRevInChain : Bool) (currChainRank : Nat) (st : List SnarlIndex × ChainIndex) :
    Option (List SnarlIndex × ChainIndex) := do
  let (last, sis1) ← onSnarl st.1 slot (fun sd =>
    if snarlRevInChain then
      sd.snarlDistance loc (s.start.node_id, !s.start.backward)
        (s.start.node_id, s.start.backward)
    else
      sd.snarlDistance loc (s.end_.node_id, s.end_.backward)
        (s.end_.node_id, !s.end_.backward))
  let (loopDistLast, sis2) ←
    if chainStart.node_id = chainEnd.node_id then do
      let (firstSnarl, firstSnarlRev) ← chain.head?
      let f := sm.snarl firstSnarl
      let slotFirst :=
        if snarlRevInChain then slotOf s.end_.node_id else slotOf s.start.node_id
      let (d, sis) ← onSnarl sis1 slotFirst (fun sdFirst =>
        if firstSnarlRev then
          sdFirst.snarlDistance loc (f.end_.node_id, !f.end_.backward)
            (f.end_.node_id, f.end_.backward)
        else
          sdFirst.snarlDistance loc (f.start.node_id, f.start.backward)
            (f.start.node_id, !f.start.backward))
      pure (minPos [last, d], sis)
    else pure (last, sis1)
  let v ← writeVec st.2.loopFd currChainRank (toUInt64 loopDistLast)
  pure (sis2, { st.2 with loopFd := v })

/-- The statements of the forward-loop pass for every snarl: the loop
`fdLoopDist` at the near node of the snarl, the entry `lastLoop` at
`currChainRank`, and the new entry at `currChainRank - 1` (in `size_t`). -/
def calculateMinIndex.loopFdStep (loc : NodeLocator) (slot : Nat) (s : Snarl)
    (snarlRevInChain : Bool) (currChainRank : Nat) (st : List SnarlIndex × ChainIndex) :
    Option (List SnarlIndex × ChainIndex) := do
  let (fdLoopDist, sis1) ← onSnarl st.1 slot (fun sd =>
    if snarlRevInChain then
      sd.snarlDistance loc (s.end_.node_id, !s.end_.backward)
        (s.end_.node_id, s.end_.backward)
    else
      sd.snarlDistance loc (s.start.node_id, s.start.backward)
        (s.start.node_id, !s.start.backward))
  let lastLoop := toInt64 (← st.2.loopFd[currChainRank]?)
  let rank := usub currChainRank 1
  if lastLoop = -1 then do
    let v ← writeVec st.2.loopFd rank (toUInt64 fdLoopDist)
    pure (sis1, { st.2 with loopFd := v })
  else do
    let (back, sis2) ← onSnarl sis1 slot (fun sd =>
      sd.snarlDistance loc (s.end_.node_id, !s.end_.backward)
        (s.start.node_id, !s.start.backward))
    let (forth, sis3) ← onSnarl sis2 slot (fun sd =>
      sd.snarlDistance loc (s.start.node_id, s.start.backward)
        (s.end_.node_id, s.end_.backward))
    let v ← writeVec st.2.loopFd rank
      (toUInt64 (minPos [fdLoopDist, lastLoop + back + forth]))
    pure (sis3, { st.2 with loopFd := v })

/-- The loop of the forward-loop pass, over the chain in reverse. -/
def calculateMinIndex.loopFdFrom (loc : NodeLocator) (sm : SnarlManager) (chain : Chain)
    (chainStart chainEnd : Visit) (slotOf : Int → Nat) :
    List (SnarlRef × Bool) → Bool → Nat → List SnarlIndex × ChainIndex →
      Option (List SnarlIndex × ChainIndex)
  | [], _, _, st => some st
  | (r, rev) :: rest, isLast, currChainRank, st =>
    let s := sm.snarl r
    let slot := calculateMinIndex.loopSlot slotOf s rev
    let st1 :=
      if isLast then
        calculateMinIndex.loopFdLast loc sm chain chainStart chainEnd slotOf slot s rev
          currChainRank st
      else some st
    match st1 with
    | none => none
    | some st1 =>
      match calculateMinIndex.loopFdStep loc slot s rev currChainRank st1 with
      | none => none
      | some st2 =>
        calculateMinIndex.loopFdFrom loc sm chain chainStart chainEnd slotOf rest false
          (usub currChainRank 1) st2

/-- The forward-loop pass: `currChainRank` starts at `chain.size() - 1`. -/
def calculateMinIndex.loopFd (loc : NodeLocator) (sm : SnarlManager) (chain : Chain)
    (chainStart chainEnd : Visit) (slotOf : Int → Nat)
    (st : List SnarlIndex × ChainIndex) : Option (List SnarlIndex × ChainIndex) :=
  calculateMinIndex.loopFdFrom loc sm chain chainStart chainEnd slotOf chain.reverse true
    (usub chain.length 1) st

/-! ## Readers of the chain vectors, `calculateNodeToSnarl`, `setSnarlManager` -/

/-- `DistanceIndex::checkChainDist(snarl, index)`:
`chainDistances.at(snarl).prefixSum[index] - 1`. -/
def DistanceIndex.checkChainDist (idx : DistanceIndex) (snarl : Int) (index : Nat) :
    Option Int :=
  (idx.chainAt snarl).bind (fun c =>
    (c.prefixSum[index]?).map (fun v => toInt64 (usub v 1)))

/-- `DistanceIndex::checkChainLoopFd(snarl, index)`. -/
def DistanceIndex.checkChainLoopFd (idx : DistanceIndex) (snarl : Int) (index : Nat) :
    Option Int :=
  (idx.chainAt snarl).bind (fun c =>
    (c.loopFd[index]?).map (fun v => toInt64 (usub v 1)))

/-- `DistanceIndex::checkChainLoopRev(snarl, index)`. -/
def DistanceIndex.checkChainLoopRev (idx : DistanceIndex) (snarl : Int) (index : Nat) :
    Option Int :=
  (idx.chainAt snarl).bind (fun c =>
    (c.loopRev[index]?).map (fun v => toInt64 (usub v 1)))

/-- The lambda `toUint` of `calculateNodeToSnarl`: `abs(val) * 2`, plus 1 when
`val` is negative, as a `uint64_t`. -/
def calculateNodeToSnarl.toUint (val : Int) : Nat :=
  let uval := toUInt64 (|val| * 2)
  if val < 0 then uadd uval 1 else uval

/-- The signed id `currSnarlID` of a snarl in `calculateNodeToSnarl`: the id of
the start node, negated when the start visit is backward. -/
def calculateNodeToSnarl.currSnarlID (s : Snarl) : Int :=
  if s.start.backward then -s.start.node_id else s.start.node_id

/-- The assignment `result[nodeID - minNodeID] = toUint(currSnarlID)` of
`calculateNodeToSnarl`. -/
def calculateNodeToSnarl.store (result : List Nat) (minNodeID nodeID : Int) (s : Snarl) :
    Option (List Nat) :=
  if 0 ≤ nodeID - minNodeID then
    writeVec result (nodeID - minNodeID).toNat
      (calculateNodeToSnarl.toUint (calculateNodeToSnarl.currSnarlID s))
  else none

/-- `DistanceIndex::setSnarlManager(new_manager)` for a manager that is not
null: the manager is installed, and the loop over `snarlDistances` throws at
the first key that the manager does not know.  The result is the installed
manager, or the message of the exception. -/
def DistanceIndex.setSnarlManager (idx : DistanceIndex) (new_manager : SnarlManager) :
    Except String SnarlManager :=
  idx.snarlDistances.foldl
    (fun (acc : Except String SnarlManager) x =>
      match acc with
      | Except.error e => Except.error e
      | Except.ok sm =>
        if (sm.into_which_snarl x.1.1 x.1.2).isNone then
          Except.error "Distance index does not match snarl manager"
        else Except.ok sm)
    (Except.ok new_manager)

/-! ## The enumeration of the units of a snarl in `calculateMinIndex` -/

/-- The lambda `addNode` over the handles of the net graph, given by their
ids in the order of `ng.for_each_handle`: a handle that is not a boundary
node records `primary_snarls[id] = (snarlIndexes.size(), allNodes.size())`
and appends `(id, false)`, `(id, true)`.  Here the table is the function from
the id to its entry, which is what the writes make of a vector that has an
entry for every id; the writes on the vector as the constructor sizes it are
`calculateMinIndex.addNode` below. -/
def calculateMinIndex.addNodes (snarlStartID snarlEndID : Int) (slot : Nat) :
    List Int → List Side × (Int → Nat × Nat) → List Side × (Int → Nat × Nat)
  | [], st => st
  | id :: rest, (allNodes, primary_snarls) =>
    if id ≠ snarlStartID ∧ id ≠ snarlEndID then
      calculateMinIndex.addNodes snarlStartID snarlEndID slot rest
        (allNodes ++ [(id, false), (id, true)],
         Function.update primary_snarls id (slot, allNodes.length))
    else calculateMinIndex.addNodes snarlStartID snarlEndID slot rest (allNodes, primary_snarls)

/-- The list `allNodes` of a snarl and `primary_snarls` after the handles
were added: the two start units, the units of the net graph, the two end
units.  `slot` is `snarlIndexes.size()`. -/
def calculateMinIndex.allNodes (s : Snarl) (handles : List Int) (slot : Nat)
    (primary_snarls : Int → Nat × Nat) : List Side × (Int → Nat × Nat) :=
  let st := calculateMinIndex.addNodes s.start.node_id s.end_.node_id slot handles
    ([(s.start.node_id, s.start.backward), (s.start.node_id, !s.start.backward)],
     primary_snarls)
  (st.1 ++ [(s.end_.node_id, s.end_.backward), (s.end_.node_id, !s.end_.backward)], st.2)

/-- The vector `primary_snarls` as the constructor of `DistanceIndex` leaves
it (lines 22 to 26): `resize(max_node_id - min_node_id, ...)` gives it
`max_node_id - min_node_id` entries, each the pair of the largest `size_t`. -/
def DistanceIndex.newPrimarySnarls (min_node_id max_node_id : Int) : List (Nat × Nat) :=
  List.replicate (toUInt64 (max_node_id - min_node_id)) (2 ^ 64 - 1, 2 ^ 64 - 1)

/-- The assignment `primary_snarls[id] = entry` on the vector: the subscript
is the node id itself, converted to `size_t`, and a write past the end of the
vector has no defined result. -/
def calculateMinIndex.writePrimary (primary_snarls : List (Nat × Nat)) (id : Int)
    (entry : Nat × Nat) : Option (List (Nat × Nat)) :=
  if toUInt64 id < primary_snarls.length then some (primary_snarls.set (toUInt64 id) entry)
  else none

/-- The lambda `addNode` (lines 331 to 340) for one handle of the net graph,
given by its id, with `primary_snarls` as the vector that it is: a handle that
is not a boundary node writes `primary_snarls[id] = (snarlIndexes.size(),
allNodes.size())` and appends `(id, false)`, `(id, true)`. -/
def calculateMinIndex.addNode (snarlStartID snarlEndID : Int) (slot : Nat)
    (st : List Side × List (Nat × Nat)) (id : Int) : Option (List Side × List (Nat × Nat)) :=
  if id ≠ snarlStartID ∧ id ≠ snarlEndID then
    (calculateMinIndex.writePrimary st.2 id (slot, st.1.length)).map
      (fun v => (st.1 ++ [(id, false), (id, true)], v))
  else some st

/-- The call `ng.for_each_handle(addNode)` over the handles in their order. -/
def calculateMinIndex.forEachAddNode (snarlStartID snarlEndID : Int) (slot : Nat) :
    List Int → List Side × List (Nat × Nat) → Option (List Side × List (Nat × Nat))
  | [], st => some st
  | id :: rest, st =>
    match calculateMinIndex.addNode snarlStartID snarlEndID slot st id with
    | none => none
    | some st2 => calculateMinIndex.forEachAddNode snarlStartID snarlEndID slot rest st2

/-- The lines 342 to 348 on the vector `primary_snarls`: the two start units,
the units of the net graph, the two end units.  `slot` is
`snarlIndexes.size()`.  There is no result when a write of `addNode` is past
the end of the vector. -/
def calculateMinIndex.enumerate (s : Snarl) (handles : List Int) (slot : Nat)
    (primary_snarls : List (Nat × Nat)) : Option (List Side × List (Nat × Nat)) :=
  (calculateMinIndex.forEachAddNode s.start.node_id s.end_.node_id slot handles
    ([(s.start.node_id, s.start.backward), (s.start.node_id, !s.start.backward)],
     primary_snarls)).map
    (fun st =>
      (st.1 ++ [(s.end_.node_id, s.end_.backward), (s.end_.node_id, !s.end_.backward)], st.2))

/-! ## Serialization

The stream is the sequence of values that `sdsl::write_member` and
`int_vector::serialize` write and that `sdsl::read_member` and
`int_vector::load` read back: an integer member or a whole vector.  A read
that does not find the kind of value it expects has no result. -/

/-- One value of the stream. -/
inductive Item where
  | num (v : Int)
  | vec (v : List Nat)
  deriving DecidableEq

/-- `sdsl::read_member` of an integer. -/
def readNum : List Item → Option (Int × List Item)
  | Item.num v :: rest => some (v, rest)
  | _ => none

/-- `int_vector::load`. -/
def readVector : List Item → Option (List Nat × List Item)
  | Item.vec v :: rest => some (v, rest)
  | _ => none

/-- The signed id of a side: `second ? -(int64_t) first : (int64_t) first`. -/
def signedSide (s : Side) : Int := if s.2 then -s.1 else s.1

/-- The side of a signed id:
`x < 0 ? make_pair((id_t) abs(x), true) : make_pair((id_t) abs(x), false)`. -/
def sideOfSigned (x : Int) : Side := if x < 0 then (|x|, true) else (|x|, false)

/-- The loop `for (p : map) v[p.second] = p.first` over the entries of an
id-to-index map.  The entries are visited in the order of the list: the list
stands for the `unordered_map` in the order in which it is iterated, which the
language leaves open, so that a statement about every iteration order is a
statement about every permutation of the list.  When no two entries have the
same index every cell is written once and the order does not matter. -/
def IdMap.fillVector : IdMap → List Nat → Option (List Nat)
  | [], v => some v
  | (k, i) :: rest, v =>
    match writeVec v i (toUInt64 k) with
    | none => none
    | some v2 => IdMap.fillVector rest v2

/-- The vector of ids of an id-to-index map: `int_vector<> v(map.size(), 0)`
and the loop over the entries, in the order of the list (see
`IdMap.fillVector`). -/
def IdMap.toVector (m : IdMap) : Option (List Nat) :=
  IdMap.fillVector m (List.replicate m.length 0)

/-- The assignment `m[k] = v` of an `unordered_map`. -/
def IdMap.assign (m : IdMap) (k : Int) (v : Nat) : IdMap :=
  if (m.find k).isSome then m.map (fun p => if p.1 == k then (p.1, v) else p)
  else m ++ [(k, v)]

/-- The loop `for (i = 0; i < v.size(); i++) m[v[i]] = i`, from index `i`. -/
def IdMap.loadVector : List Nat → Nat → IdMap → IdMap
  | [], _, m => m
  | x :: rest, i, m => IdMap.loadVector rest (i + 1) (m.assign (toInt64 x) i)

/-- `SnarlIndex::serialize(out)`. -/
def SnarlIndex.serialize (si : SnarlIndex) : Option (List Item) :=
  match si.visitToIndex.toVector with
  | none => none
  | some visits =>
    some [Item.num (signedSide si.snarlStart), Item.num (signedSide si.snarlEnd),
      Item.num (signedSide si.parent), Item.vec visits, Item.vec si.distances]

/-- `SnarlIndex::load(in)` on the object `si`. -/
def SnarlIndex.load (si : SnarlIndex) (input : List Item) : Option (SnarlIndex × List Item) :=
  match readNum input with
  | none => none
  | some (start, r1) =>
    match readNum r1 with
    | none => none
    | some (end_, r2) =>
      match readNum r2 with
      | none => none
      | some (p, r3) =>
        match readVector r3 with
        | none => none
        | some (visits, r4) =>
          match readVector r4 with
          | none => none
          | some (distances, r5) =>
            some ({ si with
              snarlStart := sideOfSigned start
              snarlEnd := sideOfSigned end_
              parent := sideOfSigned p
              visitToIndex := IdMap.loadVector visits 0 si.visitToIndex
              distances := distances }, r5)

/-- The constructor `SnarlIndex(di)`: the maps and vectors are empty and no
other member is assigned; the other members are taken as 0 here. -/
def SnarlIndex.unloaded : SnarlIndex :=
  { parent_index := 0, rev_in_parent := false, in_chain := false, num_nodes := 0
    distances := [], visitToIndex := []
    snarlStart := (0, false), snarlEnd := (0, false), parent := (0, false)
    currSnarlAssignment := 0 }

/-- `ChainIndex::serialize(out)`. -/
def ChainIndex.serialize (ci : ChainIndex) : Option (List Item) :=
  match ci.snarlToIndex.toVector with
  | none => none
  | some snarls =>
    some [Item.num ci.chainStartID, Item.num ci.chainEndID, Item.num (signedSide ci.parent),
      Item.vec ci.prefixSum, Item.vec ci.loopFd, Item.vec ci.loopRev, Item.vec snarls]

/-- `ChainIndex::load(in)` on the object `ci`. -/
def ChainIndex.load (ci : ChainIndex) (input : List Item) : Option (ChainIndex × List Item) :=
  match readNum input with
  | none => none
  | some (startID, r1) =>
    match readNum r1 with
    | none => none
    | some (endID, r2) =>
      match readNum r2 with
      | none => none
      | some (par, r3) =>
        match readVector r3 with
        | none => none
        | some (prefixSum, r4) =>
          match readVector r4 with
          | none => none
          | some (loopFd, r5) =>
            match readVector r5 with
            | none => none
            | some (loopRev, r6) =>
              match readVector r6 with
              | none => none
              | some (snarls, r7) =>
                some ({ ci with
                  chainStartID := startID
                  chainEndID := endID
                  parent := sideOfSigned par
                  prefixSum := prefixSum
                  loopFd := loopFd
                  loopRev := loopRev
                  snarlToIndex := IdMap.loadVector snarls 0 ci.snarlToIndex }, r7)

/-- The constructor `ChainIndex(di)`: the map and the vectors are empty; the
other members are taken as 0 here. -/
def ChainIndex.unloaded : ChainIndex :=
  { parent_index := 0, rev_in_parent := false
    prefixSum := [], loopFd := [], loopRev := []
    snarlToIndex := [], chainStartID := 0, chainEndID := 0, parent := (0, false) }

/-- `MaxDistanceIndex::serialize(out)`. -/
def MaxDistanceIndex.serialize (mi : MaxDistanceIndex) : List Item :=
  [Item.num mi.numCycles, Item.num mi.cap, Item.vec mi.nodeToComponent,
    Item.vec mi.minDistances, Item.vec mi.maxDistances]

/-- `MaxDistanceIndex::load(in)`; the two integer members are `uint64_t`. -/
def MaxDistanceIndex.load (input : List Item) : Option (MaxDistanceIndex × List Item) :=
  match readNum input with
  | none => none
  | some (numCycles, r1) =>
    match readNum r1 with
    | none => none
    | some (cap, r2) =>
      match readVector r2 with
      | none => none
      | some (nodeToComponent, r3) =>
        match readVector r3 with
        | none => none
        | some (minDistances, r4) =>
          match readVector r4 with
          | none => none
          | some (maxDistances, r5) =>
            some ({ nodeToComponent := nodeToComponent, minDistances := minDistances,
                    maxDistances := maxDistances, numCycles := toUInt64 numCycles,
                    cap := toUInt64 cap }, r5)

/-- The loop of `DistanceIndex::serialize` over `snarlDistances`: the signed
key, then the snarl. -/
def DistanceIndex.serializeSnarls : List (Side × SnarlIndex) → Option (List Item)
  | [] => some []
  | (key, si) :: rest =>
    match si.serialize with
    | none => none
    | some a =>
      match DistanceIndex.serializeSnarls rest with
      | none => none
      | some b => some (Item.num (signedSide key) :: a ++ b)

/-- The loop of `DistanceIndex::serialize` over `chainDistances`: the key,
then the chain. -/
def DistanceIndex.serializeChains : List (Int × ChainIndex) → Option (List Item)
  | [] => some []
  | (key, ci) :: rest =>
    match ci.serialize with
    | none => none
    | some a =>
      match DistanceIndex.serializeChains rest with
      | none => none
      | some b => some (Item.num key :: a ++ b)

/-- `DistanceIndex::serialize(out)`. -/
def DistanceIndex.serialize (idx : DistanceIndex) : Option (List Item) :=
  match DistanceIndex.serializeSnarls idx.snarlDistances with
  | none => none
  | some snarls =>
    match DistanceIndex.serializeChains idx.chainDistances with
    | none => none
    | some chains =>
      some (Item.num idx.snarlDistances.length :: snarls
        ++ Item.num idx.chainDistances.length :: chains
        ++ [Item.num idx.minNodeID, Item.num idx.maxNodeID, Item.vec idx.nodeToSnarl]
        ++ idx.maxIndex.serialize)

/-- The first loop of `DistanceIndex::load`, `n` snarls to go:
`snarlDistances.insert(make_pair(node, SnarlIndex(this)))`, which leaves an
entry that is already there, and `snarlDistances.at(node).load(in)`. -/
def DistanceIndex.loadSnarls :
    Nat → List Item → List (Side × SnarlIndex) → Option (List (Side × SnarlIndex) × List Item)
  | 0, input, acc => some (acc, input)
  | n + 1, input, acc =>
    match readNum input with
    | none => none
    | some (snarlInt, r1) =>
      let node := sideOfSigned snarlInt
      match acc.find? (fun p => p.1 == node) with
      | some p =>
        match p.2.load r1 with
        | none => none
        | some (si, r2) =>
          DistanceIndex.loadSnarls n r2
            (acc.map (fun q => if q.1 == node then (q.1, si) else q))
      | none =>
        match SnarlIndex.unloaded.load r1 with
        | none => none
        | some (si, r2) => DistanceIndex.loadSnarls n r2 (acc ++ [(node, si)])

/-- The second loop of `DistanceIndex::load`, `n` chains to go. -/
def DistanceIndex.loadChains :
    Nat → List Item → List (Int × ChainIndex) → Option (List (Int × ChainIndex) × List Item)
  | 0, input, acc => some (acc, input)
  | n + 1, input, acc =>
    match readNum input with
    | none => none
    | some (chainID, r1) =>
      match acc.find? (fun p => p.1 == chainID) with
      | some p =>
        match p.2.load r1 with
        | none => none
        | some (ci, r2) =>
          DistanceIndex.loadChains n r2
            (acc.map (fun q => if q.1 == chainID then (q.1, ci) else q))
      | none =>
        match ChainIndex.unloaded.load r1 with
        | none => none
        | some (ci, r2) => DistanceIndex.loadChains n r2 (acc ++ [(chainID, ci)])

/-- `DistanceIndex::load(in)` on the object `idx`; the two counts are
`size_t`. -/
def DistanceIndex.load (idx : DistanceIndex) (input : List Item) :
    Option (DistanceIndex × List Item) :=
  match readNum input with
  | none => none
  | some (numSnarls, r1) =>
    match DistanceIndex.loadSnarls (toUInt64 numSnarls) r1 idx.snarlDistances with
    | none => none
    | some (snarls, r2) =>
      match readNum r2 with
      | none => none
      | some (numChains, r3) =>
        match DistanceIndex.loadChains (toUInt64 numChains) r3 idx.chainDistances with
        | none => none
        | some (chains, r4) =>
          match readNum r4 with
          | none => none
          | some (minNodeID, r5) =>
            match readNum r5 with
            | none => none
            | some (maxNodeID, r6) =>
              match readVector r6 with
              | none => none
              | some (nodeToSnarl, r7) =>
                match MaxDistanceIndex.load r7 with
                | none => none
                | some (maxIndex, r8) =>
                  some ({ idx with
                    snarlDistances := snarls
                    chainDistances := chains
                    minNodeID := minNodeID
                    maxNodeID := maxNodeID
                    nodeToSnarl := nodeToSnarl
                    maxIndex := maxIndex
                    include_maximum := decide (maxIndex.minDistances.length ≠ 0) }, r8)

/-- The constructor `DistanceIndex()`: nothing is loaded; the locator tables,
which are not part of the stream, are `loc`. -/
def DistanceIndex.unloaded (loc : NodeLocator) : DistanceIndex :=
  { snarlDistances := [], chainDistances := [], nodeToSnarl := []
    minNodeID := 0, maxNodeID := 0
    maxIndex := MaxDistanceIndex.empty, include_maximum := false
    loc := loc, snarlIndexes := [], chainIndexes := [] }

/-- The constructor `DistanceIndex(vg, snarlManager, in)` for a graph and a
manager that are not null: `load(in)`, then `setGraph` and
`setSnarlManager`.  There is no result when the stream cannot be read; the
result is the loaded index with the installed manager, or the message of
the exception. -/
def DistanceIndex.fromStream (loc : NodeLocator) (snarlManager : SnarlManager)
    (input : List Item) : Option (Except String (DistanceIndex × SnarlManager)) :=
  match (DistanceIndex.unloaded loc).load input with
  | none => none
  | some (idx, _) =>
    match idx.setSnarlManager snarlManager with
    | Except.error e => some (Except.error e)
    | Except.ok sm => some (Except.ok (idx, sm))

/-! ## `stream.hpp`: reading

The input is the sequence of values that `CodedInputStream` reads: a varint
(a group count or a message size) or the bytes of one message.  A read that
meets the end of the input, or a value of the other kind, fails.  A message
is its string of bytes (`ParseFromString` succeeds on every string). -/

/-- One value of a stream of messages. -/
inductive Tok where
  | varint (n : Nat)
  | bytes (s : List Nat)
  deriving DecidableEq

/-- `MAX_PROTOBUF_SIZE`. -/
def stream.MAX_PROTOBUF_SIZE : Nat := 1000000000

/-- `TARGET_PROTOBUF_SIZE`: `MAX_PROTOBUF_SIZE/2`. -/
def stream.TARGET_PROTOBUF_SIZE : Nat := stream.MAX_PROTOBUF_SIZE / 2

/-- The inner loop of `for_each_with_group_length` over the `count` messages
of a group: the messages passed to `lambda` are appended to `acc`. -/
def stream.for_each_messages :
    Nat → List Tok → List (List Nat) → Except String (List (List Nat) × List Tok)
  | 0, input, acc => Except.ok (acc, input)
  | n + 1, input, acc =>
    match input with
    | Tok.varint msgSize :: r1 =>
      if msgSize > stream.MAX_PROTOBUF_SIZE then
        Except.error ("[stream::for_each] protobuf message of " ++ toString msgSize
          ++ " bytes is too long")
      else if msgSize ≠ 0 then
        match r1 with
        | Tok.bytes s :: r2 =>
          if s.length = msgSize then stream.for_each_messages n r2 (acc ++ [s])
          else Except.error "[stream::for_each] obsolete, invalid, or corrupt protobuf input"
        | _ => Except.error "[stream::for_each] obsolete, invalid, or corrupt protobuf input"
      else stream.for_each_messages n r1 acc
    | _ => Except.error "[stream::for_each] obsolete, invalid, or corrupt protobuf input"

/-- The loop `while (true)` of `for_each_with_group_length` over the groups,
with `fuel` iterations left; it returns when no count can be read. -/
def stream.for_each_groups :
    Nat → List Tok → List (List Nat) → Option (Except String (List (List Nat)))
  | 0, _, _ => none
  | fuel + 1, input, acc =>
    match input with
    | Tok.varint count :: r1 =>
      match stream.for_each_messages count r1 acc with
      | Except.error e => some (Except.error e)
      | Except.ok (acc2, r2) => stream.for_each_groups fuel r2 acc2
    | _ => some (Except.ok acc)

/-- `stream::for_each(in, lambda)`: the messages passed to `lambda`, in
order, or the message of the exception.  Every iteration of the outer loop
reads a count, so one more iteration than there are values is enough. -/
def stream.for_each (input : List Tok) : Option (Except String (List (List Nat))) :=
  stream.for_each_groups (input.length + 1) input []

/-- The members of a `ProtobufIterator`, with the input that is left. -/
structure stream.ProtobufIterator where
  value : List Nat
  chunk_count : Nat
  chunk_idx : Nat
  chunk : Int
  input : List Tok
  deriving DecidableEq

/-- `ProtobufIterator::has_next()`. -/
def stream.ProtobufIterator.has_next (it : stream.ProtobufIterator) : Bool :=
  decide (it.chunk ≠ -1)

/-- `ProtobufIterator::get_next()`, with `fuel` nested calls left; `tell` is
`bgzip_in.Tell()` as a function of the input that is left.  The nested call
for an empty message comes before `chunk_idx++`. -/
def stream.ProtobufIterator.get_next (tell : List Tok → Int) :
    Nat → stream.ProtobufIterator → Option (Except String stream.ProtobufIterator)
  | 0, _ => none
  | fuel + 1, it =>
    let virtual_offset := tell it.input
    let started : Option stream.ProtobufIterator :=
      if it.chunk_count = it.chunk_idx then
        let chunk := if virtual_offset = -1 then it.chunk + 1 else virtual_offset
        match it.input with
        | Tok.varint count :: r1 =>
          some { it with chunk := chunk, chunk_idx := 0, chunk_count := count % 2 ^ 64,
                         input := r1 }
        | _ => none
      else some it
    match started with
    | none => some (Except.ok { it with chunk := -1, chunk_idx := 0, value := [] })
    | some it1 =>
      match it1.input with
      | Tok.varint msgSize :: r1 =>
        if msgSize > stream.MAX_PROTOBUF_SIZE then
          some (Except.error ("[stream::ProtobufIterator::get_next] protobuf message of "
            ++ toString msgSize ++ " bytes is too long"))
        else if msgSize ≠ 0 then
          match r1 with
          | Tok.bytes s :: r2 =>
            if s.length = msgSize then
              some (Except.ok { it1 with value := s, input := r2,
                                         chunk_idx := uadd it1.chunk_idx 1 })
            else some (Except.error
              "[stream::ProtobufIterator] obsolete, invalid, or corrupt protobuf input")
          | _ => some (Except.error
              "[stream::ProtobufIterator] obsolete, invalid, or corrupt protobuf input")
        else
          match stream.ProtobufIterator.get_next tell fuel { it1 with input := r1 } with
          | none => none
          | some (Except.error e) => some (Except.error e)
          | some (Except.ok it2) =>
            some (Except.ok { it2 with chunk_idx := uadd it2.chunk_idx 1 })
      | _ => some (Except.error
          "[stream::ProtobufIterator] obsolete, invalid, or corrupt protobuf input")

/-- The constructor `ProtobufIterator(in)`: the members are set and
`get_next()` is called.  Every nested call reads a value, so one more call
than there are values is enough. -/
def stream.ProtobufIterator.new (tell : List Tok → Int) (input : List Tok) :
    Option (Except String stream.ProtobufIterator) :=
  stream.ProtobufIterator.get_next tell (input.length + 1)
    { value := [], chunk_count := 0, chunk_idx := 0, chunk := -1, input := input }

/-- The values that an iteration `while (it.has_next()) { use *it;
it.get_next(); }` sees, with `fuel` iterations left: the values so far and,
when a call throws, the message of the exception. -/
def stream.ProtobufIterator.drain (tell : List Tok → Int) :
    Nat → stream.ProtobufIterator → List (List Nat) →
      Option (List (List Nat) × Option String)
  | 0, _, _ => none
  | fuel + 1, it, acc =>
    if it.has_next then
      match stream.ProtobufIterator.get_next tell (it.input.length + 1) it with
      | none => none
      | some (Except.error e) => some (acc ++ [it.value], some e)
      | some (Except.ok it2) => stream.ProtobufIterator.drain tell fuel it2 (acc ++ [it.value])
    else some (acc, none)

/-- The values that an iteration over a new `ProtobufIterator` sees, and the
message of the exception when the constructor or a call throws. -/
def stream.ProtobufIterator.values (tell : List Tok → Int) (input : List Tok) :
    Option (List (List Nat) × Option String) :=
  match stream.ProtobufIterator.new tell input with
  | none => none
  | some (Except.error e) => some ([], some e)
  | some (Except.ok it) => stream.ProtobufIterator.drain tell (input.length + 1) it []

/-! ## `stream.hpp`: writing with adaptive chunking

A message is given by its serialized size and the range of elements that it
stands for; the output is the sequence of emitted messages, each with the
group count and the size that are written in front of it. -/

/-- One message written by `stream::write`: the varint group count, the
varint size, and the range `(start, length)` of the elements of the message. -/
structure stream.Emitted where
  group_count : Nat
  size : Nat
  start : Nat
  length : Nat
  deriving DecidableEq

/-- The variables of the loop of `stream::write`. -/
structure stream.WriteState where
  serialized : Nat
  chunk_elements : Nat
  out : List stream.Emitted
  deriving DecidableEq

/-- One iteration of the loop of `stream::write` (adaptive chunking);
`lambdaSize virtual_offset start length` is the size of the serialized
message for a range and `tell` is `bgzip_out.Tell()` as a function of what
was written.  The counters are `size_t`. -/
def stream.write_step (element_count : Nat) (tell : List stream.Emitted → Int)
    (lambdaSize : Int → Nat → Nat → Nat) (st : stream.WriteState) :
    Except String stream.WriteState :=
  let chunk_elements := min st.chunk_elements (usub element_count st.serialized)
  let virtual_offset := tell st.out
  let size := lambdaSize virtual_offset st.serialized chunk_elements
  if size > stream.MAX_PROTOBUF_SIZE then
    if chunk_elements > 1 then
      Except.ok { st with chunk_elements := chunk_elements / 2 }
    else
      Except.error ("stream::write: message for element " ++ toString st.serialized
        ++ " too large error writing protobuf")
  else
    let out := st.out ++ [{ group_count := 1, size := size % 2 ^ 32, start := st.serialized,
                            length := chunk_elements }]
    let serialized := uadd st.serialized chunk_elements
    if size < stream.TARGET_PROTOBUF_SIZE / 2 then
      Except.ok { serialized := serialized, chunk_elements := umul chunk_elements 2,
                  out := out }
    else if size > stream.TARGET_PROTOBUF_SIZE ∧ chunk_elements > 1 then
      Except.ok { serialized := serialized, chunk_elements := chunk_elements / 2, out := out }
    else Except.ok { serialized := serialized, chunk_elements := chunk_elements, out := out }

/-- The loop `while (serialized < element_count)` of `stream::write`, with
`fuel` iterations left, and the `return true` behind it. -/
def stream.write_loop (element_count : Nat) (tell : List stream.Emitted → Int)
    (lambdaSize : Int → Nat → Nat → Nat) :
    Nat → stream.WriteState → Option (Except String (Bool × List stream.Emitted))
  | 0, _ => none
  | fuel + 1, st =>
    if st.serialized < element_count then
      match stream.write_step element_count tell lambdaSize st with
      | Except.error e => some (Except.error e)
      | Except.ok st2 => stream.write_loop element_count tell lambdaSize fuel st2
    else some (Except.ok (true, st.out))

/-- `stream::write(out, element_count, chunk_elements, lambda)` with adaptive
chunking, with `fuel` iterations of its loop. -/
def stream.write (fuel : Nat) (element_count chunk_elements : Nat)
    (tell : List stream.Emitted → Int) (lambdaSize : Int → Nat → Nat → Nat) :
    Option (Except String (Bool × List stream.Emitted)) :=
  stream.write_loop element_count tell lambdaSize fuel
    { serialized := 0, chunk_elements := chunk_elements, out := [] }

/-! ## The Dijkstra loop of `calculateMinIndex`

One run of the loop `while (reachable.size() > 0)` for one start unit of one
snarl.  The length `nodeLen` and the loop distance `loopDist` of the popped
unit, which the source computes from the graph and from the indexes of the
child snarls and chains, enter as functions of the unit, and so do the edges
of the net graph and of the graph.  Keys are sums of `int64_t` values, taken
here as integers.  The call
`sd.insertDistance(startNodeIndex, currNodeIndex, currDist)` is recorded with
the unit it is made for. -/

/-- What a run of the Dijkstra loop reads from its surroundings. -/
structure DijkstraEnv where
  snarlStartID : Int
  snarlStartRev : Bool
  snarlEndID : Int
  snarlEndRev : Bool
  currSnarlAssignment : Nat
  loc : NodeLocator
  ngEdges : Side → List Side
  graphEdges : Side → List Side
  nodeLen : Side → Int
  loopDist : Side → Int

/-- The index of a node in the current snarl, as computed before each call of
`insertDistance`: from the primary snarl of the node when that is the current
snarl, and else from its secondary snarl. -/
def DijkstraEnv.nodeIndex (env : DijkstraEnv) (id : Int) : Nat :=
  if (env.loc.primary_snarls id).1 = env.currSnarlAssignment then
    (env.loc.primary_snarls id).2
  else (env.loc.secondary_snarls (env.loc.rank id)).2

/-- One call `sd.insertDistance(startNodeIndex, currNodeIndex, currDist)`, with
the unit `currID` it is made for. -/
structure InsertCall where
  startNodeIndex : Nat
  currNodeIndex : Nat
  currID : Side
  currDist : Int
  deriving DecidableEq

/-- The variables of the Dijkstra loop: the queue, the set of seen units, the
flag of the first iteration, the table of the snarl, and the calls of
`insertDistance` so far. -/
structure DijkstraState where
  reachable : List (Side × Int)
  seenNodes : List Side
  firstLoop : Bool
  sd : SnarlIndex
  inserted : List InsertCall

/-- The pushes of one iteration for the popped unit `currID` with the key
`currDist`, in the order of the source: through the loop of the unit, the
two calls of `ng.follow_edges` with `addHandle0` or `addHandle`, and the
boundary nodes reached by an edge of the graph. -/
def dijkstraPushes (env : DijkstraEnv) (startID : Side) (firstLoop : Bool) (currID : Side)
    (currDist : Int) : List (Side × Int) :=
  let nodeLen := env.nodeLen currID
  let loopDist := env.loopDist currID
  let addRevHandle :=
    if loopDist ≠ -1 ∧ firstLoop = false then
      (env.ngEdges (currID.1, !currID.2)).map (fun n => (n, currDist + loopDist))
    else []
  let addHandle :=
    if nodeLen ≠ -1 then (env.ngEdges currID).map (fun n => (n, currDist + nodeLen)) else []
  let addHandle0 := (env.ngEdges currID).map (fun n => (n, (0 : Int)))
  let first :=
    if (nodeLen = -1 ∧ firstLoop = true) ∨ currID = startID then addHandle0 else addHandle
  let second :=
    if nodeLen ≠ -1 then addHandle else if firstLoop then addHandle0 else []
  let nextDist := if currID = startID then 0 else currDist + nodeLen
  let addHandleEnd :=
    if (currID.1 = env.snarlStartID ∧ currID.2 ≠ env.snarlStartRev) ∨
        (currID.1 = env.snarlEndID ∧ currID.2 = env.snarlEndRev) then
      ((env.graphEdges currID).filter
        (fun n => decide (n.1 = env.snarlStartID ∨ n.1 = env.snarlEndID))).map
        (fun n => (n, nextDist))
    else []
  addRevHandle ++ first ++ second ++ addHandleEnd

/-- The pushes made by the iteration that starts in a state: none when the
queue is empty or the popped unit was seen. -/
def dijkstraStepPushes (env : DijkstraEnv)
    (pop : List (Side × Int) → Option ((Side × Int) × List (Side × Int)))
    (startID : Side) (st : DijkstraState) : List (Side × Int) :=
  match pop st.reachable with
  | none => []
  | some (next, _) =>
    if next.1 ∈ st.seenNodes then []
    else dijkstraPushes env startID st.firstLoop next.1 next.2

/-- One iteration of the loop: `pop` is `reachable.top()` with
`reachable.pop()`.  There is no next state when the queue is empty (the loop
has ended) or when the write of the node length is outside the vector. -/
def dijkstraStep (env : DijkstraEnv)
    (pop : List (Side × Int) → Option ((Side × Int) × List (Side × Int)))
    (startID : Side) (st : DijkstraState) : Option DijkstraState :=
  match pop st.reachable with
  | none => none
  | some (next, rest) =>
    if next.1 ∈ st.seenNodes then
      some { st with reachable := rest, firstLoop := false }
    else
      let inserted :=
        if st.firstLoop then st.inserted
        else st.inserted ++
          [{ startNodeIndex := env.nodeIndex startID.1,
             currNodeIndex := env.nodeIndex next.1.1,
             currID := next.1, currDist := next.2 }]
      let seenNodes := if st.firstLoop then st.seenNodes else next.1 :: st.seenNodes
      let sd : Option SnarlIndex :=
        if next.1 = startID then
          let r := st.sd.visitToIndex.subscript next.1.1
          match writeVec st.sd.distances r.1 (toUInt64 (env.nodeLen next.1 + 1)) with
          | none => none
          | some v => some { st.sd with distances := v, visitToIndex := r.2 }
        else some st.sd
      match sd with
      | none => none
      | some sd2 =>
        some { reachable := rest ++ dijkstraPushes env startID st.firstLoop next.1 next.2
               seenNodes := seenNodes
               firstLoop := false
               sd := sd2
               inserted := inserted }

/-- The state after `n` iterations, when there are that many. -/
def dijkstraRun (env : DijkstraEnv)
    (pop : List (Side × Int) → Option ((Side × Int) × List (Side × Int)))
    (startID : Side) : Nat → DijkstraState → Option DijkstraState
  | 0, st => some st
  | n + 1, st =>
    match dijkstraStep env pop startID st with
    | none => none
    | some st2 => dijkstraRun env pop startID n st2

/-- The pushes made by the first `n` iterations from a state. -/
def dijkstraPushed (env : DijkstraEnv)
    (pop : List (Side × Int) → Option ((Side × Int) × List (Side × Int)))
    (startID : Side) : Nat → DijkstraState → List (Side × Int)
  | 0, _ => []
  | n + 1, st =>
    dijkstraStepPushes env pop startID st ++
      (match dijkstraStep env pop startID st with
       | none => []
       | some st2 => dijkstraPushed env pop startID n st2)

/-- The state before the loop: `reachable.push(make_pair(startID, 0))`,
`firstLoop = true`, no unit seen. -/
def dijkstraInit (startID : Side) (sd : SnarlIndex) : DijkstraState :=
  { reachable := [(startID, 0)], seenNodes := [], firstLoop := true, sd := sd, inserted := [] }

/-- A `top()` and `pop()` of the priority queue whose comparison is
`x.second > y.second`: the first element with the smallest key, and the other
elements. -/
def popMin : List (Side × Int) → Option ((Side × Int) × List (Side × Int))
  | [] => none
  | x :: rest =>
    match popMin rest with
    | none => some (x, [])
    | some (y, rest2) => if x.2 ≤ y.2 then some (x, rest) else some (y, x :: rest2)

/-- The four candidates `d1`, `d2`, `d3`, `d4` of the same-chain block of
`minDistance` (lines 1195 to 1235), whose `minPos` is `chainDist`, and the
index afterwards. -/
def DistanceIndex.sameChainCandidates (idx : DistanceIndex) (g : HandleGraph)
    (sm : SnarlManager) (snarl1 snarl2 : SnarlRef)
    (node1 node2 end1 end2 : Side) (distL1 distR1 distL2 distR2 : Int) :
    Option (List Int × DistanceIndex) := do
  let chainStartID := (sm.get_start_of (sm.chain_of snarl1)).node_id
  let cd ← idx.chainAt chainStartID
  let (c1, cd1) ← cd.chainDistanceShort g sm (node1.1, !node1.2) node2
    (some snarl1) (some snarl2)
  let d1 := addDist3 distL1 distL2 c1
  let (c2, cd2) ← cd1.chainDistanceShort g sm (node1.1, !node1.2) (end2.1, !end2.2)
    (some snarl1) (some snarl2)
  let d2 := if node1.1 = end2.1 then subDist3 distL1 distR2 c2
    else addDist3 distL1 distR2 c2
  let (c3, cd3) ← cd2.chainDistanceShort g sm end1 node2 (some snarl1) (some snarl2)
  let d3 := if end1.1 = node2.1 then subDist3 distR1 distL2 c3
    else addDist3 distR1 distL2 c3
  let (c4, cd4) ← cd3.chainDistanceShort g sm end1 (end2.1, !end2.2)
    (some snarl1) (some snarl2)
  let d4 := addDist3 distR1 distR2 c4
  pure ([d1, d2, d3, d4], idx.setChain chainStartID cd4)

/-! ## The boundary nodes of a snarl in `calculateMinIndex` -/

/-- The lines 350 to 376 of `calculateMinIndex`: the unit indexes of the two
boundary nodes of the snarl are recorded.  The node that comes second in the
chain gets a primary entry; the node that comes first gets a primary entry
when it has none (both components are the largest `size_t`), and else a
secondary entry, written at the position of its node id.  `size` is
`allNodes.size()`. -/
def calculateMinIndex.assignBoundaries (s : Snarl) (snarlRevInChain : Bool)
    (currSnarlAssignment size : Nat) (loc : NodeLocator) : NodeLocator :=
  let startInChain := if snarlRevInChain then s.end_.node_id else s.start.node_id
  let endInChain := if snarlRevInChain then s.start.node_id else s.end_.node_id
  let primary_snarls := Function.update loc.primary_snarls endInChain
    (if endInChain = s.start.node_id then
       (currSnarlAssignment, if s.start.backward then 1 else 0)
     else (currSnarlAssignment, if s.end_.backward then usub size 1 else usub size 2))
  let entry : Nat × Nat :=
    (currSnarlAssignment,
     if startInChain = s.end_.node_id then
       (if s.end_.backward then usub size 1 else usub size 2)
     else (if s.start.backward then 1 else 0))
  if (primary_snarls startInChain).1 = 2 ^ 64 - 1 ∧
      (primary_snarls startInChain).2 = 2 ^ 64 - 1 then
    { loc with primary_snarls := Function.update primary_snarls startInChain entry }
  else
    { primary_snarls := primary_snarls
      secondary_snarls := Function.update loc.secondary_snarls (toUInt64 startInChain) entry
      has_secondary_snarl := loc.has_secondary_snarl.set (toUInt64 startInChain) true }

/-- The list `allNodes` of a snarl and the locator tables after the lines 324
to 376: the interior nodes are recorded while the list is built, the boundary
nodes after it. -/
def calculateMinIndex.locate (s : Snarl) (snarlRevInChain : Bool) (handles : List Int)
    (currSnarlAssignment : Nat) (loc : NodeLocator) : List Side × NodeLocator :=
  let r := calculateMinIndex.allNodes s handles currSnarlAssignment loc.primary_snarls
  (r.1, calculateMinIndex.assignBoundaries s snarlRevInChain currSnarlAssignment r.1.length
    { loc with primary_snarls := r.2 })

/-- The slot of a side at the first position of `SnarlIndex::index`:
`start.second ? 1 + nodeIndex1 : nodeIndex1`. -/
def SnarlIndex.unitSlot (loc : NodeLocator) (si : SnarlIndex) (start : Side) : Nat :=
  if start.2 then uadd 1 (si.nodeIndex loc start.1) else si.nodeIndex loc start.1

/-- The locator tables as the constructor of `DistanceIndex` leaves them:
every entry is the pair of the largest `size_t`, and no bit is set;
`size` is the number of bits. -/
def NodeLocator.initial (size : Nat) : NodeLocator :=
  { primary_snarls := fun _ => (2 ^ 64 - 1, 2 ^ 64 - 1)
    secondary_snarls := fun _ => (2 ^ 64 - 1, 2 ^ 64 - 1)
    has_secondary_snarl := List.replicate size false }

/-! ## The construction of `MaxDistanceIndex`

`findComponents` reads the graph, the node id range of the distance index
and `distIndex->loopDistance`.  The two-argument `loopDistance` (lines 2863
to 2868) looks up the snarls of its two nodes with `snarlOf` and calls the
four-argument overload (lines 2870 and following), which is not embedded and
enters as a function; so does `calculateMaxDistances` (lines 2625 to 2843),
which reads `nodeToComponent` and writes the three distance vectors.  The
properties proved about the construction hold for every such function. -/

/-- The three vectors `maxDists`, `minDistsFd`, `minDistsRev`. -/
structure DistVectors where
  maxDists : List Nat
  minDistsFd : List Nat
  minDistsRev : List Nat

/-- `DistanceIndex::loopDistance(node1, node2)`: `snarlOf(node1.first)`,
`snarlOf(node2.first)`, then the four-argument overload `inner`. -/
def DistanceIndex.loopDistance (idx : DistanceIndex) (sm : SnarlManager)
    (inner : Option SnarlRef → Option SnarlRef → Side → Side → Option Int)
    (node1 node2 : Side) : Option Int :=
  match idx.snarlOf sm node1.1 with
  | none => none
  | some snarl1 =>
    match idx.snarlOf sm node2.1 with
    | none => none
    | some snarl2 => inner snarl1 snarl2 node1 node2

/-- What the constructor of `MaxDistanceIndex` reads: the distance index
`distIndex` with its snarl manager, the graph with the ids of its handles in
the order of `for_each_handle`, the four-argument `loopDistance`, and
`calculateMaxDistances`. -/
structure ComponentEnv where
  distIndex : DistanceIndex
  sm : SnarlManager
  graph : HandleGraph
  handles : List Int
  loopDistanceIn : Option SnarlRef → Option SnarlRef → Side → Side → Option Int
  calculateMaxDistances : List Side → List Nat → DistVectors → Option DistVectors

/-- The call `distIndex->loopDistance(node1, node2)`. -/
def ComponentEnv.loopDistance (env : ComponentEnv) (node1 node2 : Side) : Option Int :=
  env.distIndex.loopDistance env.sm env.loopDistanceIn node1 node2

/-- The assignment `v[i] = x` of an `int_vector` with an index computed in
`int64_t`. -/
def writeVecAt (v : List Nat) (i : Int) (x : Nat) : Option (List Nat) :=
  if i < 0 then none else writeVec v i.toNat x

/-- The variables of the loop `while (nextNodes.size() > 0)` of
`findComponents`; the back of the list `nextNodes` is the last element. -/
structure ComponentSearch where
  nextNodes : List (Side × Bool)
  seen : List Side
  nodeToComponent : List Nat
  sinkNodes : List Side
  sourceNodes : List Side

/-- The lambda `addNextNodes` of `findComponents` for one neighbour `node` of
`currNode`: the new `nextNodes` and `added`.  Both calls of `loopDistance`
are made before the test. -/
def findComponents.addNextNodes (env : ComponentEnv) (onlyCycles : Bool) (seen : List Side)
    (currNode : Side) (forward : Bool) (acc : List (Side × Bool) × Bool) (node : Side) :
    Option (List (Side × Bool) × Bool) :=
  match env.loopDistance currNode node with
  | none => none
  | some edgeDist =>
    match env.loopDistance node node with
    | none => none
    | some nodeDist =>
      let edgeLoop := decide (edgeDist > -1)
      let nodeLoop := decide (nodeDist > -1)
      if (onlyCycles ∧ edgeLoop ∧ nodeLoop) ∨ (!onlyCycles ∧ !edgeLoop ∧ !nodeLoop) then
        if node ∉ seen then
          let nextNodes :=
            if forward then acc.1 ++ [(node, forward)] else (node, forward) :: acc.1
          if (node.1, !node.2) ∉ seen then
            some (if forward then ((node.1, !node.2), !forward) :: nextNodes
              else nextNodes ++ [((node.1, !node.2), !forward)], true)
          else some (nextNodes, true)
        else some (acc.1, true)
      else some acc

/-- The call `graph->follow_edges(handle, false, addNextNodes)` over the
neighbours in their order. -/
def findComponents.followEdges (env : ComponentEnv) (onlyCycles : Bool) (seen : List Side)
    (currNode : Side) (forward : Bool) :
    List Side → List (Side × Bool) × Bool → Option (List (Side × Bool) × Bool)
  | [], acc => some acc
  | node :: rest, acc =>
    match findComponents.addNextNodes env onlyCycles seen currNode forward acc node with
    | none => none
    | some acc2 => findComponents.followEdges env onlyCycles seen currNode forward rest acc2

/-- One iteration of the loop `while (nextNodes.size() > 0)` for a list that
is not empty. -/
def findComponents.searchStep (env : ComponentEnv) (onlyCycles : Bool) (currComponent : Nat)
    (st : ComponentSearch) : Option ComponentSearch :=
  match st.nextNodes.getLast? with
  | none => none
  | some (currNode, forward) =>
    let nextNodes := st.nextNodes.dropLast
    if currNode ∈ st.seen then some { st with nextNodes := nextNodes }
    else
      let seen := currNode :: st.seen
      match writeVecAt st.nodeToComponent (currNode.1 - env.distIndex.minNodeID)
          currComponent with
      | none => none
      | some nodeToComponent =>
        match findComponents.followEdges env onlyCycles seen currNode forward
            (env.graph.follow_edges currNode) (nextNodes, false) with
        | none => none
        | some r =>
          some { nextNodes := r.1
                 seen := seen
                 nodeToComponent := nodeToComponent
                 sinkNodes :=
                   if !r.2 ∧ forward ∧ currNode ∉ st.sinkNodes then currNode :: st.sinkNodes
                   else st.sinkNodes
                 sourceNodes :=
                   if !r.2 ∧ !forward ∧ currNode ∉ st.sourceNodes then
                     currNode :: st.sourceNodes
                   else st.sourceNodes }

/-- The loop `while (nextNodes.size() > 0)`, with `fuel` iterations left. -/
def findComponents.search (env : ComponentEnv) (onlyCycles : Bool) (currComponent : Nat) :
    Nat → ComponentSearch → Option ComponentSearch
  | 0, _ => none
  | fuel + 1, st =>
    if st.nextNodes = [] then some st
    else
      match findComponents.searchStep env onlyCycles currComponent st with
      | none => none
      | some st2 => findComponents.search env onlyCycles currComponent fuel st2

/-- What `findComponents` carries from one handle to the next. -/
structure ComponentState where
  nodeToComponent : List Nat
  vectors : DistVectors
  currComponent : Nat
  seen : List Side

/-- The lambda `findComp` of `findComponents` for the handle with id `i`:
when the node has no component yet, `loopDistance((i, false), (i, false))`
is called, and the search starts when its answer fits `onlyCycles`. -/
def findComponents.findComp (env : ComponentEnv) (onlyCycles : Bool) (fuel : Nat)
    (st : ComponentState) (i : Int) : Option ComponentState :=
  match readVec st.nodeToComponent (i - env.distIndex.minNodeID) with
  | none => none
  | some comp =>
    if comp = 0 then
      match env.loopDistance (i, false) (i, false) with
      | none => none
      | some loopDist =>
        if onlyCycles = decide (loopDist > -1) then
          let currComponent := uadd st.currComponent 1
          match findComponents.search env onlyCycles currComponent fuel
              { nextNodes := [((i, true), true), ((i, false), false)]
                seen := st.seen
                nodeToComponent := st.nodeToComponent
                sinkNodes := []
                sourceNodes := [] } with
          | none => none
          | some r =>
            match (if !onlyCycles then
                env.calculateMaxDistances
                  (if r.sinkNodes.length = 0 then r.sourceNodes else r.sinkNodes)
                  r.nodeToComponent st.vectors
              else some st.vectors) with
            | none => none
            | some vectors =>
              some { nodeToComponent := r.nodeToComponent
                     vectors := vectors
                     currComponent := currComponent
                     seen := r.seen }
        else some st
    else some st

/-- The call `graph->for_each_handle(findComp)`. -/
def findComponents.forEach (env : ComponentEnv) (onlyCycles : Bool) (fuel : Nat) :
    List Int → ComponentState → Option ComponentState
  | [], st => some st
  | i :: rest, st =>
    match findComponents.findComp env onlyCycles fuel st i with
    | none => none
    | some st2 => findComponents.forEach env onlyCycles fuel rest st2

/-- `MaxDistanceIndex::findComponents(nodeToComponent, maxDists, minDistsFd,
minDistsRev, currComponent, onlyCycles)`: the returned component number and
the vectors afterwards; each inner loop has `fuel` iterations. -/
def MaxDistanceIndex.findComponents (env : ComponentEnv) (fuel : Nat)
    (nodeToComponent : List Nat) (vectors : DistVectors) (currComponent : Nat)
    (onlyCycles : Bool) : Option (Nat × List Nat × DistVectors) :=
  (findComponents.forEach env onlyCycles fuel env.handles
    { nodeToComponent := nodeToComponent, vectors := vectors
      currComponent := currComponent, seen := [] }).map
    (fun st => (st.currComponent, st.nodeToComponent, st.vectors))

/-- The loop of the constructor that fills `minDistances`. -/
def MaxDistanceIndex.minOfBoth (minFd minRev : List Nat) : Nat → Option (List Nat)
  | 0 => some []
  | i + 1 =>
    match MaxDistanceIndex.minOfBoth minFd minRev i, minFd[i]?, minRev[i]? with
    | some ds, some d1, some d2 =>
      some (ds ++ [if d1 = 0 then d2 else if d2 = 0 then d1 else min d1 d2])
    | _, _, _ => none

/-- The constructor `MaxDistanceIndex(di, chain, c)` (lines 2387 to 2429). -/
def MaxDistanceIndex.new (env : ComponentEnv) (c : Nat) (fuel : Nat) :
    Option MaxDistanceIndex :=
  let size := toUInt64 (env.distIndex.maxNodeID - env.distIndex.minNodeID + 1)
  let zeros := List.replicate size 0
  match MaxDistanceIndex.findComponents env fuel zeros ⟨zeros, zeros, zeros⟩ 0 true with
  | none => none
  | some (numCycles, nodeToComponent, vectors) =>
    match MaxDistanceIndex.findComponents env fuel nodeToComponent vectors numCycles
        false with
    | none => none
    | some (_, nodeToComponent2, vectors2) =>
      match MaxDistanceIndex.minOfBoth vectors2.minDistsFd vectors2.minDistsRev size with
      | none => none
      | some minDistances =>
        some { nodeToComponent := nodeToComponent2
               minDistances := minDistances
               maxDistances := vectors2.maxDists
               numCycles := numCycles
               cap := c }

/-- The statement `maxIndex = MaxDistanceIndex(this, topSnarls, cap)` of the
constructor of `DistanceIndex` (line 75), which is reached when
`include_maximum` holds and `cap > 0`: the maximum index is constructed on
the distance index as the lines before have left it. -/
def DistanceIndex.newMaxIndex (idx : DistanceIndex) (sm : SnarlManager) (g : HandleGraph)
    (handles : List Int)
    (loopDistanceIn : Option SnarlRef → Option SnarlRef → Side → Side → Option Int)
    (calculateMaxDistances : List Side → List Nat → DistVectors → Option DistVectors)
    (cap fuel : Nat) : Option MaxDistanceIndex :=
  MaxDistanceIndex.new
    { distIndex := idx, sm := sm, graph := g, handles := handles
      loopDistanceIn := loopDistanceIn, calculateMaxDistances := calculateMaxDistances }
    cap fuel

/-! ## `multipath_alignment_emitter.cpp`

What `emit_singles` and `emit_pairs` do is recorded as the list of their
outputs.  A call has no result when it dereferences a null pointer, and it
throws when `vector::at` is past the end.  The `switch` is run as C++ runs
it: control enters at the label of the format and goes on through the
blocks that follow until a `break`. -/

/-- The enumeration `output_format_t`. -/
inductive output_format_t where
  | GAMP | GAM | GAF | BAM | SAM | CRAM
  deriving DecidableEq

/-- One output of the emitter: `write_many` of `count` messages on the
`MultipathAlignment` or on the `Alignment` emitter of the thread, `count` GAF
lines on the stream of the thread, a `flush` of either emitter,
`multiplexer.register_breakpoint`, `ensure_header`, `save_records` of `count`
records, or the line "error:[MultipathAlignmentEmitter] unrecognized output
format" on `cerr`. -/
inductive EmitterOutput where
  | multipath_messages (count : Nat)
  | alignment_messages (count : Nat)
  | gaf_lines (count : Nat)
  | flush_multipath
  | flush_alignments
  | register_breakpoint
  | ensure_header
  | save_records (count : Nat)
  | unrecognized_output_format
  deriving DecidableEq

/-- One block of a `switch`: its `case` labels (none for `default`), what it
does, and whether it ends with `break`. -/
structure SwitchBlock where
  labels : List output_format_t
  body : Option (Except String (List EmitterOutput))
  breaks : Bool

/-- Running the blocks of a `switch` from the first one on, until a `break`
or the end. -/
def runBlocks : List SwitchBlock → Option (Except String (List EmitterOutput))
  | [] => some (Except.ok [])
  | b :: rest =>
    match b.body with
    | none => none
    | some (Except.error e) => some (Except.error e)
    | some (Except.ok out) =>
      if b.breaks then some (Except.ok out)
      else
        match runBlocks rest with
        | none => none
        | some (Except.error e) => some (Except.error e)
        | some (Except.ok more) => some (Except.ok (out ++ more))

/-- The statement `switch (format)`: control enters at the block with the label
`format`, or at `default` when no block has it. -/
def runSwitch (format : output_format_t) (blocks : List SwitchBlock) :
    Option (Except String (List EmitterOutput)) :=
  match blocks.dropWhile (fun b => !(b.labels.contains format)) with
  | [] => runBlocks (blocks.dropWhile (fun b => !b.labels.isEmpty))
  | found => runBlocks found

/-- The loop of the `SAM`, `BAM`, `CRAM` block over the `count` alignments:
`path_positions->at(i)`, and `tlen_limits->at(i)` when `tlen_limits` is not
null.  The pointers are given by the sizes of their vectors; the bodies of
`convert_to_hts_unpaired` and `convert_to_hts_paired` are empty, so no record
is added. -/
def htsLoop (path_positions tlen_limits : Option Nat) :
    Nat → Nat → Option (Except String Nat)
  | 0, _ => some (Except.ok 0)
  | count + 1, i =>
    match path_positions with
    | none => none
    | some size =>
      if i < size then
        match tlen_limits with
        | some limits =>
          if i < limits then htsLoop path_positions tlen_limits count (i + 1)
          else some (Except.error "vector::at")
        | none => htsLoop path_positions tlen_limits count (i + 1)
      else some (Except.error "vector::at")

/-- The `SAM`, `BAM`, `CRAM` block of `emit_singles` and `emit_pairs`:
`ensure_header`, the loop, `save_records`. -/
def htsBlock (count : Nat) (path_positions tlen_limits : Option Nat) :
    Option (Except String (List EmitterOutput)) :=
  match htsLoop path_positions tlen_limits count 0 with
  | none => none
  | some (Except.error e) => some (Except.error e)
  | some (Except.ok records) =>
    some (Except.ok [EmitterOutput.ensure_header, EmitterOutput.save_records records])

/-- `MultipathAlignmentEmitter::emit_pairs` for `count` pairs;
`want_breakpoint` is `multiplexer.want_breakpoint(thread_number)`. -/
def MultipathAlignmentEmitter.emit_pairs (format : output_format_t) (want_breakpoint : Bool)
    (count : Nat) (path_positions tlen_limits : Option Nat) :
    Option (Except String (List EmitterOutput)) :=
  runSwitch format
    [{ labels := [output_format_t.GAMP]
       body := some (Except.ok
         ([EmitterOutput.multipath_messages (2 * count)] ++
          (if want_breakpoint then
            [EmitterOutput.flush_multipath, EmitterOutput.register_breakpoint]
           else [])))
       breaks := true },
     { labels := [output_format_t.GAM, output_format_t.GAF]
       body := some (Except.ok
         ((if format = output_format_t.GAM then
            [EmitterOutput.alignment_messages (2 * count)] ++
              (if want_breakpoint then [EmitterOutput.flush_alignments] else [])
           else [EmitterOutput.gaf_lines (2 * count)]) ++
          [EmitterOutput.register_breakpoint]))
       breaks := true },
     { labels := [output_format_t.SAM, output_format_t.BAM, output_format_t.CRAM]
       body := htsBlock count path_positions tlen_limits
       breaks := false },
     { labels := []
       body := some (Except.ok [EmitterOutput.unrecognized_output_format])
       breaks := true }]

/-- `MultipathAlignmentEmitter::emit_singles` for `count` alignments. -/
def MultipathAlignmentEmitter.emit_singles (format : output_format_t)
    (want_breakpoint : Bool) (count : Nat) (path_positions : Option Nat) :
    Option (Except String (List EmitterOutput)) :=
  runSwitch format
    [{ labels := [output_format_t.GAMP]
       body := some (Except.ok
         ([EmitterOutput.multipath_messages count] ++
          (if want_breakpoint then
            [EmitterOutput.flush_multipath, EmitterOutput.register_breakpoint]
           else [])))
       breaks := true },
     { labels := [output_format_t.GAM, output_format_t.GAF]
       body := some (Except.ok
         (if format = output_format_t.GAM then
            [EmitterOutput.alignment_messages count] ++
              (if want_breakpoint then [EmitterOutput.flush_alignments] else [])
          else [EmitterOutput.gaf_lines count]))
       breaks := false },
     { labels := [output_format_t.SAM, output_format_t.BAM, output_format_t.CRAM]
       body := htsBlock count path_positions none
       breaks := false },
     { labels := []
       body := some (Except.ok [EmitterOutput.unrecognized_output_format])
       breaks := true }]

/-! ## Definitions used to state the properties -/

/-- The fold of `minPos` from an arbitrary accumulator. -/
def minPosFrom (acc : Int) (vals : List Int) : Int :=
  vals.foldl (fun x y => minPosStep x (toInt32 y)) acc

/-- The number `(k + 1) * k / 2` of cells of a triangle with `k` rows. -/
def tri (k : Nat) : Nat := (k + 1) * k / 2

/-- The offset formula of the specification, over the natural numbers. -/
def specOffset (L i1 i2 : Nat) : Nat :=
  ((L + 1) * L) / 2 - ((L - i1 + 1) * (L - i1)) / 2 + (i2 - i1) + L / 2

/-- The property of `shortestDistance` that `minDistance` keeps once the
same-node candidate is set: a distance (not `-1`), an `int`, and at most `B`. -/
def ShortInv (B x : Int) : Prop :=
  x ≠ -1 ∧ x ≤ B ∧ -2 ^ 31 ≤ x ∧ x < 2 ^ 31

/-! ## Distances with an explicit unreachable value, to state C14 and C16 -/

/-- A returned distance read as the specification reads it: `-1` is
unreachable. -/
def decodeDist (d : Int) : Option Int := if d = -1 then none else some d

/-- The returned value of an optional distance: unreachable is `-1`. -/
def encodeDist : Option Int → Int
  | none => -1
  | some d => d

/-- The sum of two distances; it is unreachable when either one is. -/
def optAddInt : Option Int → Option Int → Option Int
  | some x, some y => some (x + y)
  | _, _ => none

/-- The smaller of two distances; an unreachable one is dropped. -/
def optMinInt : Option Int → Option Int → Option Int
  | none, b => b
  | a, none => a
  | some x, some y => some (min x y)

/-- The specification's value for one end in `distToEnds`: the smaller of the
sums `dA + a` and `dB + b`, a sum being dropped when either of its addends is
unreachable, and unreachable when both are dropped. -/
def specToEnd (dA a dB b : Int) : Int :=
  encodeDist (optMinInt (optAddInt (decodeDist dA) (decodeDist a))
    (optAddInt (decodeDist dB) (decodeDist b)))

/-- A distance that fits in an `int` with room for one addition: `-1` or a
number from 0 up to `2^30 - 1`. -/
abbrev SmallDist (x : Int) : Prop := -1 ≤ x ∧ x < 2 ^ 30

/-- The orientation in which `chainDistance` reads a side at rank `rank`
along the chain (`rev1`, `rev2` in the source): the orientation of the side,
flipped when the boundary node of the snarl is traversed backward in the
chain. -/
def ChainIndex.readsReverse (sm : SnarlManager) (ci : ChainIndex) (snarl : SnarlRef)
    (rank : Nat) (side : Side) : Bool :=
  let snarlRev :=
    if rank = (ci.snarlToIndex.subscript (sm.snarl snarl).start.node_id).1 then
      (sm.snarl snarl).start.backward
    else (sm.snarl snarl).end_.backward
  let chainRev := if sm.chain_orientation_of snarl then !snarlRev else snarlRev
  if chainRev then !side.2 else side.2

/-- A value that fits in an `int` (32 bits). -/
abbrev FitsInt (x : Int) : Prop := -2 ^ 31 ≤ x ∧ x < 2 ^ 31

/-! ## Definitions used to state the properties of the serialization -/

/-- The id-to-index map that sends the ids of a list to `start`, `start + 1`,
and so on: the map that `load` makes of a vector of ids. -/
def IdMap.ofIds : List Int → Nat → IdMap
  | [], _ => []
  | k :: rest, start => (k, start) :: IdMap.ofIds rest (start + 1)

/-- An id-to-index map as `load` leaves it: the entry at position `i` maps
its id to `i`, the ids are distinct and each is an `id_t` that is not
negative. -/
abbrev IdMap.InLoadOrder (m : IdMap) : Prop :=
  m = IdMap.ofIds (m.map Prod.fst) 0 ∧ (m.map Prod.fst).Nodup ∧
    ∀ k ∈ m.map Prod.fst, 0 ≤ k ∧ k < 2 ^ 63

/-- A side that its signed id determines: the node id is positive, or the
side is `(0, false)`. -/
abbrev Side.Storable (s : Side) : Prop := 0 < s.1 ∨ s = (0, false)

/-- The members of a `SnarlIndex` that are serialized. -/
def SnarlIndex.contents (si : SnarlIndex) : Side × Side × Side × IdMap × List Nat :=
  (si.snarlStart, si.snarlEnd, si.parent, si.visitToIndex, si.distances)

/-- The members of a `ChainIndex` that are serialized. -/
def ChainIndex.contents (ci : ChainIndex) :
    Int × Int × Side × List Nat × List Nat × List Nat × IdMap :=
  (ci.chainStartID, ci.chainEndID, ci.parent, ci.prefixSum, ci.loopFd, ci.loopRev,
    ci.snarlToIndex)

/-- The members of a `DistanceIndex` that are serialized: the snarls and the
chains with their keys, the node id range, `nodeToSnarl` and the maximum
index. -/
def DistanceIndex.contents (idx : DistanceIndex) :
    List (Side × (Side × Side × Side × IdMap × List Nat)) ×
    List (Int × (Int × Int × Side × List Nat × List Nat × List Nat × IdMap)) ×
    Int × Int × List Nat × List Nat × List Nat × List Nat × Nat × Nat :=
  (idx.snarlDistances.map (fun p => (p.1, p.2.contents)),
   idx.chainDistances.map (fun p => (p.1, p.2.contents)),
   idx.minNodeID, idx.maxNodeID, idx.nodeToSnarl,
   idx.maxIndex.nodeToComponent, idx.maxIndex.minDistances, idx.maxIndex.maxDistances,
   idx.maxIndex.numCycles, idx.maxIndex.cap)

/-- A `SnarlIndex` whose sides are determined by their signed ids and whose
map is as `load` leaves it. -/
abbrev SnarlIndex.Storable (si : SnarlIndex) : Prop :=
  si.snarlStart.Storable ∧ si.snarlEnd.Storable ∧ si.parent.Storable ∧
    si.visitToIndex.InLoadOrder

/-- A `ChainIndex` whose parent is determined by its signed id and whose map
is as `load` leaves it. -/
abbrev ChainIndex.Storable (ci : ChainIndex) : Prop :=
  ci.parent.Storable ∧ ci.snarlToIndex.InLoadOrder

/-- A `DistanceIndex` whose maps have distinct keys, whose snarl keys are
determined by their signed ids, whose snarls and chains are storable, and
whose counts are machine words. -/
abbrev DistanceIndex.Storable (idx : DistanceIndex) : Prop :=
  (idx.snarlDistances.map Prod.fst).Nodup ∧
  (∀ p ∈ idx.snarlDistances, p.1.Storable ∧ p.2.Storable) ∧
  (idx.chainDistances.map Prod.fst).Nodup ∧
  (∀ p ∈ idx.chainDistances, p.2.Storable) ∧
  idx.snarlDistances.length < 2 ^ 64 ∧ idx.chainDistances.length < 2 ^ 64 ∧
  idx.maxIndex.numCycles < 2 ^ 64 ∧ idx.maxIndex.cap < 2 ^ 64

/-- The five values of a snarl in the layout of the specification: signed
start side, signed end side, signed parent, the vector of unit ids and the
distance vector. -/
def snarlFields (si : SnarlIndex) : Option (List Item) :=
  (si.visitToIndex.toVector).map (fun visits =>
    [Item.num (signedSide si.snarlStart), Item.num (signedSide si.snarlEnd),
     Item.num (signedSide si.parent), Item.vec visits, Item.vec si.distances])

/-- The seven values of a chain in the layout of the specification: start
node id, end node id, signed parent, the three vectors and the vector of
snarl ids in chain order. -/
def chainFields (ci : ChainIndex) : Option (List Item) :=
  (ci.snarlToIndex.toVector).map (fun snarls =>
    [Item.num ci.chainStartID, Item.num ci.chainEndID, Item.num (signedSide ci.parent),
     Item.vec ci.prefixSum, Item.vec ci.loopFd, Item.vec ci.loopRev, Item.vec snarls])

/-- A record with the key of its map entry in front, or without it. -/
def withKey (withKeys : Bool) (key : Item) (r : List Item) : List Item :=
  if withKeys then key :: r else r

/-- The records of a list one after the other; there is no result when one
record has none. -/
def recordsOf {α : Type} (f : α → Option (List Item)) : List α → Option (List Item)
  | [] => some []
  | a :: rest =>
    match f a, recordsOf f rest with
    | some x, some y => some (x ++ y)
    | _, _ => none

/-- The layout of the serialized index in the words of the specification:
the snarl count, the fields of every snarl, the chain count, the fields of
every chain, the node id range, `node_to_snarl`, and the maximum index.
With `withKeys`, the key of the map entry precedes the fields of every snarl
and of every chain. -/
def DistanceIndex.layout (withKeys : Bool) (idx : DistanceIndex) : Option (List Item) :=
  match recordsOf (fun (p : Side × SnarlIndex) =>
            (snarlFields p.2).map (withKey withKeys (Item.num (signedSide p.1))))
          idx.snarlDistances,
        recordsOf (fun (p : Int × ChainIndex) =>
            (chainFields p.2).map (withKey withKeys (Item.num p.1)))
          idx.chainDistances with
  | some snarls, some chains =>
    some ([Item.num idx.snarlDistances.length] ++ snarls
      ++ [Item.num idx.chainDistances.length] ++ chains
      ++ [Item.num idx.minNodeID, Item.num idx.maxNodeID, Item.vec idx.nodeToSnarl,
          Item.num idx.maxIndex.numCycles, Item.num idx.maxIndex.cap,
          Item.vec idx.maxIndex.nodeToComponent, Item.vec idx.maxIndex.minDistances,
          Item.vec idx.maxIndex.maxDistances])
  | _, _ => none

/-- The messages of a list cover the elements from `a` up to `b` in order,
without gap or overlap; each has at least one element, the group count 1 and
a size of at most `MAX_PROTOBUF_SIZE`. -/
def stream.Consecutive : Nat → Nat → List stream.Emitted → Prop
  | a, b, [] => a = b
  | a, b, m :: rest =>
    m.start = a ∧ 1 ≤ m.length ∧ m.group_count = 1 ∧ m.size ≤ stream.MAX_PROTOBUF_SIZE ∧
      stream.Consecutive (a + m.length) b rest

/-- What `top()` and `pop()` of the priority queue guarantee: nothing is
returned only for the empty queue, the returned element has a smallest key,
and the other elements stay. -/
def PopsMinimum (pop : List (Side × Int) → Option ((Side × Int) × List (Side × Int))) :
    Prop :=
  ∀ q, (pop q = none → q = []) ∧
    ∀ x rest, pop q = some (x, rest) → q.Perm (x :: rest) ∧ ∀ y ∈ q, x.2 ≤ y.2

/-- All unit lengths and loop distances are non-negative; a loop distance can
also be `-1`, no loop. -/
def DijkstraEnv.NonNegative (env : DijkstraEnv) : Prop :=
  ∀ u, 0 ≤ env.nodeLen u ∧ (env.loopDist u = -1 ∨ 0 ≤ env.loopDist u)

/-- What holds between the iterations of the Dijkstra loop, `H` being the
pushes made by the loop so far: each unit is written once and is then seen,
the keys are non-negative, a written value is at most the key of a queued
unseen unit, and each push so far is still queued for an unseen unit or is
at least the value written for its unit. -/
structure DijkstraInv (env : DijkstraEnv) (startID : Side) (st : DijkstraState)
    (H : List (Side × Int)) : Prop where
  nodup : (st.inserted.map InsertCall.currID).Nodup
  seen : ∀ u, u ∈ st.seenNodes ↔ u ∈ st.inserted.map InsertCall.currID
  nonneg : ∀ e ∈ st.reachable, 0 ≤ e.2
  settled : ∀ c ∈ st.inserted, ∀ e ∈ st.reachable, e.1 ∉ st.seenNodes → c.currDist ≤ e.2
  pushed : ∀ e ∈ H, (e ∈ st.reachable ∧ e.1 ∉ st.seenNodes) ∨
    ∃ c ∈ st.inserted, c.currID = e.1 ∧ c.currDist ≤ e.2
  first : st.firstLoop = false → ∀ e ∈ dijkstraPushes env startID true startID 0, e ∈ H
  queue : st.firstLoop = false → ∀ e ∈ st.reachable, e ∈ H
  written : ∀ c ∈ st.inserted, (c.currID, c.currDist) ∈ H
  start : st.firstLoop = true →
    st.reachable = [(startID, 0)] ∧ st.inserted = [] ∧ st.seenNodes = [] ∧ H = []

/-! ### Sound tables for the query of two positions on one node -/

/-- Locator of a snarl with boundary nodes `1` and `2` and no interior node,
as `calculateMinIndex` fills it: node `1` has unit index `0`, node `2` has unit
index `2`, both with primary snarl `0`. -/
def exLocator : NodeLocator :=
  { primary_snarls := fun id => if id = 2 then (0, 2) else (0, 0)
    secondary_snarls := fun _ => (0, 0)
    has_secondary_snarl := [] }

/-- A snarl index with `num_nodes = 4` whose table has the 40 cells of
`2 * num_nodes` slots; the cell of offset 5 holds the distance 3. -/
def exSnarl : SnarlIndex :=
  { parent_index := 0, rev_in_parent := false, in_chain := false, num_nodes := 4
    distances := (List.replicate 40 0).set 5 4
    visitToIndex := [(1, 0), (2, 1)]
    snarlStart := (1, false), snarlEnd := (2, false), parent := (0, false)
    currSnarlAssignment := 0 }

/-- A graph with nodes `1` and `2` of length 10 joined by one edge. -/
def exGraph : HandleGraph :=
  { get_length := fun _ => 10
    follow_edges := fun s =>
      if s = (1, false) then [(2, false)] else if s = (2, true) then [(1, true)] else [] }

/-- A maximum index with cap 5 in which nodes `1` and `2` form the acyclic
component `1` (there is no cyclic component). -/
def exMaxIndex : MaxDistanceIndex :=
  { nodeToComponent := [1, 1], minDistances := [11, 1], maxDistances := [11, 1],
    numCycles := 0, cap := 5 }

/-- A maximum index with cap 5 in which nodes `1` and `2` lie in different
components. -/
def exMaxIndexSplit : MaxDistanceIndex :=
  { nodeToComponent := [1, 2], minDistances := [1, 1], maxDistances := [1, 1],
    numCycles := 0, cap := 5 }

/-- Three nodes of length 10 in a row, `1 → 2 → 3`. -/
def rowGraph : HandleGraph :=
  { get_length := fun _ => 10
    follow_edges := fun s =>
      if s = (1, false) then [(2, false)]
      else if s = (2, false) then [(3, false)]
      else if s = (3, true) then [(2, true)]
      else if s = (2, true) then [(1, true)]
      else [] }

/-- The decomposition of `rowGraph`: the top-level chain `0` of the snarls
`0 = (1 → 2)` and `1 = (2 → 3)`; neither snarl has a parent. -/
def rowManager : SnarlManager :=
  { snarl := fun r =>
      if r = 0 then { start := ⟨1, false⟩, end_ := ⟨2, false⟩ }
      else { start := ⟨2, false⟩, end_ := ⟨3, false⟩ }
    parent_of := fun _ => none
    in_nontrivial_chain := fun _ => true
    chain_of := fun _ => 0
    chain_orientation_of := fun _ => false
    into_which_snarl := fun id rev =>
      if id = 1 ∧ rev = false then some 0
      else if id = 2 ∧ rev = true then some 0
      else if id = 2 ∧ rev = false then some 1
      else if id = 3 ∧ rev = true then some 1
      else none
    get_start_of := fun _ => ⟨1, false⟩
    get_end_of := fun _ => ⟨3, false⟩ }

/-- Node-to-slot tables of the two snarls of `rowManager`: node `1` has unit
index 0 in snarl 0, node `2` has unit index 2 in snarl 0 (primary) and 0 in
snarl 1 (secondary), node `3` has unit index 2 in snarl 1. -/
def rowLocator : NodeLocator :=
  { primary_snarls := fun id =>
      if id = 1 then (0, 0) else if id = 2 then (0, 2) else (1, 2)
    secondary_snarls := fun _ => (1, 0)
    has_secondary_snarl := [false, false, true, false] }

/-- The table of snarl 0: 4 slots, node lengths 10 in the two leading cells,
and the distance 0 from the end node reversed to the start node reversed
(cell 10). -/
def rowSnarl0 : SnarlIndex :=
  { parent_index := 0, rev_in_parent := false, in_chain := true, num_nodes := 2
    distances := [11, 11, 0, 0, 0, 0, 0, 0, 0, 0, 1, 0]
    visitToIndex := [(1, 0), (2, 1)]
    snarlStart := (1, false), snarlEnd := (2, false), parent := (1, false)
    currSnarlAssignment := 0 }

/-- The table of snarl 1: 4 slots, node lengths 10, and the distance 0 from
the start node to the end node (cell 3). -/
def rowSnarl1 : SnarlIndex :=
  { parent_index := 0, rev_in_parent := false, in_chain := true, num_nodes := 2
    distances := [11, 11, 0, 1, 0, 0, 0, 0, 0, 0, 0, 0]
    visitToIndex := [(2, 0), (3, 1)]
    snarlStart := (2, false), snarlEnd := (3, false), parent := (1, false)
    currSnarlAssignment := 1 }

/-- The chain index of the chain of `rowManager`: prefix sums 0, 10, 20 and
no loop. -/
def rowChain : ChainIndex :=
  { parent_index := 0, rev_in_parent := false
    prefixSum := [1, 11, 21], loopFd := [0, 0, 0], loopRev := [0, 0, 0]
    snarlToIndex := [(1, 0), (2, 1), (3, 2)]
    chainStartID := 1, chainEndID := 3, parent := (0, false) }

/-- A distance index of `rowGraph` as `load` would hold it. -/
def rowIndex : DistanceIndex :=
  { snarlDistances := [((1, false), rowSnarl0), ((2, false), rowSnarl1)]
    chainDistances := [(1, rowChain)]
    nodeToSnarl := [2, 2, 4]
    minNodeID := 1, maxNodeID := 3
    maxIndex := MaxDistanceIndex.empty, include_maximum := false
    loc := rowLocator, snarlIndexes := [], chainIndexes := [] }


/-- A distance index around `exMaxIndex`, with the maximum index included. -/
def exMaxDistanceIndex : DistanceIndex :=
  { snarlDistances := [], chainDistances := [], nodeToSnarl := []
    minNodeID := 1, maxNodeID := 2
    maxIndex := exMaxIndex, include_maximum := true
    loc := exLocator, snarlIndexes := [], chainIndexes := [] }

/-- A distance index around `exMaxIndexSplit`, with the maximum index
included. -/
def exMaxDistanceIndexSplit : DistanceIndex :=
  { snarlDistances := [], chainDistances := [], nodeToSnarl := []
    minNodeID := 1, maxNodeID := 2
    maxIndex := exMaxIndexSplit, include_maximum := true
    loc := exLocator, snarlIndexes := [], chainIndexes := [] }

/-- Node-to-slot tables of the two snarls of `splitManager`. -/
def splitLocator : NodeLocator :=
  { primary_snarls := fun id =>
      if id = 1 then (0, 0) else if id = 2 then (0, 2)
      else if id = 3 then (1, 0) else (1, 2)
    secondary_snarls := fun _ => (0, 0)
    has_secondary_snarl := [] }

/-- The table of a two-node snarl with boundary nodes `a` and `b` of length
10 and slot number `slot`: the distance 0 from the end node reversed to the
start node reversed (cell 10). -/
def pairSnarl (a b : Int) (slot : Nat) : SnarlIndex :=
  { parent_index := 0, rev_in_parent := false, in_chain := false, num_nodes := 2
    distances := [11, 11, 0, 0, 0, 0, 0, 0, 0, 0, 1, 0]
    visitToIndex := [(a, 0), (b, 1)]
    snarlStart := (a, false), snarlEnd := (b, false), parent := (0, false)
    currSnarlAssignment := slot }

/-- A distance index of `splitGraph` as `load` would hold it. -/
def splitIndex : DistanceIndex :=
  { snarlDistances := [((1, false), pairSnarl 1 2 0), ((3, false), pairSnarl 3 4 1)]
    chainDistances := []
    nodeToSnarl := [2, 2, 6, 6]
    minNodeID := 1, maxNodeID := 4
    maxIndex := MaxDistanceIndex.empty, include_maximum := false
    loc := splitLocator, snarlIndexes := [], chainIndexes := [] }

/-! ## A snarl with a self-loop inside -/

/-- The graph `1 → 3 → 2` with the self-loop `3 → 3`; all nodes have length
10. -/
def loopGraph : HandleGraph :=
  { get_length := fun _ => 10
    follow_edges := fun s =>
      if s = (1, false) then [(3, false)]
      else if s = (3, false) then [(2, false), (3, false)]
      else if s = (2, true) then [(3, true)]
      else if s = (3, true) then [(1, true), (3, true)]
      else [] }

/-- The decomposition of `loopGraph`: the one top-level snarl `0 = (1 → 2)`,
in no chain. -/
def loopManager : SnarlManager :=
  { snarl := fun _ => { start := ⟨1, false⟩, end_ := ⟨2, false⟩ }
    parent_of := fun _ => none
    in_nontrivial_chain := fun _ => false
    chain_of := fun _ => 0
    chain_orientation_of := fun _ => false
    into_which_snarl := fun id rev =>
      if id = 1 ∧ rev = false then some 0
      else if id = 2 ∧ rev = true then some 0
      else none
    get_start_of := fun _ => ⟨1, false⟩
    get_end_of := fun _ => ⟨2, false⟩ }

/-- Node-to-slot tables of the snarl of `loopManager`: unit indices 0, 2, 4
for the nodes `1`, `3`, `2`. -/
def loopLocator : NodeLocator :=
  { primary_snarls := fun id =>
      if id = 1 then (0, 0) else if id = 3 then (0, 2) else (0, 4)
    secondary_snarls := fun _ => (0, 0)
    has_secondary_snarl := [] }

/-- The table of the snarl of `loopManager`: 6 slots, node lengths 10 in the
three leading cells, and the distance 0 from the end of node `3` to its own
start (cell 15), which is the self-loop. -/
def loopSnarl : SnarlIndex :=
  { parent_index := 0, rev_in_parent := false, in_chain := false, num_nodes := 3
    distances := [11, 11, 11, 0, 0, 0, 0, 0, 0, 0, 0, 0, 0, 0, 0, 1, 0, 0, 0, 0, 0, 0, 0, 0]
    visitToIndex := [(1, 0), (3, 1), (2, 2)]
    snarlStart := (1, false), snarlEnd := (2, false), parent := (0, false)
    currSnarlAssignment := 0 }

/-- The maximum index of `loopGraph` with cap 5: node `3` is on a cycle and
forms the cyclic component 1; nodes `1` and `2` are in acyclic components. -/
def loopMaxIndex : MaxDistanceIndex :=
  { nodeToComponent := [2, 3, 1], minDistances := [1, 1, 0], maxDistances := [1, 1, 0],
    numCycles := 1, cap := 5 }

/-- A distance index of `loopGraph` with its maximum index, as `load` would
hold it. -/
def loopIndex : DistanceIndex :=
  { snarlDistances := [((1, false), loopSnarl)]
    chainDistances := []
    nodeToSnarl := [2, 2, 2]
    minNodeID := 1, maxNodeID := 3
    maxIndex := loopMaxIndex, include_maximum := true
    loc := loopLocator, snarlIndexes := [], chainIndexes := [] }

/-- The table of `loopSnarl` with two more distances: 0 from the start node to
node `3` read forward (cell 4) and 0 from the end node read inward to node `3`
read backward (cell 22). -/
def endsSnarl : SnarlIndex :=
  { loopSnarl with
    distances := [11, 11, 11, 0, 1, 0, 0, 0, 0, 0, 0, 0, 0, 0, 0, 1, 0, 0, 0, 0, 0, 0, 1, 0] }

/-- A snarl `(1 → 2)` whose table holds the distance 5 from start to end, the
length 10 of the start node, and 0 in the length cell of the end node. -/
def noLengthSnarl : SnarlIndex :=
  { parent_index := 0, rev_in_parent := false, in_chain := false, num_nodes := 2
    distances := [11, 0, 0, 6, 0, 0, 0, 0, 0, 0, 0, 0]
    visitToIndex := [(1, 0), (2, 1)]
    snarlStart := (1, false), snarlEnd := (2, false), parent := (0, false)
    currSnarlAssignment := 0 }

/-! ## A circular chain -/

/-- The ring `1 → 2 → 3 → 4 → 1`; all nodes have length 10. -/
def ringGraph : HandleGraph :=
  { get_length := fun _ => 10
    follow_edges := fun s =>
      if s.2 = false then [(if s.1 = 4 then 1 else s.1 + 1, false)]
      else [(if s.1 = 1 then 4 else s.1 - 1, true)] }

/-- The decomposition of `ringGraph`: one circular chain of the four snarls
`0 = (1 → 2)`, `1 = (2 → 3)`, `2 = (3 → 4)`, `3 = (4 → 1)`, all read forward
in the chain. -/
def ringManager : SnarlManager :=
  { snarl := fun r =>
      if r = 0 then { start := ⟨1, false⟩, end_ := ⟨2, false⟩ }
      else if r = 1 then { start := ⟨2, false⟩, end_ := ⟨3, false⟩ }
      else if r = 2 then { start := ⟨3, false⟩, end_ := ⟨4, false⟩ }
      else { start := ⟨4, false⟩, end_ := ⟨1, false⟩ }
    parent_of := fun _ => none
    in_nontrivial_chain := fun _ => true
    chain_of := fun _ => 0
    chain_orientation_of := fun _ => false
    into_which_snarl := fun id rev =>
      if rev = false then (if 1 ≤ id ∧ id ≤ 4 then some (id - 1).toNat else none)
      else if id = 1 then some 3
      else if 2 ≤ id ∧ id ≤ 4 then some (id - 2).toNat
      else none
    get_start_of := fun _ => ⟨1, false⟩
    get_end_of := fun _ => ⟨1, false⟩ }

/-- The chain index of the ring: prefix sums 0, 10, 20, 30, 40 (stored plus
one), no loop anywhere (stored 0), and the first node is also the last. -/
def ringChain : ChainIndex :=
  { parent_index := 0, rev_in_parent := false
    prefixSum := [1, 11, 21, 31, 41]
    loopFd := [0, 0, 0, 0, 0], loopRev := [0, 0, 0, 0, 0]
    snarlToIndex := [(1, 0), (2, 1), (3, 2), (4, 3)]
    chainStartID := 1, chainEndID := 1, parent := (0, false) }

/-- The chain index of the ring with a turn-around stored at rank 1 (node
`2` left backward): `loopRev[1]` holds 31, the distance 30 plus one. -/
def ringTurnChain : ChainIndex := { ringChain with loopRev := [0, 31, 0, 0, 0] }

/-! ## Tables of the two snarls of the row, for the chain part of the builder -/

/-- A table of a snarl `(a → b)` without interior node, at slot `slot`: node
lengths 10 and six distance cells (stored plus one): the loop at the start
node read forward (cell 2), the distance start to end (cell 3), the loop at
the start node read backward (cell 6), the loop at the end node read forward
(cell 9), the distance end to start (cell 10), and the loop at the end node
read backward (cell 11). -/
def chainTable (a b : Int) (slot : Nat) (fdLoop thru revStart endLoop back revLoop : Nat) :
    SnarlIndex :=
  { parent_index := 0, rev_in_parent := false, in_chain := true, num_nodes := 2
    distances := [11, 11, fdLoop, thru, 0, 0, revStart, 0, 0, endLoop, back, revLoop]
    visitToIndex := [(a, 0), (b, 1)]
    snarlStart := (a, false), snarlEnd := (b, false), parent := (1, false)
    currSnarlAssignment := slot }

/-- The chain of `rowManager`: its two snarls, both read forward. -/
def rowChainSnarls : Chain := [(0, false), (1, false)]

/-- The two snarls of the row with their tables: each has the through
distance 0 in both directions and no loop. -/
def rowTables : List SnarlIndex :=
  [chainTable 1 2 0 0 1 0 0 1 0, chainTable 2 3 1 0 1 0 0 1 0]

/-- The snarls of `rowChainSnarls` paired with their tables. -/
def rowChainTables : List ((Snarl × Bool) × SnarlIndex) :=
  [((rowManager.snarl 0, false), chainTable 1 2 0 0 1 0 0 1 0),
   ((rowManager.snarl 1, false), chainTable 2 3 1 0 1 0 0 1 0)]

/-- The node-to-slot tables of the row with the snarl slot in both components:
what `primary_snarls[...].second` would have to hold for the loop passes to
pick the table of the snarl. -/
def rowLocatorSlots : Int → Nat := fun id => (rowLocator.primary_snarls id).1

/-- The index of the row with the map `m` as the id-to-index map of its first
snarl. -/
def rowIndexWithMap (m : IdMap) : DistanceIndex :=
  { rowIndex with
    snarlDistances :=
      [((1, false), { rowSnarl0 with visitToIndex := m }), ((2, false), rowSnarl1)] }

/-- A snarl `(1 → 2)` with the interior cycle `3 → 4 → 3`; node `3` has
length 10 and node `4` has length 2, and no unit has a loop. -/
def cycleEnv : DijkstraEnv :=
  { snarlStartID := 1, snarlStartRev := false, snarlEndID := 2, snarlEndRev := false
    currSnarlAssignment := 0
    loc :=
      { primary_snarls := fun id =>
          if id = 1 then (0, 0) else if id = 3 then (0, 2) else if id = 4 then (0, 4) else (0, 6)
        secondary_snarls := fun _ => (0, 0)
        has_secondary_snarl := [] }
    ngEdges := fun u =>
      if u = (1, false) then [(3, false)]
      else if u = (3, false) then [(4, false)]
      else if u = (4, false) then [(3, false), (2, false)]
      else []
    graphEdges := fun _ => []
    nodeLen := fun u => if u.1 = 4 then 2 else 10
    loopDist := fun _ => -1 }

/-- The state before the Dijkstra run from the unit `(3, false)` of
`cycleEnv`, with an empty table for four nodes. -/
def cycleInit : DijkstraState :=
  dijkstraInit (3, false) (SnarlIndex.new 0 false 8 false 0)

/-! ## A row of four nodes with a turn-around inside its first snarl -/

/-- Four nodes of length 10 in a row, `1 → 2 → 3 → 4`, and a node `5` of
length 4 inside the snarl `(1 → 2)` on which a walk that leaves node `2`
backwards turns around: `2 rev → 5 rev → 5 fwd → 2 fwd`. -/
def lineGraph : HandleGraph :=
  { get_length := fun id => if id = 5 then 4 else 10
    follow_edges := fun s =>
      if s = (1, false) then [(2, false), (5, false)]
      else if s = (2, false) then [(3, false)]
      else if s = (3, false) then [(4, false)]
      else if s = (4, true) then [(3, true)]
      else if s = (3, true) then [(2, true)]
      else if s = (2, true) then [(1, true), (5, true)]
      else if s = (5, true) then [(1, true), (5, false)]
      else if s = (5, false) then [(2, false)]
      else [] }

/-- The decomposition of `lineGraph`: the top-level chain `0` of the snarls
`0 = (1 → 2)`, `1 = (2 → 3)` and `2 = (3 → 4)`. -/
def lineManager : SnarlManager :=
  { snarl := fun r =>
      if r = 0 then { start := ⟨1, false⟩, end_ := ⟨2, false⟩ }
      else if r = 1 then { start := ⟨2, false⟩, end_ := ⟨3, false⟩ }
      else { start := ⟨3, false⟩, end_ := ⟨4, false⟩ }
    parent_of := fun _ => none
    in_nontrivial_chain := fun _ => true
    chain_of := fun _ => 0
    chain_orientation_of := fun _ => false
    into_which_snarl := fun id rev =>
      if id = 1 ∧ rev = false then some 0
      else if id = 2 ∧ rev = true then some 0
      else if id = 2 ∧ rev = false then some 1
      else if id = 3 ∧ rev = true then some 1
      else if id = 3 ∧ rev = false then some 2
      else if id = 4 ∧ rev = true then some 2
      else none
    get_start_of := fun _ => ⟨1, false⟩
    get_end_of := fun _ => ⟨4, false⟩ }

/-- The chain index of the chain of `lineManager`: prefix sums 0, 10, 20, 30,
no loop forwards, and the loop of length 4 backwards from node `2`. -/
def lineChain : ChainIndex :=
  { parent_index := 0, rev_in_parent := false
    prefixSum := [1, 11, 21, 31], loopFd := [0, 0, 0, 0], loopRev := [0, 5, 0, 0]
    snarlToIndex := [(1, 0), (2, 1), (3, 2), (4, 3)]
    chainStartID := 1, chainEndID := 4, parent := (0, false) }

/-- A distance index that holds the chain of `lineManager`. -/
def lineIndex : DistanceIndex :=
  { snarlDistances := [], chainDistances := [(1, lineChain)], nodeToSnarl := []
    minNodeID := 1, maxNodeID := 5
    maxIndex := MaxDistanceIndex.empty, include_maximum := false
    loc := rowLocator, snarlIndexes := [], chainIndexes := [] }

/-- The variables of the climb loop at the snarl `(2 → 3)`: the first
position is 3 away from the start of the snarl and cannot reach its end, the
second position is 6 away from the end and cannot reach the start. -/
def lineClimb : ClimbState :=
  { startID := 2, startRev := false, endID := 3, endRev := false
    distL1 := 3, distR1 := -1, distL2 := -1, distR2 := 6, shortestDistance := -1 }

/-- A snarl between the nodes `1` and `2` with the interior node `3`, entered
through node `2` backwards and left through node `1` backwards. -/
def backwardSnarl : Snarl := ⟨⟨2, true⟩, ⟨1, true⟩⟩

/-- The units of `backwardSnarl` and the locator tables after the snarl was
enumerated as the first snarl, reversed in its chain. -/
def backwardLocated : List Side × NodeLocator :=
  calculateMinIndex.locate backwardSnarl true [2, 3, 1] 0 (NodeLocator.initial 8)

/-- The units and the locator tables of the row `1 → 2 → 3` after its two
snarls `(1 → 2)` and `(2 → 3)` were enumerated in this order. -/
def rowLocated : List Side × NodeLocator :=
  calculateMinIndex.locate ⟨⟨2, false⟩, ⟨3, false⟩⟩ false [2, 3] 1
    (calculateMinIndex.locate ⟨⟨1, false⟩, ⟨2, false⟩⟩ false [1, 2] 0
      (NodeLocator.initial 8)).2

/-- The units and the locator tables of the first snarl `(1 → 2)` of the
row. -/
def rowFirstLocated : List Side × NodeLocator :=
  calculateMinIndex.locate ⟨⟨1, false⟩, ⟨2, false⟩⟩ false [1, 2] 0 (NodeLocator.initial 8)

theorem toInt32_of_range (x : Int) (h1 : -2 ^ 31 ≤ x) (h2 : x < 2 ^ 31) :
    toInt32 x = x := by
  unfold toInt32
  have : (x + 2 ^ 31) % 2 ^ 32 = x + 2 ^ 31 := by
    apply Int.emod_eq_of_lt <;> omega
  omega

theorem toInt32_range (x : Int) : -2 ^ 31 ≤ toInt32 x ∧ toInt32 x < 2 ^ 31 := by
  unfold toInt32
  have h1 : 0 ≤ (x + 2 ^ 31) % 2 ^ 32 := Int.emod_nonneg _ (by norm_num)
  have h2 : (x + 2 ^ 31) % 2 ^ 32 < 2 ^ 32 := Int.emod_lt_of_pos _ (by norm_num)
  constructor <;> omega

theorem toInt32_idem (x : Int) : toInt32 (toInt32 x) = toInt32 x :=
  toInt32_of_range _ (toInt32_range x).1 (toInt32_range x).2

theorem toInt64_of_lt (w : Nat) (h : w < 2 ^ 63) : toInt64 w = (w : Int) := by
  unfold toInt64
  have : w % 2 ^ 64 = w := Nat.mod_eq_of_lt (by omega)
  rw [this, if_pos h]

theorem toUInt64_of_nonneg (x : Int) (h0 : 0 ≤ x) (h : x < 2 ^ 64) :
    toUInt64 x = x.toNat := by
  unfold toUInt64
  rw [Int.emod_eq_of_lt h0 h]

/-! ## `minPos` -/

theorem minPos_eq_from (vals : List Int) : minPos vals = minPosFrom (-1) vals := rfl

theorem minPosFrom_cons (acc y : Int) (vals : List Int) :
    minPosFrom acc (y :: vals) = minPosFrom (minPosStep acc (toInt32 y)) vals := rfl

theorem minPosStep_ne (x y : Int) (h : x ≠ -1) : minPosStep x y ≠ -1 ∧ minPosStep x y ≤ x := by
  unfold minPosStep
  rw [if_neg h]
  by_cases hy : y = -1
  · rw [if_pos hy]; exact ⟨h, le_refl _⟩
  · rw [if_neg hy]
    constructor
    · intro hm
      rcases min_choice x y with h1 | h1 <;> rw [h1] at hm <;> contradiction
    · exact min_le_left _ _

/-- Once the accumulator is a distance, it stays one and never grows. -/
theorem minPosFrom_le (vals : List Int) (acc : Int) (h : acc ≠ -1) :
    minPosFrom acc vals ≠ -1 ∧ minPosFrom acc vals ≤ acc := by
  induction vals generalizing acc with
  | nil => exact ⟨h, le_refl _⟩
  | cons y ys ih =>
    rw [minPosFrom_cons]
    have hs := minPosStep_ne acc (toInt32 y) h
    have := ih _ hs.1
    exact ⟨this.1, le_trans this.2 hs.2⟩

theorem minPosStep_le_right (x y : Int) (h : y ≠ -1) :
    minPosStep x y ≠ -1 ∧ minPosStep x y ≤ y := by
  unfold minPosStep
  by_cases hx : x = -1
  · rw [if_pos hx]; exact ⟨h, le_refl _⟩
  · rw [if_neg hx, if_neg h]
    constructor
    · intro hm
      rcases min_choice x y with h1 | h1 <;> rw [h1] at hm <;> contradiction
    · exact min_le_right _ _

/-- An element that survives the narrowing and is a distance bounds the result
of `minPos` from above, and the result is then a distance. -/
theorem minPosFrom_le_mem (vals : List Int) (acc s : Int) (hs : s ∈ vals)
    (hne : toInt32 s ≠ -1) :
    minPosFrom acc vals ≠ -1 ∧ minPosFrom acc vals ≤ toInt32 s := by
  induction vals generalizing acc with
  | nil => cases hs
  | cons y ys ih =>
    rw [minPosFrom_cons]
    rcases List.mem_cons.mp hs with h | h
    · subst h
      have h1 := minPosStep_le_right acc (toInt32 s) hne
      have h2 := minPosFrom_le ys _ h1.1
      exact ⟨h2.1, le_trans h2.2 h1.2⟩
    · exact ih _ h

theorem minPos_le_mem (vals : List Int) (s : Int) (hs : s ∈ vals)
    (hne : toInt32 s ≠ -1) : minPos vals ≠ -1 ∧ minPos vals ≤ toInt32 s :=
  minPosFrom_le_mem vals (-1) s hs hne

theorem minPosStep_range (x y : Int) (hx : -2 ^ 31 ≤ x ∧ x < 2 ^ 31)
    (hy : -2 ^ 31 ≤ y ∧ y < 2 ^ 31) :
    -2 ^ 31 ≤ minPosStep x y ∧ minPosStep x y < 2 ^ 31 := by
  unfold minPosStep
  split_ifs
  · exact hy
  · exact hx
  · rcases min_choice x y with h1 | h1 <;> rw [h1] <;> assumption

theorem minPosFrom_range (vals : List Int) (acc : Int)
    (h : -2 ^ 31 ≤ acc ∧ acc < 2 ^ 31) :
    -2 ^ 31 ≤ minPosFrom acc vals ∧ minPosFrom acc vals < 2 ^ 31 := by
  induction vals generalizing acc with
  | nil => exact h
  | cons y ys ih =>
    rw [minPosFrom_cons]
    exact ih _ (minPosStep_range _ _ h (toInt32_range y))

/-- The result of `minPos` is an `int`. -/
theorem minPos_range (vals : List Int) :
    -2 ^ 31 ≤ minPos vals ∧ minPos vals < 2 ^ 31 :=
  minPosFrom_range vals (-1) (by norm_num)

/-- All elements `-1`: the result is `-1`. -/
theorem minPosFrom_all_neg (vals : List Int) (h : ∀ v ∈ vals, v = -1) :
    minPosFrom (-1) vals = -1 := by
  induction vals with
  | nil => rfl
  | cons y ys ih =>
    rw [minPosFrom_cons]
    have hy : y = -1 := h y (List.mem_cons_self _ _)
    subst hy
    have : minPosStep (-1) (toInt32 (-1)) = -1 := by decide
    rw [this]
    exact ih (fun v hv => h v (List.mem_cons_of_mem _ hv))

/-- The fold returns the accumulator or one of the narrowed elements. -/
theorem minPosFrom_mem (vals : List Int) (acc : Int) :
    minPosFrom acc vals = acc ∨ ∃ v ∈ vals, minPosFrom acc vals = toInt32 v := by
  induction vals generalizing acc with
  | nil => exact Or.inl rfl
  | cons y ys ih =>
    rw [minPosFrom_cons]
    rcases ih (minPosStep acc (toInt32 y)) with h | ⟨v, hv, h⟩
    · rw [h]
      unfold minPosStep
      split_ifs
      · exact Or.inr ⟨y, List.mem_cons_self _ _, rfl⟩
      · exact Or.inl rfl
      · rcases min_choice acc (toInt32 y) with h1 | h1 <;> rw [h1]
        · exact Or.inl rfl
        · exact Or.inr ⟨y, List.mem_cons_self _ _, rfl⟩
    · exact Or.inr ⟨v, List.mem_cons_of_mem _ hv, h⟩

/-- On distances that fit in an `int`, `minPos` is the minimum that skips
`-1`: it is `-1` exactly when every element is `-1`, and otherwise it is an
element different from `-1` that is below every other such element. -/
theorem minPos_spec_int32 (vals : List Int)
    (hr : ∀ v ∈ vals, -2 ^ 31 ≤ v ∧ v < 2 ^ 31) :
    ((∀ v ∈ vals, v = -1) → minPos vals = -1) ∧
    ((∃ v ∈ vals, v ≠ -1) →
      minPos vals ∈ vals ∧ minPos vals ≠ -1 ∧
      ∀ v ∈ vals, v ≠ -1 → minPos vals ≤ v) := by
  constructor
  · exact minPosFrom_all_neg vals
  · rintro ⟨w, hw, hwne⟩
    have hw32 : toInt32 w = w := toInt32_of_range w (hr w hw).1 (hr w hw).2
    have h1 := minPos_le_mem vals w hw (by rw [hw32]; exact hwne)
    refine ⟨?_, h1.1, ?_⟩
    · rcases minPosFrom_mem vals (-1) with h | ⟨v, hv, h⟩
      · exact absurd h h1.1
      · rw [minPos_eq_from, h, toInt32_of_range v (hr v hv).1 (hr v hv).2]
        exact hv
    · intro v hv hvne
      have hv32 : toInt32 v = v := toInt32_of_range v (hr v hv).1 (hr v hv).2
      have := minPos_le_mem vals v hv (by rw [hv32]; exact hvne)
      rw [hv32] at this
      exact this.2

/-- C4 (the code at the failing inputs): `minPos` narrows each 64-bit element
to `int`.  The one-element list `[2^32 + 5]` yields `5`, which is not an
element of the list, and `[2^32 - 1]`, whose element is not `-1`, yields
`-1`. -/
theorem minPos_narrows_to_int :
    minPos [4294967301] = 5 ∧ minPos [4294967295] = -1 := by
  constructor <;> decide

/-! ## The cell offset of `SnarlIndex::index` -/

theorem tri_succ (k : Nat) : tri (k + 1) = tri k + (k + 1) := by
  unfold tri
  have : (k + 1 + 1) * (k + 1) = (k + 1) * k + 2 * (k + 1) := by ring
  rw [this, Nat.add_mul_div_left _ _ (by norm_num : 0 < 2)]

theorem tri_mono {a b : Nat} (h : a ≤ b) : tri a ≤ tri b := by
  induction b with
  | zero =>
    have : a = 0 := by omega
    subst this; exact le_refl _
  | succ n ih =>
    rcases Nat.lt_or_ge a (n + 1) with h1 | h1
    · have := ih (by omega)
      rw [tri_succ]; omega
    · have : a = n + 1 := by omega
      subst this; exact le_refl _

theorem specOffset_eq_tri (L i1 i2 : Nat) :
    specOffset L i1 i2 = tri L - tri (L - i1) + (i2 - i1) + L / 2 := rfl

theorem tri_lt (L : Nat) (h : L < 2 ^ 32) : (L + 1) * L < 2 ^ 64 := by
  have h1 : L + 1 ≤ 2 ^ 32 := by omega
  calc (L + 1) * L ≤ 2 ^ 32 * L := Nat.mul_le_mul_right _ h1
    _ < 2 ^ 32 * 2 ^ 32 := by
        apply Nat.mul_lt_mul_of_pos_left h (by norm_num)
    _ = 2 ^ 64 := by norm_num

theorem usub_of_le (a b : Nat) (hb : b ≤ a) (ha : a < 2 ^ 64) : usub a b = a - b := by
  unfold usub
  rw [Nat.mod_eq_of_lt ha, Nat.mod_eq_of_lt (lt_of_le_of_lt hb ha)]
  have : a + (2 ^ 64 - b) = (a - b) + 2 ^ 64 := by omega
  rw [this, Nat.add_mod_right]
  exact Nat.mod_eq_of_lt (by omega)

theorem uadd_of_lt (a b : Nat) (h : a + b < 2 ^ 64) : uadd a b = a + b := by
  unfold uadd; exact Nat.mod_eq_of_lt h

theorem umul_of_lt (a b : Nat) (h : a * b < 2 ^ 64) : umul a b = a * b := by
  unfold umul; exact Nat.mod_eq_of_lt h

theorem wrap_offset (A B i1 i2 h : Nat) (hBA : B ≤ A) (hA : A < 2 ^ 63)
    (h12 : i1 ≤ i2) (hi2 : i2 < 2 ^ 32) (hh : h < 2 ^ 32) :
    uadd (usub (uadd (usub A B) i2) i1) h = A - B + (i2 - i1) + h := by
  have e1 : usub A B = A - B := usub_of_le A B hBA (by omega)
  have e2 : uadd (A - B) i2 = A - B + i2 := uadd_of_lt _ _ (by omega)
  have e3 : usub (A - B + i2) i1 = A - B + i2 - i1 :=
    usub_of_le _ _ (by omega) (by omega)
  have e4 : uadd (A - B + i2 - i1) h = A - B + i2 - i1 + h :=
    uadd_of_lt _ _ (by omega)
  rw [e1, e2, e3, e4]
  omega

/-- Without overflow, the machine computation of the offset is the formula. -/
theorem indexOffset_eq (n i1 i2 : Nat) (hn : n < 2 ^ 31) (h12 : i1 ≤ i2)
    (h2 : i2 < 2 * n) : indexOffset n i1 i2 = specOffset (2 * n) i1 i2 := by
  have hL : 2 * n < 2 ^ 32 := by omega
  have hA : (2 * n + 1) * (2 * n) < 2 ^ 64 := tri_lt _ hL
  have hk : 2 * n - i1 < 2 ^ 32 := by omega
  have hB : (2 * n - i1 + 1) * (2 * n - i1) < 2 ^ 64 := tri_lt _ hk
  have hBA : tri (2 * n - i1) ≤ tri (2 * n) := tri_mono (by omega)
  have htA : tri (2 * n) < 2 ^ 63 := by
    unfold tri
    apply Nat.div_lt_of_lt_mul
    have : 2 * 2 ^ 63 = 2 ^ 64 := by norm_num
    omega
  have e1 : umul n 2 = 2 * n := by
    rw [umul_of_lt _ _ (by omega)]; omega
  have e2 : uadd (2 * n) 1 = 2 * n + 1 := uadd_of_lt _ _ (by omega)
  have e3 : umul (2 * n + 1) (2 * n) = (2 * n + 1) * (2 * n) := umul_of_lt _ _ hA
  have e4 : usub (2 * n) i1 = 2 * n - i1 := usub_of_le _ _ (by omega) (by omega)
  have e5 : uadd (2 * n - i1) 1 = 2 * n - i1 + 1 := uadd_of_lt _ _ (by omega)
  have e6 : umul (2 * n - i1 + 1) (2 * n - i1) = (2 * n - i1 + 1) * (2 * n - i1) :=
    umul_of_lt _ _ hB
  unfold indexOffset
  simp only []
  rw [e1, e2, e3, e4, e5, e6]
  exact wrap_offset (tri (2 * n)) (tri (2 * n - i1)) i1 i2 (2 * n / 2) hBA htA h12
    (by omega) (by omega)

/-- The formula maps different ordered slot pairs to different cells. -/
theorem specOffset_lt_of_row_lt (L i1 i2 j1 j2 : Nat) (hi : i1 ≤ i2) (hi2 : i2 < L)
    (hj : j1 ≤ j2) (hlt : i1 < j1) :
    specOffset L i1 i2 < specOffset L j1 j2 := by
  rw [specOffset_eq_tri, specOffset_eq_tri]
  have h1 : tri (L - i1) = tri (L - i1 - 1) + (L - i1) := by
    have e : L - i1 - 1 + 1 = L - i1 := by omega
    have := tri_succ (L - i1 - 1)
    rw [e] at this
    exact this
  have h2 : tri (L - j1) ≤ tri (L - i1 - 1) := tri_mono (by omega)
  have h3 : tri (L - i1) ≤ tri L := tri_mono (by omega)
  omega

theorem specOffset_injective (L i1 i2 j1 j2 : Nat) (hi : i1 ≤ i2) (hi2 : i2 < L)
    (hj : j1 ≤ j2) (hj2 : j2 < L) (h : specOffset L i1 i2 = specOffset L j1 j2) :
    i1 = j1 ∧ i2 = j2 := by
  rcases Nat.lt_trichotomy i1 j1 with hlt | heq | hgt
  · have := specOffset_lt_of_row_lt L i1 i2 j1 j2 hi hi2 hj hlt
    omega
  · subst heq
    rw [specOffset_eq_tri, specOffset_eq_tri] at h
    exact ⟨rfl, by omega⟩
  · have := specOffset_lt_of_row_lt L j1 j2 i1 i2 hj hj2 hi hgt
    omega

/-! ## Claims on `SnarlIndex` -/

/-- C1 (the code at the failing input): `SnarlIndex::index` takes the unit
index of both sides from `start.first`, so the cell of `(a, b)` and the cell
of `(flip b, flip a)` differ as soon as the two nodes have different unit
indices: for `a = (1, forward)` and `b = (2, forward)` the cells are 5 and 20,
and `snarlDistanceShort` reads 3 from one and unreachable from the other. -/
theorem index_not_symmetric :
    exSnarl.index exLocator (1, false) (2, false) = 5 ∧
    exSnarl.index exLocator (flipSide (2, false)) (flipSide (1, false)) = 20 ∧
    exSnarl.snarlDistanceShort exLocator (1, false) (2, false) = some 3 ∧
    exSnarl.snarlDistanceShort exLocator (flipSide (2, false)) (flipSide (1, false))
      = some (-1) := by
  refine ⟨?_, ?_, ?_, ?_⟩ <;> decide

/-- C2: with `L = 2 * num_nodes` and the slots `i1 ≤ i2 < L` that
`SnarlIndex::index` derives for two sides, the returned offset is
`((L+1)*L)/2 - ((L-i1+1)*(L-i1))/2 + (i2 - i1) + L/2` and is at least `L/2`;
and two different ordered slot pairs below `L` never get the same offset.
The table is small enough for `size_t` (`num_nodes < 2^31`). -/
theorem index_formula_injective (loc : NodeLocator) (si : SnarlIndex) (L : Nat)
    (hL : L = 2 * si.num_nodes) (hn : si.num_nodes < 2 ^ 31) :
    (∀ a b : Side, (si.slots loc a b).1 ≤ (si.slots loc a b).2 →
      (si.slots loc a b).2 < L →
      si.index loc a b
        = ((L + 1) * L) / 2
          - ((L - (si.slots loc a b).1 + 1) * (L - (si.slots loc a b).1)) / 2
          + ((si.slots loc a b).2 - (si.slots loc a b).1) + L / 2
      ∧ L / 2 ≤ si.index loc a b) ∧
    (∀ i1 i2 j1 j2 : Nat, i1 ≤ i2 → i2 < L → j1 ≤ j2 → j2 < L →
      (i1, i2) ≠ (j1, j2) →
      indexOffset si.num_nodes i1 i2 ≠ indexOffset si.num_nodes j1 j2) := by
  subst hL
  constructor
  · intro a b h1 h2
    have := indexOffset_eq si.num_nodes _ _ hn h1 h2
    unfold SnarlIndex.index
    rw [this]
    unfold specOffset
    exact ⟨rfl, Nat.le_add_left _ _⟩
  · intro i1 i2 j1 j2 hi hi2 hj hj2 hne h
    rw [indexOffset_eq _ _ _ hn hi hi2, indexOffset_eq _ _ _ hn hj hj2] at h
    have := specOffset_injective _ _ _ _ _ hi hi2 hj hj2 h
    exact hne (by rw [this.1, this.2])

/-- Witness of C2: the snarl of `exSnarl` (8 slots); the sides `(1, forward)`,
`(2, forward)` have slots `(0, 1)` and cell 5, at least `L/2 = 4`, and the
slot pairs `(0, 1)` and `(1, 1)` have different cells. -/
theorem index_formula_injective_witness :
    exSnarl.num_nodes < 2 ^ 31 ∧
    (exSnarl.index exLocator (1, false) (2, false)
        = ((8 + 1) * 8) / 2
          - ((8 - (exSnarl.slots exLocator (1, false) (2, false)).1 + 1)
              * (8 - (exSnarl.slots exLocator (1, false) (2, false)).1)) / 2
          + ((exSnarl.slots exLocator (1, false) (2, false)).2
              - (exSnarl.slots exLocator (1, false) (2, false)).1) + 8 / 2
      ∧ 8 / 2 ≤ exSnarl.index exLocator (1, false) (2, false)) ∧
    indexOffset exSnarl.num_nodes 0 1 ≠ indexOffset exSnarl.num_nodes 1 1 :=
  ⟨by decide,
   (index_formula_injective exLocator exSnarl 8 (by decide) (by decide)).1
     (1, false) (2, false) (by decide) (by decide),
   (index_formula_injective exLocator exSnarl 8 (by decide) (by decide)).2
     0 1 1 1 (by decide) (by decide) (by decide) (by decide) (by decide)⟩

theorem toInt64_toUInt64 (d : Int) (h0 : 0 ≤ d) (h : d < 2 ^ 63) :
    toInt64 (toUInt64 d) = d := by
  rw [toUInt64_of_nonneg d h0 (by omega), toInt64_of_lt _ (by omega)]
  exact Int.toNat_of_nonneg h0

/-- Inside the vector: when the cell of `(a, b)` lies inside the distance vector,
`insertDistance(a, b, d)` with `0 ≤ d` (and `d + 1` an `int64_t`) succeeds and
`snarlDistanceShort(a, b)` then returns `d`; and in a freshly constructed
`SnarlIndex` every pair of sides whose cell lies inside the vector reads as
`-1`. -/
theorem insert_then_read (loc : NodeLocator) (si : SnarlIndex) (a b : Side) (d : Int)
    (hin : si.index loc a b < si.distances.length) (hd0 : 0 ≤ d)
    (hd : d + 1 < 2 ^ 63)
    (parentIndex size curr : Nat) (revInParent inChain : Bool) (a0 b0 : Side)
    (hin0 : (SnarlIndex.new parentIndex revInParent size inChain curr).index loc a0 b0
      < (SnarlIndex.new parentIndex revInParent size inChain curr).distances.length) :
    (∃ si2, si.insertDistance loc a b d = some si2 ∧
      si2.snarlDistanceShort loc a b = some d) ∧
    (SnarlIndex.new parentIndex revInParent size inChain curr).snarlDistanceShort
      loc a0 b0 = some (-1) := by
  constructor
  · refine ⟨{ si with distances := si.distances.set (si.index loc a b) (toUInt64 (d + 1)) },
      ?_, ?_⟩
    · unfold SnarlIndex.insertDistance
      simp only [if_pos hin]
    · unfold SnarlIndex.snarlDistanceShort
      have hidx : SnarlIndex.index loc
          { si with distances := si.distances.set (si.index loc a b) (toUInt64 (d + 1)) } a b
          = si.index loc a b := rfl
      rw [hidx]
      simp only [List.getElem?_set_self hin, Option.map_some']
      rw [toInt64_toUInt64 (d + 1) (by omega) hd]
      congr 1
      omega
  · unfold SnarlIndex.snarlDistanceShort
    rw [List.getElem?_eq_getElem hin0]
    have : (SnarlIndex.new parentIndex revInParent size inChain curr).distances[
        (SnarlIndex.new parentIndex revInParent size inChain curr).index loc a0 b0] = 0 := by
      unfold SnarlIndex.new
      simp only [List.getElem_replicate]
    rw [this]
    rfl

/-- An instance of `insert_then_read`: a fresh snarl index of 4 slots (12
cells), the sides of node `1`, whose cell 5 lies inside the vector, and the
distance 7. -/
theorem insert_then_read_witness :
    (∃ si2, (SnarlIndex.new 0 false 4 false 0).insertDistance exLocator
        (1, false) (2, false) 7 = some si2 ∧
      si2.snarlDistanceShort exLocator (1, false) (2, false) = some 7) ∧
    (SnarlIndex.new 0 false 4 false 0).snarlDistanceShort exLocator (1, false) (2, false)
      = some (-1) :=
  insert_then_read exLocator (SnarlIndex.new 0 false 4 false 0) (1, false) (2, false) 7
    (by decide) (by decide) (by decide) 0 4 0 false false (1, false) (2, false) (by decide)

/-! ## Claims on `MaxDistanceIndex::maxDistance` -/

/-- C8: when `node_to_component` differs for the two nodes, or the common
component number is at most `numCycles`, `maxDistance` returns `cap` (the
64-bit word `cap` read as `int64_t`, which is the number `cap` below `2^63`). -/
theorem maxDistance_returns_cap (g : HandleGraph) (minNodeID : Int)
    (mi : MaxDistanceIndex) (pos1 pos2 : Pos) (comp1 comp2 : Nat)
    (h1 : readVec mi.nodeToComponent (pos1.id - minNodeID) = some comp1)
    (h2 : readVec mi.nodeToComponent (pos2.id - minNodeID) = some comp2)
    (h : comp1 ≠ comp2 ∨ comp1 ≤ mi.numCycles) :
    mi.maxDistance g minNodeID pos1 pos2 = some (toInt64 mi.cap) ∧
    (mi.cap < 2 ^ 63 → mi.maxDistance g minNodeID pos1 pos2 = some (mi.cap : Int)) := by
  have hmain : mi.maxDistance g minNodeID pos1 pos2 = some (toInt64 mi.cap) := by
    unfold MaxDistanceIndex.maxDistance
    simp only [h1, h2, Option.bind_eq_bind, Option.some_bind, if_pos h]
    rfl
  exact ⟨hmain, fun hc => by rw [hmain, toInt64_of_lt _ hc]⟩

/-- Witness of C8: nodes `1` and `2` in different components, cap 5. -/
theorem maxDistance_returns_cap_witness :
    exMaxIndexSplit.maxDistance exGraph 1 ⟨1, false, 0⟩ ⟨2, false, 0⟩
      = some (toInt64 exMaxIndexSplit.cap) ∧
    (exMaxIndexSplit.cap < 2 ^ 63 →
      exMaxIndexSplit.maxDistance exGraph 1 ⟨1, false, 0⟩ ⟨2, false, 0⟩
        = some (exMaxIndexSplit.cap : Int)) :=
  maxDistance_returns_cap exGraph 1 exMaxIndexSplit ⟨1, false, 0⟩ ⟨2, false, 0⟩ 1 2
    (by decide) (by decide) (Or.inl (by decide))

theorem posLen_eq (g : HandleGraph) (pos : Pos) (ho : pos.offset ≤ g.get_length pos.id)
    (hl : g.get_length pos.id + 1 < 2 ^ 63) :
    posLen g pos
      = ((max pos.offset (g.get_length pos.id - pos.offset) + 1 : Nat) : Int) := by
  unfold posLen
  rw [usub_of_le _ _ ho (by omega)]
  have hm : max pos.offset (g.get_length pos.id - pos.offset) ≤ g.get_length pos.id :=
    max_le ho (Nat.sub_le _ _)
  rw [uadd_of_lt _ _ (by omega), toInt64_of_lt _ (by omega)]

/-- C9: when both nodes lie in one component numbered above `numCycles`,
`maxDistance` returns `len1 + len2 + max(d1, d2)` with
`len_i = max(offset_i, length(n_i) - offset_i) + 1`,
`d1 = max_dist[n1] - min_dist[n2]` and `d2 = max_dist[n2] - min_dist[n1]`,
each difference being 0 when it would be negative (the subtraction of natural
numbers).  The offsets lie within their nodes and the sum is an `int64_t`. -/
theorem maxDistance_acyclic (g : HandleGraph) (minNodeID : Int)
    (mi : MaxDistanceIndex) (pos1 pos2 : Pos) (comp max1 max2 min1 min2 : Nat)
    (hc1 : readVec mi.nodeToComponent (pos1.id - minNodeID) = some comp)
    (hc2 : readVec mi.nodeToComponent (pos2.id - minNodeID) = some comp)
    (hcomp : mi.numCycles < comp)
    (hmax1 : readVec mi.maxDistances (pos1.id - minNodeID) = some max1)
    (hmax2 : readVec mi.maxDistances (pos2.id - minNodeID) = some max2)
    (hmin1 : readVec mi.minDistances (pos1.id - minNodeID) = some min1)
    (hmin2 : readVec mi.minDistances (pos2.id - minNodeID) = some min2)
    (ho1 : pos1.offset ≤ g.get_length pos1.id)
    (ho2 : pos2.offset ≤ g.get_length pos2.id)
    (hsum : g.get_length pos1.id + 1 + (g.get_length pos2.id + 1) + max max1 max2
      < 2 ^ 63) :
    mi.maxDistance g minNodeID pos1 pos2
      = some (((max pos1.offset (g.get_length pos1.id - pos1.offset) + 1)
          + (max pos2.offset (g.get_length pos2.id - pos2.offset) + 1)
          + max (max1 - min2) (max2 - min1) : Nat) : Int) := by
  have hm1 : max pos1.offset (g.get_length pos1.id - pos1.offset) ≤ g.get_length pos1.id :=
    max_le ho1 (Nat.sub_le _ _)
  have hm2 : max pos2.offset (g.get_length pos2.id - pos2.offset) ≤ g.get_length pos2.id :=
    max_le ho2 (Nat.sub_le _ _)
  have hmx1 : max1 ≤ max max1 max2 := le_max_left _ _
  have hmx2 : max2 ≤ max max1 max2 := le_max_right _ _
  have hd : max (max1 - min2) (max2 - min1) ≤ max max1 max2 :=
    max_le (le_trans (Nat.sub_le _ _) hmx1) (le_trans (Nat.sub_le _ _) hmx2)
  have hnot : ¬ (comp ≠ comp ∨ comp ≤ mi.numCycles) := by
    intro h; rcases h with h | h
    · exact h rfl
    · omega
  have hd1 : (if max1 > min2 then usub max1 min2 else 0) = max1 - min2 := by
    split_ifs with hgt
    · exact usub_of_le _ _ (by omega) (by omega)
    · omega
  have hd2 : (if max2 > min1 then usub max2 min1 else 0) = max2 - min1 := by
    split_ifs with hgt
    · exact usub_of_le _ _ (by omega) (by omega)
    · omega
  unfold MaxDistanceIndex.maxDistance
  simp only [hc1, hc2, hmax1, hmax2, hmin1, hmin2, Option.bind_eq_bind, Option.some_bind,
    if_neg hnot, hd1, hd2]
  rw [posLen_eq g pos1 ho1 (by omega), posLen_eq g pos2 ho2 (by omega)]
  have hsumcast : (((max pos1.offset (g.get_length pos1.id - pos1.offset) + 1 : Nat) : Int)
      + ((max pos2.offset (g.get_length pos2.id - pos2.offset) + 1 : Nat) : Int))
      = (((max pos1.offset (g.get_length pos1.id - pos1.offset) + 1)
          + (max pos2.offset (g.get_length pos2.id - pos2.offset) + 1) : Nat) : Int) := by
    push_cast; ring
  rw [hsumcast, toUInt64_of_nonneg _ (Int.natCast_nonneg _) (by omega), Int.toNat_natCast,
    uadd_of_lt _ _ (by omega), toInt64_of_lt _ (by omega)]
  rfl

/-- Witness of C9: nodes `1` and `2` of length 10 in the acyclic component 1,
offsets 0 and 3. -/
theorem maxDistance_acyclic_witness :
    exMaxIndex.maxDistance exGraph 1 ⟨1, false, 0⟩ ⟨2, false, 3⟩
      = some (((max 0 (10 - 0) + 1) + (max 3 (10 - 3) + 1) + max (11 - 1) (1 - 11) : Nat) : Int) :=
  maxDistance_acyclic exGraph 1 exMaxIndex ⟨1, false, 0⟩ ⟨2, false, 3⟩ 1 11 1 11 1
    (by decide) (by decide) (by decide) (by decide) (by decide) (by decide) (by decide)
    (by decide) (by decide) (by decide)

/-- C10 (counterexample): with cap 5, two positions on nodes of one acyclic
component get `maxDistance = 11 + 8 + 10 = 29`, which is above the cap. -/
theorem maxDistance_above_cap :
    exMaxDistanceIndex.maxIndex.cap = 5 ∧
    exMaxDistanceIndex.maxDistance exGraph ⟨1, false, 0⟩ ⟨2, false, 3⟩ = some 29 ∧
    ¬ ((29 : Int) ≤ 5) := by
  refine ⟨rfl, ?_, ?_⟩ <;> decide

/-- C10 (amended): when the maximum index is included and the two nodes lie
in different components, or in a component numbered at most `numCycles`,
`DistanceIndex::maxDistance` returns a value that is at most the cap (the cap
being an `int64_t`). -/
theorem maxDistance_le_cap (idx : DistanceIndex) (g : HandleGraph) (pos1 pos2 : Pos)
    (comp1 comp2 : Nat) (hinc : idx.include_maximum = true)
    (h1 : readVec idx.maxIndex.nodeToComponent (pos1.id - idx.minNodeID) = some comp1)
    (h2 : readVec idx.maxIndex.nodeToComponent (pos2.id - idx.minNodeID) = some comp2)
    (h : comp1 ≠ comp2 ∨ comp1 ≤ idx.maxIndex.numCycles)
    (hcap : idx.maxIndex.cap < 2 ^ 63) :
    ∃ r, idx.maxDistance g pos1 pos2 = some r ∧ r ≤ (idx.maxIndex.cap : Int) := by
  refine ⟨(idx.maxIndex.cap : Int), ?_, le_refl _⟩
  unfold DistanceIndex.maxDistance
  rw [if_pos hinc]
  unfold MaxDistanceIndex.maxDistance
  simp only [h1, h2, Option.bind_eq_bind, Option.some_bind, if_pos h]
  rw [toInt64_of_lt _ hcap]
  rfl

/-- Witness of the amended C10: nodes `1` and `2` in different components,
cap 5. -/
theorem maxDistance_le_cap_witness :
    ∃ r, exMaxDistanceIndexSplit.maxDistance exGraph ⟨1, false, 0⟩ ⟨2, false, 0⟩ = some r ∧
      r ≤ (exMaxDistanceIndexSplit.maxIndex.cap : Int) :=
  maxDistance_le_cap exMaxDistanceIndexSplit exGraph ⟨1, false, 0⟩ ⟨2, false, 0⟩ 1 2
    rfl (by decide) (by decide) (Or.inl (by decide)) (by decide)

theorem ShortInv_minPos (B s : Int) (l : List Int) (hs : s ∈ l) (h : ShortInv B s) :
    ShortInv B (minPos l) := by
  obtain ⟨h1, h2, h3, h4⟩ := h
  have e : toInt32 s = s := toInt32_of_range s h3 h4
  have := minPos_le_mem l s hs (by rw [e]; exact h1)
  rw [e] at this
  exact ⟨this.1, le_trans this.2 h2, (minPos_range l).1, (minPos_range l).2⟩

theorem climbChain_short (idx : DistanceIndex) (g : HandleGraph) (sm : SnarlManager)
    (s : SnarlRef) (st st2 : ClimbState) (idx2 : DistanceIndex)
    (h : idx.climbChain g sm s st = some (st2, idx2)) :
    ∃ l, st.shortestDistance ∈ l ∧ st2.shortestDistance = minPos l := by
  unfold DistanceIndex.climbChain at h
  simp only [Option.bind_eq_bind, Option.bind_eq_some, Option.pure_def, Option.some.injEq,
    Prod.mk.injEq, Prod.exists] at h
  obtain ⟨cd, _, c1, cd1, _, d, cd2, _, c4, cd3, _, dsl, cd4, _, dsr, cd5, _, der, cd6, _,
    del, cd7, _, hst, _⟩ := h
  subst hst
  exact ⟨_, List.mem_cons_self _ _, rfl⟩

theorem climbSnarl_short (idx : DistanceIndex) (sm : SnarlManager)
    (p : SnarlRef) (st st2 : ClimbState) (idx2 : DistanceIndex)
    (h : idx.climbSnarl sm p st = some (st2, idx2)) :
    ∃ l, st.shortestDistance ∈ l ∧ st2.shortestDistance = minPos l := by
  unfold DistanceIndex.climbSnarl at h
  simp only [Option.bind_eq_bind, Option.bind_eq_some, Option.pure_def, Option.some.injEq,
    Prod.mk.injEq, Prod.exists] at h
  obtain ⟨kid, kb, sd, _, x1, _, x2, _, x3, _, l1, r1, sd1, _, l2, r2, sd2, _, hst, _⟩ := h
  subst hst
  exact ⟨_, by simp, rfl⟩

theorem atCommonAncestor_short (idx : DistanceIndex) (sm : SnarlManager) (ca : SnarlRef)
    (node1 node2 : Side) (dL1 dR1 dL2 dR2 chainDist s0 : Int) (st : ClimbState)
    (idx2 : DistanceIndex)
    (h : idx.atCommonAncestor sm ca node1 node2 dL1 dR1 dL2 dR2 chainDist s0
      = some (st, idx2)) :
    ∃ l, s0 ∈ l ∧ st.shortestDistance = minPos l := by
  unfold DistanceIndex.atCommonAncestor at h
  simp only [Option.bind_eq_bind, Option.bind_eq_some, Option.pure_def, Option.some.injEq,
    Prod.mk.injEq, Prod.exists] at h
  obtain ⟨kid, kb, sd, _, x1, _, x2, _, x3, _, x4, _, l1, r1, sd1, _, l2, r2, sd2, _, hst, _⟩ := h
  subst hst
  exact ⟨_, by simp, rfl⟩

/-- The climb loop keeps the invariant of `shortestDistance`. -/
theorem climb_short (g : HandleGraph) (sm : SnarlManager) (B : Int) (fuel : Nat) :
    ∀ (idx : DistanceIndex) (s : SnarlRef) (st : ClimbState) (r : Int)
      (idx2 : DistanceIndex),
      DistanceIndex.climb g sm fuel idx s st = some (r, idx2) →
      ShortInv B st.shortestDistance → ShortInv B r := by
  induction fuel with
  | zero => intro idx s st r idx2 h; simp [DistanceIndex.climb] at h
  | succ n ih =>
    intro idx s st r idx2 h hinv
    unfold DistanceIndex.climb at h
    cases h1 : (if sm.in_nontrivial_chain s = true then idx.climbChain g sm s st
        else some (st, idx)) with
    | none => rw [h1] at h; cases h
    | some p1 =>
      obtain ⟨st1, idx1⟩ := p1
      rw [h1] at h
      simp only [] at h
      have hinv1 : ShortInv B st1.shortestDistance := by
        by_cases hc : sm.in_nontrivial_chain s = true
        · rw [if_pos hc] at h1
          obtain ⟨l, hl, e⟩ := climbChain_short _ _ _ _ _ _ _ h1
          rw [e]; exact ShortInv_minPos B _ l hl hinv
        · rw [if_neg hc] at h1
          simp only [Option.some.injEq, Prod.mk.injEq] at h1
          rw [← h1.1]; exact hinv
      cases hp : sm.parent_of s with
      | none =>
        rw [hp] at h
        simp only [Option.some.injEq, Prod.mk.injEq] at h
        rw [← h.1]; exact hinv1
      | some p =>
        rw [hp] at h
        simp only [] at h
        cases h3 : idx1.climbSnarl sm p st1 with
        | none => rw [h3] at h; cases h
        | some p2 =>
          obtain ⟨st2, idx3⟩ := p2
          rw [h3] at h
          simp only [] at h
          obtain ⟨l, hl, e⟩ := climbSnarl_short _ _ _ _ _ _ h3
          exact ih _ _ _ _ _ h (by rw [e]; exact ShortInv_minPos B _ l hl hinv1)

/-- On two positions of one node and strand with `offset1 ≤ offset2`, whatever
`minDistance` returns is at most `offset2 - offset1`: the candidate
`offset2 - offset1 + 1` of the first lines stays in every later `minPos`, and
the last line subtracts 1. -/
theorem minDistanceIn_same_node_le (fuel : Nat) (idx : DistanceIndex) (g : HandleGraph)
    (sm : SnarlManager) (snarl1 snarl2 : Option SnarlRef) (pos1 pos2 : Pos) (r : Int)
    (idx2 : DistanceIndex) (hid : pos1.id = pos2.id) (hrev : pos1.is_rev = pos2.is_rev)
    (hoff : pos1.offset ≤ pos2.offset) (hsmall : pos2.offset + 1 < 2 ^ 31)
    (h : idx.minDistanceIn fuel g sm snarl1 snarl2 pos1 pos2 = some (r, idx2)) :
    r ≤ (pos2.offset : Int) - (pos1.offset : Int) := by
  have e1 : toInt64 pos1.offset = (pos1.offset : Int) := toInt64_of_lt _ (by omega)
  have e2 : toInt64 pos2.offset = (pos2.offset : Int) := toInt64_of_lt _ (by omega)
  have hs0 : pos1.id = pos2.id ∧ pos1.is_rev = pos2.is_rev ∧
      (pos1.offset : Int) ≤ (pos2.offset : Int) :=
    ⟨hid, hrev, by exact_mod_cast hoff⟩
  have hinv0 : ShortInv ((pos2.offset : Int) - (pos1.offset : Int) + 1)
      ((pos2.offset : Int) - (pos1.offset : Int) + 1) := by
    refine ⟨?_, le_refl _, ?_, ?_⟩ <;> omega
  unfold DistanceIndex.minDistanceIn at h
  simp only [e1, e2, if_pos hs0, Option.bind_eq_bind, Option.bind_eq_some, Prod.exists] at h
  obtain ⟨anc, _, ca, _, dL1, dR1, s1, idx1, _, dL2, dR2, s2, idx3, _, chainDist, idx4, _,
    h⟩ := h
  cases ca with
  | none =>
    simp only [Option.pure_def, Option.some.injEq, Prod.mk.injEq] at h
    rw [← h.1]
    have hne : ((pos2.offset : Int) - (pos1.offset : Int) + 1) ≠ -1 := by omega
    rw [if_neg hne]
    have hr : toInt32 ((pos2.offset : Int) - (pos1.offset : Int) + 1 - 1)
        = (pos2.offset : Int) - (pos1.offset : Int) + 1 - 1 :=
      toInt32_of_range _ (by omega) (by omega)
    have := minPos_le_mem
      [if chainDist = -1 then -1 else chainDist - 1,
        (pos2.offset : Int) - (pos1.offset : Int) + 1 - 1]
      ((pos2.offset : Int) - (pos1.offset : Int) + 1 - 1) (by simp)
      (by rw [hr]; omega)
    rw [hr] at this
    omega
  | some c =>
    simp only [] at h
    unfold DistanceIndex.minDistanceAtAncestor at h
    simp only [Option.bind_eq_bind, Option.bind_eq_some, Option.pure_def, Option.some.injEq,
      Prod.mk.injEq, Prod.exists] at h
    obtain ⟨a1, a2, a3, a4, a5, _, b1, b2, b3, b4, b5, _, st, idx6, hlca, sh, idx7, hclimb,
      hr, _⟩ := h
    obtain ⟨l, hl, e⟩ := atCommonAncestor_short _ _ _ _ _ _ _ _ _ _ _ _ _ hlca
    have hinv := climb_short g sm _ fuel _ _ _ _ _ hclimb
      (by rw [e]; exact ShortInv_minPos _ _ l hl hinv0)
    rw [← hr, if_neg hinv.1]
    have := hinv.2.1
    omega

/-! ## Positions on one node of a top-level snarl -/

theorem minPos_eq_of_lower (l : List Int) (s0 : Int) (hmem : s0 ∈ l) (h0 : 0 ≤ s0)
    (hall : ∀ v ∈ l, v = -1 ∨ (s0 ≤ v ∧ v < 2 ^ 31)) : minPos l = s0 := by
  have hr : ∀ v ∈ l, -2 ^ 31 ≤ v ∧ v < 2 ^ 31 := by
    intro v hv
    rcases hall v hv with h | h
    · subst h; norm_num
    · constructor <;> omega
  have hspec := (minPos_spec_int32 l hr).2 ⟨s0, hmem, by omega⟩
  obtain ⟨hin, hne, hle⟩ := hspec
  have h1 := hle s0 hmem (by omega)
  rcases hall _ hin with h | h
  · exact absurd h hne
  · omega

/-- A cell read through `snarlDistanceShort` is `-1` or a small distance when
all cells are small. -/
theorem snarlDistanceShort_range (loc : NodeLocator) (sd : SnarlIndex) (a b : Side)
    (x : Int) (hsmall : ∀ v ∈ sd.distances, v < 2 ^ 29)
    (h : sd.snarlDistanceShort loc a b = some x) : -1 ≤ x ∧ x < 2 ^ 29 := by
  unfold SnarlIndex.snarlDistanceShort at h
  simp only [Option.map_eq_some'] at h
  obtain ⟨v, hv, hx⟩ := h
  have hvm : v ∈ sd.distances := List.getElem?_mem hv
  have hlt := hsmall v hvm
  rw [toInt64_of_lt v (by omega)] at hx
  omega

theorem snarlDistanceShort_defined (loc : NodeLocator) (sd : SnarlIndex) (a b : Side)
    (hb : sd.index loc a b < sd.distances.length) :
    ∃ x, sd.snarlDistanceShort loc a b = some x := by
  unfold SnarlIndex.snarlDistanceShort
  rw [List.getElem?_eq_getElem hb]
  exact ⟨_, rfl⟩

theorem subscript_of_find (m : IdMap) (k : Int) (i : Nat) (h : m.find k = some i) :
    m.subscript k = (i, m) := by
  unfold IdMap.subscript
  rw [h]

/-- `nodeLength` of a node that is in `visitToIndex`, with its length cell
inside the vector, returns and leaves the snarl index as it is. -/
theorem nodeLength_defined (sd : SnarlIndex) (node : Int)
    (hv : ∃ i, sd.visitToIndex.find node = some i ∧ i < sd.distances.length) :
    ∃ len, sd.nodeLength node = some (len, sd) := by
  obtain ⟨i, hi, hlt⟩ := hv
  unfold SnarlIndex.nodeLength
  simp only [subscript_of_find _ _ _ hi, List.getElem?_eq_getElem hlt]
  exact ⟨_, rfl⟩

theorem snarlDistance_defined (loc : NodeLocator) (sd : SnarlIndex) (a b : Side)
    (hb : sd.index loc a b < sd.distances.length)
    (hv : ∃ i, sd.visitToIndex.find a.1 = some i ∧ i < sd.distances.length) :
    ∃ y, sd.snarlDistance loc a b = some (y, sd) := by
  obtain ⟨len, hlen⟩ := nodeLength_defined sd a.1 hv
  unfold SnarlIndex.snarlDistance
  simp only [List.getElem?_eq_getElem hb, hlen]
  split_ifs
  · exact ⟨_, rfl⟩
  · exact ⟨_, rfl⟩

/-- `distToEnds` returns, and leaves the snarl index as it is, when every cell
that `index` can name lies inside the vector and the two boundary nodes are in
`visitToIndex` with their length cells inside the vector. -/
theorem distToEnds_defined (loc : NodeLocator) (sd : SnarlIndex) (node : Int) (rev : Bool)
    (dL dR : Int) (hb : ∀ a b, sd.index loc a b < sd.distances.length)
    (hvS : ∃ i, sd.visitToIndex.find sd.snarlStart.1 = some i ∧ i < sd.distances.length)
    (hvE : ∃ i, sd.visitToIndex.find sd.snarlEnd.1 = some i ∧ i < sd.distances.length) :
    ∃ p, sd.distToEnds loc node rev dL dR = some (p, sd) := by
  obtain ⟨y1, h1⟩ := snarlDistance_defined loc sd sd.snarlStart (node, false) (hb _ _) hvS
  obtain ⟨y2, h2⟩ := snarlDistance_defined loc sd sd.snarlStart (node, true) (hb _ _) hvS
  obtain ⟨y3, h3⟩ := snarlDistance_defined loc sd (sd.snarlEnd.1, !sd.snarlEnd.2)
    (node, true) (hb _ _) hvE
  obtain ⟨y4, h4⟩ := snarlDistance_defined loc sd (sd.snarlEnd.1, !sd.snarlEnd.2)
    (node, false) (hb _ _) hvE
  unfold SnarlIndex.distToEnds
  simp only [h1, h2, h3, h4, Option.bind_eq_bind, Option.some_bind, Option.pure_def]
  exact ⟨_, rfl⟩

theorem addDist3_left (b d : Int) : addDist3 (-1) b d = -1 := by
  unfold addDist3; simp

theorem addDist3_mid (a d : Int) : addDist3 a (-1) d = -1 := by
  unfold addDist3; simp

theorem addDist3_lower (a b d : Int) (hd : -1 ≤ d) :
    addDist3 a b d = -1 ∨ a + b ≤ addDist3 a b d := by
  unfold addDist3
  split_ifs with h
  · exact Or.inl rfl
  · right
    have : d ≠ -1 := fun h1 => h (Or.inr (Or.inr h1))
    omega

/-- The step at the common ancestor, for two positions of one node and strand
in a snarl whose lookups are defined: `shortestDistance` stays the same-node
candidate. -/
theorem atCommonAncestor_same_node (idx : DistanceIndex) (g : HandleGraph)
    (sm : SnarlManager) (ca : SnarlRef) (pos1 pos2 : Pos) (key : Side) (sd : SnarlIndex)
    (hid : pos1.id = pos2.id) (hrev : pos1.is_rev = pos2.is_rev)
    (hoff : pos1.offset ≤ pos2.offset) (hlen : pos2.offset < g.get_length pos2.id)
    (hlen2 : g.get_length pos2.id < 2 ^ 29)
    (hfind : idx.findSnarl2 ((sm.snarl ca).start.node_id, (sm.snarl ca).start.backward)
      ((sm.snarl ca).end_.node_id, !(sm.snarl ca).end_.backward) = some (key, sd))
    (hb : ∀ a b, sd.index idx.loc a b < sd.distances.length)
    (hvS : ∃ i, sd.visitToIndex.find sd.snarlStart.1 = some i ∧ i < sd.distances.length)
    (hvE : ∃ i, sd.visitToIndex.find sd.snarlEnd.1 = some i ∧ i < sd.distances.length)
    (hsmall : ∀ v ∈ sd.distances, v < 2 ^ 29) :
    ∃ st, idx.atCommonAncestor sm ca (pos1.id, false) (pos2.id, false)
        (if pos1.is_rev then (g.get_length pos1.id : Int) - pos1.offset else -1)
        (if pos1.is_rev then -1 else (g.get_length pos1.id : Int) - pos1.offset)
        (if pos2.is_rev then -1 else (pos2.offset : Int) + 1)
        (if pos2.is_rev then (pos2.offset : Int) + 1 else -1)
        (-1) ((pos2.offset : Int) - pos1.offset + 1)
      = some (st, idx.setSnarl key sd) ∧
      st.shortestDistance = (pos2.offset : Int) - pos1.offset + 1 := by
  obtain ⟨x1, hx1⟩ := snarlDistanceShort_defined idx.loc sd (pos1.id, false)
    (pos2.id, false) (hb _ _)
  obtain ⟨x2, hx2⟩ := snarlDistanceShort_defined idx.loc sd (pos1.id, false)
    (pos2.id, !false) (hb _ _)
  obtain ⟨x3, hx3⟩ := snarlDistanceShort_defined idx.loc sd (pos1.id, !false)
    (pos2.id, false) (hb _ _)
  obtain ⟨x4, hx4⟩ := snarlDistanceShort_defined idx.loc sd (pos1.id, !false)
    (pos2.id, !false) (hb _ _)
  have r1 := snarlDistanceShort_range _ _ _ _ _ hsmall hx1
  have r4 := snarlDistanceShort_range _ _ _ _ _ hsmall hx4
  obtain ⟨p1, hp1⟩ := distToEnds_defined idx.loc sd pos1.id false
    (if pos1.is_rev then (g.get_length pos1.id : Int) - pos1.offset else -1)
    (if pos1.is_rev then -1 else (g.get_length pos1.id : Int) - pos1.offset) hb hvS hvE
  obtain ⟨p2, hp2⟩ := distToEnds_defined idx.loc sd pos2.id false
    (if pos2.is_rev then -1 else (pos2.offset : Int) + 1)
    (if pos2.is_rev then (pos2.offset : Int) + 1 else -1) hb hvS hvE
  obtain ⟨l1, rr1⟩ := p1
  obtain ⟨l2, rr2⟩ := p2
  unfold DistanceIndex.atCommonAncestor
  simp only [hfind, hx1, hx2, hx3, hx4, hp1, hp2, Option.bind_eq_bind, Option.some_bind,
    Option.pure_def]
  refine ⟨_, rfl, ?_⟩
  simp only []
  apply minPos_eq_of_lower
  · simp
  · omega
  · intro v hv
    have hlen1 : (g.get_length pos1.id : Int) = g.get_length pos2.id := by rw [hid]
    simp only [List.mem_cons, List.mem_singleton, List.not_mem_nil, or_false] at hv
    cases hr1 : pos1.is_rev with
    | false =>
      have hr2 : pos2.is_rev = false := by rw [← hrev]; exact hr1
      simp only [hr1, hr2, addDist3_left, addDist3_mid, Bool.false_eq_true, if_false] at hv
      rcases hv with h | h | h | h | h | h
      · rcases addDist3_lower ((g.get_length pos1.id : Int) - pos1.offset)
          ((pos2.offset : Int) + 1) x1 r1.1 with h1 | h1
        · left; rw [h, h1]
        · right
          rw [h]
          constructor
          · omega
          · unfold addDist3 at h1 ⊢
            split_ifs
            · norm_num
            · omega
      · exact Or.inl h
      · exact Or.inl h
      · exact Or.inl h
      · exact Or.inl h
      · right; rw [h]; constructor <;> omega
    | true =>
      have hr2 : pos2.is_rev = true := by rw [← hrev]; exact hr1
      simp only [hr1, hr2, addDist3_left, addDist3_mid, if_true] at hv
      rcases hv with h | h | h | h | h | h
      · exact Or.inl h
      · exact Or.inl h
      · exact Or.inl h
      · rcases addDist3_lower ((g.get_length pos1.id : Int) - pos1.offset)
          ((pos2.offset : Int) + 1) x4 r4.1 with h1 | h1
        · left; rw [h, h1]
        · right
          rw [h]
          constructor
          · omega
          · unfold addDist3 at h1 ⊢
            split_ifs
            · norm_num
            · omega
      · exact Or.inl h
      · right; rw [h]; constructor <;> omega

theorem wrap64_of_nonneg (x : Int) (h0 : 0 ≤ x) (h : x < 2 ^ 63) : wrap64 x = x :=
  toInt64_toUInt64 x h0 h

/-- `distToCommonAncestor` on a snarl that has the start visit of the common
ancestor returns at once, with the two distances inside the node. -/
theorem distToCommonAncestor_at_ancestor (fuel : Nat) (idx : DistanceIndex)
    (g : HandleGraph) (sm : SnarlManager) (s ca : SnarlRef) (pos : Pos) (rev : Bool)
    (hsame : sameStart sm s ca = true) :
    idx.distToCommonAncestor fuel g sm (some s) (some ca) pos rev
      = some (((if rev = pos.is_rev then -1
                else if pos.is_rev then wrap64 ((g.get_length pos.id : Int) - toInt64 pos.offset)
                else toInt64 pos.offset + 1,
                if rev = pos.is_rev then
                  (if pos.is_rev then toInt64 pos.offset + 1
                   else wrap64 ((g.get_length pos.id : Int) - toInt64 pos.offset))
                else -1), s), idx) := by
  unfold DistanceIndex.distToCommonAncestor
  simp only [hsame, Option.bind_eq_bind, Option.some_bind, if_true, Option.pure_def]

/-- Two positions of one node and strand, `offset1 ≤ offset2`, on a node of a
top-level snarl that is in no chain and whose table lookups are defined:
`minDistance` returns `offset2 - offset1`, with any fuel of at least 1. -/
theorem minDistanceIn_same_node_top (fuel : Nat) (idx : DistanceIndex) (g : HandleGraph)
    (sm : SnarlManager) (ca : SnarlRef) (pos1 pos2 : Pos) (key : Side) (sd : SnarlIndex)
    (hid : pos1.id = pos2.id) (hrev : pos1.is_rev = pos2.is_rev)
    (hoff : pos1.offset ≤ pos2.offset) (hlen : pos2.offset < g.get_length pos2.id)
    (hlen2 : g.get_length pos2.id < 2 ^ 29)
    (hpar : sm.parent_of ca = none) (hch : sm.in_nontrivial_chain ca = false)
    (hfind : idx.findSnarl2 ((sm.snarl ca).start.node_id, (sm.snarl ca).start.backward)
      ((sm.snarl ca).end_.node_id, !(sm.snarl ca).end_.backward) = some (key, sd))
    (hb : ∀ a b, sd.index idx.loc a b < sd.distances.length)
    (hvS : ∃ i, sd.visitToIndex.find sd.snarlStart.1 = some i ∧ i < sd.distances.length)
    (hvE : ∃ i, sd.visitToIndex.find sd.snarlEnd.1 = some i ∧ i < sd.distances.length)
    (hsmall : ∀ v ∈ sd.distances, v < 2 ^ 29) :
    idx.minDistanceIn (fuel + 1) g sm (some ca) (some ca) pos1 pos2
      = some ((pos2.offset : Int) - pos1.offset, idx.setSnarl key sd) := by
  have e1 : toInt64 pos1.offset = (pos1.offset : Int) := toInt64_of_lt _ (by omega)
  have e2 : toInt64 pos2.offset = (pos2.offset : Int) := toInt64_of_lt _ (by omega)
  have hs0 : pos1.id = pos2.id ∧ pos1.is_rev = pos2.is_rev ∧
      (pos1.offset : Int) ≤ (pos2.offset : Int) :=
    ⟨hid, hrev, by exact_mod_cast hoff⟩
  have hlen1 : g.get_length pos1.id = g.get_length pos2.id := by rw [hid]
  have w1 : wrap64 ((g.get_length pos1.id : Int) - (pos1.offset : Int))
      = (g.get_length pos1.id : Int) - (pos1.offset : Int) :=
    wrap64_of_nonneg _ (by omega) (by omega)
  have hanc : ancestorsOf sm (fuel + 1) (some ca)
      = some [((sm.snarl ca).start.node_id, (sm.snarl ca).start.backward)] := by
    unfold ancestorsOf
    rw [hpar]
    cases fuel <;> rfl
  have hca : findCommonAncestor sm
      [((sm.snarl ca).start.node_id, (sm.snarl ca).start.backward)] (fuel + 1) (some ca)
      = some (some ca) := by
    unfold findCommonAncestor
    simp
  have hsame : sameStart sm ca ca = true := by
    unfold sameStart; simp
  obtain ⟨st, hst, hshort⟩ := atCommonAncestor_same_node idx g sm ca pos1 pos2 key sd hid
    hrev hoff hlen hlen2 hfind hb hvS hvE hsmall
  have hclimb : DistanceIndex.climb g sm (fuel + 1) (idx.setSnarl key sd) ca st
      = some (st.shortestDistance, idx.setSnarl key sd) := by
    unfold DistanceIndex.climb
    simp only [hch, hpar, Bool.false_eq_true, if_false]
  have hne : ¬ (some ca ≠ some ca) := fun h => h rfl
  have hscd : ∀ (n1 n2 t1 t2 : Side) (a b c d : Int),
      idx.sameChainDist g sm (some ca) ca ca n1 n2 t1 t2 a b c d = some (-1, idx) := by
    intro n1 n2 t1 t2 a b c d
    unfold DistanceIndex.sameChainDist
    rw [if_neg (fun h => h.1 rfl)]
    rfl
  have hd : (decide (ca ≠ ca) && sm.in_nontrivial_chain ca) = false := by simp
  have hdist1 : idx.distToCommonAncestor (fuel + 1) g sm (some ca) (some ca) pos1 false
      = some (((if pos1.is_rev then (g.get_length pos1.id : Int) - pos1.offset else -1,
          if pos1.is_rev then -1 else (g.get_length pos1.id : Int) - pos1.offset), ca),
          idx) := by
    rw [distToCommonAncestor_at_ancestor _ _ _ _ _ _ _ _ hsame, e1, w1]
    cases pos1.is_rev <;> simp
  have hdist2 : idx.distToCommonAncestor (fuel + 1) g sm (some ca) (some ca) pos2 true
      = some (((if pos2.is_rev then -1 else (pos2.offset : Int) + 1,
          if pos2.is_rev then (pos2.offset : Int) + 1 else -1), ca), idx) := by
    rw [distToCommonAncestor_at_ancestor _ _ _ _ _ _ _ _ hsame, e2]
    cases pos2.is_rev <;> simp
  unfold DistanceIndex.minDistanceIn
  simp only [e1, e2, if_pos hs0, hanc, hca, hdist1, hdist2, Option.bind_eq_bind,
    Option.some_bind, if_neg hne, hscd]
  unfold DistanceIndex.minDistanceAtAncestor DistanceIndex.toChainEndsIf
  simp only [hd, Bool.false_eq_true, if_false, Option.bind_eq_bind, Option.some_bind, hst,
    hclimb, Option.pure_def, hshort]
  have : ¬ ((pos2.offset : Int) - pos1.offset + 1 = -1) := by omega
  rw [if_neg this]
  congr 2
  omega

/-- Every cell that `index` can name for the first snarl of `splitIndex` lies
inside its 12-cell vector. -/
theorem pairSnarl_index_lt (a b : Side) :
    (pairSnarl 1 2 0).index splitIndex.loc a b < (pairSnarl 1 2 0).distances.length := by
  obtain ⟨ida, ra⟩ := a
  obtain ⟨idb, rb⟩ := b
  have hN : (pairSnarl 1 2 0).nodeIndex splitIndex.loc ida = 0 ∨
      (pairSnarl 1 2 0).nodeIndex splitIndex.loc ida = 2 := by
    unfold SnarlIndex.nodeIndex
    simp only [splitIndex, splitLocator, pairSnarl]
    split_ifs <;> simp
  unfold SnarlIndex.index SnarlIndex.slots
  simp only []
  rcases hN with h | h <;> rw [h] <;> cases ra <;> cases rb <;> decide

theorem findSnarl2_empty (idx : DistanceIndex) (h : idx.snarlDistances = []) (a b : Side) :
    idx.findSnarl2 a b = none := by
  unfold DistanceIndex.findSnarl2 DistanceIndex.findSnarl
  rw [h]; rfl

theorem chainAt_empty (idx : DistanceIndex) (h : idx.chainDistances = []) (k : Int) :
    idx.chainAt k = none := by
  unfold DistanceIndex.chainAt
  rw [h]; rfl

/-- With an empty `snarlDistances`, `distToCommonAncestor` can only return at
its first `return`, and it returns the index as it got it. -/
theorem distToCommonAncestor_empty (fuel : Nat) (idx : DistanceIndex) (g : HandleGraph)
    (sm : SnarlManager) (snarl ca : Option SnarlRef) (pos : Pos) (rev : Bool)
    (h : idx.snarlDistances = [])
    (r : ((Int × Int) × SnarlRef) × DistanceIndex)
    (hr : idx.distToCommonAncestor fuel g sm snarl ca pos rev = some r) :
    r.2 = idx ∧ ca ≠ none := by
  unfold DistanceIndex.distToCommonAncestor at hr
  cases snarl with
  | none => simp at hr
  | some s =>
    cases ca with
    | none => simp [findSnarl2_empty idx h] at hr
    | some c =>
      refine ⟨?_, by simp⟩
      by_cases hsame : sameStart sm s c = true
      · simp only [hsame, Option.bind_eq_bind, Option.some_bind, if_true, Option.pure_def,
          Option.some.injEq] at hr
        rw [← hr]
      · simp [hsame, findSnarl2_empty idx h] at hr

theorem toChainEndsIf_empty (idx : DistanceIndex) (g : HandleGraph) (sm : SnarlManager)
    (c : Bool) (s : SnarlRef) (n e : Side) (dL dR : Int) (h : idx.chainDistances = [])
    (r : (Int × Int) × Side × DistanceIndex)
    (hr : idx.toChainEndsIf g sm c s n e dL dR = some r) : r.2.2 = idx := by
  unfold DistanceIndex.toChainEndsIf at hr
  by_cases hcond : c = true
  · rw [if_pos hcond] at hr
    unfold DistanceIndex.toChainEnds at hr
    simp [chainAt_empty idx h] at hr
  · rw [if_neg hcond] at hr
    simp only [Option.some.injEq] at hr
    rw [← hr]

theorem sameChainDist_empty (idx : DistanceIndex) (g : HandleGraph) (sm : SnarlManager)
    (ca : Option SnarlRef) (s1 s2 : SnarlRef) (n1 n2 t1 t2 : Side) (a b c d : Int)
    (h : idx.chainDistances = []) (r : Int × DistanceIndex)
    (hr : idx.sameChainDist g sm ca s1 s2 n1 n2 t1 t2 a b c d = some r) : r.2 = idx := by
  unfold DistanceIndex.sameChainDist at hr
  by_cases hcond : some s1 ≠ ca ∧ some s2 ≠ ca ∧ sm.in_nontrivial_chain s1 = true ∧
      sm.in_nontrivial_chain s2 = true ∧ sm.chain_of s1 = sm.chain_of s2
  · rw [if_pos hcond] at hr
    simp [chainAt_empty idx h] at hr
  · rw [if_neg hcond] at hr
    simp only [Option.pure_def, Option.some.injEq] at hr
    rw [← hr]

theorem atCommonAncestor_empty (idx : DistanceIndex) (sm : SnarlManager) (ca : SnarlRef)
    (n1 n2 : Side) (a b c d cd s0 : Int) (h : idx.snarlDistances = []) :
    idx.atCommonAncestor sm ca n1 n2 a b c d cd s0 = none := by
  unfold DistanceIndex.atCommonAncestor
  simp [findSnarl2_empty idx h]

/-- With empty `snarlDistances` and `chainDistances`, the four-argument
`minDistance` has no result. -/
theorem minDistanceIn_empty (fuel : Nat) (idx : DistanceIndex) (g : HandleGraph)
    (sm : SnarlManager) (snarl1 snarl2 : Option SnarlRef) (pos1 pos2 : Pos)
    (hs : idx.snarlDistances = []) (hc : idx.chainDistances = []) :
    idx.minDistanceIn fuel g sm snarl1 snarl2 pos1 pos2 = none := by
  cases hres : idx.minDistanceIn fuel g sm snarl1 snarl2 pos1 pos2 with
  | none => rfl
  | some res =>
    exfalso
    unfold DistanceIndex.minDistanceIn at hres
    simp only [Option.bind_eq_bind, Option.bind_eq_some] at hres
    obtain ⟨anc, _, ca, _, r1, h1, r2, h2, r3, h3, h4⟩ := hres
    have k1 := distToCommonAncestor_empty _ _ _ _ _ _ _ _ hs r1 h1
    have hs1 : r1.2.snarlDistances = [] := by rw [k1.1]; exact hs
    have k2 := distToCommonAncestor_empty _ _ _ _ _ _ _ _ hs1 r2 h2
    have e2 : r2.2 = idx := by rw [k2.1, k1.1]
    have hc2 : r2.2.chainDistances = [] := by rw [e2]; exact hc
    have k3 := sameChainDist_empty _ _ _ _ _ _ _ _ _ _ _ _ _ _ hc2 r3 h3
    have e3 : r3.2 = idx := by rw [k3, e2]
    cases ca with
    | none => exact k1.2 rfl
    | some c =>
      simp only [] at h4
      unfold DistanceIndex.minDistanceAtAncestor at h4
      simp only [Option.bind_eq_bind, Option.bind_eq_some] at h4
      obtain ⟨q1, g1, q2, g2, q3, g3, _⟩ := h4
      have m1 := toChainEndsIf_empty _ _ _ _ _ _ _ _ _ (by rw [e3]; exact hc) q1 g1
      have m2 := toChainEndsIf_empty _ _ _ _ _ _ _ _ _
        (by rw [m1, e3]; exact hc) q2 g2
      have e5 : q2.2.2 = idx := by rw [m2, m1, e3]
      rw [atCommonAncestor_empty _ _ _ _ _ _ _ _ _ _ _ (by rw [e5]; exact hs)] at g3
      cases g3

/-- C7 (the code on a built index): whatever `calculateMinIndex` puts into the
tables it fills, the index that the constructor leaves has empty
`snarlDistances`, `chainDistances` and `nodeToSnarl`, and on it neither
`minDistance(pos1, pos2)` nor `minDistance(snarl1, snarl2, pos1, pos2)` has a
result, for any graph, decomposition, positions and fuel; on the row graph
`1 → 2 → 3` the shortest walk from `(1, 0)` to `(3, 0)` has length 20. -/
theorem minDistance_undefined_on_constructed :
    (∀ (loc : NodeLocator) (snarlIndexes : List SnarlIndex) (chainIndexes : List ChainIndex)
      (maxIndex : MaxDistanceIndex) (incl : Bool) (minID maxID : Int) (fuel : Nat)
      (g : HandleGraph) (sm : SnarlManager) (pos1 pos2 : Pos),
      (DistanceIndex.constructed loc snarlIndexes chainIndexes maxIndex incl minID
        maxID).minDistance fuel g sm pos1 pos2 = none ∧
      ∀ snarl1 snarl2 : Option SnarlRef,
        (DistanceIndex.constructed loc snarlIndexes chainIndexes maxIndex incl minID
          maxID).minDistanceIn fuel g sm snarl1 snarl2 pos1 pos2 = none) ∧
    specShortestWalk rowGraph [1, 2, 3] ⟨1, false, 0⟩ ⟨3, false, 0⟩ = some 20 := by
  refine ⟨?_, by decide⟩
  intro loc snarlIndexes chainIndexes maxIndex incl minID maxID fuel g sm pos1 pos2
  constructor
  · unfold DistanceIndex.minDistance DistanceIndex.snarlOf readVec
    simp [DistanceIndex.constructed]
  · intro snarl1 snarl2
    exact minDistanceIn_empty fuel _ g sm snarl1 snarl2 pos1 pos2 rfl rfl

/-! ## C11: the maximum distance against the minimum distance -/

/-- C11 (failing input): on the graph `1 → 3 → 2` with a self-loop at
node `3` and cap 5, the minimum distance from offset 5 to offset 2 of node
`3` is 7 (the walk leaves the node, takes the self-loop and comes back; it is
the shortest walk), and `maxDistance` of the same two positions is the cap 5:
the block of `DistanceIndex::maxDistance` that returns the minimum distance
when it reaches the cap is commented out, so the upper bound is below the
minimum distance. -/
theorem maxDistance_below_minDistance :
    (loopIndex.minDistance 3 loopGraph loopManager ⟨3, false, 5⟩ ⟨3, false, 2⟩).map
        Prod.fst = some 7 ∧
    loopIndex.maxDistance loopGraph ⟨3, false, 5⟩ ⟨3, false, 2⟩ = some 5 ∧
    specShortestWalk loopGraph [1, 2, 3] ⟨3, false, 5⟩ ⟨3, false, 2⟩ = some 7 ∧
    loopIndex.include_maximum = true ∧ loopIndex.maxIndex.cap = 5 ∧
    ¬ ((5 : Int) ≥ 7) := by
  refine ⟨by decide, by decide, by decide, rfl, rfl, by decide⟩

/-! ## C12, C13: `snarlLength` and `snarlDistance` -/

/-- A stored word decodes to `-1` exactly when it is 0. -/
theorem toInt64_sub_one_eq (v : Nat) (hw : v < 2 ^ 64) : toInt64 v - 1 = -1 ↔ v = 0 := by
  unfold toInt64
  rw [Nat.mod_eq_of_lt hw]
  split_ifs with h <;> constructor <;> intro h2 <;> omega

/-- C12 (counterexample): with the distance 5 from start to end, the start
length 10 and the end length stored as 0 (unreachable), `snarlLength` returns
`5 + (-1) + 10 = 14`, not `-1`. -/
theorem snarlLength_with_unreachable_length :
    noLengthSnarl.snarlDistanceShort rowLocator (1, false) (2, false) = some 5 ∧
    (noLengthSnarl.nodeLength 1).map Prod.fst = some 10 ∧
    (noLengthSnarl.nodeLength 2).map Prod.fst = some (-1) ∧
    (noLengthSnarl.snarlLength rowLocator).map Prod.fst = some 14 := by
  refine ⟨by decide, by decide, by decide, by decide⟩

/-- C12 (amended): `snarlLength` looks at the distance from start to end only.
When that distance is unreachable it returns `-1`; otherwise it returns the
distance plus the two values of `nodeLength` for the boundary nodes, whatever
they are (a length cell holding 0 enters the sum as `-1`). -/
theorem snarlLength_checks_distance_only (loc : NodeLocator) (si : SnarlIndex) (d : Int)
    (hd : si.snarlDistanceShort loc si.snarlStart si.snarlEnd = some d) :
    (d = -1 → si.snarlLength loc = some (-1, si)) ∧
    (d ≠ -1 → ∀ (lenEnd lenStart : Int) (si2 si3 : SnarlIndex),
      si.nodeLength si.snarlEnd.1 = some (lenEnd, si2) →
      si2.nodeLength si.snarlStart.1 = some (lenStart, si3) →
      si.snarlLength loc = some (d + lenStart + lenEnd, si3)) := by
  constructor
  · intro h
    unfold SnarlIndex.snarlLength
    rw [hd]
    simp [h]
  · intro h lenEnd lenStart si2 si3 h1 h2
    have hs : si2.snarlStart = si.snarlStart := by
      unfold SnarlIndex.nodeLength at h1
      cases hc : si.distances[(si.visitToIndex.subscript si.snarlEnd.1).1]? with
      | none => simp [hc] at h1
      | some v =>
        simp only [hc, Option.some.injEq, Prod.mk.injEq] at h1
        rw [← h1.2]
    unfold SnarlIndex.snarlLength
    rw [hd]
    simp only [if_neg h, h1, hs, h2]
    congr 2
    ring

/-- Witness of the amended C12: the snarl `(1 → 2)` of the row with the
distance 0 from start to end and node lengths 10. -/
theorem snarlLength_checks_distance_only_witness :
    (chainTable 1 2 0 0 1 0 0 1 0).snarlLength rowLocator
      = some (0 + 10 + 10, chainTable 1 2 0 0 1 0 0 1 0) :=
  (snarlLength_checks_distance_only rowLocator (chainTable 1 2 0 0 1 0 0 1 0) 0
    (by decide)).2 (by decide) 10 10 (chainTable 1 2 0 0 1 0 0 1 0)
    (chainTable 1 2 0 0 1 0 0 1 0) rfl rfl

/-- The value of `nodeLength` in terms of the stored length cell: with `w`
the cell `distances[visitToIndex[node]]`, a word below `2 ^ 63`, the call
returns `w - 1` and leaves the map as the subscript left it. -/
theorem nodeLength_of_cell (si : SnarlIndex) (node : Int) (w : Nat)
    (hc : si.distances[(si.visitToIndex.subscript node).1]? = some w) (hw : w < 2 ^ 63) :
    si.nodeLength node
      = some ((w : Int) - 1, { si with visitToIndex := (si.visitToIndex.subscript node).2 }) := by
  unfold SnarlIndex.nodeLength
  simp only [hc]
  have e : toInt64 (usub w 1) = (w : Int) - 1 := by
    unfold toInt64 usub
    split_ifs <;> omega
  rw [e]

/-- C13: with `v` the stored cell `index(a, b)`, `snarlDistanceShort(a, b)` is
`v - 1`; `snarlDistance(a, b)` is `-1` when `v` is 0, and otherwise, with `w`
the stored length cell `distances[visitToIndex[node of a]]`, it is
`(v - 1) + (w - 1)`: `snarlDistanceShort(a, b)` plus the stored length of the
start unit.  Cells are words below `2 ^ 63`. -/
theorem snarlDistance_short_plus_length (loc : NodeLocator) (si : SnarlIndex) (a b : Side)
    (v : Nat) (hv : si.distances[si.index loc a b]? = some v) (hvr : v < 2 ^ 63) :
    si.snarlDistanceShort loc a b = some ((v : Int) - 1) ∧
    (v = 0 → si.snarlDistance loc a b = some (-1, si)) ∧
    (v ≠ 0 → ∀ w : Nat,
      si.distances[(si.visitToIndex.subscript a.1).1]? = some w → w < 2 ^ 63 →
      si.snarlDistance loc a b
        = some (((v : Int) - 1) + ((w : Int) - 1),
            { si with visitToIndex := (si.visitToIndex.subscript a.1).2 })) := by
  have e : toInt64 v = (v : Int) := toInt64_of_lt v hvr
  have hz : toInt64 v - 1 = -1 ↔ v = 0 := toInt64_sub_one_eq v (by omega)
  refine ⟨?_, ?_, ?_⟩
  · unfold SnarlIndex.snarlDistanceShort
    rw [hv, Option.map_some', e]
  · intro h0
    unfold SnarlIndex.snarlDistance
    rw [hv]
    simp only [if_pos (hz.2 h0)]
  · intro h0 w hc hwr
    have hl := nodeLength_of_cell si a.1 w hc hwr
    unfold SnarlIndex.snarlDistance
    rw [hv]
    rw [e] at hz
    simp only [e, hl, if_neg (fun h => h0 (hz.1 h))]

/-- Witness of C13: the stored cell 6 (distance 5) of the pair
`((1, fwd), (2, fwd))` and the stored length cell 11 of node `1` (length 10):
`snarlDistanceShort` is 5 and `snarlDistance` is `5 + 10`. -/
theorem snarlDistance_short_plus_length_witness :
    (chainTable 1 2 0 0 6 0 0 1 0).snarlDistanceShort rowLocator (1, false) (2, false)
      = some ((6 : Nat) - 1 : Int) ∧
    (chainTable 1 2 0 0 6 0 0 1 0).snarlDistance rowLocator (1, false) (2, false)
      = some ((((6 : Nat) : Int) - 1) + (((11 : Nat) : Int) - 1),
          { chainTable 1 2 0 0 6 0 0 1 0 with
            visitToIndex := ((chainTable 1 2 0 0 6 0 0 1 0).visitToIndex.subscript 1).2 }) :=
  ⟨(snarlDistance_short_plus_length rowLocator (chainTable 1 2 0 0 6 0 0 1 0) (1, false)
      (2, false) 6 (by decide) (by decide)).1,
   (snarlDistance_short_plus_length rowLocator (chainTable 1 2 0 0 6 0 0 1 0) (1, false)
      (2, false) 6 (by decide) (by decide)).2.2 (by decide) 11 (by decide) (by decide)⟩

/-! ## C14: `distToEnds` -/

/-- On two values that fit in an `int`, `minPos` is the lambda applied once. -/
theorem minPos_pair (a b : Int) (ha : -2 ^ 31 ≤ a ∧ a < 2 ^ 31)
    (hb : -2 ^ 31 ≤ b ∧ b < 2 ^ 31) : minPos [a, b] = minPosStep a b := by
  unfold minPos
  simp only [List.foldl_cons, List.foldl_nil]
  rw [toInt32_of_range a ha.1 ha.2, toInt32_of_range b hb.1 hb.2]
  simp [minPosStep]

/-- The `minPos` of two guarded sums is the specification's value for one end. -/
theorem addDist_pair_spec (a dA b dB : Int) (ha : SmallDist a) (hA : SmallDist dA)
    (hb : SmallDist b) (hB : SmallDist dB) :
    minPos [addDist a dA, addDist b dB] = specToEnd dA a dB b := by
  unfold SmallDist at ha hA hb hB
  have r1 : -2 ^ 31 ≤ addDist a dA ∧ addDist a dA < 2 ^ 31 := by
    unfold addDist; split_ifs <;> constructor <;> omega
  have r2 : -2 ^ 31 ≤ addDist b dB ∧ addDist b dB < 2 ^ 31 := by
    unfold addDist; split_ifs <;> constructor <;> omega
  rw [minPos_pair _ _ r1 r2]
  unfold specToEnd decodeDist addDist minPosStep
  by_cases h1 : a = -1 <;> by_cases h2 : dA = -1 <;> by_cases h3 : b = -1 <;>
    by_cases h4 : dB = -1 <;>
    simp [h1, h2, h3, h4, optAddInt, optMinInt, encodeDist] <;> omega

/-- `nodeLength` changes `visitToIndex` only. -/
theorem nodeLength_frame (si s2 : SnarlIndex) (node : Int) (len : Int)
    (h : si.nodeLength node = some (len, s2)) :
    s2.snarlStart = si.snarlStart ∧ s2.snarlEnd = si.snarlEnd := by
  unfold SnarlIndex.nodeLength at h
  cases hc : si.distances[(si.visitToIndex.subscript node).1]? with
  | none => simp [hc] at h
  | some v =>
    simp only [hc, Option.some.injEq, Prod.mk.injEq] at h
    rw [← h.2]
    exact ⟨rfl, rfl⟩

/-- `snarlDistance` changes `visitToIndex` only. -/
theorem snarlDistance_frame (loc : NodeLocator) (si s2 : SnarlIndex) (a b : Side) (d : Int)
    (h : si.snarlDistance loc a b = some (d, s2)) :
    s2.snarlStart = si.snarlStart ∧ s2.snarlEnd = si.snarlEnd := by
  unfold SnarlIndex.snarlDistance at h
  cases hc : si.distances[si.index loc a b]? with
  | none => simp [hc] at h
  | some v =>
    simp only [hc] at h
    by_cases hd : toInt64 v - 1 = -1
    · rw [if_pos hd] at h
      simp only [Option.some.injEq, Prod.mk.injEq] at h
      rw [← h.2]
      exact ⟨rfl, rfl⟩
    · rw [if_neg hd] at h
      cases hn : si.nodeLength a.1 with
      | none => simp [hn] at h
      | some p =>
        obtain ⟨len, s3⟩ := p
        simp only [hn, Option.some.injEq, Prod.mk.injEq] at h
        rw [← h.2]
        exact nodeLength_frame si s3 a.1 len hn

/-- C14: `distToEnds(node, rev, distL, distR)` swaps `distL` and `distR` when
`rev` is true and returns `(toStart, toEnd)`, where `toStart` is the smaller
of `distL + d(start, node forward)` and `distR + d(start, node reverse)`,
`toEnd` is the smaller of `distR + d(end facing in, node reverse)` and
`distL + d(end facing in, node forward)`, `d` is `snarlDistance`, a sum is
dropped when either addend is unreachable, the result is unreachable when
both sums are dropped, and the trip from a boundary node to its own matching
side is taken as 0.  It is proved for distances that fit in an `int`
(each is `-1` or below `2^30`), as `minPos` narrows them. -/
theorem distToEnds_guarded_min (loc : NodeLocator) (si : SnarlIndex) (node : Int)
    (rev : Bool) (distL distR dsl dsr der del : Int) (s1 s2 s3 s4 : SnarlIndex)
    (h1 : si.snarlDistance loc si.snarlStart (node, false) = some (dsl, s1))
    (h2 : s1.snarlDistance loc si.snarlStart (node, true) = some (dsr, s2))
    (h3 : s2.snarlDistance loc (si.snarlEnd.1, !si.snarlEnd.2) (node, true)
      = some (der, s3))
    (h4 : s3.snarlDistance loc (si.snarlEnd.1, !si.snarlEnd.2) (node, false)
      = some (del, s4))
    (hL : SmallDist distL) (hR : SmallDist distR) (hsl : SmallDist dsl)
    (hsr : SmallDist dsr) (her : SmallDist der) (hel : SmallDist del) :
    si.distToEnds loc node rev distL distR
      = some ((specToEnd (if rev then distR else distL)
                (if node = si.snarlStart.1 ∧ rev = si.snarlStart.2 then 0 else dsl)
                (if rev then distL else distR)
                (if node = si.snarlStart.1 ∧ rev ≠ si.snarlStart.2 then 0 else dsr),
               specToEnd (if rev then distL else distR)
                (if node = si.snarlEnd.1 ∧ rev ≠ !si.snarlEnd.2 then 0 else der)
                (if rev then distR else distL)
                (if node = si.snarlEnd.1 ∧ rev = !si.snarlEnd.2 then 0 else del)), s4) := by
  have f1 := (snarlDistance_frame loc si s1 _ _ dsl h1).1
  have z : SmallDist 0 := by unfold SmallDist; constructor <;> norm_num
  have hdL : SmallDist (if rev then distR else distL) := by split_ifs <;> assumption
  have hdR : SmallDist (if rev then distL else distR) := by split_ifs <;> assumption
  have k1 : SmallDist (if node = si.snarlStart.1 ∧ rev = si.snarlStart.2 then 0 else dsl) := by
    split_ifs <;> assumption
  have k2 : SmallDist (if node = si.snarlStart.1 ∧ rev ≠ si.snarlStart.2 then 0 else dsr) := by
    split_ifs <;> assumption
  have k3 : SmallDist (if node = si.snarlEnd.1 ∧ rev ≠ !si.snarlEnd.2 then 0 else der) := by
    split_ifs <;> assumption
  have k4 : SmallDist (if node = si.snarlEnd.1 ∧ rev = !si.snarlEnd.2 then 0 else del) := by
    split_ifs <;> assumption
  have e1 := addDist_pair_spec _ _ _ _ k2 hdR k1 hdL
  have e2 := addDist_pair_spec _ _ _ _ k3 hdR k4 hdL
  have c1 : ∀ x a y b : Int, specToEnd x a y b = specToEnd y b x a := by
    intro x a y b
    unfold specToEnd decodeDist
    by_cases q1 : x = -1 <;> by_cases q2 : a = -1 <;> by_cases q3 : y = -1 <;>
      by_cases q4 : b = -1 <;>
      simp [q1, q2, q3, q4, optAddInt, optMinInt, encodeDist, min_comm]
  unfold SnarlIndex.distToEnds
  simp only [Option.bind_eq_bind, h1, f1, h2, h3, h4, Option.some_bind, Option.pure_def]
  rw [e1, e2, c1]

/-- Witness of C14: node `3` of `endsSnarl`, read forward, with 2 to its left
and 5 to its right: 12 to the start of the snarl and 15 to its end. -/
theorem distToEnds_guarded_min_witness :
    endsSnarl.distToEnds loopLocator 3 false 2 5 = some ((12, 15), endsSnarl) :=
  distToEnds_guarded_min loopLocator endsSnarl 3 false 2 5 10 (-1) 10 (-1)
    endsSnarl endsSnarl endsSnarl endsSnarl rfl rfl rfl rfl
    (by decide) (by decide) (by decide) (by decide) (by decide) (by decide)

/-! ## C15: the triangle inequality on a chain -/

/-- C15 (failing input): on the circular chain `1 → 2 → 3 → 4 → 1` (nodes
of length 10, no reversing loop), with `u = (4, forward)`, `v = (2, reverse)`
and `w = (3, forward)`, `chainDistance` returns 30 for `(u, w)` and 9 for both
`(u, v)` and `(v, w)`: the sums that go around the circular chain add the two
halves without looking for the `-1` of an unreachable half, so `10 + (-1)` is
returned as the distance 9 between sides that no walk joins, and
`30 ≤ 9 + 9` fails. -/
theorem chainDistance_triangle_fails :
    (ringChain.chainDistance ringGraph ringManager (4, false) (3, false) (some 3)
        (some 2)).map Prod.fst = some 30 ∧
    (ringChain.chainDistance ringGraph ringManager (4, false) (2, true) (some 3)
        (some 1)).map Prod.fst = some 9 ∧
    (ringChain.chainDistance ringGraph ringManager (2, true) (3, false) (some 1)
        (some 2)).map Prod.fst = some 9 ∧
    specShortestWalk ringGraph [1, 2, 3, 4] ⟨4, false, 0⟩ ⟨3, false, 0⟩ = some 30 ∧
    specShortestWalk ringGraph [1, 2, 3, 4] ⟨4, false, 0⟩ ⟨2, true, 0⟩ = none ∧
    specShortestWalk ringGraph [1, 2, 3, 4] ⟨2, true, 0⟩ ⟨3, false, 0⟩ = none ∧
    ¬ ((30 : Int) ≤ 9 + 9) := by
  refine ⟨by decide, by decide, by decide, by decide, by decide, by decide, by decide⟩

/-! ## C16: forward distances along a chain -/

/-- Appending a key with the value 0 does not change what a subscript reads. -/
theorem find_append_single (m : IdMap) (k k2 : Int) :
    (IdMap.find (m ++ [(k, 0)]) k2).getD 0 = (m.find k2).getD 0 := by
  unfold IdMap.find
  induction m with
  | nil =>
    simp only [List.nil_append, List.find?_cons, List.find?_nil]
    split <;> simp
  | cons hd tl ih =>
    simp only [List.cons_append, List.find?_cons]
    split
    · rfl
    · exact ih

/-- The value of a subscript: the mapped value, or 0 for a missing key. -/
theorem subscript_fst (m : IdMap) (k : Int) : (m.subscript k).1 = (m.find k).getD 0 := by
  unfold IdMap.subscript
  cases h : m.find k <;> simp

/-- A subscript reads the same value after another subscript. -/
theorem subscript_subscript_fst (m : IdMap) (k k2 : Int) :
    ((m.subscript k).2.subscript k2).1 = (m.subscript k2).1 := by
  rw [subscript_fst, subscript_fst]
  unfold IdMap.subscript
  cases h : m.find k with
  | none => exact find_append_single m k k2
  | some v => rfl

/-- A value of `int64_t` survives the trip through `uint64_t`. -/
theorem wrap64_of_int64 (x : Int) (h0 : -2 ^ 63 ≤ x) (h : x < 2 ^ 63) : wrap64 x = x := by
  unfold wrap64 toInt64 toUInt64
  have hm : ((x % 2 ^ 64).toNat : Int) = x % 2 ^ 64 :=
    Int.toNat_of_nonneg (Int.emod_nonneg _ (by norm_num))
  have hlt : x % 2 ^ 64 < 2 ^ 64 := Int.emod_lt_of_pos _ (by norm_num)
  have hmod : (x % 2 ^ 64).toNat % 2 ^ 64 = (x % 2 ^ 64).toNat := by
    apply Nat.mod_eq_of_lt
    omega
  rw [hmod]
  split_ifs with hc <;> omega

/-- The `minPos` of `-1` and a value that fits in an `int` is that value. -/
theorem minPos_unreachable_pair (x : Int) (h : -2 ^ 31 ≤ x ∧ x < 2 ^ 31) :
    minPos [-1, x] = x := by
  rw [minPos_pair (-1) x (by constructor <;> norm_num) h]
  simp [minPosStep]

/-- In a non-circular chain, `chainDistance` between two sides that read
forward at ranks `i1 ≤ i2` is the difference of the two prefix sums. -/
theorem chainDistance_forward_value (g : HandleGraph) (sm : SnarlManager) (ci : ChainIndex)
    (start end_ : Side) (ss es : SnarlRef) (i1 i2 p1 p2 : Nat)
    (hnc : ci.chainStartID ≠ ci.chainEndID)
    (hi1 : ci.snarlToIndex.find start.1 = some i1)
    (hi2 : ci.snarlToIndex.find end_.1 = some i2) (hle : i1 ≤ i2)
    (hf1 : ci.readsReverse sm ss i1 start = false)
    (hf2 : ci.readsReverse sm es i2 end_ = false)
    (hp1 : ci.prefixSum[i1]? = some p1) (hp2 : ci.prefixSum[i2]? = some p2)
    (hr : -2 ^ 31 ≤ (p2 : Int) - p1 ∧ (p2 : Int) - p1 < 2 ^ 31) :
    (ci.chainDistance g sm start end_ (some ss) (some es)).map Prod.fst
      = some ((p2 : Int) - p1) := by
  have hw : wrap64 ((p2 : Int) - p1) = (p2 : Int) - p1 :=
    wrap64_of_int64 _ (by omega) (by omega)
  have hm := minPos_unreachable_pair ((p2 : Int) - p1) hr
  unfold ChainIndex.readsReverse at hf1 hf2
  rw [← subscript_subscript_fst ci.snarlToIndex (sm.snarl ss).start.node_id] at hf2
  unfold ChainIndex.chainDistance ChainIndex.chainDistanceBody
  simp only [ChainIndex.rankOf, hi1, hi2, Option.map_some', Option.bind_eq_bind,
    Option.some_bind, Bool.not_true, Bool.false_eq_true, false_and, if_false]
  simp only [hf1, hf2, hnc, false_and, if_false, Option.pure_def, Option.some_bind]
  unfold ChainIndex.chainCases
  simp only [hp1, hp2, Option.bind_eq_bind, Option.some_bind, Bool.not_false, and_self,
    if_true, hle, hw, hm, Option.pure_def, Option.map_some']

/-- C16: in a non-circular chain, for sides that read forward along the chain
at ranks `i ≤ j ≤ k`, `chainDistance` returns the difference of the two prefix
sums, so the distance from such a side to itself is 0 and
`d(i, k) = d(i, j) + d(j, k)`.  It is proved for differences that fit in an
`int`, as `minPos` narrows them. -/
theorem chainDistance_forward_additive (g : HandleGraph) (sm : SnarlManager)
    (ci : ChainIndex) (a b c : Side) (sa sb sc : SnarlRef) (i j k pi pj pk : Nat)
    (hnc : ci.chainStartID ≠ ci.chainEndID)
    (ha : ci.snarlToIndex.find a.1 = some i) (hb : ci.snarlToIndex.find b.1 = some j)
    (hc : ci.snarlToIndex.find c.1 = some k) (hij : i ≤ j) (hjk : j ≤ k)
    (hfa : ci.readsReverse sm sa i a = false) (hfb : ci.readsReverse sm sb j b = false)
    (hfc : ci.readsReverse sm sc k c = false)
    (hpi : ci.prefixSum[i]? = some pi) (hpj : ci.prefixSum[j]? = some pj)
    (hpk : ci.prefixSum[k]? = some pk)
    (hr : FitsInt ((pj : Int) - pi) ∧ FitsInt ((pk : Int) - pj) ∧ FitsInt ((pk : Int) - pi)) :
    (ci.chainDistance g sm a b (some sa) (some sb)).map Prod.fst = some ((pj : Int) - pi) ∧
    (ci.chainDistance g sm b c (some sb) (some sc)).map Prod.fst = some ((pk : Int) - pj) ∧
    (ci.chainDistance g sm a c (some sa) (some sc)).map Prod.fst
      = some (((pj : Int) - pi) + ((pk : Int) - pj)) ∧
    (ci.chainDistance g sm a a (some sa) (some sa)).map Prod.fst = some 0 := by
  have e : ((pj : Int) - pi) + ((pk : Int) - pj) = (pk : Int) - pi := by ring
  refine ⟨?_, ?_, ?_, ?_⟩
  · exact chainDistance_forward_value g sm ci a b sa sb i j pi pj hnc ha hb hij hfa hfb
      hpi hpj hr.1
  · exact chainDistance_forward_value g sm ci b c sb sc j k pj pk hnc hb hc hjk hfb hfc
      hpj hpk hr.2.1
  · rw [e]
    exact chainDistance_forward_value g sm ci a c sa sc i k pi pk hnc ha hc
      (le_trans hij hjk) hfa hfc hpi hpk hr.2.2
  · have h := chainDistance_forward_value g sm ci a a sa sa i i pi pi hnc ha ha
      (le_refl i) hfa hfa hpi hpi (by constructor <;> simp)
    rw [h, sub_self]

/-- Witness of C16: the sides `(1, forward)`, `(2, forward)`, `(3, forward)` of
the row, at ranks 0, 1, 2 with stored prefix sums 1, 11, 21. -/
theorem chainDistance_forward_additive_witness :
    (rowChain.chainDistance rowGraph rowManager (1, false) (2, false) (some 0)
      (some 1)).map Prod.fst = some (((11 : Nat) : Int) - (1 : Nat)) ∧
    (rowChain.chainDistance rowGraph rowManager (2, false) (3, false) (some 1)
      (some 1)).map Prod.fst = some (((21 : Nat) : Int) - (11 : Nat)) ∧
    (rowChain.chainDistance rowGraph rowManager (1, false) (3, false) (some 0)
      (some 1)).map Prod.fst
      = some ((((11 : Nat) : Int) - (1 : Nat)) + (((21 : Nat) : Int) - (11 : Nat))) ∧
    (rowChain.chainDistance rowGraph rowManager (1, false) (1, false) (some 0)
      (some 0)).map Prod.fst = some 0 :=
  chainDistance_forward_additive rowGraph rowManager rowChain (1, false) (2, false)
    (3, false) 0 1 1 0 1 2 1 11 21 (by decide) (by decide) (by decide) (by decide)
    (by decide) (by decide) (by decide) (by decide) (by decide) (by decide) (by decide)
    (by decide) (by decide)

/-! ## C17: `chainDistanceShort` -/

/-- Every case of `chainDistance` returns a `minPos`, which fits in an `int`. -/
theorem chainCases_range (g : HandleGraph) (ci : ChainIndex) (s e : Side) (i1 i2 : Nat)
    (r1 r2 : Bool) (ld d : Int) (h : ci.chainCases g s e i1 i2 r1 r2 ld = some d) :
    FitsInt d := by
  unfold ChainIndex.chainCases at h
  simp only [Option.bind_eq_bind, Option.bind_eq_some, Option.pure_def] at h
  obtain ⟨p1, -, p2, -, h⟩ := h
  split_ifs at h <;>
    simp only [Option.bind_eq_some, Option.some.injEq, exists_and_left] at h
  all_goals first
    | (rw [← h]; exact minPos_range _)
    | (obtain ⟨x, -, h⟩ := h; rw [← h]; exact minPos_range _)
    | (obtain ⟨x, -, y, -, h⟩ := h; rw [← h]; exact minPos_range _)

/-- The last two steps of `chainDistance`: the value comes from the cases. -/
theorem bind_tail (X : Option (Int × ChainIndex)) (F : Int × ChainIndex → Option Int)
    (d : Int) (c : ChainIndex)
    (h : (X.bind fun a => (F a).bind fun x => some (x, a.2)) = some (d, c)) :
    ∃ a, F a = some d := by
  obtain ⟨a, -, h⟩ := Option.bind_eq_some.1 h
  obtain ⟨x, hx, h⟩ := Option.bind_eq_some.1 h
  simp only [Option.some.injEq, Prod.mk.injEq] at h
  exact ⟨a, h.1 ▸ hx⟩

/-- A property of both branches holds of the conditional. -/
theorem ite_prop {α : Type} (P : α → Prop) (c : Prop) [Decidable c] (a b : α) (ha : P a)
    (hb : P b) : P (if c then a else b) := by
  split_ifs <;> assumption

/-- The range of the result after one step that yields `loopDist`. -/
theorem tail_one_range (X : Option (Int × ChainIndex))
    (F : Int × ChainIndex → Option Int) (d : Int) (c : ChainIndex)
    (hF : ∀ a x, F a = some x → FitsInt x)
    (h : (X.bind fun a => (F a).bind fun x => some (x, a.2)) = some (d, c)) : FitsInt d := by
  obtain ⟨a, ha⟩ := bind_tail X F d c h
  exact hF a d ha

/-- The range of the result after two nested calls that yield `loopDist`. -/
theorem tail_two_range (X : Option (Int × ChainIndex))
    (Y : Int × ChainIndex → Option (Int × ChainIndex))
    (Z : Int × ChainIndex → Int × ChainIndex → Int × ChainIndex)
    (F : Int × ChainIndex → Option Int) (d : Int) (c : ChainIndex)
    (hF : ∀ a x, F a = some x → FitsInt x)
    (h : (X.bind fun a => (Y a).bind fun b => (some (Z a b)).bind fun a2 =>
      (F a2).bind fun x => some (x, a2.2)) = some (d, c)) : FitsInt d := by
  obtain ⟨a, -, h⟩ := Option.bind_eq_some.1 h
  obtain ⟨b, -, h⟩ := Option.bind_eq_some.1 h
  obtain ⟨a2, ha2⟩ := bind_tail _ F d c h
  exact hF a2 d ha2

/-- The value returned by the body of `chainDistance` fits in an `int`. -/
theorem chainDistanceBody_range (g : HandleGraph) (sm : SnarlManager)
    (inner : ChainIndex → Side → Side → Option (Int × ChainIndex))
    (ci c : ChainIndex) (s e : Side) (ss es : Option SnarlRef) (recurse : Bool) (d : Int)
    (h : ChainIndex.chainDistanceBody g sm inner ci s e ss es recurse = some (d, c)) :
    FitsInt d := by
  unfold ChainIndex.chainDistanceBody at h
  simp only [Option.bind_eq_bind, Option.bind_eq_some, Option.pure_def, Option.some.injEq,
    Prod.mk.injEq, Prod.exists] at h
  obtain ⟨i1, sid, sb, -, i2, eid, eb, -, ssv, -, esv, -, h⟩ := h
  revert h
  refine ite_prop (fun X => X = some (d, c) → FitsInt d) _ _ _ ?_ ?_
  · refine ite_prop (fun X => X = some (d, c) → FitsInt d) _ _ _ ?_ ?_
    · intro h
      exact tail_one_range _ _ d c (fun a x hx => chainCases_range _ _ _ _ _ _ _ _ _ _ hx) h
    · refine ite_prop (fun X => X = some (d, c) → FitsInt d) _ _ _ ?_ ?_
      · intro h
        exact tail_one_range _ _ d c
          (fun a x hx => chainCases_range _ _ _ _ _ _ _ _ _ _ hx) h
      · refine ite_prop (fun X => X = some (d, c) → FitsInt d) _ _ _ ?_ ?_
        · intro h
          exact tail_two_range _ _ (fun a b => (a.1 + b.1, b.2)) _ d c
            (fun a x hx => chainCases_range _ _ _ _ _ _ _ _ _ _ hx) h
        · refine ite_prop (fun X => X = some (d, c) → FitsInt d) _ _ _ ?_ ?_
          · intro h
            exact tail_two_range _ _ (fun a b => (a.1 + b.1, b.2)) _ d c
              (fun a x hx => chainCases_range _ _ _ _ _ _ _ _ _ _ hx) h
          · intro h
            exact tail_one_range _ _ d c
              (fun a x hx => chainCases_range _ _ _ _ _ _ _ _ _ _ hx) h
  · intro h
    exact tail_one_range _ _ d c (fun a x hx => chainCases_range _ _ _ _ _ _ _ _ _ _ hx) h

/-- The value returned by `chainDistance` fits in an `int`. -/
theorem chainDistance_range (g : HandleGraph) (sm : SnarlManager) (ci c : ChainIndex)
    (s e : Side) (ss es : Option SnarlRef) (d : Int)
    (h : ci.chainDistance g sm s e ss es = some (d, c)) : FitsInt d :=
  chainDistanceBody_range g sm _ ci c s e ss es true d h

/-- The word of an `int64_t`: a negative value is read as `x + 2 ^ 64`. -/
theorem toUInt64_cast (x : Int) (h0 : -2 ^ 63 ≤ x) (h : x < 2 ^ 63) :
    ((toUInt64 x : Nat) : Int) = if x < 0 then x + 2 ^ 64 else x := by
  unfold toUInt64
  rw [Int.toNat_of_nonneg (Int.emod_nonneg _ (by norm_num))]
  split_ifs with hneg
  · have e : x % 2 ^ 64 = (x + 2 ^ 64) % 2 ^ 64 := by simp
    rw [e, Int.emod_eq_of_lt (by omega) (by omega)]
  · exact Int.emod_eq_of_lt (by omega) (by omega)

/-- The minimum taken in `size_t` of two `int64_t` values: their minimum when
both have the same sign, and the one that is not negative when exactly one is
negative. -/
theorem toInt64_umin (x y : Int) (hx0 : -2 ^ 63 ≤ x) (hx : x < 2 ^ 63) (hy0 : -2 ^ 63 ≤ y)
    (hy : y < 2 ^ 63) :
    toInt64 (min (toUInt64 x) (toUInt64 y))
      = if (x < 0 ↔ y < 0) then min x y else max x y := by
  have ex : toInt64 (toUInt64 x) = x := wrap64_of_int64 x hx0 hx
  have ey : toInt64 (toUInt64 y) = y := wrap64_of_int64 y hy0 hy
  have cx := toUInt64_cast x hx0 hx
  have cy := toUInt64_cast y hy0 hy
  by_cases hle : toUInt64 x ≤ toUInt64 y
  · rw [Nat.min_eq_left hle, ex]
    have hle2 : ((toUInt64 x : Nat) : Int) ≤ ((toUInt64 y : Nat) : Int) := by exact_mod_cast hle
    rw [cx, cy] at hle2
    by_cases h1 : x < 0 <;> by_cases h2 : y < 0 <;>
      simp only [h1, h2, if_true, if_false, iff_true, iff_false, not_true, not_false_iff,
        true_iff, false_iff] at hle2 ⊢ <;> omega
  · have hlt : toUInt64 y ≤ toUInt64 x := by omega
    rw [Nat.min_eq_right hlt, ey]
    have hle2 : ¬ ((toUInt64 x : Nat) : Int) ≤ ((toUInt64 y : Nat) : Int) := by
      intro h; exact hle (by exact_mod_cast h)
    rw [cx, cy] at hle2
    by_cases h1 : x < 0 <;> by_cases h2 : y < 0 <;>
      simp only [h1, h2, if_true, if_false, iff_true, iff_false, not_true, not_false_iff,
        true_iff, false_iff] at hle2 ⊢ <;> omega

/-- C17 (counterexample): on the ring with a turn-around at node `2`, for the
sides `(2, reverse)` and `(3, forward)` both calls of `chainDistance` return a
reachable value, `d1 = 9` and `d2 = 40`, and the nodes have length 10: the
differences are `-1` and `30`, their minimum is `-1`, and `chainDistanceShort`
returns 30, because the differences and their `min` are `size_t` values and
`-1` is the largest of them.  And on the `ChainIndex` that `calculateMinIndex`
creates for the chain of the row, whose map `snarlToIndex` is empty,
`chainDistanceShort` with start and end both the side `(2, forward)` of the
second node of the chain has no result (the two calls of `chainDistance` come
first and `snarlToIndex.at` throws), where the claim says the length 10 of the
node whatever the index holds. -/
theorem chainDistanceShort_unsigned_min :
    ringTurnChain.chainDistance ringGraph ringManager (2, true) (3, false) (some 0) (some 2)
      = some (9, ringTurnChain) ∧
    ringTurnChain.chainDistance ringGraph ringManager (3, true) (2, false) (some 0) (some 2)
      = some (40, ringTurnChain) ∧
    ringGraph.get_length 2 = 10 ∧ ringGraph.get_length 3 = 10 ∧
    min ((9 : Int) - 10) (40 - 10) = -1 ∧
    ringTurnChain.chainDistanceShort ringGraph ringManager (2, true) (3, false) (some 0)
      (some 2) = some (30, ringTurnChain) ∧
    (calculateMinIndex.newChain rowChainSnarls 0 false).snarlToIndex = [] ∧
    (calculateMinIndex.newChain rowChainSnarls 0 false).chainDistanceShort rowGraph rowManager
      (2, false) (2, false) (some 0) (some 1) = none ∧
    rowGraph.get_length 2 = 10 := by
  refine ⟨rfl, rfl, rfl, rfl, by decide, rfl, rfl, rfl, rfl⟩

/-- C17 (amended): when the two calls `d1 = chainDistance(start, end)` and
`d2 = chainDistance(flip(end), flip(start))` return, `chainDistanceShort`
returns the length of the node when start and end are the same side,
whatever `d1` and `d2` are; otherwise `-1` when both are unreachable,
`d1 - length(start)` or `d2 - length(end)` when only that one is reachable,
and, when both are reachable, the minimum of the two differences taken in
`size_t`: the smaller difference when both have the same sign, and the one
that is not negative when exactly one is negative. -/
theorem chainDistanceShort_cases (g : HandleGraph) (sm : SnarlManager) (ci : ChainIndex)
    (start end_ : Side) (ss es : Option SnarlRef) (d1 d2 : Int) (c1 c2 : ChainIndex)
    (h1 : ci.chainDistance g sm start end_ ss es = some (d1, c1))
    (h2 : c1.chainDistance g sm (end_.1, !end_.2) (start.1, !start.2) ss es = some (d2, c2))
    (hlS : g.get_length start.1 < 2 ^ 62) (hlE : g.get_length end_.1 < 2 ^ 62) :
    (start = end_ → ci.chainDistanceShort g sm start end_ ss es
      = some ((g.get_length start.1 : Int), c2)) ∧
    (start ≠ end_ → d1 = -1 → d2 = -1 →
      ci.chainDistanceShort g sm start end_ ss es = some (-1, c2)) ∧
    (start ≠ end_ → d1 ≠ -1 → d2 = -1 →
      ci.chainDistanceShort g sm start end_ ss es
        = some (d1 - (g.get_length start.1 : Int), c2)) ∧
    (start ≠ end_ → d1 = -1 → d2 ≠ -1 →
      ci.chainDistanceShort g sm start end_ ss es
        = some (d2 - (g.get_length end_.1 : Int), c2)) ∧
    (start ≠ end_ → d1 ≠ -1 → d2 ≠ -1 →
      ci.chainDistanceShort g sm start end_ ss es
        = some (
            (if (d1 - (g.get_length start.1 : Int) < 0 ↔ d2 - (g.get_length end_.1 : Int) < 0)
             then min (d1 - (g.get_length start.1 : Int)) (d2 - (g.get_length end_.1 : Int))
             else max (d1 - (g.get_length start.1 : Int)) (d2 - (g.get_length end_.1 : Int))),
            c2)) := by
  have r1 := chainDistance_range g sm ci c1 start end_ ss es d1 h1
  have r2 := chainDistance_range g sm c1 c2 _ _ ss es d2 h2
  have e : ci.chainDistanceShort g sm start end_ ss es
      = (if start = end_ then some (toInt64 (g.get_length start.1), c2)
         else if d1 = -1 ∧ d2 = -1 then some (-1, c2)
         else if d2 = -1 then some (wrap64 (d1 - (g.get_length start.1 : Int)), c2)
         else if d1 = -1 then some (wrap64 (d2 - (g.get_length end_.1 : Int)), c2)
         else some (toInt64 (min (toUInt64 (d1 - (g.get_length start.1 : Int)))
            (toUInt64 (d2 - (g.get_length end_.1 : Int)))), c2)) := by
    unfold ChainIndex.chainDistanceShort
    simp only [Option.bind_eq_bind, h1, Option.some_bind, h2, Option.pure_def]
  rw [e]
  unfold FitsInt at r1 r2
  refine ⟨?_, ?_, ?_, ?_, ?_⟩
  · intro hs
    rw [if_pos hs, toInt64_of_lt _ (by omega)]
  · intro hs a b
    rw [if_neg hs, if_pos ⟨a, b⟩]
  · intro hs a b
    rw [if_neg hs, if_neg (fun h => a h.1), if_pos b, wrap64_of_int64 _ (by omega) (by omega)]
  · intro hs a b
    rw [if_neg hs, if_neg (fun h => b h.2), if_neg b, if_pos a,
      wrap64_of_int64 _ (by omega) (by omega)]
  · intro hs a b
    rw [if_neg hs, if_neg (fun h => a h.1), if_neg b, if_neg a,
      toInt64_umin _ _ (by omega) (by omega) (by omega) (by omega)]

/-- Witness of the amended C17: the sides `(2, reverse)` and `(3, forward)` of
the ring with a turn-around; the distances are 9 and 40, the differences `-1`
and 30, and the result is the difference that is not negative. -/
theorem chainDistanceShort_cases_witness :
    ringTurnChain.chainDistanceShort ringGraph ringManager (2, true) (3, false) (some 0)
        (some 2)
      = some (
          (if ((9 : Int) - (ringGraph.get_length 2 : Int) < 0
              ↔ (40 : Int) - (ringGraph.get_length 3 : Int) < 0)
           then min ((9 : Int) - (ringGraph.get_length 2 : Int))
              ((40 : Int) - (ringGraph.get_length 3 : Int))
           else max ((9 : Int) - (ringGraph.get_length 2 : Int))
              ((40 : Int) - (ringGraph.get_length 3 : Int))),
          ringTurnChain) :=
  (chainDistanceShort_cases ringGraph ringManager ringTurnChain (2, true) (3, false) (some 0)
    (some 2) 9 40 ringTurnChain ringTurnChain rfl rfl (by decide) (by decide)).2.2.2.2
    (by decide) (by decide) (by decide)

/-! ## C18, C19, C20: the chain part of the builder -/

/-- C18 (failing input, and every chain): the `ChainIndex` that
`calculateMinIndex` creates for a chain of `k` snarls has `k` entries in each
of its three vectors, not `k + 1`, because the constructor is called with
`chain.size()`.  So the writes at `rank + 1` for the last rank `k - 1`, which
go to entry `k`, are past the end of `prefixSum` and of `loopRev`, and
`chainLength` reads the entry `size - 1`, which is entry `k - 1`.  On the
chain of the two snarls of the row the vectors have 2 entries, there is no
entry 2, and the fill of the prefix sums has no result. -/
theorem newChain_has_k_entries :
    (∀ (chain : Chain) (parentIndex : Nat) (revInParent : Bool),
      (calculateMinIndex.newChain chain parentIndex revInParent).prefixSum.length
        = chain.length ∧
      (calculateMinIndex.newChain chain parentIndex revInParent).loopFd.length
        = chain.length ∧
      (calculateMinIndex.newChain chain parentIndex revInParent).loopRev.length
        = chain.length ∧
      (∀ x, writeVec (calculateMinIndex.newChain chain parentIndex revInParent).prefixSum
        chain.length x = none) ∧
      (∀ x, writeVec (calculateMinIndex.newChain chain parentIndex revInParent).loopRev
        chain.length x = none) ∧
      (calculateMinIndex.newChain chain parentIndex revInParent).chainLength
        = ((calculateMinIndex.newChain chain parentIndex revInParent).prefixSum[
            usub chain.length 1]?).map (fun v => toInt64 (usub v 1))) ∧
    (calculateMinIndex.newChain rowChainSnarls 0 false).prefixSum = [0, 0] ∧
    (calculateMinIndex.newChain rowChainSnarls 0 false).prefixSum[2]? = none ∧
    (calculateMinIndex.newChain rowChainSnarls 0 false).chainLength = some (-1) ∧
    (calculateMinIndex.prefixSums rowLocator rowChainTables 0
      (calculateMinIndex.newChain rowChainSnarls 0 false)).isNone = true := by
  refine ⟨?_, by decide, by decide, by decide, by decide⟩
  intro chain parentIndex revInParent
  simp [calculateMinIndex.newChain, ChainIndex.new, writeVec, ChainIndex.chainLength]

/-- C19 (failing input): for the chain of the two snarls of the row, both
with the through-length 10, the prefix-sum statements started on three zero
entries leave the stored vector `[0, 10, 20]`: entry 0 is never written and
the sums are stored without the `+1` of the encoding, so the decoded entry 0
is `-1`, not 0, and `chainLength` returns 19, not the sum 20 of the
through-lengths.  Started on the vector that `calculateMinIndex` creates they
have no result. -/
theorem prefixSum_not_encoded :
    ((chainTable 1 2 0 0 1 0 0 1 0).snarlDistance rowLocator (1, false) (2, false)).map
        Prod.fst = some 10 ∧
    ((chainTable 2 3 1 0 1 0 0 1 0).snarlDistance rowLocator (2, false) (3, false)).map
        Prod.fst = some 10 ∧
    (calculateMinIndex.prefixSums rowLocator rowChainTables 0 (ChainIndex.new 0 false 3)).map
        (fun cd => cd.prefixSum) = some [0, 10, 20] ∧
    (calculateMinIndex.prefixSums rowLocator rowChainTables 0 (ChainIndex.new 0 false 3)).map
        (fun cd => cd.prefixSum.map (fun v => toInt64 v - 1)) = some [-1, 9, 19] ∧
    (calculateMinIndex.prefixSums rowLocator rowChainTables 0 (ChainIndex.new 0 false 3)).bind
        (fun cd => cd.chainLength) = some 19 ∧
    (calculateMinIndex.prefixSums rowLocator rowChainTables 0
      (calculateMinIndex.newChain rowChainSnarls 0 false)).isNone = true := by
  refine ⟨by decide, by decide, by decide, by decide, by decide, by decide⟩

/-- C20 (failing inputs), on the chain of the two snarls of the row, with
three entries per vector.  The two loop passes pick the table of a snarl as
`snarlIndexes[primary_snarls[...].second]`, a unit index used as a slot: with
the two tables of the row the reverse pass has no result.  With the slot of
the snarl in that place: the forward pass starts at rank `chain.size() - 1`
and writes at `currChainRank - 1`, so the loop 14 at the start of the last
snarl lands in entry 0 instead of entry 1, the last write goes to entry
`2^64 - 1`, and the pass has no result; and the step of the reverse pass adds
the two through-distances without looking for `-1`: with the previous loop 6,
no local loop, no way back through the snarl and 10 forward it stores
`6 + (-1) + 10 = 15`, not the unreachable local loop. -/
theorem loop_passes_diverge :
    (calculateMinIndex.loopRev rowLocator rowManager rowChainSnarls ⟨1, false⟩ ⟨3, false⟩
      (fun id => (rowLocator.primary_snarls id).2)
      (rowTables, ChainIndex.new 0 false 3)).isNone = true ∧
    (calculateMinIndex.loopFd rowLocator rowManager rowChainSnarls ⟨1, false⟩ ⟨3, false⟩
      rowLocatorSlots (rowTables, ChainIndex.new 0 false 3)).isNone = true ∧
    (calculateMinIndex.loopFdFrom rowLocator rowManager rowChainSnarls ⟨1, false⟩ ⟨3, false⟩
      rowLocatorSlots [(1, false)] true 1
      ([chainTable 1 2 0 0 1 0 0 1 0, chainTable 2 3 1 5 1 0 0 1 0],
        ChainIndex.new 0 false 3)).map (fun st => st.2.loopFd.map toInt64)
      = some [14, -1, 0] ∧
    (calculateMinIndex.loopRevStep rowLocator 0 (rowManager.snarl 0) false 0
      ([chainTable 1 2 0 0 1 0 0 0 0],
        { ChainIndex.new 0 false 3 with loopRev := [6, 0, 0] })).map
      (fun st => st.2.loopRev) = some [6, 15, 0] ∧
    ((chainTable 1 2 0 0 1 0 0 0 0).snarlDistance rowLocator (2, true) (2, false)).map
      Prod.fst = some (-1) ∧
    ((chainTable 1 2 0 0 1 0 0 0 0).snarlDistance rowLocator (2, true) (1, true)).map
      Prod.fst = some (-1) := by
  refine ⟨by decide, by decide, by decide, by decide, by decide, by decide⟩

/-! ## The stored-plus-one convention of the chain vectors -/

/-- C21 (failing input): on the chain of the two snarls of the row, whose
through-lengths are 10 and which have no loop, the builder stores the prefix
sums `[0, 10, 20]` and stores every loop distance `-1` as the word
`2^64 - 1`.  The readers subtract 1: `checkChainDist` returns 9 for the
entry that the builder computed as 10, and `checkChainLoopRev` returns `-2`
for an unreachable loop, which is stored as `2^64 - 1` and not as 0. -/
theorem builder_and_readers_disagree :
    ((chainTable 1 2 0 0 1 0 0 1 0).snarlDistance rowLocator (1, false) (2, false)).map
        Prod.fst = some 10 ∧
    (calculateMinIndex.prefixSums rowLocator rowChainTables 0 (ChainIndex.new 0 false 3)).map
        (fun cd => cd.prefixSum) = some [0, 10, 20] ∧
    (calculateMinIndex.prefixSums rowLocator rowChainTables 0
        (ChainIndex.new 0 false 3)).bind
        (fun cd => DistanceIndex.checkChainDist
          { rowIndex with chainDistances := [(1, cd)] } 1 1) = some 9 ∧
    ((chainTable 1 2 0 0 1 0 0 1 0).snarlDistance rowLocator (2, true) (2, false)).map
        Prod.fst = some (-1) ∧
    (calculateMinIndex.loopRev rowLocator rowManager rowChainSnarls ⟨1, false⟩ ⟨3, false⟩
        rowLocatorSlots (rowTables, ChainIndex.new 0 false 3)).map
        (fun st => st.2.loopRev) = some [2 ^ 64 - 1, 2 ^ 64 - 1, 2 ^ 64 - 1] ∧
    (calculateMinIndex.loopRev rowLocator rowManager rowChainSnarls ⟨1, false⟩ ⟨3, false⟩
        rowLocatorSlots (rowTables, ChainIndex.new 0 false 3)).bind
        (fun st => DistanceIndex.checkChainLoopRev
          { rowIndex with chainDistances := [(1, st.2)] } 1 1) = some (-2) := by
  refine ⟨by decide, by decide, by decide, by decide, by decide, by decide⟩

/-! ## Queries and the id-to-index maps -/

/-- C22 (failing input): `nodeLength(7)` on the table of the snarl `(1 → 2)`,
which has no node `7`, returns 10 and leaves the entry `7 ↦ 0` in
`visitToIndex`; `chainDistance` on the chain of the row, called with a snarl
whose start node `4` is not in the chain, returns 20 and leaves the entry
`4 ↦ 0` in `snarlToIndex`.  Both subscripts are `operator[]` of an
`unordered_map`, which inserts a missing key. -/
theorem queries_insert_missing_ids :
    rowSnarl0.visitToIndex = [(1, 0), (2, 1)] ∧
    (rowSnarl0.nodeLength 7).map (fun p => (p.1, p.2.visitToIndex))
      = some (10, [(1, 0), (2, 1), (7, 0)]) ∧
    rowChain.snarlToIndex = [(1, 0), (2, 1), (3, 2)] ∧
    (rowChain.chainDistance rowGraph ringManager (1, false) (3, false) (some 3)
        (some 0)).map (fun p => (p.1, p.2.snarlToIndex))
      = some (20, [(1, 0), (2, 1), (3, 2), (4, 0)]) := by
  refine ⟨rfl, by decide, rfl, by decide⟩

/-! ## Serialize, then load -/

/-- A side that its signed id determines is read back from it. -/
theorem sideOfSigned_signedSide (s : Side) (h : s.Storable) :
    sideOfSigned (signedSide s) = s := by
  obtain ⟨id, rev⟩ := s
  unfold sideOfSigned signedSide
  unfold Side.Storable at h
  cases rev
  · have h0 : 0 ≤ id := by
      rcases h with h | h
      · exact le_of_lt h
      · simp only [Prod.mk.injEq] at h; omega
    simp only [Bool.false_eq_true, if_false, not_lt.2 h0, abs_of_nonneg h0]
  · have h0 : 0 < id := by
      rcases h with h | h
      · exact h
      · simp at h
    have hneg : -id < 0 := by omega
    simp only [if_true, hneg, abs_neg, abs_of_pos h0]

/-- The length of the map of a list of ids. -/
theorem ofIds_length (ids : List Int) (start : Nat) :
    (IdMap.ofIds ids start).length = ids.length := by
  induction ids generalizing start with
  | nil => rfl
  | cons k rest ih => simp [IdMap.ofIds, ih]

/-- The ids of the map of a list of ids. -/
theorem ofIds_keys (ids : List Int) (start : Nat) :
    (IdMap.ofIds ids start).map Prod.fst = ids := by
  induction ids generalizing start with
  | nil => rfl
  | cons k rest ih => simp [IdMap.ofIds, ih]

/-- Filling the vector from a map in index order writes the ids in order. -/
theorem fillVector_ofIds (ids : List Int) (pre : List Nat) :
    IdMap.fillVector (IdMap.ofIds ids pre.length) (pre ++ List.replicate ids.length 0)
      = some (pre ++ ids.map toUInt64) := by
  induction ids generalizing pre with
  | nil => simp [IdMap.ofIds, IdMap.fillVector]
  | cons k rest ih =>
    have hw : writeVec (pre ++ List.replicate (k :: rest).length 0) pre.length (toUInt64 k)
        = some ((pre ++ [toUInt64 k]) ++ List.replicate rest.length 0) := by
      unfold writeVec
      rw [if_pos (by simp)]
      simp [List.replicate_succ, List.set_append_right]
    have := ih (pre ++ [toUInt64 k])
    simp only [List.length_append, List.length_cons, List.length_nil, zero_add] at this
    unfold IdMap.ofIds IdMap.fillVector
    rw [hw]
    show (IdMap.ofIds rest (pre.length + 1)).fillVector _ = _
    rw [this]
    simp

/-- The vector of a map in load order holds its ids in order. -/
theorem toVector_of_inLoadOrder (m : IdMap) (h : m.InLoadOrder) :
    m.toVector = some ((m.map Prod.fst).map toUInt64) := by
  have hlen : m.length = (m.map Prod.fst).length := by simp
  unfold IdMap.toVector
  have := fillVector_ofIds (m.map Prod.fst) []
  simp only [List.length_nil, List.nil_append] at this
  rw [← h.1, ← hlen] at this
  exact this

/-- A key that is not in a map is not found after another key was added. -/
theorem find_append_other (m : IdMap) (k k2 : Int) (v : Nat) (hk : k2 ≠ k)
    (h : m.find k2 = none) : IdMap.find (m ++ [(k, v)]) k2 = none := by
  unfold IdMap.find at h ⊢
  simp only [Option.map_eq_none'] at h ⊢
  rw [List.find?_eq_none] at h ⊢
  intro x hx
  rcases List.mem_append.1 hx with hx | hx
  · exact h x hx
  · simp only [List.mem_singleton] at hx
    subst hx
    simpa using fun e => hk e.symm

/-- Loading a vector of distinct new ids appends them in index order. -/
theorem loadVector_ofIds (ids : List Int) (start : Nat) (m0 : IdMap)
    (hr : ∀ k ∈ ids, 0 ≤ k ∧ k < 2 ^ 63) (hn : ids.Nodup)
    (h0 : ∀ k ∈ ids, m0.find k = none) :
    IdMap.loadVector (ids.map toUInt64) start m0 = m0 ++ IdMap.ofIds ids start := by
  induction ids generalizing start m0 with
  | nil => simp [IdMap.loadVector, IdMap.ofIds]
  | cons k rest ih =>
    have hk := hr k (by simp)
    have e : toInt64 (toUInt64 k) = k := toInt64_toUInt64 k hk.1 hk.2
    have hnone := h0 k (by simp)
    simp only [List.map_cons, IdMap.loadVector, e]
    have ha : m0.assign k start = m0 ++ [(k, start)] := by
      unfold IdMap.assign
      rw [hnone]
      simp
    rw [ha, ih (start + 1) (m0 ++ [(k, start)]) (fun x hx => hr x (by simp [hx]))
      (List.nodup_cons.1 hn).2]
    · simp [IdMap.ofIds]
    · intro x hx
      have hxk : x ≠ k := fun e2 => (List.nodup_cons.1 hn).1 (e2 ▸ hx)
      exact find_append_other m0 k x start hxk (h0 x (by simp [hx]))

/-- A map in load order is read back from its vector. -/
theorem loadVector_toVector (m : IdMap) (h : m.InLoadOrder) :
    IdMap.loadVector ((m.map Prod.fst).map toUInt64) 0 [] = m := by
  rw [loadVector_ofIds _ 0 [] h.2.2 h.2.1 (fun _ _ => rfl)]
  simp only [List.nil_append]
  exact h.1.symm

/-- A storable snarl is written, and read back with the same contents into
an object that holds no map entry. -/
theorem snarl_roundtrip (si blank : SnarlIndex) (h : si.Storable)
    (hb : blank.visitToIndex = []) (rest : List Item) :
    ∃ items si2, si.serialize = some items ∧
      blank.load (items ++ rest) = some (si2, rest) ∧ si2.contents = si.contents := by
  obtain ⟨h1, h2, h3, h4⟩ := h
  have hs : si.serialize = some
      [Item.num (signedSide si.snarlStart), Item.num (signedSide si.snarlEnd),
        Item.num (signedSide si.parent),
        Item.vec ((si.visitToIndex.map Prod.fst).map toUInt64), Item.vec si.distances] := by
    unfold SnarlIndex.serialize
    rw [toVector_of_inLoadOrder _ h4]
  refine ⟨_, _, hs, rfl, ?_⟩
  simp only [SnarlIndex.contents, sideOfSigned_signedSide _ h1,
    sideOfSigned_signedSide _ h2, sideOfSigned_signedSide _ h3, hb,
    loadVector_toVector _ h4]

/-- A storable chain is written, and read back with the same contents into
an object that holds no map entry. -/
theorem chain_roundtrip (ci blank : ChainIndex) (h : ci.Storable)
    (hb : blank.snarlToIndex = []) (rest : List Item) :
    ∃ items ci2, ci.serialize = some items ∧
      blank.load (items ++ rest) = some (ci2, rest) ∧ ci2.contents = ci.contents := by
  obtain ⟨h1, h2⟩ := h
  have hs : ci.serialize = some
      [Item.num ci.chainStartID, Item.num ci.chainEndID, Item.num (signedSide ci.parent),
        Item.vec ci.prefixSum, Item.vec ci.loopFd, Item.vec ci.loopRev,
        Item.vec ((ci.snarlToIndex.map Prod.fst).map toUInt64)] := by
    unfold ChainIndex.serialize
    rw [toVector_of_inLoadOrder _ h2]
  refine ⟨_, _, hs, rfl, ?_⟩
  simp only [ChainIndex.contents, sideOfSigned_signedSide _ h1, hb,
    loadVector_toVector _ h2]

/-- A key that differs from every key of a list of entries is not found. -/
theorem find?_key_none {α β : Type} [BEq α] [LawfulBEq α] (acc : List (α × β)) (key : α)
    (h : ∀ q ∈ acc, q.1 ≠ key) : acc.find? (fun p => p.1 == key) = none := by
  rw [List.find?_eq_none]
  intro x hx
  simpa using h x hx

/-- Storable snarls with distinct new keys are written, and read back in
order behind the entries that are already there. -/
theorem snarls_roundtrip (l : List (Side × SnarlIndex)) :
    ∀ (acc : List (Side × SnarlIndex)) (rest : List Item),
      (l.map Prod.fst).Nodup → (∀ p ∈ l, p.1.Storable ∧ p.2.Storable) →
      (∀ p ∈ l, ∀ q ∈ acc, q.1 ≠ p.1) →
      ∃ items l2, DistanceIndex.serializeSnarls l = some items ∧
        DistanceIndex.loadSnarls l.length (items ++ rest) acc = some (acc ++ l2, rest) ∧
        l2.map (fun p => (p.1, p.2.contents)) = l.map (fun p => (p.1, p.2.contents)) := by
  induction l with
  | nil =>
    intro acc rest _ _ _
    exact ⟨[], [], rfl, by simp [DistanceIndex.loadSnarls], rfl⟩
  | cons p tl ih =>
    intro acc rest hn hs hd
    obtain ⟨key, si⟩ := p
    have hp := hs (key, si) (by simp)
    simp only [List.map_cons, List.nodup_cons] at hn
    have hd2 : ∀ si2 : SnarlIndex, ∀ p ∈ tl, ∀ q ∈ acc ++ [(key, si2)], q.1 ≠ p.1 := by
      intro si2 p hp2 q hq
      rcases List.mem_append.1 hq with hq | hq
      · exact hd p (by simp [hp2]) q hq
      · simp only [List.mem_singleton] at hq
        subst hq
        exact fun e => hn.1 (List.mem_map.2 ⟨p, hp2, e.symm⟩)
    obtain ⟨itemsTl0, _, hser0, _, _⟩ := ih [] [] hn.2 (fun p hp2 => hs p (by simp [hp2]))
      (fun _ _ _ hq => by simp at hq)
    obtain ⟨itemsSi, si2, hsi, hload, hc⟩ := snarl_roundtrip si SnarlIndex.unloaded hp.2 rfl
      (itemsTl0 ++ rest)
    obtain ⟨itemsTl, l2, hser, hl, hcs⟩ := ih (acc ++ [(key, si2)]) rest hn.2
      (fun p hp2 => hs p (by simp [hp2])) (hd2 si2)
    have hsame : itemsTl = itemsTl0 := by
      rw [hser0] at hser
      exact (Option.some.inj hser).symm
    subst hsame
    refine ⟨Item.num (signedSide key) :: itemsSi ++ itemsTl, (key, si2) :: l2, ?_, ?_, ?_⟩
    · simp only [DistanceIndex.serializeSnarls, hsi, hser]
    · have hfind : acc.find? (fun p => p.1 == key) = none :=
        find?_key_none acc key (fun q hq => hd (key, si) (by simp) q hq)
      simp only [List.length_cons, DistanceIndex.loadSnarls, List.cons_append, readNum,
        sideOfSigned_signedSide _ hp.1, hfind, List.append_assoc, hload]
      rw [hl]
      simp
    · simp only [List.map_cons, hcs, hc]

/-- Storable chains with distinct new keys are written, and read back in
order behind the entries that are already there. -/
theorem chains_roundtrip (l : List (Int × ChainIndex)) :
    ∀ (acc : List (Int × ChainIndex)) (rest : List Item),
      (l.map Prod.fst).Nodup → (∀ p ∈ l, p.2.Storable) →
      (∀ p ∈ l, ∀ q ∈ acc, q.1 ≠ p.1) →
      ∃ items l2, DistanceIndex.serializeChains l = some items ∧
        DistanceIndex.loadChains l.length (items ++ rest) acc = some (acc ++ l2, rest) ∧
        l2.map (fun p => (p.1, p.2.contents)) = l.map (fun p => (p.1, p.2.contents)) := by
  induction l with
  | nil =>
    intro acc rest _ _ _
    exact ⟨[], [], rfl, by simp [DistanceIndex.loadChains], rfl⟩
  | cons p tl ih =>
    intro acc rest hn hs hd
    obtain ⟨key, ci⟩ := p
    have hp := hs (key, ci) (by simp)
    simp only [List.map_cons, List.nodup_cons] at hn
    have hd2 : ∀ ci2 : ChainIndex, ∀ p ∈ tl, ∀ q ∈ acc ++ [(key, ci2)], q.1 ≠ p.1 := by
      intro ci2 p hp2 q hq
      rcases List.mem_append.1 hq with hq | hq
      · exact hd p (by simp [hp2]) q hq
      · simp only [List.mem_singleton] at hq
        subst hq
        exact fun e => hn.1 (List.mem_map.2 ⟨p, hp2, e.symm⟩)
    obtain ⟨itemsTl0, _, hser0, _, _⟩ := ih [] [] hn.2 (fun p hp2 => hs p (by simp [hp2]))
      (fun _ _ _ hq => by simp at hq)
    obtain ⟨itemsCi, ci2, hci, hload, hc⟩ := chain_roundtrip ci ChainIndex.unloaded hp rfl
      (itemsTl0 ++ rest)
    obtain ⟨itemsTl, l2, hser, hl, hcs⟩ := ih (acc ++ [(key, ci2)]) rest hn.2
      (fun p hp2 => hs p (by simp [hp2])) (hd2 ci2)
    have hsame : itemsTl = itemsTl0 := by
      rw [hser0] at hser
      exact (Option.some.inj hser).symm
    subst hsame
    refine ⟨Item.num key :: itemsCi ++ itemsTl, (key, ci2) :: l2, ?_, ?_, ?_⟩
    · simp only [DistanceIndex.serializeChains, hci, hser]
    · have hfind : acc.find? (fun p => p.1 == key) = none :=
        find?_key_none acc key (fun q hq => hd (key, ci) (by simp) q hq)
      simp only [List.length_cons, DistanceIndex.loadChains, List.cons_append, readNum,
        hfind, List.append_assoc, hload]
      rw [hl]
      simp
    · simp only [List.map_cons, hcs, hc]

/-- The count of a map is read back as it was written. -/
theorem toUInt64_natCast (n : Nat) (h : n < 2 ^ 64) : toUInt64 (n : Int) = n := by
  rw [toUInt64_of_nonneg _ (by omega) (by omega)]
  simp

/-- Two writes at different cells can be made in either order. -/
theorem writeVec_comm (v : List Nat) (i j a b : Nat) (hij : i ≠ j) :
    (writeVec v i a).bind (fun v2 => writeVec v2 j b)
      = (writeVec v j b).bind (fun v2 => writeVec v2 i a) := by
  unfold writeVec
  by_cases hi : i < v.length <;> by_cases hj : j < v.length <;>
    simp [hi, hj, List.length_set, List.set_comm _ _ _ hij]

theorem fillVector_cons (x : Int × Nat) (m : IdMap) (v : List Nat) :
    IdMap.fillVector (x :: m) v
      = (writeVec v x.2 (toUInt64 x.1)).bind (fun v2 => IdMap.fillVector m v2) := by
  obtain ⟨k, i⟩ := x
  show (match writeVec v i (toUInt64 k) with
    | none => none
    | some v2 => IdMap.fillVector m v2) = _
  cases writeVec v i (toUInt64 k) <;> rfl

/-- When no two entries of the map have the same index, the loop
`for (p : map) v[p.second] = p.first` writes the same vector in whatever order
the entries are iterated. -/
theorem fillVector_perm (m1 m2 : IdMap) (h : m1.Perm m2) :
    (m1.map Prod.snd).Nodup → ∀ v, IdMap.fillVector m1 v = IdMap.fillVector m2 v := by
  induction h with
  | nil => intro _ v; rfl
  | cons x _ ih =>
    intro hn v
    rw [List.map_cons, List.nodup_cons] at hn
    rw [fillVector_cons, fillVector_cons]
    cases writeVec v x.2 (toUInt64 x.1) with
    | none => rfl
    | some v2 => exact ih hn.2 v2
  | swap x y l =>
    intro hn v
    rw [List.map_cons, List.map_cons, List.nodup_cons] at hn
    have hxy : y.2 ≠ x.2 := fun e => hn.1 (by rw [e]; exact List.mem_cons_self _ _)
    rw [fillVector_cons, fillVector_cons]
    have hc := writeVec_comm v y.2 x.2 (toUInt64 y.1) (toUInt64 x.1) hxy
    have e1 : ((writeVec v y.2 (toUInt64 y.1)).bind fun v2 =>
        IdMap.fillVector (x :: l) v2)
        = ((writeVec v y.2 (toUInt64 y.1)).bind (fun v2 => writeVec v2 x.2 (toUInt64 x.1))).bind
            (fun v3 => IdMap.fillVector l v3) := by
      cases writeVec v y.2 (toUInt64 y.1) with
      | none => rfl
      | some v2 => simp only [Option.some_bind, fillVector_cons]
    have e2 : ((writeVec v x.2 (toUInt64 x.1)).bind fun v2 =>
        IdMap.fillVector (y :: l) v2)
        = ((writeVec v x.2 (toUInt64 x.1)).bind (fun v2 => writeVec v2 y.2 (toUInt64 y.1))).bind
            (fun v3 => IdMap.fillVector l v3) := by
      cases writeVec v x.2 (toUInt64 x.1) with
      | none => rfl
      | some v2 => simp only [Option.some_bind, fillVector_cons]
    simp only [fillVector_cons] at e1 e2 ⊢
    rw [e1, e2, hc]
  | trans h1 _ ih1 ih2 =>
    intro hn v
    have hn2 := (h1.map Prod.snd).nodup_iff.1 hn
    rw [ih1 hn v, ih2 hn2 v]

/-- The six orders of a list of three distinct entries. -/
theorem perm_three_cases (a b c : Int × Nat) (m : List (Int × Nat))
    (hm : m.Perm [a, b, c]) :
    m = [a, b, c] ∨ m = [a, c, b] ∨ m = [b, a, c] ∨ m = [b, c, a] ∨ m = [c, a, b] ∨
      m = [c, b, a] := by
  have hlen := hm.length_eq
  match m, hlen, hm with
  | [x, y, z], _, hm =>
    have h1 : [x, y, z].Perm [a, b, c] := hm
    rcases List.mem_cons.1 (hm.subset (List.mem_cons_self x _)) with rfl | hx
    · have h2 := (List.perm_cons x).1 h1
      rcases List.mem_cons.1 (h2.subset (List.mem_cons_self y _)) with rfl | hy
      · have h3 := (List.perm_cons y).1 h2
        rw [List.perm_singleton.1 h3]
        simp
      · rw [List.mem_singleton] at hy
        subst hy
        have h3 : [y, z].Perm [y, b] := h2.trans (List.Perm.swap _ _ _)
        have h4 := (List.perm_cons y).1 h3
        rw [List.perm_singleton.1 h4]
        simp
    · rcases List.mem_cons.1 hx with rfl | hx
      · have h2 : [x, y, z].Perm [x, a, c] := h1.trans (List.Perm.swap _ _ _)
        have h3 := (List.perm_cons x).1 h2
        rcases List.mem_cons.1 (h3.subset (List.mem_cons_self y _)) with rfl | hy
        · have h4 := (List.perm_cons y).1 h3
          rw [List.perm_singleton.1 h4]
          simp
        · rw [List.mem_singleton] at hy
          subst hy
          have h4 : [y, z].Perm [y, a] := h3.trans (List.Perm.swap _ _ _)
          have h5 := (List.perm_cons y).1 h4
          rw [List.perm_singleton.1 h5]
          simp
      · rw [List.mem_singleton] at hx
        subst hx
        have h2 : [x, y, z].Perm [x, a, b] :=
          h1.trans ((List.Perm.cons a (List.Perm.swap _ _ _)).trans (List.Perm.swap _ _ _))
        have h3 := (List.perm_cons x).1 h2
        rcases List.mem_cons.1 (h3.subset (List.mem_cons_self y _)) with rfl | hy
        · have h4 := (List.perm_cons y).1 h3
          rw [List.perm_singleton.1 h4]
          simp
        · rw [List.mem_singleton] at hy
          subst hy
          have h4 : [y, z].Perm [y, a] := h3.trans (List.Perm.swap _ _ _)
          have h5 := (List.perm_cons y).1 h4
          rw [List.perm_singleton.1 h5]
          simp

/-- C23 (failing input): the query `nodeLength(7)` on the first snarl of the
row leaves the entry `7 ↦ 0` in its map, which then holds `1 ↦ 0`, `2 ↦ 1` and
`7 ↦ 0`.  In whatever order the three entries are iterated, `serialize`
writes the cell 0 of the vector of ids twice and leaves the cell 2 at 0, and
`load` reads back the map `1 ↦ 0, 2 ↦ 1, 0 ↦ 2` or the map `7 ↦ 0, 2 ↦ 1,
0 ↦ 2`: either has the entry `0 ↦ 2`, lacks one of the two ids that shared the
index 0, and is no rearrangement of the map that was serialized. -/
theorem load_after_query_differs :
    (rowSnarl0.nodeLength 7).map (fun p => p.2.visitToIndex)
      = some [(1, 0), (2, 1), (7, 0)] ∧
    (∀ m : IdMap, m.Perm [(1, 0), (2, 1), (7, 0)] →
      ((rowIndexWithMap m).serialize.bind (fun items =>
        (DistanceIndex.unloaded rowLocator).load items)).map
          (fun r => (r.1.snarlDistances.map (fun p => (p.1, p.2.visitToIndex)), r.2))
        ∈ [some ([((1, false), [(1, 0), (2, 1), (0, 2)]), ((2, false), [(2, 0), (3, 1)])], []),
           some ([((1, false), [(7, 0), (2, 1), (0, 2)]), ((2, false), [(2, 0), (3, 1)])],
             [])]) ∧
    ¬ List.Perm [((1 : Int), 0), (2, 1), (0, 2)] [(1, 0), (2, 1), (7, 0)] ∧
    ¬ List.Perm [((7 : Int), 0), (2, 1), (0, 2)] [(1, 0), (2, 1), (7, 0)] := by
  refine ⟨by decide, ?_, by decide, by decide⟩
  intro m hm
  rcases perm_three_cases _ _ _ m hm with h | h | h | h | h | h <;> subst h <;> decide

/-- Serialize, then load: for a `DistanceIndex` whose maps have distinct keys, whose
sides have positive node ids (or are `(0, false)`) and whose id-to-index
maps send the id at position `i` to `i`, as `load` leaves them, `serialize`
writes a sequence of values from which `load` on an empty index reads every
value and yields the same snarl keys with equal start, end and parent
sides, id-to-index map and distance vector, the same chains with equal start
and end ids, parent, `prefixSum`, `loopFd`, `loopRev` and snarl-to-rank map,
and equal node id range, `nodeToSnarl` and maximum-index members. -/
theorem serialize_then_load (idx : DistanceIndex) (loc : NodeLocator) (h : idx.Storable) :
    ∃ items idx2, idx.serialize = some items ∧
      (DistanceIndex.unloaded loc).load items = some (idx2, []) ∧
      idx2.contents = idx.contents := by
  obtain ⟨hn1, hs1, hn2, hs2, hl1, hl2, hc1, hc2⟩ := h
  obtain ⟨itemsC, lc, hserC, hloadC, hcC⟩ := chains_roundtrip idx.chainDistances []
    ([Item.num idx.minNodeID, Item.num idx.maxNodeID, Item.vec idx.nodeToSnarl]
      ++ idx.maxIndex.serialize) hn2 hs2 (fun _ _ _ hq => by simp at hq)
  obtain ⟨itemsS, ls, hserS, hloadS, hcS⟩ := snarls_roundtrip idx.snarlDistances []
    (Item.num idx.chainDistances.length :: itemsC
      ++ [Item.num idx.minNodeID, Item.num idx.maxNodeID, Item.vec idx.nodeToSnarl]
      ++ idx.maxIndex.serialize) hn1 hs1 (fun _ _ _ hq => by simp at hq)
  have hser : idx.serialize = some (Item.num idx.snarlDistances.length :: itemsS
        ++ Item.num idx.chainDistances.length :: itemsC
        ++ [Item.num idx.minNodeID, Item.num idx.maxNodeID, Item.vec idx.nodeToSnarl]
        ++ idx.maxIndex.serialize) := by
    unfold DistanceIndex.serialize
    rw [hserS, hserC]
  simp only [List.nil_append] at hloadS hloadC
  simp only [List.append_assoc, List.cons_append] at hloadS hloadC hser
  have hload : (DistanceIndex.unloaded loc).load (Item.num idx.snarlDistances.length ::
        (itemsS ++ Item.num idx.chainDistances.length :: (itemsC ++ Item.num idx.minNodeID ::
          Item.num idx.maxNodeID :: Item.vec idx.nodeToSnarl ::
            ([] ++ idx.maxIndex.serialize))))
      = some ({ DistanceIndex.unloaded loc with
          snarlDistances := ls
          chainDistances := lc
          minNodeID := idx.minNodeID
          maxNodeID := idx.maxNodeID
          nodeToSnarl := idx.nodeToSnarl
          maxIndex :=
            { nodeToComponent := idx.maxIndex.nodeToComponent
              minDistances := idx.maxIndex.minDistances
              maxDistances := idx.maxIndex.maxDistances
              numCycles := toUInt64 idx.maxIndex.numCycles
              cap := toUInt64 idx.maxIndex.cap }
          include_maximum := decide (idx.maxIndex.minDistances.length ≠ 0) }, []) := by
    simp only [MaxDistanceIndex.serialize, List.nil_append] at hloadS hloadC ⊢
    simp only [DistanceIndex.load, DistanceIndex.unloaded, readNum, readVector,
      toUInt64_natCast _ hl1, toUInt64_natCast _ hl2, hloadS, hloadC,
      MaxDistanceIndex.load]
  refine ⟨_, _, hser, hload, ?_⟩
  simp only [DistanceIndex.contents, hcS, hcC, toUInt64_natCast _ hc1,
    toUInt64_natCast _ hc2]

/-- An instance of `serialize_then_load`: the index of the row. -/
theorem serialize_then_load_witness :
    ∃ items idx2, rowIndex.serialize = some items ∧
      (DistanceIndex.unloaded rowLocator).load items = some (idx2, []) ∧
      idx2.contents = rowIndex.contents :=
  serialize_then_load rowIndex rowLocator (by decide)

/-! ## The layout of the serialized index -/

/-- The loop over the snarls writes the keyed records one after the other. -/
theorem serializeSnarls_eq (l : List (Side × SnarlIndex)) :
    DistanceIndex.serializeSnarls l
      = recordsOf (fun (p : Side × SnarlIndex) =>
          (snarlFields p.2).map (withKey true (Item.num (signedSide p.1)))) l := by
  induction l with
  | nil => rfl
  | cons p rest ih =>
    obtain ⟨key, si⟩ := p
    unfold DistanceIndex.serializeSnarls recordsOf
    rw [ih]
    generalize recordsOf (fun (p : Side × SnarlIndex) =>
          (snarlFields p.2).map (withKey true (Item.num (signedSide p.1)))) rest = R
    unfold SnarlIndex.serialize snarlFields
    cases si.visitToIndex.toVector <;> cases R <;> rfl

/-- The loop over the chains writes the keyed records one after the other. -/
theorem serializeChains_eq (l : List (Int × ChainIndex)) :
    DistanceIndex.serializeChains l
      = recordsOf (fun (p : Int × ChainIndex) =>
          (chainFields p.2).map (withKey true (Item.num p.1))) l := by
  induction l with
  | nil => rfl
  | cons p rest ih =>
    obtain ⟨key, ci⟩ := p
    unfold DistanceIndex.serializeChains recordsOf
    rw [ih]
    generalize recordsOf (fun (p : Int × ChainIndex) =>
          (chainFields p.2).map (withKey true (Item.num p.1))) rest = R
    unfold ChainIndex.serialize chainFields
    cases ci.snarlToIndex.toVector <;> cases R <;> rfl

/-- C24 (counterexample): for the index of the row, `serialize` writes the
key of the map entry before every snarl and before every chain, so the signed
start side of a snarl and the start id of a chain appear twice; the output
has 30 values and the layout of the claim has 27. -/
theorem serialize_writes_keys :
    rowIndex.serialize = some
      [Item.num 2,
       Item.num 1, Item.num 1, Item.num 2, Item.num 1, Item.vec [1, 2],
         Item.vec [11, 11, 0, 0, 0, 0, 0, 0, 0, 0, 1, 0],
       Item.num 2, Item.num 2, Item.num 3, Item.num 1, Item.vec [2, 3],
         Item.vec [11, 11, 0, 1, 0, 0, 0, 0, 0, 0, 0, 0],
       Item.num 1,
       Item.num 1, Item.num 1, Item.num 3, Item.num 0, Item.vec [1, 11, 21],
         Item.vec [0, 0, 0], Item.vec [0, 0, 0], Item.vec [1, 2, 3],
       Item.num 1, Item.num 3, Item.vec [2, 2, 4],
       Item.num 0, Item.num 0, Item.vec [], Item.vec [], Item.vec []] ∧
    DistanceIndex.layout false rowIndex = some
      [Item.num 2,
       Item.num 1, Item.num 2, Item.num 1, Item.vec [1, 2],
         Item.vec [11, 11, 0, 0, 0, 0, 0, 0, 0, 0, 1, 0],
       Item.num 2, Item.num 3, Item.num 1, Item.vec [2, 3],
         Item.vec [11, 11, 0, 1, 0, 0, 0, 0, 0, 0, 0, 0],
       Item.num 1,
       Item.num 1, Item.num 3, Item.num 0, Item.vec [1, 11, 21],
         Item.vec [0, 0, 0], Item.vec [0, 0, 0], Item.vec [1, 2, 3],
       Item.num 1, Item.num 3, Item.vec [2, 2, 4],
       Item.num 0, Item.num 0, Item.vec [], Item.vec [], Item.vec []] ∧
    rowIndex.serialize ≠ DistanceIndex.layout false rowIndex := by
  refine ⟨by decide, by decide, by decide⟩

/-- C24 (amended): `serialize` writes the snarl count; for each snarl the
signed key of the map entry and then the signed start side, signed end side,
signed parent, the vector of unit ids and the distance vector; the chain
count; for each chain the key of the map entry and then the start node id,
end node id, signed parent, `prefixSum`, `loopFd`, `loopRev` and the vector of
snarl ids; then `minNodeID`, `maxNodeID`, `nodeToSnarl` and the maximum index
(`numCycles`, `cap`, `nodeToComponent`, `minDistances`, `maxDistances`), and
nothing else. -/
theorem serialize_layout (idx : DistanceIndex) :
    idx.serialize = DistanceIndex.layout true idx := by
  unfold DistanceIndex.serialize DistanceIndex.layout
  rw [serializeSnarls_eq, serializeChains_eq]
  generalize recordsOf (fun (p : Side × SnarlIndex) =>
          (snarlFields p.2).map (withKey true (Item.num (signedSide p.1))))
          idx.snarlDistances = R
  generalize recordsOf (fun (p : Int × ChainIndex) =>
          (chainFields p.2).map (withKey true (Item.num p.1))) idx.chainDistances = Q
  cases R <;> cases Q <;> simp [MaxDistanceIndex.serialize]

/-! ## The code of a signed snarl id -/

/-- The code of a signed id of absolute value below `2^62`: twice the
absolute value, plus 1 for a negative id. -/
theorem toUint_eq (s : Int) (h : |s| < 2 ^ 62) :
    calculateNodeToSnarl.toUint s = 2 * s.natAbs + (if s < 0 then 1 else 0) := by
  unfold calculateNodeToSnarl.toUint
  have ha : |s| = (s.natAbs : Int) := Int.abs_eq_natAbs s
  rw [ha] at h
  have hu : toUInt64 (|s| * 2) = 2 * s.natAbs := by
    rw [ha, toUInt64_of_nonneg _ (by omega) (by omega)]
    omega
  simp only [hu]
  split_ifs with hneg
  · rw [uadd_of_lt _ _ (by omega)]
  · rfl

/-- Reading a code: when the cell of `nodeID` holds the code of a signed id
`s` with `1 ≤ |s| < 2^62`, the code is `2 * |s|`, plus 1 when `s < 0`;
`snarlOf` asks the manager for node `|s|` with the orientation `s < 0`; two
such ids with the same code are equal; and the code is not 0. -/
theorem snarlOf_of_code (idx : DistanceIndex) (sm : SnarlManager) (nodeID : Int)
    (s : Int) (h1 : 1 ≤ |s|) (h2 : |s| < 2 ^ 62)
    (hread : readVec idx.nodeToSnarl (nodeID - idx.minNodeID)
      = some (calculateNodeToSnarl.toUint s)) :
    calculateNodeToSnarl.toUint s = 2 * s.natAbs + (if s < 0 then 1 else 0) ∧
    idx.snarlOf sm nodeID = some (sm.into_which_snarl |s| (decide (s < 0))) ∧
    calculateNodeToSnarl.toUint s ≠ 0 ∧
    (∀ t : Int, 1 ≤ |t| → |t| < 2 ^ 62 →
      calculateNodeToSnarl.toUint t = calculateNodeToSnarl.toUint s → t = s) := by
  have e := toUint_eq s h2
  have ha : |s| = (s.natAbs : Int) := Int.abs_eq_natAbs s
  have hlt : calculateNodeToSnarl.toUint s < 2 ^ 63 := by
    rw [e]; split_ifs <;> omega
  refine ⟨e, ?_, ?_, ?_⟩
  · unfold DistanceIndex.snarlOf
    rw [hread, Option.map_some', toInt64_of_lt _ hlt, e]
    congr 2
    · change Int.ofNat ((2 * s.natAbs + if s < 0 then 1 else 0) >>> 1) = |s|
      rw [Nat.shiftRight_eq_div_pow, ha]
      simp only [Int.ofNat_eq_coe, Nat.cast_inj]
      split_ifs <;> omega
    · by_cases hneg : s < 0
      · simp only [hneg, if_true, decide_True, decide_eq_true_eq]
        rw [Int.tmod_eq_emod (by omega) (by norm_num)]
        omega
      · simp only [hneg, if_false, decide_False, decide_eq_false_iff_not]
        rw [Int.tmod_eq_emod (by omega) (by norm_num)]
        omega
  · rw [e]; split_ifs <;> omega
  · intro t ht1 ht2 heq
    rw [toUint_eq t ht2, e] at heq
    have hta : |t| = (t.natAbs : Int) := Int.abs_eq_natAbs t
    by_cases hs : s < 0 <;> by_cases ht : t < 0 <;>
      simp only [hs, ht, if_true, if_false] at heq <;> omega

/-- The signed id of a snarl whose start node has a positive id: its absolute
value is the id and it is negative exactly for a backward start visit. -/
theorem currSnarlID_abs (snarl : Snarl) (h1 : 1 ≤ snarl.start.node_id) :
    |calculateNodeToSnarl.currSnarlID snarl| = snarl.start.node_id ∧
    (calculateNodeToSnarl.currSnarlID snarl < 0 ↔ snarl.start.backward = true) := by
  unfold calculateNodeToSnarl.currSnarlID
  cases hb : snarl.start.backward
  · simp only [Bool.false_eq_true, if_false, iff_false, not_lt]
    exact ⟨abs_of_nonneg (by omega), by omega⟩
  · simp only [if_true, iff_true]
    exact ⟨by rw [abs_neg]; exact abs_of_nonneg (by omega), by omega⟩

/-- C25: for a snarl whose start node has an id from 1 on (below `2^62`, so
that nothing wraps) and a node whose cell is inside the vector `result`, the
assignment `result[nodeID - minNodeID] = toUint(currSnarlID)` of
`calculateNodeToSnarl` succeeds and stores the code `2 * |s|`, plus 1 when the
signed id `s` is negative (the start visit is backward); `snarlOf` on the
vector that this leaves asks the manager for the start node `|s|` with the
orientation `s < 0`; the code is not 0; and two signed ids with the same code
are equal. -/
theorem toUint_stored_then_decoded (idx : DistanceIndex) (sm : SnarlManager)
    (result : List Nat) (nodeID : Int) (snarl : Snarl)
    (h1 : 1 ≤ snarl.start.node_id) (h2 : snarl.start.node_id < 2 ^ 62)
    (hlo : idx.minNodeID ≤ nodeID)
    (hhi : (nodeID - idx.minNodeID).toNat < result.length) :
    (∃ result2, calculateNodeToSnarl.store result idx.minNodeID nodeID snarl = some result2 ∧
      readVec result2 (nodeID - idx.minNodeID)
        = some (2 * snarl.start.node_id.natAbs + (if snarl.start.backward then 1 else 0)) ∧
      ({ idx with nodeToSnarl := result2 } : DistanceIndex).snarlOf sm nodeID
        = some (sm.into_which_snarl snarl.start.node_id snarl.start.backward)) ∧
    calculateNodeToSnarl.toUint (calculateNodeToSnarl.currSnarlID snarl) ≠ 0 ∧
    (∀ s t : Int, 1 ≤ |s| → |s| < 2 ^ 62 → 1 ≤ |t| → |t| < 2 ^ 62 →
      calculateNodeToSnarl.toUint t = calculateNodeToSnarl.toUint s → t = s) := by
  have habs := currSnarlID_abs snarl h1
  have hs1 : 1 ≤ |calculateNodeToSnarl.currSnarlID snarl| := by rw [habs.1]; exact h1
  have hs2 : |calculateNodeToSnarl.currSnarlID snarl| < 2 ^ 62 := by rw [habs.1]; exact h2
  have hge : 0 ≤ nodeID - idx.minNodeID := by omega
  have hstore : calculateNodeToSnarl.store result idx.minNodeID nodeID snarl
      = some (result.set (nodeID - idx.minNodeID).toNat
          (calculateNodeToSnarl.toUint (calculateNodeToSnarl.currSnarlID snarl))) := by
    unfold calculateNodeToSnarl.store writeVec
    rw [if_pos hge, if_pos hhi]
  have hread : readVec (result.set (nodeID - idx.minNodeID).toNat
      (calculateNodeToSnarl.toUint (calculateNodeToSnarl.currSnarlID snarl)))
      (nodeID - idx.minNodeID)
      = some (calculateNodeToSnarl.toUint (calculateNodeToSnarl.currSnarlID snarl)) := by
    unfold readVec
    rw [if_neg (by omega), List.getElem?_set_self hhi]
  have hcode := snarlOf_of_code
    ({ idx with nodeToSnarl := (result.set (nodeID - idx.minNodeID).toNat
        (calculateNodeToSnarl.toUint (calculateNodeToSnarl.currSnarlID snarl))) } : DistanceIndex)
    sm nodeID (calculateNodeToSnarl.currSnarlID snarl) hs1 hs2 hread
  have hnat : (calculateNodeToSnarl.currSnarlID snarl).natAbs = snarl.start.node_id.natAbs := by
    have h := congrArg Int.natAbs habs.1
    rw [Int.natAbs_abs] at h
    exact h
  have hdec : decide (calculateNodeToSnarl.currSnarlID snarl < 0) = snarl.start.backward := by
    cases hb : snarl.start.backward
    · exact decide_eq_false (fun h => by have := habs.2.1 h; rw [hb] at this; cases this)
    · exact decide_eq_true (habs.2.2 hb)
  refine ⟨⟨_, hstore, ?_, ?_⟩, hcode.2.2.1, ?_⟩
  · rw [hread, hcode.1, hnat]
    congr 2
    cases hb : snarl.start.backward
    · rw [if_neg (fun h => by have := habs.2.1 h; rw [hb] at this; cases this)]
      rfl
    · rw [if_pos (habs.2.2 hb)]
      rfl
  · rw [hcode.2.1, habs.1, hdec]
  · intro s t hs1 hs2 ht1 ht2 heq
    rw [toUint_eq t ht2, toUint_eq s hs2] at heq
    have hta : |t| = (t.natAbs : Int) := Int.abs_eq_natAbs t
    have hsa : |s| = (s.natAbs : Int) := Int.abs_eq_natAbs s
    by_cases hs : s < 0 <;> by_cases ht : t < 0 <;>
      simp only [hs, ht, if_true, if_false] at heq <;> omega

/-- Witness of C25: the snarl that starts at node 5 backward (signed id `-5`)
gets the code 11, stored for node `2` in a vector of three cells of an index
whose ids start at 1; `snarlOf` reads node 5, backward. -/
theorem toUint_stored_then_decoded_witness :
    (∃ result2, calculateNodeToSnarl.store [0, 0, 0] rowIndex.minNodeID 2
        ⟨⟨5, true⟩, ⟨6, false⟩⟩ = some result2 ∧
      readVec result2 (2 - rowIndex.minNodeID)
        = some (2 * (5 : Int).natAbs + (if true then 1 else 0)) ∧
      ({ rowIndex with nodeToSnarl := result2 } : DistanceIndex).snarlOf rowManager 2
        = some (rowManager.into_which_snarl 5 true)) ∧
    calculateNodeToSnarl.toUint (calculateNodeToSnarl.currSnarlID ⟨⟨5, true⟩, ⟨6, false⟩⟩) ≠ 0 :=
  ⟨(toUint_stored_then_decoded rowIndex rowManager [0, 0, 0] 2 ⟨⟨5, true⟩, ⟨6, false⟩⟩
      (by decide) (by decide) (by decide) (by decide)).1,
   (toUint_stored_then_decoded rowIndex rowManager [0, 0, 0] 2 ⟨⟨5, true⟩, ⟨6, false⟩⟩
      (by decide) (by decide) (by decide) (by decide)).2.1⟩

/-! ## `setSnarlManager` -/

/-- Once the loop of `setSnarlManager` has thrown, the exception stays. -/
theorem setSnarlManager_fold_error (l : List (Side × SnarlIndex)) (e : String) :
    l.foldl
      (fun (acc : Except String SnarlManager) x =>
        match acc with
        | Except.error e => Except.error e
        | Except.ok sm =>
          if (sm.into_which_snarl x.1.1 x.1.2).isNone then
            Except.error "Distance index does not match snarl manager"
          else Except.ok sm)
      (Except.error e) = Except.error e := by
  induction l with
  | nil => rfl
  | cons x rest ih => simpa [List.foldl_cons] using ih

/-- The loop of `setSnarlManager` over a list of entries: it throws exactly
when some key is unknown to the manager, and returns the manager otherwise. -/
theorem setSnarlManager_fold (l : List (Side × SnarlIndex)) (sm : SnarlManager) :
    ((∃ x ∈ l, sm.into_which_snarl x.1.1 x.1.2 = none) →
      l.foldl
        (fun (acc : Except String SnarlManager) x =>
          match acc with
          | Except.error e => Except.error e
          | Except.ok sm =>
            if (sm.into_which_snarl x.1.1 x.1.2).isNone then
              Except.error "Distance index does not match snarl manager"
            else Except.ok sm)
        (Except.ok sm) = Except.error "Distance index does not match snarl manager") ∧
    ((∀ x ∈ l, sm.into_which_snarl x.1.1 x.1.2 ≠ none) →
      l.foldl
        (fun (acc : Except String SnarlManager) x =>
          match acc with
          | Except.error e => Except.error e
          | Except.ok sm =>
            if (sm.into_which_snarl x.1.1 x.1.2).isNone then
              Except.error "Distance index does not match snarl manager"
            else Except.ok sm)
        (Except.ok sm) = Except.ok sm) := by
  induction l with
  | nil =>
    constructor
    · rintro ⟨x, hx, _⟩
      simp at hx
    · intro _
      rfl
  | cons y rest ih =>
    by_cases hy : sm.into_which_snarl y.1.1 y.1.2 = none
    · constructor
      · intro _
        simp only [List.foldl_cons, hy, Option.isNone_none, if_true]
        exact setSnarlManager_fold_error rest _
      · intro h
        exact absurd hy (h y (by simp))
    · have hn : (sm.into_which_snarl y.1.1 y.1.2).isNone = false := by
        cases h : sm.into_which_snarl y.1.1 y.1.2
        · exact absurd h hy
        · rfl
      constructor
      · rintro ⟨x, hx, hxn⟩
        simp only [List.foldl_cons, hn, Bool.false_eq_true, if_false]
        rcases List.mem_cons.1 hx with hx | hx
        · subst hx
          exact absurd hxn hy
        · exact ih.1 ⟨x, hx, hxn⟩
      · intro h
        simp only [List.foldl_cons, hn, Bool.false_eq_true, if_false]
        exact ih.2 (fun x hx => h x (by simp [hx]))

/-- C26: `setSnarlManager` throws "Distance index does not match snarl
manager" if and only if some snarl key of the index has no snarl in the
manager, and otherwise it completes with the manager installed; the
constructor from a stream, once `load` has read an index, ends in the same
way. -/
theorem setSnarlManager_throws_iff (idx : DistanceIndex) (sm : SnarlManager) :
    (idx.setSnarlManager sm = Except.error "Distance index does not match snarl manager"
      ↔ ∃ x ∈ idx.snarlDistances, sm.into_which_snarl x.1.1 x.1.2 = none) ∧
    ((¬ ∃ x ∈ idx.snarlDistances, sm.into_which_snarl x.1.1 x.1.2 = none) →
      idx.setSnarlManager sm = Except.ok sm) ∧
    (∀ (loc : NodeLocator) (input rest : List Item),
      (DistanceIndex.unloaded loc).load input = some (idx, rest) →
      DistanceIndex.fromStream loc sm input
        = some (if ∃ x ∈ idx.snarlDistances, sm.into_which_snarl x.1.1 x.1.2 = none then
            Except.error "Distance index does not match snarl manager"
          else Except.ok (idx, sm))) := by
  classical
  have hf := setSnarlManager_fold idx.snarlDistances sm
  have hok : (¬ ∃ x ∈ idx.snarlDistances, sm.into_which_snarl x.1.1 x.1.2 = none) →
      idx.setSnarlManager sm = Except.ok sm := by
    intro h
    exact hf.2 (fun x hx hn => h ⟨x, hx, hn⟩)
  refine ⟨⟨?_, hf.1⟩, hok, ?_⟩
  · intro h
    by_contra hne
    rw [hok hne] at h
    cases h
  · intro loc input rest hload
    unfold DistanceIndex.fromStream
    rw [hload]
    by_cases hbad : ∃ x ∈ idx.snarlDistances, sm.into_which_snarl x.1.1 x.1.2 = none
    · have := hf.1 hbad
      simp only [DistanceIndex.setSnarlManager] at this ⊢
      rw [this, if_pos hbad]
    · have := hok hbad
      simp only [DistanceIndex.setSnarlManager] at this ⊢
      rw [this, if_neg hbad]

/-! ## Iterating over a stream of messages -/

/-- C28 (failing input): on a stream whose only group has the two messages
`[9]` and the empty message, `for_each` passes `[9]` to its callback and
returns; the iterator yields `[9]` and then throws, because `get_next` makes
its nested call for the empty message before `chunk_idx++`, so the nested
call takes the group as unfinished and reads a message size at the end of the
stream.  On a stream whose only message is empty, `for_each` returns without
a call and the constructor of the iterator throws.  On the stream of the
last two parts, whose empty message is followed by a message of its group,
the two agree. -/
theorem iterator_throws_on_last_empty :
    stream.for_each [Tok.varint 2, Tok.varint 1, Tok.bytes [9], Tok.varint 0]
      = some (Except.ok [[9]]) ∧
    stream.ProtobufIterator.values (fun _ => -1)
        [Tok.varint 2, Tok.varint 1, Tok.bytes [9], Tok.varint 0]
      = some ([[9]],
          some "[stream::ProtobufIterator] obsolete, invalid, or corrupt protobuf input") ∧
    stream.for_each [Tok.varint 1, Tok.varint 0] = some (Except.ok []) ∧
    stream.ProtobufIterator.new (fun _ => -1) [Tok.varint 1, Tok.varint 0]
      = some (Except.error
          "[stream::ProtobufIterator] obsolete, invalid, or corrupt protobuf input") ∧
    stream.for_each [Tok.varint 2, Tok.varint 0, Tok.varint 1, Tok.bytes [9],
        Tok.varint 1, Tok.varint 2, Tok.bytes [4, 4]] = some (Except.ok [[9], [4, 4]]) ∧
    stream.ProtobufIterator.values (fun _ => -1)
        [Tok.varint 2, Tok.varint 0, Tok.varint 1, Tok.bytes [9],
          Tok.varint 1, Tok.varint 2, Tok.bytes [4, 4]] = some ([[9], [4, 4]], none) := by
  refine ⟨rfl, by decide, rfl, rfl, rfl, by decide⟩

/-! ## Writing with adaptive chunking -/

/-- The arithmetic of the livelock: one element is left, nothing is added,
and twice `2^63` wraps to 0. -/
theorem write_words :
    usub (2 ^ 63 + 1) (2 ^ 63) = 1 ∧ uadd (2 ^ 63) 0 = 2 ^ 63 ∧ umul 0 2 = 0 ∧
    usub (2 ^ 63 + 1) 0 = 2 ^ 63 + 1 ∧ uadd 0 (2 ^ 63) = 2 ^ 63 ∧ umul (2 ^ 63) 2 = 0 := by
  refine ⟨?_, ?_, ?_, ?_, ?_, ?_⟩ <;> norm_num [usub, uadd, umul]

/-- With `2^63` elements written and the chunk size 0, an iteration of the
loop writes an empty range and changes nothing else. -/
theorem write_step_stuck (tell : List stream.Emitted → Int) (out : List stream.Emitted) :
    stream.write_step (2 ^ 63 + 1) tell (fun _ _ _ => 5) ⟨2 ^ 63, 0, out⟩
      = Except.ok ⟨2 ^ 63, 0, out ++ [⟨1, 5, 2 ^ 63, 0⟩]⟩ := by
  obtain ⟨e1, e2, e3, -, -, -⟩ := write_words
  unfold stream.write_step
  simp only [e1]
  have m : min 0 1 = 0 := rfl
  rw [m, if_neg (by norm_num [stream.MAX_PROTOBUF_SIZE]),
    if_pos (by norm_num [stream.TARGET_PROTOBUF_SIZE, stream.MAX_PROTOBUF_SIZE])]
  simp only [e2, e3]
  rfl

/-- The first iteration writes the range `(0, 2^63)` and leaves the chunk
size 0. -/
theorem write_step_first (tell : List stream.Emitted → Int) :
    stream.write_step (2 ^ 63 + 1) tell (fun _ _ _ => 5) ⟨0, 2 ^ 63, []⟩
      = Except.ok ⟨2 ^ 63, 0, [⟨1, 5, 0, 2 ^ 63⟩]⟩ := by
  obtain ⟨-, -, -, e4, e5, e6⟩ := write_words
  unfold stream.write_step
  simp only [e4]
  have m : min (2 ^ 63) (2 ^ 63 + 1) = 2 ^ 63 := by norm_num
  rw [m, if_neg (by norm_num [stream.MAX_PROTOBUF_SIZE]),
    if_pos (by norm_num [stream.TARGET_PROTOBUF_SIZE, stream.MAX_PROTOBUF_SIZE])]
  simp only [e5, e6]
  rfl

/-- From `2^63` elements written and the chunk size 0 the loop does not
end. -/
theorem write_loop_stuck (tell : List stream.Emitted → Int) (fuel : Nat) :
    ∀ out : List stream.Emitted,
      stream.write_loop (2 ^ 63 + 1) tell (fun _ _ _ => 5) fuel ⟨2 ^ 63, 0, out⟩ = none := by
  induction fuel with
  | zero => intro out; rfl
  | succ n ih =>
    intro out
    unfold stream.write_loop
    rw [if_pos (by norm_num), write_step_stuck]
    exact ih _

/-- C27 (failing input): with `2^63 + 1` elements, the initial chunk size
`2^63` and messages of 5 bytes for every range, the first iteration writes
the range `(0, 2^63)` and doubles the chunk size, which wraps to 0 in
`size_t`; every later iteration writes the empty range `(2^63, 0)` and leaves
`serialized` at `2^63`, so the call never returns. -/
theorem write_never_returns (tell : List stream.Emitted → Int) :
    stream.write_step (2 ^ 63 + 1) tell (fun _ _ _ => 5) ⟨0, 2 ^ 63, []⟩
      = Except.ok ⟨2 ^ 63, 0, [⟨1, 5, 0, 2 ^ 63⟩]⟩ ∧
    stream.write_step (2 ^ 63 + 1) tell (fun _ _ _ => 5) ⟨2 ^ 63, 0, [⟨1, 5, 0, 2 ^ 63⟩]⟩
      = Except.ok ⟨2 ^ 63, 0, [⟨1, 5, 0, 2 ^ 63⟩, ⟨1, 5, 2 ^ 63, 0⟩]⟩ ∧
    ∀ fuel, stream.write fuel (2 ^ 63 + 1) (2 ^ 63) tell (fun _ _ _ => 5) = none := by
  refine ⟨write_step_first tell, write_step_stuck tell _, ?_⟩
  intro fuel
  cases fuel with
  | zero => rfl
  | succ n =>
    unfold stream.write stream.write_loop
    rw [if_pos (by norm_num), write_step_first]
    exact write_loop_stuck tell n _

/-- With elements left, a chunk size of at least 1 and at most `2^63`
elements in all, an iteration of `stream::write` either halves the chunk size
or writes one message for the next elements. -/
theorem write_step_cases (E : Nat) (tell : List stream.Emitted → Int)
    (lambdaSize : Int → Nat → Nat → Nat) (st : stream.WriteState)
    (hE : E ≤ 2 ^ 63) (hone : ∀ off s, lambdaSize off s 1 ≤ stream.MAX_PROTOBUF_SIZE)
    (hs : st.serialized < E) (hc : 1 ≤ st.chunk_elements) :
    ∃ st2, stream.write_step E tell lambdaSize st = Except.ok st2 ∧
      st2.chunk_elements < 2 ^ 64 ∧
      ((st2.serialized = st.serialized ∧ st2.out = st.out ∧ 1 ≤ st2.chunk_elements ∧
          st2.chunk_elements < st.chunk_elements) ∨
       (∃ m, st2.out = st.out ++ [m] ∧ m.start = st.serialized ∧ 1 ≤ m.length ∧
          m.group_count = 1 ∧ m.size ≤ stream.MAX_PROTOBUF_SIZE ∧
          st2.serialized = st.serialized + m.length ∧ st2.serialized ≤ E ∧
          (1 ≤ st2.chunk_elements ∨ st2.serialized = E))) := by
  have husub : usub E st.serialized = E - st.serialized := by
    unfold usub
    omega
  have hmax : stream.MAX_PROTOBUF_SIZE = 1000000000 := rfl
  have htarget : stream.TARGET_PROTOBUF_SIZE = 500000000 := by
    unfold stream.TARGET_PROTOBUF_SIZE
    rw [hmax]
  unfold stream.write_step
  simp only [husub]
  generalize hcdef : min st.chunk_elements (E - st.serialized) = c
  have hc1 : 1 ≤ c := by omega
  have hc2 : c ≤ E - st.serialized := by omega
  have hc3 : c ≤ st.chunk_elements := by omega
  generalize hsz : lambdaSize (tell st.out) st.serialized c = size
  by_cases hbig : size > stream.MAX_PROTOBUF_SIZE
  · rw [if_pos hbig]
    have hgt : c > 1 := by
      rcases Nat.lt_or_ge 1 c with h | h
      · exact h
      · have h1 : c = 1 := by omega
        subst h1
        have := hone (tell st.out) st.serialized
        omega
    rw [if_pos hgt]
    refine ⟨_, rfl, ?_, Or.inl ⟨rfl, rfl, ?_, ?_⟩⟩
    · show c / 2 < 2 ^ 64
      omega
    · show 1 ≤ c / 2
      omega
    · show c / 2 < st.chunk_elements
      omega
  · rw [if_neg hbig]
    have hadd : uadd st.serialized c = st.serialized + c := by
      unfold uadd
      omega
    have hsize : size % 2 ^ 32 ≤ stream.MAX_PROTOBUF_SIZE := by
      rw [hmax] at hbig ⊢
      omega
    have hmsg : ∀ k, k < 2 ^ 64 → (1 ≤ k ∨ st.serialized + c = E) →
        ∃ st2, (Except.ok ⟨uadd st.serialized c, k,
            st.out ++ [⟨1, size % 2 ^ 32, st.serialized, c⟩]⟩ :
            Except String stream.WriteState) = Except.ok st2 ∧
          st2.chunk_elements < 2 ^ 64 ∧
          ((st2.serialized = st.serialized ∧ st2.out = st.out ∧ 1 ≤ st2.chunk_elements ∧
              st2.chunk_elements < st.chunk_elements) ∨
           (∃ m, st2.out = st.out ++ [m] ∧ m.start = st.serialized ∧ 1 ≤ m.length ∧
              m.group_count = 1 ∧ m.size ≤ stream.MAX_PROTOBUF_SIZE ∧
              st2.serialized = st.serialized + m.length ∧ st2.serialized ≤ E ∧
              (1 ≤ st2.chunk_elements ∨ st2.serialized = E))) := by
      intro k hk hk1
      refine ⟨_, rfl, hk, Or.inr ⟨_, rfl, rfl, hc1, rfl, hsize, hadd, ?_, ?_⟩⟩
      · show uadd st.serialized c ≤ E
        rw [hadd]
        omega
      · show 1 ≤ k ∨ uadd st.serialized c = E
        rw [hadd]
        exact hk1
    by_cases hsmall : size < stream.TARGET_PROTOBUF_SIZE / 2
    · rw [if_pos hsmall]
      refine hmsg (umul c 2) ?_ ?_
      · unfold umul
        omega
      · unfold umul
        omega
    · rw [if_neg hsmall]
      by_cases hlarge : size > stream.TARGET_PROTOBUF_SIZE ∧ c > 1
      · rw [if_pos hlarge]
        refine hmsg (c / 2) (by omega) (Or.inl ?_)
        have := hlarge.2
        omega
      · rw [if_neg hlarge]
        exact hmsg c (by omega) (Or.inl hc1)

theorem consecutive_nil (a : Nat) : stream.Consecutive a a [] := rfl

/-- For at most `2^63` elements and single-element messages that are not too
large, the loop of `stream::write` ends from every state with a chunk size of
at least 1, and the messages it adds cover the elements that were left. -/
theorem write_loop_returns (E : Nat) (tell : List stream.Emitted → Int)
    (lambdaSize : Int → Nat → Nat → Nat)
    (hE : E ≤ 2 ^ 63) (hone : ∀ off s, lambdaSize off s 1 ≤ stream.MAX_PROTOBUF_SIZE)
    (μ : Nat) : ∀ st : stream.WriteState,
    (E - st.serialized) * 2 ^ 64 + st.chunk_elements ≤ μ →
    st.serialized ≤ E → st.chunk_elements < 2 ^ 64 →
    (1 ≤ st.chunk_elements ∨ st.serialized = E) →
    ∃ fuel tail, stream.write_loop E tell lambdaSize fuel st
        = some (Except.ok (true, st.out ++ tail)) ∧
      stream.Consecutive st.serialized E tail := by
  induction μ using Nat.strong_induction_on with
  | _ μ ih =>
    intro st hμ hsE hc64 hc
    by_cases hs : st.serialized < E
    · have hc1 : 1 ≤ st.chunk_elements := by omega
      obtain ⟨st2, hstep, h64, hcase⟩ :=
        write_step_cases E tell lambdaSize st hE hone hs hc1
      rcases hcase with ⟨hser, hout, h1, hlt⟩ | ⟨m, hout, hstart, hlen, hgc, hsize, hser, hle, h1⟩
      · obtain ⟨fuel, tail, hrun, hcons⟩ :=
          ih ((E - st2.serialized) * 2 ^ 64 + st2.chunk_elements) (by rw [hser]; omega) st2
            (le_refl _) (by rw [hser]; exact hsE) h64 (Or.inl h1)
        refine ⟨fuel + 1, tail, ?_, ?_⟩
        · unfold stream.write_loop
          rw [if_pos hs, hstep]
          show stream.write_loop E tell lambdaSize fuel st2 = _
          rw [hrun, hout]
        · rw [← hser]; exact hcons
      · obtain ⟨fuel, tail, hrun, hcons⟩ :=
          ih ((E - st2.serialized) * 2 ^ 64 + st2.chunk_elements) (by rw [hser]; omega) st2
            (le_refl _) hle h64 h1
        refine ⟨fuel + 1, m :: tail, ?_, ?_⟩
        · unfold stream.write_loop
          rw [if_pos hs, hstep]
          show stream.write_loop E tell lambdaSize fuel st2 = _
          rw [hrun, hout, List.append_assoc]
          rfl
        · refine ⟨hstart, hlen, hgc, hsize, ?_⟩
          rw [← hser]
          exact hcons
    · refine ⟨1, [], ?_, ?_⟩
      · unfold stream.write_loop
        rw [if_neg hs, List.append_nil]
      · show st.serialized = E
        omega

/-- The claim of C27 holds for at most `2^63` elements: the call returns true
and its messages cover the elements `0 .. element_count` in order. -/
theorem write_returns_up_to_half_range (element_count chunk_elements : Nat)
    (tell : List stream.Emitted → Int) (lambdaSize : Int → Nat → Nat → Nat)
    (hE : element_count ≤ 2 ^ 63) (hc : 1 ≤ chunk_elements) (hc64 : chunk_elements < 2 ^ 64)
    (hone : ∀ off s, lambdaSize off s 1 ≤ stream.MAX_PROTOBUF_SIZE) :
    ∃ fuel out, stream.write fuel element_count chunk_elements tell lambdaSize
        = some (Except.ok (true, out)) ∧
      stream.Consecutive 0 element_count out := by
  obtain ⟨fuel, tail, hrun, hcons⟩ :=
    write_loop_returns element_count tell lambdaSize hE hone _
      ⟨0, chunk_elements, []⟩ (le_refl _) (Nat.zero_le _) hc64 (Or.inl hc)
  exact ⟨fuel, tail, by simpa [stream.write] using hrun, hcons⟩

/-! ## The enumeration of the units of a snarl -/

/-- The two units that `addNode` appends for an interior node. -/
theorem addNodes_nodes (a b : Int) (slot : Nat) (handles : List Int) (nodes : List Side)
    (prim : Int → Nat × Nat) :
    (calculateMinIndex.addNodes a b slot handles (nodes, prim)).1
      = nodes ++ (handles.filter (fun id => decide (id ≠ a ∧ id ≠ b))).flatMap
          (fun id => [(id, false), (id, true)]) := by
  induction handles generalizing nodes prim with
  | nil => simp [calculateMinIndex.addNodes]
  | cons id rest ih =>
    unfold calculateMinIndex.addNodes
    by_cases h : id ≠ a ∧ id ≠ b
    · rw [if_pos h, ih, List.filter_cons_of_pos (by simpa using h)]
      simp [List.flatMap_cons, List.append_assoc]
    · rw [if_neg h, ih, List.filter_cons_of_neg (by simpa using h)]

/-- The list grows by two units for every interior handle. -/
theorem addNodes_length (a b : Int) (slot : Nat) (handles : List Int) (nodes : List Side)
    (prim : Int → Nat × Nat) :
    (calculateMinIndex.addNodes a b slot handles (nodes, prim)).1.length
      = nodes.length + 2 * (handles.filter (fun id => decide (id ≠ a ∧ id ≠ b))).length := by
  induction handles generalizing nodes prim with
  | nil => simp [calculateMinIndex.addNodes]
  | cons id rest ih =>
    unfold calculateMinIndex.addNodes
    by_cases h : id ≠ a ∧ id ≠ b
    · rw [if_pos h, ih, List.filter_cons_of_pos (by simpa using h)]
      simp only [List.length_append, List.length_cons, List.length_nil]
      omega
    · rw [if_neg h, ih, List.filter_cons_of_neg (by simpa using h)]

/-- The units already in the list stay where they are. -/
theorem addNodes_extends (a b : Int) (slot : Nat) (handles : List Int) (nodes : List Side)
    (prim : Int → Nat × Nat) (i : Nat) (h : i < nodes.length) :
    (calculateMinIndex.addNodes a b slot handles (nodes, prim)).1[i]? = nodes[i]? := by
  rw [addNodes_nodes, List.getElem?_append_left h]

/-- A node that is not among the handles keeps its entry of `primary_snarls`. -/
theorem addNodes_untouched (a b : Int) (slot : Nat) (handles : List Int) (nodes : List Side)
    (prim : Int → Nat × Nat) (id : Int) (h : id ∉ handles) :
    (calculateMinIndex.addNodes a b slot handles (nodes, prim)).2 id = prim id := by
  induction handles generalizing nodes prim with
  | nil => simp [calculateMinIndex.addNodes]
  | cons x rest ih =>
    have hx : id ≠ x := fun e => h (by simp [e])
    have hr : id ∉ rest := fun e => h (by simp [e])
    unfold calculateMinIndex.addNodes
    by_cases hc : x ≠ a ∧ x ≠ b
    · rw [if_pos hc, ih _ _ hr, Function.update_noteq hx]
    · rw [if_neg hc, ih _ _ hr]

/-- Every interior handle has its pair of units at the recorded position. -/
theorem addNodes_recorded (a b : Int) (slot : Nat) (handles : List Int) (nodes : List Side)
    (prim : Int → Nat × Nat) (id : Int) (hid : id ∈ handles) (ha : id ≠ a) (hb : id ≠ b) :
    ∃ p, (calculateMinIndex.addNodes a b slot handles (nodes, prim)).2 id = (slot, p) ∧
      nodes.length ≤ p ∧ (p - nodes.length) % 2 = 0 ∧
      p + 1 < (calculateMinIndex.addNodes a b slot handles (nodes, prim)).1.length ∧
      (calculateMinIndex.addNodes a b slot handles (nodes, prim)).1[p]? = some (id, false) ∧
      (calculateMinIndex.addNodes a b slot handles (nodes, prim)).1[p + 1]?
        = some (id, true) := by
  induction handles generalizing nodes prim with
  | nil => simp at hid
  | cons x rest ih =>
    by_cases hrest : id ∈ rest
    · unfold calculateMinIndex.addNodes
      by_cases hc : x ≠ a ∧ x ≠ b
      · rw [if_pos hc]
        obtain ⟨p, h1, h2, h3, h4, h5, h6⟩ := ih (nodes ++ [(x, false), (x, true)])
          (Function.update prim x (slot, nodes.length)) hrest
        simp only [List.length_append, List.length_cons, List.length_nil] at h2 h3
        exact ⟨p, h1, by omega, by omega, h4, h5, h6⟩
      · rw [if_neg hc]
        exact ih nodes prim hrest
    · have hx : id = x := by
        rcases List.mem_cons.1 hid with h | h
        · exact h
        · exact absurd h hrest
      subst hx
      unfold calculateMinIndex.addNodes
      rw [if_pos ⟨ha, hb⟩]
      refine ⟨nodes.length, ?_, le_refl _, by simp, ?_, ?_, ?_⟩
      · rw [addNodes_untouched _ _ _ _ _ _ _ hrest, Function.update_same]
      · rw [addNodes_length]
        simp only [List.length_append, List.length_cons, List.length_nil]
        omega
      · rw [addNodes_extends _ _ _ _ _ _ _ (by simp),
          List.getElem?_append_right (le_refl _)]
        simp
      · rw [addNodes_extends _ _ _ _ _ _ _ (by simp),
          List.getElem?_append_right (by omega)]
        simp

/-- The list of oriented units of a snarl has even length at least 4;
it holds the start node facing in at position 0 and facing out at position
1, the end node facing out at the second-last position and facing in at the
last position, and between them the pair (forward, reverse) of every handle
of the net graph that is not a boundary node; the position recorded in
`primary_snarls` for such a node is even and is where its pair starts. -/
theorem allNodes_layout (s : Snarl) (handles : List Int) (slot : Nat)
    (prim : Int → Nat × Nat) :
    (calculateMinIndex.allNodes s handles slot prim).1.length % 2 = 0 ∧
    4 ≤ (calculateMinIndex.allNodes s handles slot prim).1.length ∧
    (calculateMinIndex.allNodes s handles slot prim).1
      = [(s.start.node_id, s.start.backward), (s.start.node_id, !s.start.backward)]
        ++ (handles.filter
              (fun id => decide (id ≠ s.start.node_id ∧ id ≠ s.end_.node_id))).flatMap
            (fun id => [(id, false), (id, true)])
        ++ [(s.end_.node_id, s.end_.backward), (s.end_.node_id, !s.end_.backward)] ∧
    (calculateMinIndex.allNodes s handles slot prim).1[0]?
      = some (s.start.node_id, s.start.backward) ∧
    (calculateMinIndex.allNodes s handles slot prim).1[1]?
      = some (s.start.node_id, !s.start.backward) ∧
    (calculateMinIndex.allNodes s handles slot prim).1[
        (calculateMinIndex.allNodes s handles slot prim).1.length - 2]?
      = some (s.end_.node_id, s.end_.backward) ∧
    (calculateMinIndex.allNodes s handles slot prim).1[
        (calculateMinIndex.allNodes s handles slot prim).1.length - 1]?
      = some (s.end_.node_id, !s.end_.backward) ∧
    (∀ id ∈ handles, id ≠ s.start.node_id → id ≠ s.end_.node_id →
      ∃ p, (calculateMinIndex.allNodes s handles slot prim).2 id = (slot, p) ∧
        p % 2 = 0 ∧ 2 ≤ p ∧
        p + 1 < (calculateMinIndex.allNodes s handles slot prim).1.length - 2 ∧
        (calculateMinIndex.allNodes s handles slot prim).1[p]? = some (id, false) ∧
        (calculateMinIndex.allNodes s handles slot prim).1[p + 1]? = some (id, true)) := by
  have hl := addNodes_length s.start.node_id s.end_.node_id slot handles
    [(s.start.node_id, s.start.backward), (s.start.node_id, !s.start.backward)] prim
  have hn := addNodes_nodes s.start.node_id s.end_.node_id slot handles
    [(s.start.node_id, s.start.backward), (s.start.node_id, !s.start.backward)] prim
  simp only [List.length_cons, List.length_nil] at hl
  have hlen : (calculateMinIndex.allNodes s handles slot prim).1.length
      = (calculateMinIndex.addNodes s.start.node_id s.end_.node_id slot handles
          ([(s.start.node_id, s.start.backward), (s.start.node_id, !s.start.backward)],
            prim)).1.length + 2 := by
    simp [calculateMinIndex.allNodes]
  have hget : ∀ i, i < (calculateMinIndex.addNodes s.start.node_id s.end_.node_id slot handles
          ([(s.start.node_id, s.start.backward), (s.start.node_id, !s.start.backward)],
            prim)).1.length →
      (calculateMinIndex.allNodes s handles slot prim).1[i]?
        = (calculateMinIndex.addNodes s.start.node_id s.end_.node_id slot handles
          ([(s.start.node_id, s.start.backward), (s.start.node_id, !s.start.backward)],
            prim)).1[i]? := by
    intro i hi
    simp only [calculateMinIndex.allNodes]
    exact List.getElem?_append_left hi
  refine ⟨by omega, by omega, ?_, ?_, ?_, ?_, ?_, ?_⟩
  · simp only [calculateMinIndex.allNodes]
    rw [hn]
  · rw [hget 0 (by omega), addNodes_extends _ _ _ _ _ _ _ (by simp)]
    rfl
  · rw [hget 1 (by omega), addNodes_extends _ _ _ _ _ _ _ (by simp)]
    rfl
  · rw [hlen]
    simp only [calculateMinIndex.allNodes, Nat.add_sub_cancel]
    rw [List.getElem?_append_right (le_refl _)]
    simp
  · rw [hlen]
    simp only [calculateMinIndex.allNodes]
    rw [List.getElem?_append_right (by omega)]
    have : (calculateMinIndex.addNodes s.start.node_id s.end_.node_id slot handles
          ([(s.start.node_id, s.start.backward), (s.start.node_id, !s.start.backward)],
            prim)).1.length + 2 - 1 - (calculateMinIndex.addNodes s.start.node_id
              s.end_.node_id slot handles
          ([(s.start.node_id, s.start.backward), (s.start.node_id, !s.start.backward)],
            prim)).1.length = 1 := by omega
    rw [this]
    rfl
  · intro id hid ha hb
    obtain ⟨p, h1, h2, h3, h4, h5, h6⟩ := addNodes_recorded s.start.node_id s.end_.node_id
      slot handles
      [(s.start.node_id, s.start.backward), (s.start.node_id, !s.start.backward)] prim id
      hid ha hb
    simp only [List.length_cons, List.length_nil] at h2 h3
    refine ⟨p, ?_, by omega, by omega, by omega, ?_, ?_⟩
    · simpa [calculateMinIndex.allNodes] using h1
    · rw [hget p (by omega)]; exact h5
    · rw [hget (p + 1) (by omega)]; exact h6

/-- A step of `addNode` that returns keeps the length of the vector. -/
theorem addNode_length (a b : Int) (slot : Nat) (st st2 : List Side × List (Nat × Nat))
    (id : Int) (h : calculateMinIndex.addNode a b slot st id = some st2) :
    st2.2.length = st.2.length := by
  unfold calculateMinIndex.addNode calculateMinIndex.writePrimary at h
  by_cases hc : id ≠ a ∧ id ≠ b
  · rw [if_pos hc] at h
    by_cases hl : toUInt64 id < st.2.length
    · rw [if_pos hl] at h
      simp only [Option.map_some', Option.some.injEq] at h
      rw [← h]
      simp
    · rw [if_neg hl] at h
      cases h
  · rw [if_neg hc] at h
    cases h
    rfl

/-- An interior handle whose id is past the end of the vector leaves the
enumeration without a result. -/
theorem forEachAddNode_past_end (a b : Int) (slot : Nat) (handles : List Int)
    (st : List Side × List (Nat × Nat)) (id : Int) (hid : id ∈ handles) (ha : id ≠ a)
    (hb : id ≠ b) (hpast : st.2.length ≤ toUInt64 id) :
    calculateMinIndex.forEachAddNode a b slot handles st = none := by
  induction handles generalizing st with
  | nil => simp at hid
  | cons x rest ih =>
    unfold calculateMinIndex.forEachAddNode
    cases hstep : calculateMinIndex.addNode a b slot st x with
    | none => rfl
    | some st2 =>
      simp only []
      have hlen := addNode_length a b slot st st2 x hstep
      rcases List.mem_cons.1 hid with hx | hrest
      · subst hx
        unfold calculateMinIndex.addNode calculateMinIndex.writePrimary at hstep
        rw [if_pos ⟨ha, hb⟩, if_neg (by omega)] at hstep
        cases hstep
      · exact ih st2 hrest (by rw [hlen]; exact hpast)

/-- When the enumeration on the vector returns, its list is the list of the
enumeration on the table taken as a function. -/
theorem forEachAddNode_nodes (a b : Int) (slot : Nat) (handles : List Int)
    (st st2 : List Side × List (Nat × Nat)) (f : Int → Nat × Nat)
    (h : calculateMinIndex.forEachAddNode a b slot handles st = some st2) :
    st2.1 = (calculateMinIndex.addNodes a b slot handles (st.1, f)).1 ∧
    st2.2.length = st.2.length := by
  induction handles generalizing st f with
  | nil =>
    unfold calculateMinIndex.forEachAddNode at h
    cases h
    exact ⟨rfl, rfl⟩
  | cons x rest ih =>
    unfold calculateMinIndex.forEachAddNode at h
    cases hstep : calculateMinIndex.addNode a b slot st x with
    | none => rw [hstep] at h; cases h
    | some st3 =>
      rw [hstep] at h
      simp only [] at h
      have hlen := addNode_length a b slot st st3 x hstep
      unfold calculateMinIndex.addNodes
      unfold calculateMinIndex.addNode at hstep
      by_cases hc : x ≠ a ∧ x ≠ b
      · rw [if_pos hc] at hstep ⊢
        obtain ⟨v, -, hv⟩ := Option.map_eq_some'.1 hstep
        subst hv
        obtain ⟨h1, h2⟩ := ih _ (Function.update f x (slot, st.1.length)) h
        exact ⟨h1, by rw [h2]; exact hlen⟩
      · rw [if_neg hc] at hstep ⊢
        cases hstep
        exact ih _ f h

/-- When every interior handle has its id inside the vector, the enumeration
returns. -/
theorem forEachAddNode_returns (a b : Int) (slot : Nat) (handles : List Int)
    (st : List Side × List (Nat × Nat))
    (hin : ∀ id ∈ handles, id ≠ a → id ≠ b → toUInt64 id < st.2.length) :
    ∃ st2, calculateMinIndex.forEachAddNode a b slot handles st = some st2 := by
  induction handles generalizing st with
  | nil => exact ⟨st, rfl⟩
  | cons x rest ih =>
    have hstep : ∃ st3, calculateMinIndex.addNode a b slot st x = some st3 := by
      unfold calculateMinIndex.addNode calculateMinIndex.writePrimary
      by_cases hc : x ≠ a ∧ x ≠ b
      · have hlt := hin x (List.mem_cons_self _ _) hc.1 hc.2
        rw [if_pos hc, if_pos hlt]
        exact ⟨_, rfl⟩
      · rw [if_neg hc]
        exact ⟨_, rfl⟩
    obtain ⟨st3, h3⟩ := hstep
    have hlen := addNode_length a b slot st st3 x h3
    obtain ⟨st2, h2⟩ := ih st3 (fun id hid ha hb => by
      rw [hlen]; exact hin id (List.mem_cons_of_mem _ hid) ha hb)
    refine ⟨st2, ?_⟩
    unfold calculateMinIndex.forEachAddNode
    rw [h3]
    exact h2

/-- A cell that no interior handle names keeps its entry. -/
theorem forEachAddNode_untouched (a b : Int) (slot : Nat) (handles : List Int)
    (st st2 : List Side × List (Nat × Nat)) (i : Nat)
    (hno : ∀ id ∈ handles, id ≠ a → id ≠ b → toUInt64 id ≠ i)
    (h : calculateMinIndex.forEachAddNode a b slot handles st = some st2) :
    st2.2[i]? = st.2[i]? := by
  induction handles generalizing st with
  | nil =>
    unfold calculateMinIndex.forEachAddNode at h
    cases h
    rfl
  | cons x rest ih =>
    unfold calculateMinIndex.forEachAddNode at h
    cases hstep : calculateMinIndex.addNode a b slot st x with
    | none => rw [hstep] at h; cases h
    | some st3 =>
      rw [hstep] at h
      simp only [] at h
      rw [ih st3 (fun id hid => hno id (List.mem_cons_of_mem _ hid)) h]
      unfold calculateMinIndex.addNode calculateMinIndex.writePrimary at hstep
      by_cases hc : x ≠ a ∧ x ≠ b
      · rw [if_pos hc] at hstep
        by_cases hl : toUInt64 x < st.2.length
        · rw [if_pos hl] at hstep
          simp only [Option.map_some', Option.some.injEq] at hstep
          rw [← hstep]
          exact List.getElem?_set_ne (hno x (List.mem_cons_self _ _) hc.1 hc.2)
        · rw [if_neg hl] at hstep
          cases hstep
      · rw [if_neg hc] at hstep
        cases hstep
        rfl

/-- The conversion of an `id_t` to `size_t` is one to one. -/
theorem toUInt64_injective_on (x y : Int) (hx : -2 ^ 63 ≤ x ∧ x < 2 ^ 63)
    (hy : -2 ^ 63 ≤ y ∧ y < 2 ^ 63) (h : toUInt64 x = toUInt64 y) : x = y := by
  have ex := wrap64_of_int64 x hx.1 hx.2
  have ey := wrap64_of_int64 y hy.1 hy.2
  unfold wrap64 at ex ey
  rw [← ex, ← ey, h]

/-- Every interior handle has its pair of units at the position recorded in
its cell of the vector. -/
theorem forEachAddNode_recorded (a b : Int) (slot : Nat) (handles : List Int)
    (st st2 : List Side × List (Nat × Nat)) (id : Int) (hid : id ∈ handles) (ha : id ≠ a)
    (hb : id ≠ b) (hrange : ∀ x ∈ handles, -2 ^ 63 ≤ x ∧ x < 2 ^ 63)
    (h : calculateMinIndex.forEachAddNode a b slot handles st = some st2) :
    ∃ p, st2.2[toUInt64 id]? = some (slot, p) ∧
      st.1.length ≤ p ∧ (p - st.1.length) % 2 = 0 ∧ p + 1 < st2.1.length ∧
      st2.1[p]? = some (id, false) ∧ st2.1[p + 1]? = some (id, true) := by
  induction handles generalizing st with
  | nil => simp at hid
  | cons x rest ih =>
    have h0 := h
    unfold calculateMinIndex.forEachAddNode at h
    cases hstep : calculateMinIndex.addNode a b slot st x with
    | none => rw [hstep] at h; cases h
    | some st3 =>
      rw [hstep] at h
      simp only [] at h
      have hr : ∀ y ∈ rest, -2 ^ 63 ≤ y ∧ y < 2 ^ 63 :=
        fun y hy => hrange y (List.mem_cons_of_mem _ hy)
      have hst3 : st3.1.length = st.1.length ∨ st3.1.length = st.1.length + 2 := by
        unfold calculateMinIndex.addNode at hstep
        by_cases hc : x ≠ a ∧ x ≠ b
        · rw [if_pos hc] at hstep
          obtain ⟨v, -, hv⟩ := Option.map_eq_some'.1 hstep
          subst hv
          right
          simp
        · rw [if_neg hc] at hstep
          cases hstep
          exact Or.inl rfl
      by_cases hrest : id ∈ rest
      · obtain ⟨p, h1, h2, h3, h4, h5, h6⟩ := ih st3 hrest hr h
        refine ⟨p, h1, by omega, by omega, h4, h5, h6⟩
      · have hx : id = x := by
          rcases List.mem_cons.1 hid with e | e
          · exact e
          · exact absurd e hrest
        subst hx
        have hno : ∀ y ∈ rest, y ≠ a → y ≠ b → toUInt64 y ≠ toUInt64 id := by
          intro y hy _ _ e
          have := toUInt64_injective_on y id (hr y hy) (hrange id (List.mem_cons_self _ _)) e
          exact hrest (this ▸ hy)
        have hcell := forEachAddNode_untouched a b slot rest st3 st2 (toUInt64 id) hno h
        obtain ⟨hnodes, -⟩ := forEachAddNode_nodes a b slot rest st3 st2
          (fun _ => (0, 0)) h
        unfold calculateMinIndex.addNode calculateMinIndex.writePrimary at hstep
        rw [if_pos ⟨ha, hb⟩] at hstep
        by_cases hl : toUInt64 id < st.2.length
        · rw [if_pos hl] at hstep
          simp only [Option.map_some', Option.some.injEq] at hstep
          subst hstep
          refine ⟨st.1.length, ?_, le_refl _, by simp, ?_, ?_, ?_⟩
          · rw [hcell]
            exact List.getElem?_set_self hl
          · rw [hnodes, addNodes_length]
            simp only [List.length_append, List.length_cons, List.length_nil]
            omega
          · rw [hnodes, addNodes_extends _ _ _ _ _ _ _ (by simp),
              List.getElem?_append_right (le_refl _)]
            simp
          · rw [hnodes, addNodes_extends _ _ _ _ _ _ _ (by simp),
              List.getElem?_append_right (by omega)]
            simp
        · rw [if_neg hl] at hstep
          cases hstep

/-- The list of the enumeration on the vector, when it returns, is the list
of `calculateMinIndex.allNodes`, and the vector keeps its length. -/
theorem enumerate_nodes (s : Snarl) (handles : List Int) (slot : Nat)
    (prim : List (Nat × Nat)) (f : Int → Nat × Nat) (r : List Side × List (Nat × Nat))
    (h : calculateMinIndex.enumerate s handles slot prim = some r) :
    r.1 = (calculateMinIndex.allNodes s handles slot f).1 ∧ r.2.length = prim.length := by
  unfold calculateMinIndex.enumerate at h
  obtain ⟨st2, h2, hr⟩ := Option.map_eq_some'.1 h
  obtain ⟨h3, h4⟩ := forEachAddNode_nodes _ _ _ _ _ _ f h2
  subst hr
  simp only [calculateMinIndex.allNodes]
  exact ⟨by rw [h3], h4⟩

/-- C29 (failing input, and every snarl): `primary_snarls` is a vector that
the constructor sizes with `max_node_id - min_node_id` entries, and `addNode`
writes it at the node id itself.  For the graph with the nodes 1, 2, 3 the
vector has 2 entries, and for the snarl `(1 → 3)` with the interior node `2`
the write `primary_snarls[2]` is past its end: the enumeration has no
defined result, and no position is recorded for the node.  The same holds for
every graph whose ids start at 1 or above and every snarl with an interior
node whose id is at least `max_node_id - min_node_id`.  When the ids of the
interior nodes are inside the vector, the enumeration returns the list of
the claim: even length at least 4, the start node facing in at position 0 and
facing out at position 1, the end node facing out at the second-last position
and facing in at the last, between them the pair (forward, reverse) of every
handle that is not a boundary node, and in the cell of every such node the
even position where its pair starts. -/
theorem allNodes_written_past_end :
    (DistanceIndex.newPrimarySnarls 1 3).length = 2 ∧
    calculateMinIndex.enumerate ⟨⟨1, false⟩, ⟨3, false⟩⟩ [1, 2, 3] 0
      (DistanceIndex.newPrimarySnarls 1 3) = none ∧
    (∀ (min_node_id max_node_id : Int) (s : Snarl) (handles : List Int) (slot : Nat),
      1 ≤ min_node_id → min_node_id ≤ max_node_id → max_node_id < 2 ^ 63 →
      (∃ id ∈ handles, id ≠ s.start.node_id ∧ id ≠ s.end_.node_id ∧
        max_node_id - min_node_id ≤ id ∧ id ≤ max_node_id) →
      calculateMinIndex.enumerate s handles slot
        (DistanceIndex.newPrimarySnarls min_node_id max_node_id) = none) ∧
    (∀ (s : Snarl) (handles : List Int) (slot : Nat) (prim : List (Nat × Nat)),
      (∀ id ∈ handles, -2 ^ 63 ≤ id ∧ id < 2 ^ 63) →
      (∀ id ∈ handles, id ≠ s.start.node_id → id ≠ s.end_.node_id →
        toUInt64 id < prim.length) →
      ∃ nodes prim2, calculateMinIndex.enumerate s handles slot prim = some (nodes, prim2) ∧
        nodes.length % 2 = 0 ∧ 4 ≤ nodes.length ∧
        nodes
          = [(s.start.node_id, s.start.backward), (s.start.node_id, !s.start.backward)]
            ++ (handles.filter
                  (fun id => decide (id ≠ s.start.node_id ∧ id ≠ s.end_.node_id))).flatMap
                (fun id => [(id, false), (id, true)])
            ++ [(s.end_.node_id, s.end_.backward), (s.end_.node_id, !s.end_.backward)] ∧
        nodes[0]? = some (s.start.node_id, s.start.backward) ∧
        nodes[1]? = some (s.start.node_id, !s.start.backward) ∧
        nodes[nodes.length - 2]? = some (s.end_.node_id, s.end_.backward) ∧
        nodes[nodes.length - 1]? = some (s.end_.node_id, !s.end_.backward) ∧
        (∀ id ∈ handles, id ≠ s.start.node_id → id ≠ s.end_.node_id →
          ∃ p, prim2[toUInt64 id]? = some (slot, p) ∧ p % 2 = 0 ∧ 2 ≤ p ∧
            p + 1 < nodes.length - 2 ∧
            nodes[p]? = some (id, false) ∧ nodes[p + 1]? = some (id, true))) := by
  refine ⟨by decide, by decide, ?_, ?_⟩
  · intro min_node_id max_node_id s handles slot hmin hle hmax ⟨id, hid, ha, hb, hlo, hhi⟩
    unfold calculateMinIndex.enumerate
    rw [forEachAddNode_past_end _ _ _ _ _ id hid ha hb]
    · rfl
    · show (DistanceIndex.newPrimarySnarls min_node_id max_node_id).length ≤ toUInt64 id
      unfold DistanceIndex.newPrimarySnarls
      rw [List.length_replicate, toUInt64_of_nonneg _ (by omega) (by omega),
        toUInt64_of_nonneg _ (by omega) (by omega)]
      omega
  · intro s handles slot prim hrange hin
    obtain ⟨st2, hst2⟩ := forEachAddNode_returns s.start.node_id s.end_.node_id slot handles
      ([(s.start.node_id, s.start.backward), (s.start.node_id, !s.start.backward)], prim) hin
    have hen : calculateMinIndex.enumerate s handles slot prim
        = some (st2.1 ++ [(s.end_.node_id, s.end_.backward),
            (s.end_.node_id, !s.end_.backward)], st2.2) := by
      unfold calculateMinIndex.enumerate
      rw [hst2]
      rfl
    obtain ⟨hnodes, -⟩ := enumerate_nodes s handles slot prim (fun _ => (0, 0)) _ hen
    simp only [] at hnodes
    obtain ⟨l1, l2, l3, l4, l5, l6, l7, -⟩ := allNodes_layout s handles slot (fun _ => (0, 0))
    refine ⟨_, _, hen, ?_⟩
    rw [hnodes]
    refine ⟨l1, l2, l3, l4, l5, l6, l7, ?_⟩
    intro id hid ha hb
    obtain ⟨p, h1, h2, h3, h4, h5, h6⟩ := forEachAddNode_recorded _ _ _ _ _ _ id hid ha hb
      hrange hst2
    simp only [List.length_cons, List.length_nil] at h2 h3
    have hlen : (calculateMinIndex.allNodes s handles slot (fun _ => (0, 0))).1.length
        = st2.1.length + 2 := by
      rw [← hnodes]
      simp
    refine ⟨p, h1, by omega, by omega, by omega, ?_, ?_⟩
    · rw [← hnodes, List.getElem?_append_left (by omega)]
      exact h5
    · rw [← hnodes, List.getElem?_append_left (by omega)]
      exact h6

/-! ## The Dijkstra loop -/

theorem popMin_popsMinimum : PopsMinimum popMin := by
  intro q
  induction q with
  | nil => exact ⟨fun _ => rfl, fun x rest h => by simp [popMin] at h⟩
  | cons a q ih =>
    refine ⟨fun h => ?_, fun x rest h => ?_⟩
    · unfold popMin at h
      cases hq : popMin q with
      | none => simp [hq] at h
      | some p =>
        obtain ⟨y, r2⟩ := p
        simp only [hq] at h
        split_ifs at h
    · unfold popMin at h
      cases hq : popMin q with
      | none =>
        simp only [hq, Option.some.injEq, Prod.mk.injEq] at h
        obtain ⟨rfl, rfl⟩ := h
        have := ih.1 hq
        subst this
        exact ⟨List.Perm.refl _, fun y hy => by simp at hy; subst hy; exact le_refl _⟩
      | some p =>
        obtain ⟨y, r2⟩ := p
        obtain ⟨hperm, hmin⟩ := ih.2 y r2 hq
        simp only [hq] at h
        split_ifs at h with hle
        · simp only [Option.some.injEq, Prod.mk.injEq] at h
          obtain ⟨rfl, rfl⟩ := h
          refine ⟨List.Perm.refl _, fun z hz => ?_⟩
          rcases List.mem_cons.1 hz with rfl | hz
          · exact le_refl _
          · exact le_trans hle (hmin z hz)
        · simp only [Option.some.injEq, Prod.mk.injEq] at h
          obtain ⟨rfl, rfl⟩ := h
          refine ⟨(List.Perm.cons a hperm).trans (List.Perm.swap _ _ _), fun z hz => ?_⟩
          rcases List.mem_cons.1 hz with rfl | hz
          · omega
          · exact hmin z hz

/-- A push of an iteration has a key that is at least the key of the popped
unit, or it is one of the pushes with key 0 that every iteration for the
start unit makes. -/
theorem dijkstraPushes_key (env : DijkstraEnv) (hnn : env.NonNegative) (startID : Side)
    (fl : Bool) (u : Side) (c : Int) (e : Side × Int)
    (he : e ∈ dijkstraPushes env startID fl u c) :
    c ≤ e.2 ∨ (u = startID ∧ e.2 = 0 ∧ e ∈ dijkstraPushes env startID true startID 0) := by
  obtain ⟨hlen, hloop⟩ := hnn u
  have hlen1 : env.nodeLen u ≠ -1 := by omega
  unfold dijkstraPushes at he
  simp only [List.mem_append] at he
  rcases he with ((he | he) | he) | he
  · split_ifs at he with h1
    · obtain ⟨n, _, rfl⟩ := List.mem_map.1 he
      left
      show c ≤ c + env.loopDist u
      have := h1.1
      omega
    · simp at he
  · by_cases hs : u = startID
    · rw [if_pos (Or.inr hs)] at he
      obtain ⟨n, hn, rfl⟩ := List.mem_map.1 he
      right
      refine ⟨hs, rfl, ?_⟩
      subst hs
      unfold dijkstraPushes
      simp only [List.mem_append]
      refine Or.inl (Or.inl (Or.inr ?_))
      simp only [or_true, if_true]
      exact List.mem_map.2 ⟨n, hn, rfl⟩
    · rw [if_neg (by rintro (⟨h, _⟩ | h); exacts [hlen1 h, hs h]), if_pos hlen1] at he
      obtain ⟨n, _, rfl⟩ := List.mem_map.1 he
      left
      show c ≤ c + env.nodeLen u
      omega
  · rw [if_pos hlen1, if_pos hlen1] at he
    obtain ⟨n, _, rfl⟩ := List.mem_map.1 he
    left
    show c ≤ c + env.nodeLen u
    omega
  · by_cases hb : (u.1 = env.snarlStartID ∧ u.2 ≠ env.snarlStartRev) ∨
        (u.1 = env.snarlEndID ∧ u.2 = env.snarlEndRev)
    · rw [if_pos hb] at he
      obtain ⟨n, hn, rfl⟩ := List.mem_map.1 he
      by_cases hs : u = startID
      · right
        refine ⟨hs, if_pos hs, ?_⟩
        subst hs
        unfold dijkstraPushes
        simp only [List.mem_append]
        refine Or.inr ?_
        rw [if_pos hb]
        exact List.mem_map.2 ⟨n, hn, by simp⟩
      · left
        show c ≤ (if u = startID then 0 else c + env.nodeLen u)
        rw [if_neg hs]
        omega
    · rw [if_neg hb] at he
      simp at he

/-- The pushes of the first iteration. -/
theorem dijkstraPushes_key_nonneg (env : DijkstraEnv) (hnn : env.NonNegative) (startID : Side)
    (fl : Bool) (u : Side) (c : Int) (hc : 0 ≤ c) (e : Side × Int)
    (he : e ∈ dijkstraPushes env startID fl u c) : 0 ≤ e.2 := by
  rcases dijkstraPushes_key env hnn startID fl u c e he with h | ⟨_, h, _⟩ <;> omega

/-- What one iteration does to the queue, the seen units and the writes. -/
theorem dijkstraStep_spec (env : DijkstraEnv)
    (pop : List (Side × Int) → Option ((Side × Int) × List (Side × Int)))
    (startID : Side) (st st2 : DijkstraState)
    (h : dijkstraStep env pop startID st = some st2) :
    ∃ next rest, pop st.reachable = some (next, rest) ∧ st2.firstLoop = false ∧
      ((next.1 ∈ st.seenNodes ∧ st2.reachable = rest ∧ st2.seenNodes = st.seenNodes ∧
          st2.inserted = st.inserted) ∨
       (next.1 ∉ st.seenNodes ∧
          st2.reachable = rest ++ dijkstraPushes env startID st.firstLoop next.1 next.2 ∧
          st2.seenNodes = (if st.firstLoop then st.seenNodes else next.1 :: st.seenNodes) ∧
          st2.inserted = (if st.firstLoop then st.inserted
            else st.inserted ++ [⟨env.nodeIndex startID.1,
              env.nodeIndex next.1.1, next.1, next.2⟩]))) := by
  unfold dijkstraStep at h
  cases hp : pop st.reachable with
  | none => simp [hp] at h
  | some p =>
    obtain ⟨next, rest⟩ := p
    refine ⟨next, rest, rfl, ?_⟩
    simp only [hp] at h
    by_cases hseen : next.1 ∈ st.seenNodes
    · rw [if_pos hseen] at h
      simp only [Option.some.injEq] at h
      subst h
      exact ⟨rfl, Or.inl ⟨hseen, rfl, rfl, rfl⟩⟩
    · rw [if_neg hseen] at h
      split at h
      · simp at h
      · simp only [Option.some.injEq] at h
        subst h
        exact ⟨rfl, Or.inr ⟨hseen, rfl, rfl, rfl⟩⟩

theorem dijkstraInv_init (env : DijkstraEnv) (startID : Side) (sd : SnarlIndex) :
    DijkstraInv env startID (dijkstraInit startID sd) [] where
  nodup := List.nodup_nil
  seen := fun u => by simp [dijkstraInit]
  nonneg := fun e he => by
    simp only [dijkstraInit, List.mem_singleton] at he
    subst he
    exact le_refl _
  settled := fun c hc => by simp [dijkstraInit] at hc
  pushed := fun e he => by simp at he
  first := fun h => by simp [dijkstraInit] at h
  queue := fun h => by simp [dijkstraInit] at h
  written := fun c hc => by simp [dijkstraInit] at hc
  start := fun _ => ⟨rfl, rfl, rfl, rfl⟩

theorem dijkstraStepPushes_eq (env : DijkstraEnv)
    (pop : List (Side × Int) → Option ((Side × Int) × List (Side × Int)))
    (startID : Side) (st : DijkstraState) (next : Side × Int) (rest : List (Side × Int))
    (hp : pop st.reachable = some (next, rest)) :
    dijkstraStepPushes env pop startID st =
      if next.1 ∈ st.seenNodes then []
      else dijkstraPushes env startID st.firstLoop next.1 next.2 := by
  unfold dijkstraStepPushes
  rw [hp]

/-- One iteration keeps the invariant of the loop. -/
theorem dijkstraInv_step (env : DijkstraEnv)
    (pop : List (Side × Int) → Option ((Side × Int) × List (Side × Int)))
    (hpop : PopsMinimum pop) (hnn : env.NonNegative)
    (startID : Side) (st st2 : DijkstraState) (H : List (Side × Int))
    (inv : DijkstraInv env startID st H)
    (h : dijkstraStep env pop startID st = some st2) :
    DijkstraInv env startID st2 (H ++ dijkstraStepPushes env pop startID st) := by
  obtain ⟨next, rest, hp, hfl, hcase⟩ := dijkstraStep_spec env pop startID st st2 h
  obtain ⟨hperm, hmin⟩ := (hpop st.reachable).2 next rest hp
  have hnext : next ∈ st.reachable := hperm.symm.subset (List.mem_cons_self _ _)
  have hrest : ∀ e ∈ rest, e ∈ st.reachable :=
    fun e he => hperm.symm.subset (List.mem_cons_of_mem _ he)
  have hother : ∀ e ∈ st.reachable, e.1 ≠ next.1 → e ∈ rest := by
    intro e he hne
    rcases List.mem_cons.1 (hperm.subset he) with rfl | h1
    · exact absurd rfl hne
    · exact h1
  rw [dijkstraStepPushes_eq env pop startID st next rest hp]
  rcases hcase with ⟨hseen, hq, hs, hi⟩ | ⟨hseen, hq, hs, hi⟩
  · -- the popped unit was seen: nothing is written or pushed
    have hflst : st.firstLoop = false := by
      cases hf : st.firstLoop with
      | false => rfl
      | true =>
        have := (inv.start hf).2.2.1
        rw [this] at hseen
        simp at hseen
    rw [if_pos hseen, List.append_nil]
    refine ⟨?_, ?_, ?_, ?_, ?_, ?_, ?_, ?_, ?_⟩
    · rw [hi]; exact inv.nodup
    · rw [hi, hs]; exact inv.seen
    · rw [hq]; exact fun e he => inv.nonneg e (hrest e he)
    · rw [hi, hq, hs]; exact fun c hc e he => inv.settled c hc e (hrest e he)
    · rw [hi, hq, hs]
      intro e he
      rcases inv.pushed e he with ⟨h1, h2⟩ | h1
      · exact Or.inl ⟨hother e h1 (fun heq => h2 (heq ▸ hseen)), h2⟩
      · exact Or.inr h1
    · exact fun _ => inv.first hflst
    · rw [hq]; exact fun _ e he => inv.queue hflst e (hrest e he)
    · rw [hi]; exact inv.written
    · intro hf; rw [hfl] at hf; exact absurd hf (by decide)
  · rw [if_neg hseen]
    cases hf : st.firstLoop with
    | true =>
      -- the first iteration: the start unit is popped and nothing is written
      obtain ⟨hq0, hi0, hs0, hH⟩ := inv.start hf
      rw [hq0] at hperm hnext
      have hn0 : next = (startID, 0) := List.mem_singleton.1 hnext
      have hrest0 : rest = [] := by
        have := hperm.length_eq
        simp at this
        exact this
      rw [hf] at hq hs hi
      simp only [if_true] at hs hi
      subst hn0 hH
      rw [hrest0] at hq
      simp only [List.nil_append] at hq ⊢
      refine ⟨?_, ?_, ?_, ?_, ?_, ?_, ?_, ?_, ?_⟩
      · rw [hi, hi0]; exact List.nodup_nil
      · rw [hi, hs, hi0, hs0]; simp
      · rw [hq]
        exact fun e he => dijkstraPushes_key_nonneg env hnn startID true startID 0 (le_refl _) e he
      · rw [hi, hi0]; simp
      · rw [hq, hs, hs0]
        exact fun e he => Or.inl ⟨he, by simp⟩
      · exact fun _ e he => he
      · rw [hq]; exact fun _ e he => he
      · rw [hi, hi0]; simp
      · intro hf2; rw [hfl] at hf2; exact absurd hf2 (by decide)
    | false =>
      -- a later iteration: the popped unit is written with its key
      rw [hf] at hq hs hi
      simp only [Bool.false_eq_true, if_false] at hs hi
      have hc0 : 0 ≤ next.2 := inv.nonneg next hnext
      have hle : ∀ c ∈ st2.inserted, c.currDist ≤ next.2 := by
        intro c hc
        rw [hi] at hc
        rcases List.mem_append.1 hc with hc | hc
        · exact inv.settled c hc next hnext hseen
        · rw [List.mem_singleton.1 hc]
      have hseen2 : ∀ u, u ∈ st2.seenNodes ↔ u ∈ st2.inserted.map InsertCall.currID := by
        intro u
        rw [hs, hi, List.map_append, List.mem_append, List.mem_cons, inv.seen u]
        simp only [List.map_cons, List.map_nil, List.mem_singleton]
        exact or_comm
      have hpush : ∀ e ∈ dijkstraPushes env startID false next.1 next.2,
          e.1 ∈ st.seenNodes ∨ next.2 ≤ e.2 ∨
            ∃ c ∈ st.inserted, c.currID = e.1 ∧ c.currDist ≤ e.2 := by
        intro e he
        rcases dijkstraPushes_key env hnn startID false next.1 next.2 e he with
          h1 | ⟨_, h0, hz⟩
        · exact Or.inr (Or.inl h1)
        · rcases inv.pushed e (inv.first hf e hz) with ⟨h1, _⟩ | h1
          · exact Or.inr (Or.inl (hmin e h1))
          · exact Or.inr (Or.inr h1)
      refine ⟨?_, hseen2, ?_, ?_, ?_, ?_, ?_, ?_, ?_⟩
      · rw [hi, List.map_append, List.nodup_append]
        refine ⟨inv.nodup, List.nodup_singleton _, ?_⟩
        intro u hu hu2
        simp only [List.map_cons, List.map_nil, List.mem_singleton] at hu2
        subst hu2
        exact hseen ((inv.seen _).2 hu)
      · rw [hq]
        intro e he
        rcases List.mem_append.1 he with he | he
        · exact inv.nonneg e (hrest e he)
        · exact dijkstraPushes_key_nonneg env hnn startID false next.1 next.2 hc0 e he
      · intro c hc e he hns
        rw [hq] at he
        rcases List.mem_append.1 he with he | he
        · exact le_trans (hle c hc) (hmin e (hrest e he))
        · rcases hpush e he with h1 | h1 | ⟨c1, hc1, hu1, _⟩
          · exact absurd (by rw [hs]; exact List.mem_cons_of_mem _ h1) hns
          · exact le_trans (hle c hc) h1
          · refine absurd ?_ hns
            rw [hs]
            exact List.mem_cons_of_mem _
              ((inv.seen _).2 (List.mem_map.2 ⟨c1, hc1, hu1⟩))
      · intro e he
        rcases List.mem_append.1 he with he | he
        · rcases inv.pushed e he with ⟨h1, h2⟩ | ⟨c1, hc1, hu1, hd1⟩
          · by_cases heq : e.1 = next.1
            · refine Or.inr ⟨⟨env.nodeIndex startID.1,
                env.nodeIndex next.1.1, next.1, next.2⟩, ?_, heq.symm, hmin e h1⟩
              rw [hi]
              exact List.mem_append_right _ (List.mem_singleton_self _)
            · refine Or.inl ⟨?_, ?_⟩
              · rw [hq]; exact List.mem_append_left _ (hother e h1 heq)
              · rw [hs]
                intro hmem
                rcases List.mem_cons.1 hmem with h3 | h3
                · exact heq h3
                · exact h2 h3
          · exact Or.inr ⟨c1, by rw [hi]; exact List.mem_append_left _ hc1, hu1, hd1⟩
        · by_cases hns : e.1 ∈ st2.seenNodes
          · obtain ⟨c0, hc0m, hu0⟩ := List.mem_map.1 ((hseen2 e.1).1 hns)
            rcases hpush e he with h1 | h1 | ⟨c1, hc1, hu1, hd1⟩
            · obtain ⟨c1, hc1, hu1⟩ := List.mem_map.1 ((inv.seen e.1).1 h1)
              rcases dijkstraPushes_key env hnn startID false next.1 next.2 e he with
                h2 | ⟨_, h0, hz⟩
              · exact Or.inr ⟨c0, hc0m, hu0, le_trans (hle c0 hc0m) h2⟩
              · rcases inv.pushed e (inv.first hf e hz) with ⟨_, h3⟩ | ⟨c2, hc2, hu2, hd2⟩
                · exact absurd h1 h3
                · exact Or.inr ⟨c2, by rw [hi]; exact List.mem_append_left _ hc2, hu2, hd2⟩
            · exact Or.inr ⟨c0, hc0m, hu0, le_trans (hle c0 hc0m) h1⟩
            · exact Or.inr ⟨c1, by rw [hi]; exact List.mem_append_left _ hc1, hu1, hd1⟩
          · exact Or.inl ⟨by rw [hq]; exact List.mem_append_right _ he, hns⟩
      · exact fun _ e he => List.mem_append_left _ (inv.first hf e he)
      · intro _ e he
        rw [hq] at he
        rcases List.mem_append.1 he with he | he
        · exact List.mem_append_left _ (inv.queue hf e (hrest e he))
        · exact List.mem_append_right _ he
      · intro c hc
        rw [hi] at hc
        rcases List.mem_append.1 hc with hc | hc
        · exact List.mem_append_left _ (inv.written c hc)
        · rw [List.mem_singleton.1 hc]
          exact List.mem_append_left _ (inv.queue hf next hnext)
      · intro hf2; rw [hfl] at hf2; exact absurd hf2 (by decide)

theorem dijkstraRun_add (env : DijkstraEnv)
    (pop : List (Side × Int) → Option ((Side × Int) × List (Side × Int)))
    (startID : Side) (n k : Nat) (st : DijkstraState) :
    dijkstraRun env pop startID (n + k) st =
      (dijkstraRun env pop startID n st).bind (dijkstraRun env pop startID k) := by
  induction n generalizing st with
  | zero => simp [dijkstraRun]
  | succ n ih =>
    rw [Nat.succ_add]
    show (match dijkstraStep env pop startID st with
      | none => none
      | some st2 => dijkstraRun env pop startID (n + k) st2) =
      (match dijkstraStep env pop startID st with
      | none => none
      | some st2 => dijkstraRun env pop startID n st2).bind (dijkstraRun env pop startID k)
    cases dijkstraStep env pop startID st with
    | none => rfl
    | some st2 => exact ih st2

theorem dijkstraPushed_add (env : DijkstraEnv)
    (pop : List (Side × Int) → Option ((Side × Int) × List (Side × Int)))
    (startID : Side) (n k : Nat) (st st2 : DijkstraState)
    (h : dijkstraRun env pop startID n st = some st2) :
    dijkstraPushed env pop startID (n + k) st =
      dijkstraPushed env pop startID n st ++ dijkstraPushed env pop startID k st2 := by
  induction n generalizing st with
  | zero =>
    simp only [dijkstraRun, Option.some.injEq] at h
    subst h
    simp [dijkstraPushed]
  | succ n ih =>
    rw [Nat.succ_add]
    have hrun : (match dijkstraStep env pop startID st with
      | none => none
      | some st3 => dijkstraRun env pop startID n st3) = some st2 := h
    show dijkstraStepPushes env pop startID st ++
      (match dijkstraStep env pop startID st with
       | none => []
       | some st3 => dijkstraPushed env pop startID (n + k) st3) =
      (dijkstraStepPushes env pop startID st ++
      (match dijkstraStep env pop startID st with
       | none => []
       | some st3 => dijkstraPushed env pop startID n st3)) ++
        dijkstraPushed env pop startID k st2
    cases hs : dijkstraStep env pop startID st with
    | none => rw [hs] at hrun; exact absurd hrun (by simp)
    | some st3 =>
      rw [hs] at hrun
      simp only [List.append_assoc]
      rw [ih st3 hrun]

/-- The invariant of the loop holds after every number of iterations. -/
theorem dijkstraInv_run (env : DijkstraEnv)
    (pop : List (Side × Int) → Option ((Side × Int) × List (Side × Int)))
    (hpop : PopsMinimum pop) (hnn : env.NonNegative) (startID : Side) (n : Nat)
    (st st2 : DijkstraState) (H : List (Side × Int))
    (inv : DijkstraInv env startID st H)
    (h : dijkstraRun env pop startID n st = some st2) :
    DijkstraInv env startID st2 (H ++ dijkstraPushed env pop startID n st) := by
  induction n generalizing st H with
  | zero =>
    simp only [dijkstraRun, Option.some.injEq] at h
    subst h
    simpa [dijkstraPushed] using inv
  | succ n ih =>
    have hrun : (match dijkstraStep env pop startID st with
      | none => none
      | some st3 => dijkstraRun env pop startID n st3) = some st2 := h
    show DijkstraInv env startID st2 (H ++ (dijkstraStepPushes env pop startID st ++
      (match dijkstraStep env pop startID st with
       | none => []
       | some st3 => dijkstraPushed env pop startID n st3)))
    cases hs : dijkstraStep env pop startID st with
    | none => rw [hs] at hrun; exact absurd hrun (by simp)
    | some st3 =>
      rw [hs] at hrun
      rw [← List.append_assoc]
      exact ih st3 _ (dijkstraInv_step env pop hpop hnn startID st st3 H inv hs) hrun

/-- The writes made so far stay, and only the first state has the flag of the
first iteration. -/
theorem dijkstraRun_inserted (env : DijkstraEnv)
    (pop : List (Side × Int) → Option ((Side × Int) × List (Side × Int)))
    (startID : Side) (n : Nat) (st st2 : DijkstraState)
    (h : dijkstraRun env pop startID n st = some st2) :
    (∀ c ∈ st.inserted, c ∈ st2.inserted) ∧ (1 ≤ n → st2.firstLoop = false) := by
  induction n generalizing st with
  | zero =>
    simp only [dijkstraRun, Option.some.injEq] at h
    subst h
    exact ⟨fun c hc => hc, fun h0 => absurd h0 (by omega)⟩
  | succ n ih =>
    have hrun : (match dijkstraStep env pop startID st with
      | none => none
      | some st3 => dijkstraRun env pop startID n st3) = some st2 := h
    cases hs : dijkstraStep env pop startID st with
    | none => rw [hs] at hrun; exact absurd hrun (by simp)
    | some st3 =>
      rw [hs] at hrun
      obtain ⟨next, rest, _, hfl, hcase⟩ := dijkstraStep_spec env pop startID st st3 hs
      obtain ⟨h1, h2⟩ := ih st3 hrun
      refine ⟨fun c hc => h1 c ?_, fun _ => ?_⟩
      · rcases hcase with ⟨_, _, _, hi⟩ | ⟨_, _, _, hi⟩
        · rw [hi]; exact hc
        · rw [hi]
          split_ifs
          · exact hc
          · exact List.mem_append_left _ hc
      · rcases Nat.eq_zero_or_pos n with h0 | h0
        · subst h0
          simp only [dijkstraRun, Option.some.injEq] at hrun
          subst hrun
          exact hfl
        · exact h2 h0

/-- C30 (amended): in a Dijkstra run of `calculateMinIndex` from the start
unit `startID`, with a queue that pops a smallest key and with non-negative
unit lengths and loop distances, after any number `n` of iterations: no unit
has two writes; the next iteration writes the popped unit with its key when
it is not the first iteration and the unit has no write yet, and writes
nothing otherwise; and the value written for a unit is the key of one of the
pushes made by the loop and is at most the key of every push of that unit
that the loop makes in any number `m` of iterations.  The push of the start
unit with key 0 before the loop is not among these pushes. -/
theorem dijkstra_writes_smallest_key (env : DijkstraEnv)
    (pop : List (Side × Int) → Option ((Side × Int) × List (Side × Int)))
    (startID : Side) (sd : SnarlIndex) (hpop : PopsMinimum pop) (hnn : env.NonNegative)
    (n m : Nat) (st st2 : DijkstraState)
    (hn : dijkstraRun env pop startID n (dijkstraInit startID sd) = some st)
    (hm : dijkstraRun env pop startID m (dijkstraInit startID sd) = some st2) :
    (st.inserted.map InsertCall.currID).Nodup ∧
    (∀ next rest st3, pop st.reachable = some (next, rest) →
      dijkstraStep env pop startID st = some st3 →
      st3.inserted =
        if n = 0 ∨ next.1 ∈ st.inserted.map InsertCall.currID then st.inserted
        else st.inserted ++
          [⟨env.nodeIndex startID.1, env.nodeIndex next.1.1, next.1, next.2⟩]) ∧
    (∀ c ∈ st.inserted,
      (c.currID, c.currDist) ∈ dijkstraPushed env pop startID n (dijkstraInit startID sd) ∧
      ∀ k, (c.currID, k) ∈ dijkstraPushed env pop startID m (dijkstraInit startID sd) →
        c.currDist ≤ k) := by
  have inv := dijkstraInv_run env pop hpop hnn startID n _ st []
    (dijkstraInv_init env startID sd) hn
  have inv2 := dijkstraInv_run env pop hpop hnn startID m _ st2 []
    (dijkstraInv_init env startID sd) hm
  simp only [List.nil_append] at inv inv2
  have key : ∀ (a b : Nat) (sa sb : DijkstraState), a ≤ b →
      dijkstraRun env pop startID a (dijkstraInit startID sd) = some sa →
      dijkstraRun env pop startID b (dijkstraInit startID sd) = some sb →
      (∀ c ∈ sa.inserted, c ∈ sb.inserted) ∧
      ∀ e ∈ dijkstraPushed env pop startID a (dijkstraInit startID sd),
        e ∈ dijkstraPushed env pop startID b (dijkstraInit startID sd) := by
    intro a b sa sb hab ha hb
    obtain ⟨k, rfl⟩ := Nat.exists_eq_add_of_le hab
    rw [dijkstraRun_add, ha] at hb
    refine ⟨(dijkstraRun_inserted env pop startID k sa sb hb).1, fun e he => ?_⟩
    rw [dijkstraPushed_add env pop startID a k _ sa ha]
    exact List.mem_append_left _ he
  have least : ∀ (s : DijkstraState) (H : List (Side × Int)), DijkstraInv env startID s H →
      ∀ c ∈ s.inserted, ∀ k, (c.currID, k) ∈ H → c.currDist ≤ k := by
    intro s H hinv c hc k hk
    rcases hinv.pushed _ hk with ⟨_, h2⟩ | ⟨c1, hc1, hu1, hd1⟩
    · exact absurd ((hinv.seen _).2 (List.mem_map.2 ⟨c, hc, rfl⟩)) h2
    · have : c1 = c := List.inj_on_of_nodup_map hinv.nodup hc1 hc hu1
      subst this
      exact hd1
  refine ⟨inv.nodup, ?_, ?_⟩
  · intro next rest st3 hp hs
    obtain ⟨next2, rest2, hp2, _, hcase⟩ := dijkstraStep_spec env pop startID st st3 hs
    rw [hp] at hp2
    simp only [Option.some.injEq, Prod.mk.injEq] at hp2
    obtain ⟨rfl, rfl⟩ := hp2
    rcases hcase with ⟨hseen, _, _, hi⟩ | ⟨hseen, _, _, hi⟩
    · rw [if_pos (Or.inr ((inv.seen _).1 hseen)), hi]
    · rcases Nat.eq_zero_or_pos n with h0 | h0
      · subst h0
        simp only [dijkstraRun, Option.some.injEq] at hn
        subst hn
        rw [if_pos (Or.inl rfl), hi]
        rfl
      · have hfl := (dijkstraRun_inserted env pop startID n _ st hn).2 h0
        rw [if_neg (by
          rintro (h | h)
          · omega
          · exact hseen ((inv.seen _).2 h)), hi, hfl]
        rfl
  · intro c hc
    refine ⟨inv.written c hc, fun k hk => ?_⟩
    rcases le_total n m with hnm | hmn
    · exact least st2 _ inv2 c ((key n m st st2 hnm hn hm).1 c hc) k hk
    · exact least st _ inv c hc k ((key m n st2 st hmn hm hn).2 _ hk)

theorem cycleEnv_nonNegative : cycleEnv.NonNegative := by
  intro u
  refine ⟨?_, Or.inl rfl⟩
  show 0 ≤ (if u.1 = 4 then (2 : Int) else 10)
  split_ifs <;> decide

theorem dijkstra_writes_smallest_key_witness :
    PopsMinimum popMin ∧ cycleEnv.NonNegative ∧
    ∃ st st2, dijkstraRun cycleEnv popMin (3, false) 3 cycleInit = some st ∧
      dijkstraRun cycleEnv popMin (3, false) 9 cycleInit = some st2 ∧
      st.inserted = [⟨2, 4, (4, false), 0⟩, ⟨2, 2, (3, false), 2⟩] ∧
      st2.reachable = [] ∧
      (st.inserted.map InsertCall.currID).Nodup ∧
      (∀ next rest st3, popMin st.reachable = some (next, rest) →
        dijkstraStep cycleEnv popMin (3, false) st = some st3 →
        st3.inserted =
          if 3 = 0 ∨ next.1 ∈ st.inserted.map InsertCall.currID then st.inserted
          else st.inserted ++
            [⟨cycleEnv.nodeIndex 3, cycleEnv.nodeIndex next.1.1, next.1, next.2⟩]) ∧
      (∀ c ∈ st.inserted,
        (c.currID, c.currDist) ∈ dijkstraPushed cycleEnv popMin (3, false) 3 cycleInit ∧
        ∀ k, (c.currID, k) ∈ dijkstraPushed cycleEnv popMin (3, false) 9 cycleInit →
          c.currDist ≤ k) :=
  ⟨popMin_popsMinimum, cycleEnv_nonNegative, _, _, rfl, rfl, rfl, rfl,
    dijkstra_writes_smallest_key cycleEnv popMin (3, false) (SnarlIndex.new 0 false 8 false 0)
      popMin_popsMinimum cycleEnv_nonNegative 3 9 _ _ rfl rfl⟩

/-- C30: the claim as written fails for the start unit.  In the run from the
unit `(3, false)` of the cycle `3 → 4 → 3`, the start unit is pushed with key
0 before the loop, and it is pushed again with key 2 after the unit
`(4, false)`; the value written for it, at its first pop after the initial
pop, is 2, above the smallest key 0 with which it was pushed.  The loop ends
after nine iterations with these writes. -/
theorem dijkstra_start_written_above_initial_key :
    cycleInit.reachable = [((3, false), 0)] ∧
    dijkstraPushed cycleEnv popMin (3, false) 2 cycleInit =
      [((4, false), 0), ((4, false), 10), ((3, false), 2), ((2, false), 2),
       ((3, false), 2), ((2, false), 2)] ∧
    (dijkstraRun cycleEnv popMin (3, false) 3 cycleInit).map
        (fun st => st.inserted.map (fun c => (c.currID, c.currDist))) =
      some [((4, false), 0), ((3, false), 2)] ∧
    (dijkstraRun cycleEnv popMin (3, false) 9 cycleInit).map
        (fun st => (st.reachable, st.inserted.map (fun c => (c.currID, c.currDist)))) =
      some ([], [((4, false), 0), ((3, false), 2), ((2, false), 2)]) ∧
    ((3, false), (2 : Int)) ∈
      ((dijkstraRun cycleEnv popMin (3, false) 9 cycleInit).map
        (fun st => st.inserted.map (fun c => (c.currID, c.currDist)))).getD [] ∧
    ¬ ((2 : Int) ≤ 0) := by
  refine ⟨rfl, by decide, by decide, by decide, by decide, by decide⟩

/-! ## C31: the pushes over the forward edges of an expanded unit -/

/-- C31 (failing input): the expansion of a unit calls `ng.follow_edges` on
its handle twice (line 712 or 720, then line 724), so a neighbour is pushed
twice.  In the
snarl with the cycle `3 → 4 → 3` and the start unit `(3, false)`, the unit
`(4, false)` with key 0 pushes each of its neighbours `(3, false)` and
`(2, false)` twice with key 2, and the start unit pushes its neighbour
`(4, false)` once with key 0 and once with key 10.  For every unit that is
not the start unit and has a length, each neighbour is among the pushes, with
the key `currDist + nodeLen`, at least twice as often as it is among the
forward edges. -/
theorem neighbours_pushed_twice :
    cycleEnv.ngEdges (4, false) = [(3, false), (2, false)] ∧
    dijkstraPushes cycleEnv (3, false) false (4, false) 0
      = [((3, false), 2), ((2, false), 2), ((3, false), 2), ((2, false), 2)] ∧
    cycleEnv.ngEdges (3, false) = [(4, false)] ∧
    dijkstraPushes cycleEnv (3, false) true (3, false) 0
      = [((4, false), 0), ((4, false), 10)] ∧
    (∀ (env : DijkstraEnv) (startID : Side) (firstLoop : Bool) (currID : Side)
        (currDist : Int) (n : Side),
      env.nodeLen currID ≠ -1 → currID ≠ startID →
      2 * (env.ngEdges currID).countP (fun m => decide (m = n))
        ≤ (dijkstraPushes env startID firstLoop currID currDist).countP
            (fun e => decide (e = (n, currDist + env.nodeLen currID)))) := by
  refine ⟨by decide, by decide, by decide, by decide, ?_⟩
  intro env startID fl u c n hlen hs
  have hcount : ((env.ngEdges u).map (fun m => (m, c + env.nodeLen u))).countP
      (fun e => decide (e = (n, c + env.nodeLen u)))
      = (env.ngEdges u).countP (fun m => decide (m = n)) := by
    rw [List.countP_map]
    congr 1
    funext m
    simp
  have h1 : ¬ ((env.nodeLen u = -1 ∧ fl = true) ∨ u = startID) := by
    rintro (⟨h, _⟩ | h)
    exacts [hlen h, hs h]
  unfold dijkstraPushes
  simp only [List.countP_append, if_neg h1, if_pos hlen, hcount]
  omega

/-! ## C32: the step to the ends of the chain in the climb loop -/

/-- C32 (failing input): at the snarl `(2 → 3)` of the row of four nodes,
with `(distL1, distR1) = (3, -1)`, the chain distances are `dsl = 10`,
`dsr = -1`, `der = 10` and `del = 24`.  The block of `distToCommonAncestor`
computes both new distances from the old pair: `(13, 27)`.  The climb loop of
`minDistance` assigns `distL1 = 13` first and reads the new `distL1` for
`distR1`: `(13, 37)`.  The pair `(-1, 6)` of the second position, whose
`distL2` stays `-1`, becomes `(-1, 16)` in both. -/
theorem climb_reads_updated_left_distance :
    (lineChain.chainDistance lineGraph lineManager (1, false) (2, false) (some 0)
        (some 1)).map Prod.fst = some 10 ∧
    (lineChain.chainDistance lineGraph lineManager (1, false) (3, true) (some 0)
        (some 1)).map Prod.fst = some (-1) ∧
    (lineChain.chainDistance lineGraph lineManager (4, true) (3, true) (some 2)
        (some 1)).map Prod.fst = some 10 ∧
    (lineChain.chainDistance lineGraph lineManager (4, true) (2, false) (some 2)
        (some 1)).map Prod.fst = some 24 ∧
    (lineIndex.toChainEnds lineGraph lineManager 1 (2, false) (3, true) 3 (-1)).map
        (fun r => r.1) = some (13, 27) ∧
    (lineIndex.toChainEnds lineGraph lineManager 1 (2, false) (3, true) (-1) 6).map
        (fun r => r.1) = some (-1, 16) ∧
    (lineIndex.climbChain lineGraph lineManager 1 lineClimb).map
        (fun r => ((r.1.distL1, r.1.distR1), (r.1.distL2, r.1.distR2)))
      = some ((13, 37), (-1, 16)) := by
  refine ⟨by decide, by decide, by decide, by decide, by decide, by decide, by decide⟩

/-! ## C33: two snarls of a chain that share a node -/

/-- When `chainDistanceShort` returns for a side and the same side, it
returns the length of the node. -/
theorem chainDistanceShort_same_side (g : HandleGraph) (sm : SnarlManager) (ci : ChainIndex)
    (s : Side) (startSnarl endSnarl : Option SnarlRef) (c : Int) (ci2 : ChainIndex)
    (h : ci.chainDistanceShort g sm s s startSnarl endSnarl = some (c, ci2)) :
    c = toInt64 (g.get_length s.1) := by
  unfold ChainIndex.chainDistanceShort at h
  simp only [Option.bind_eq_bind, Option.bind_eq_some, Option.pure_def, if_true,
    Option.some.injEq, Prod.mk.injEq] at h
  obtain ⟨_, _, _, _, h1, _⟩ := h
  exact h1.symm

/-- The same-chain block of `minDistance` returns the `minPos` of its four
candidates. -/
theorem sameChainDist_eq_candidates (idx : DistanceIndex) (g : HandleGraph)
    (sm : SnarlManager) (commonAncestor : Option SnarlRef) (snarl1 snarl2 : SnarlRef)
    (node1 node2 end1 end2 : Side) (distL1 distR1 distL2 distR2 : Int)
    (ds : List Int) (idx2 : DistanceIndex)
    (hcond : some snarl1 ≠ commonAncestor ∧ some snarl2 ≠ commonAncestor ∧
      sm.in_nontrivial_chain snarl1 ∧ sm.in_nontrivial_chain snarl2 ∧
      sm.chain_of snarl1 = sm.chain_of snarl2)
    (h : idx.sameChainCandidates g sm snarl1 snarl2 node1 node2 end1 end2
      distL1 distR1 distL2 distR2 = some (ds, idx2)) :
    idx.sameChainDist g sm commonAncestor snarl1 snarl2 node1 node2 end1 end2
      distL1 distR1 distL2 distR2 = some (minPos ds, idx2) := by
  unfold DistanceIndex.sameChainCandidates at h
  simp only [Option.bind_eq_bind, Option.bind_eq_some, Option.pure_def,
    Option.some.injEq, Prod.mk.injEq] at h
  obtain ⟨cd, hcd, ⟨c1, cd1⟩, h1, ⟨c2, cd2⟩, h2, ⟨c3, cd3⟩, h3, ⟨c4, cd4⟩, h4, hds, hidx⟩ := h
  unfold DistanceIndex.sameChainDist
  rw [if_pos hcond]
  simp only [Option.bind_eq_bind, Option.pure_def, hcd, Option.some_bind, h1, h2, h3, h4,
    hds, hidx]

/-- C33: in the same-chain block of `minDistance`, when the four chain
lookups return: if the start visit of snarl 1 is the end visit of snarl 2
and `distL1`, `distR2` are reachable, the second candidate is
`distL1 + distR2 - length(shared node)`; if the end visit of snarl 1 is the
start visit of snarl 2 and `distR1`, `distL2` are reachable, the third
candidate is `distR1 + distL2 - length(shared node)`; and `chainDist` is the
`minPos` of the four candidates.  Node lengths are below `2^63`. -/
theorem sameChain_shared_node_once (idx : DistanceIndex) (g : HandleGraph)
    (sm : SnarlManager) (commonAncestor : Option SnarlRef) (snarl1 snarl2 : SnarlRef)
    (node1 node2 end1 end2 : Side) (distL1 distR1 distL2 distR2 : Int)
    (ds : List Int) (idx2 : DistanceIndex)
    (hlen : ∀ id, g.get_length id < 2 ^ 63)
    (hcond : some snarl1 ≠ commonAncestor ∧ some snarl2 ≠ commonAncestor ∧
      sm.in_nontrivial_chain snarl1 ∧ sm.in_nontrivial_chain snarl2 ∧
      sm.chain_of snarl1 = sm.chain_of snarl2)
    (h : idx.sameChainCandidates g sm snarl1 snarl2 node1 node2 end1 end2
      distL1 distR1 distL2 distR2 = some (ds, idx2)) :
    (node1 = end2 → distL1 ≠ -1 → distR2 ≠ -1 →
      ds[1]? = some (distL1 + distR2 - (g.get_length node1.1 : Int))) ∧
    (end1 = node2 → distR1 ≠ -1 → distL2 ≠ -1 →
      ds[2]? = some (distR1 + distL2 - (g.get_length end1.1 : Int))) ∧
    idx.sameChainDist g sm commonAncestor snarl1 snarl2 node1 node2 end1 end2
      distL1 distR1 distL2 distR2 = some (minPos ds, idx2) := by
  refine ⟨?_, ?_, sameChainDist_eq_candidates idx g sm commonAncestor snarl1 snarl2 node1
    node2 end1 end2 distL1 distR1 distL2 distR2 ds idx2 hcond h⟩
  · intro hshare hL hR
    unfold DistanceIndex.sameChainCandidates at h
    simp only [Option.bind_eq_bind, Option.bind_eq_some, Option.pure_def,
      Option.some.injEq, Prod.mk.injEq] at h
    obtain ⟨cd, hcd, ⟨c1, cd1⟩, h1, ⟨c2, cd2⟩, h2, ⟨c3, cd3⟩, h3, ⟨c4, cd4⟩, h4, hds, hidx⟩ := h
    subst hshare
    have hc2 := chainDistanceShort_same_side g sm cd1 (node1.1, !node1.2) _ _ c2 cd2 h2
    rw [toInt64_of_lt _ (hlen _)] at hc2
    have hne : c2 ≠ -1 := by
      rw [hc2]
      omega
    rw [← hds]
    simp only [List.getElem?_cons_succ, List.getElem?_cons_zero, if_true, subDist3]
    rw [if_neg (by rintro (h | h | h); exacts [hL h, hR h, hne h]), hc2]
  · intro hshare hR hL
    unfold DistanceIndex.sameChainCandidates at h
    simp only [Option.bind_eq_bind, Option.bind_eq_some, Option.pure_def,
      Option.some.injEq, Prod.mk.injEq] at h
    obtain ⟨cd, hcd, ⟨c1, cd1⟩, h1, ⟨c2, cd2⟩, h2, ⟨c3, cd3⟩, h3, ⟨c4, cd4⟩, h4, hds, hidx⟩ := h
    subst hshare
    have hc3 := chainDistanceShort_same_side g sm cd2 end1 _ _ c3 cd3 h3
    rw [toInt64_of_lt _ (hlen _)] at hc3
    have hne : c3 ≠ -1 := by
      rw [hc3]
      omega
    rw [← hds]
    simp only [List.getElem?_cons_succ, List.getElem?_cons_zero, if_true, subDist3]
    rw [if_neg (by rintro (h | h | h); exacts [hR h, hL h, hne h]), hc3]

theorem rowGraph_length (id : Int) : rowGraph.get_length id < 2 ^ 63 := by
  show (10 : Nat) < 2 ^ 63
  norm_num

/-- Witness of C33: the snarls `(2 → 3)` and `(1 → 2)` of the row share node
`2`, of length 10; with `distL1 = 14` and `distR2 = 13` the second candidate
is `14 + 13 - 10 = 17`, and it is `chainDist`. -/
theorem sameChain_shared_node_once_witness :
    ∃ ds idx2,
      rowIndex.sameChainCandidates rowGraph rowManager 1 0 (2, false) (1, false) (3, false)
        (2, false) 14 (-1) (-1) 13 = some (ds, idx2) ∧
      ds = [-1, 17, -1, -1] ∧
      ds[1]? = some (14 + 13 - (rowGraph.get_length 2 : Int)) ∧
      rowIndex.sameChainDist rowGraph rowManager none 1 0 (2, false) (1, false) (3, false)
        (2, false) 14 (-1) (-1) 13 = some (minPos ds, idx2) :=
  ⟨_, _, rfl, rfl,
    (sameChain_shared_node_once rowIndex rowGraph rowManager none 1 0 (2, false) (1, false)
      (3, false) (2, false) 14 (-1) (-1) 13 _ _ rowGraph_length (by decide) rfl).1 rfl
      (by decide) (by decide),
    (sameChain_shared_node_once rowIndex rowGraph rowManager none 1 0 (2, false) (1, false)
      (3, false) (2, false) 14 (-1) (-1) 13 _ _ rowGraph_length (by decide) rfl).2.2⟩

/-! ## C34: the construction of the maximum index -/

/-- On an index with an empty `nodeToSnarl`, `loopDistance` has no defined
result: its first statement is `snarlOf`, which reads the vector. -/
theorem loopDistance_empty (idx : DistanceIndex) (sm : SnarlManager)
    (inner : Option SnarlRef → Option SnarlRef → Side → Side → Option Int)
    (node1 node2 : Side) (h : idx.nodeToSnarl = []) :
    idx.loopDistance sm inner node1 node2 = none := by
  unfold DistanceIndex.loopDistance DistanceIndex.snarlOf readVec
  rw [h]
  split_ifs <;> rfl

/-- A vector of zeros reads as 0 where it can be read. -/
theorem readVec_replicate_zero (n : Nat) (i : Int) (c : Nat)
    (h : readVec (List.replicate n 0) i = some c) : c = 0 := by
  unfold readVec at h
  split_ifs at h
  have hm := List.getElem?_mem h
  exact (List.mem_replicate.1 hm).2

/-- With an empty `nodeToSnarl`, `findComp` has no defined result for a
handle whose node has no component yet. -/
theorem findComp_empty (env : ComponentEnv) (onlyCycles : Bool) (fuel : Nat)
    (st : ComponentState) (i : Int) (h : env.distIndex.nodeToSnarl = [])
    (hz : ∀ c, readVec st.nodeToComponent (i - env.distIndex.minNodeID) = some c → c = 0) :
    findComponents.findComp env onlyCycles fuel st i = none := by
  unfold findComponents.findComp
  cases hr : readVec st.nodeToComponent (i - env.distIndex.minNodeID) with
  | none => rfl
  | some c =>
    have hc := hz c hr
    simp only [hc, if_true]
    have hl : env.loopDistance (i, false) (i, false) = none :=
      loopDistance_empty _ _ _ _ _ h
    rw [hl]

/-- C34 (failing input, and every graph with a node): the constructor of
`DistanceIndex` constructs the maximum index on `this` (line 75), and at that
point `nodeToSnarl` is empty, since nothing assigns it.  For every graph with
at least one handle, `findComponents` calls
`loopDistance((i, false), (i, false))` for the first handle `i`, whose cell of
the fresh `nodeToComponent` is 0 (or is past the end of the vector, the node
id range of the index not being assigned either), and `loopDistance` starts
with `snarlOf(i)`, which reads `nodeToSnarl[i - minNodeID]` of the empty
vector.  So the construction has no defined result, whatever the
four-argument `loopDistance` and `calculateMaxDistances` do and however many
iterations the loops are given: no component number is assigned.  The second
part is the row `1 → 2 → 3` with its three handles. -/
theorem maxIndex_undefined_on_constructed :
    (∀ (loc : NodeLocator) (snarlIndexes : List SnarlIndex) (chainIndexes : List ChainIndex)
      (maxIndex : MaxDistanceIndex) (incl : Bool) (minID maxID : Int)
      (sm : SnarlManager) (g : HandleGraph) (i : Int) (handles : List Int)
      (loopDistanceIn : Option SnarlRef → Option SnarlRef → Side → Side → Option Int)
      (calculateMaxDistances : List Side → List Nat → DistVectors → Option DistVectors)
      (cap fuel : Nat),
      (DistanceIndex.constructed loc snarlIndexes chainIndexes maxIndex incl minID
        maxID).newMaxIndex sm g (i :: handles) loopDistanceIn calculateMaxDistances cap fuel
        = none) ∧
    (∀ fuel : Nat,
      (DistanceIndex.constructed rowLocator [] [] MaxDistanceIndex.empty true 1
        3).newMaxIndex rowManager rowGraph [1, 2, 3] (fun _ _ _ _ => some (-1))
        (fun _ _ v => some v) 5 fuel = none) := by
  have key : ∀ (loc : NodeLocator) (snarlIndexes : List SnarlIndex)
      (chainIndexes : List ChainIndex)
      (maxIndex : MaxDistanceIndex) (incl : Bool) (minID maxID : Int)
      (sm : SnarlManager) (g : HandleGraph) (i : Int) (handles : List Int)
      (loopDistanceIn : Option SnarlRef → Option SnarlRef → Side → Side → Option Int)
      (calculateMaxDistances : List Side → List Nat → DistVectors → Option DistVectors)
      (cap fuel : Nat),
      (DistanceIndex.constructed loc snarlIndexes chainIndexes maxIndex incl minID
        maxID).newMaxIndex sm g (i :: handles) loopDistanceIn calculateMaxDistances cap fuel
        = none := by
    intro loc snarlIndexes chainIndexes maxIndex incl minID maxID sm g i handles inner
      calcMax cap fuel
    unfold DistanceIndex.newMaxIndex MaxDistanceIndex.new MaxDistanceIndex.findComponents
    simp only []
    unfold findComponents.forEach
    rw [findComp_empty _ _ _ _ _ rfl (fun c hc => readVec_replicate_zero _ _ c hc)]
    rfl
  exact ⟨key, fun fuel => key _ _ _ _ _ _ _ _ _ _ _ _ _ _ _⟩

/-! ## C35: one output path per format -/

/-- C35 (failing input): the `GAM`/`GAF` block of `emit_singles` and the
`SAM`/`BAM`/`CRAM` blocks of `emit_singles` and `emit_pairs` do not end with
`break`.  `emit_singles` with `GAM`, one alignment and a null
`path_positions` writes the `Alignment` message and then dereferences
`path_positions` in the `SAM` block; with `path_positions` given it goes on
through `ensure_header` and `save_records` and prints the "unrecognized
output format" error; with `GAF` it does the same after the GAF line.
`emit_singles` and `emit_pairs` with `SAM`, `BAM` or `CRAM` print the error
after `save_records`.  The `GAMP` blocks, and the `GAM`/`GAF` block of
`emit_pairs`, end with `break` and do what the claim says. -/
theorem emit_falls_through :
    MultipathAlignmentEmitter.emit_singles output_format_t.GAM false 1 none = none ∧
    MultipathAlignmentEmitter.emit_singles output_format_t.GAM false 1 (some 1)
      = some (Except.ok [EmitterOutput.alignment_messages 1, EmitterOutput.ensure_header,
          EmitterOutput.save_records 0, EmitterOutput.unrecognized_output_format]) ∧
    MultipathAlignmentEmitter.emit_singles output_format_t.GAF false 1 none = none ∧
    MultipathAlignmentEmitter.emit_singles output_format_t.GAF false 1 (some 1)
      = some (Except.ok [EmitterOutput.gaf_lines 1, EmitterOutput.ensure_header,
          EmitterOutput.save_records 0, EmitterOutput.unrecognized_output_format]) ∧
    (∀ format, format = output_format_t.SAM ∨ format = output_format_t.BAM ∨
        format = output_format_t.CRAM →
      MultipathAlignmentEmitter.emit_singles format false 1 (some 1)
        = some (Except.ok [EmitterOutput.ensure_header, EmitterOutput.save_records 0,
            EmitterOutput.unrecognized_output_format]) ∧
      MultipathAlignmentEmitter.emit_pairs format false 1 (some 1) none
        = some (Except.ok [EmitterOutput.ensure_header, EmitterOutput.save_records 0,
            EmitterOutput.unrecognized_output_format])) ∧
    (∀ (want_breakpoint : Bool) (count : Nat) (path_positions tlen_limits : Option Nat),
      MultipathAlignmentEmitter.emit_singles output_format_t.GAMP want_breakpoint count
          path_positions
        = some (Except.ok ([EmitterOutput.multipath_messages count] ++
            (if want_breakpoint then
              [EmitterOutput.flush_multipath, EmitterOutput.register_breakpoint]
             else []))) ∧
      MultipathAlignmentEmitter.emit_pairs output_format_t.GAMP want_breakpoint count
          path_positions tlen_limits
        = some (Except.ok ([EmitterOutput.multipath_messages (2 * count)] ++
            (if want_breakpoint then
              [EmitterOutput.flush_multipath, EmitterOutput.register_breakpoint]
             else []))) ∧
      MultipathAlignmentEmitter.emit_pairs output_format_t.GAM want_breakpoint count
          path_positions tlen_limits
        = some (Except.ok ([EmitterOutput.alignment_messages (2 * count)] ++
            (if want_breakpoint then [EmitterOutput.flush_alignments] else []) ++
            [EmitterOutput.register_breakpoint])) ∧
      MultipathAlignmentEmitter.emit_pairs output_format_t.GAF want_breakpoint count
          path_positions tlen_limits
        = some (Except.ok [EmitterOutput.gaf_lines (2 * count),
            EmitterOutput.register_breakpoint])) := by
  refine ⟨rfl, rfl, rfl, rfl, ?_, ?_⟩
  · rintro format (h | h | h) <;> subst h <;> exact ⟨rfl, rfl⟩
  · intro want count pp tl
    exact ⟨rfl, rfl, rfl, rfl⟩

/-! ## C36: a position on a node of the common ancestor -/

/-- C36: for a position with `offset < length` on a node that lies directly
in the common ancestor (the snarl of the node has the start visit of the
common ancestor), `distToCommonAncestor` returns at once, for every fuel,
with one distance that is `-1` and one that lies in `1 .. length`: for
`rev = false` the pair is `(-1, length - offset)` on the forward strand and
`(length - offset, -1)` on the reverse strand; for `rev = true` it is
`(offset + 1, -1)` on the forward strand and `(-1, offset + 1)` on the
reverse strand.  The node length is below `2^63`. -/
theorem distToCommonAncestor_on_ancestor_node (fuel : Nat) (idx : DistanceIndex)
    (g : HandleGraph) (sm : SnarlManager) (s ca : SnarlRef) (pos : Pos) (rev : Bool)
    (hsame : sameStart sm s ca = true) (hoff : pos.offset < g.get_length pos.id)
    (hlen : g.get_length pos.id < 2 ^ 63) :
    ∃ distL distR : Int,
      idx.distToCommonAncestor fuel g sm (some s) (some ca) pos rev
        = some (((distL, distR), s), idx) ∧
      (rev = false → pos.is_rev = false →
        distL = -1 ∧ distR = (g.get_length pos.id : Int) - pos.offset) ∧
      (rev = false → pos.is_rev = true →
        distL = (g.get_length pos.id : Int) - pos.offset ∧ distR = -1) ∧
      (rev = true → pos.is_rev = false → distL = (pos.offset : Int) + 1 ∧ distR = -1) ∧
      (rev = true → pos.is_rev = true → distL = -1 ∧ distR = (pos.offset : Int) + 1) ∧
      ((distL = -1 ∧ 1 ≤ distR ∧ distR ≤ g.get_length pos.id) ∨
       (distR = -1 ∧ 1 ≤ distL ∧ distL ≤ g.get_length pos.id)) := by
  have e1 : toInt64 pos.offset = (pos.offset : Int) := toInt64_of_lt _ (by omega)
  have e2 : wrap64 ((g.get_length pos.id : Int) - toInt64 pos.offset)
      = (g.get_length pos.id : Int) - pos.offset := by
    rw [e1]
    exact wrap64_of_nonneg _ (by omega) (by omega)
  refine ⟨_, _, distToCommonAncestor_at_ancestor fuel idx g sm s ca pos rev hsame, ?_⟩
  rw [e2, e1]
  cases rev <;> cases hr : pos.is_rev <;> simp <;> omega

/-- Witness of C36: the position `(1, forward, 3)` of the row, whose node
has length 10, as first position: the pair is `(-1, 7)`. -/
theorem distToCommonAncestor_on_ancestor_node_witness :
    ∃ distL distR : Int,
      rowIndex.distToCommonAncestor 1 rowGraph rowManager (some 0) (some 0) ⟨1, false, 3⟩ false
        = some (((distL, distR), 0), rowIndex) ∧
      (false = false → (⟨1, false, 3⟩ : Pos).is_rev = false →
        distL = -1 ∧ distR = (rowGraph.get_length 1 : Int) - (3 : Nat)) ∧
      (false = false → (⟨1, false, 3⟩ : Pos).is_rev = true →
        distL = (rowGraph.get_length 1 : Int) - (3 : Nat) ∧ distR = -1) ∧
      (false = true → (⟨1, false, 3⟩ : Pos).is_rev = false →
        distL = ((3 : Nat) : Int) + 1 ∧ distR = -1) ∧
      (false = true → (⟨1, false, 3⟩ : Pos).is_rev = true →
        distL = -1 ∧ distR = ((3 : Nat) : Int) + 1) ∧
      ((distL = -1 ∧ 1 ≤ distR ∧ distR ≤ rowGraph.get_length 1) ∨
       (distR = -1 ∧ 1 ≤ distL ∧ distL ≤ rowGraph.get_length 1)) :=
  distToCommonAncestor_on_ancestor_node 1 rowIndex rowGraph rowManager 0 0 ⟨1, false, 3⟩ false
    (by decide) (by decide) (by decide)

/-! ## C37: the slots of the units of a snarl -/

/-- The node that comes second in the chain gets its primary entry. -/
theorem locate_primary_of_reversed (s : Snarl) (handles : List Int) (slot : Nat)
    (loc : NodeLocator) (hne : s.start.node_id ≠ s.end_.node_id) :
    (calculateMinIndex.locate s true handles slot loc).2.primary_snarls s.start.node_id
      = (slot, if s.start.backward then 1 else 0) := by
  have key : ∀ (c : Prop) [Decidable c] (a b : NodeLocator) (x : Int) (v : Nat × Nat),
      a.primary_snarls x = v → b.primary_snarls x = v →
      (if c then a else b).primary_snarls x = v := by
    intro c _ a b x v ha hb
    split_ifs <;> assumption
  unfold calculateMinIndex.locate calculateMinIndex.assignBoundaries
  simp only [if_true]
  apply key
  · simp only
    rw [Function.update_noteq hne, Function.update_same]
  · simp only
    rw [Function.update_same]

/-- C37 (failing input): the slot that `SnarlIndex::index` derives for a unit
is not its position in `allNodes` for a boundary node whose visit is
backward, and for a boundary node with a secondary entry.  In the snarl
entered through node `2` backwards, with the units `(2, rev)`, `(2, fwd)`,
`(3, fwd)`, `(3, rev)`, `(1, rev)`, `(1, fwd)` at the positions 0 to 5, the
slots are 2, 1, 2, 3, 6, 5: the start node is recorded with the unit index 1
and the end node with 5, and 1 is added for a reverse side.  In the second
snarl `(2 → 3)` of the row, node `2` has its primary entry in the first snarl
and its secondary entry is written at position 2 of `secondary_snarls`, while
`index` reads position `rank(2) = 0`: the slots of the units at the positions
0 and 1 are `2^64 - 1` and 0.  For every snarl that is reversed in its chain
and has a backward start visit, the unit at position 0 gets the slot 2. -/
theorem boundary_slots_off :
    backwardLocated.1
      = [(2, true), (2, false), (3, false), (3, true), (1, true), (1, false)] ∧
    (backwardLocated.2.primary_snarls 2, backwardLocated.2.primary_snarls 1) = ((0, 1), (0, 5)) ∧
    backwardLocated.1.map (fun u =>
        (SnarlIndex.new 0 false backwardLocated.1.length true 0).unitSlot backwardLocated.2 u)
      = [2, 1, 2, 3, 6, 5] ∧
    (SnarlIndex.new 0 false backwardLocated.1.length true 0).slots backwardLocated.2
        (2, true) (2, false) = (2, 2) ∧
    rowLocated.1 = [(2, false), (2, true), (3, false), (3, true)] ∧
    (rowLocated.2.primary_snarls 2, rowLocated.2.secondary_snarls 2,
        rowLocated.2.rank 2, rowLocated.2.secondary_snarls 0)
      = ((0, 2), (1, 0), 0, (2 ^ 64 - 1, 2 ^ 64 - 1)) ∧
    rowLocated.1.map (fun u =>
        (SnarlIndex.new 0 false rowLocated.1.length true 1).unitSlot rowLocated.2 u)
      = [2 ^ 64 - 1, 0, 2, 3] ∧
    (∀ (s : Snarl) (handles : List Int) (slot : Nat) (loc : NodeLocator)
        (parentIndex : Nat) (revInParent inChain : Bool),
      s.start.node_id ≠ s.end_.node_id → s.start.backward = true →
      (calculateMinIndex.locate s true handles slot loc).1[0]?
        = some (s.start.node_id, true) ∧
      (SnarlIndex.new parentIndex revInParent
          (calculateMinIndex.locate s true handles slot loc).1.length inChain slot).unitSlot
        (calculateMinIndex.locate s true handles slot loc).2 (s.start.node_id, true) = 2) := by
  refine ⟨by decide, by decide, by decide, by decide, by decide, by decide, by decide, ?_⟩
  intro s handles slot loc parentIndex revInParent inChain hne hback
  constructor
  · unfold calculateMinIndex.locate calculateMinIndex.allNodes
    simp only
    rw [List.getElem?_append_left (by rw [addNodes_length]; simp),
      addNodes_extends _ _ _ _ _ _ 0 (by simp)]
    simp [hback]
  · unfold SnarlIndex.unitSlot SnarlIndex.nodeIndex
    rw [locate_primary_of_reversed s handles slot loc hne, hback]
    simp [SnarlIndex.new, uadd]

/-! ## C38: the cells of a constructed snarl table -/

theorem two_mul_tri (k : Nat) : 2 * tri k = k * k + k := by
  induction k with
  | zero => rfl
  | succ n ih =>
    rw [tri_succ]
    have : (n + 1) * (n + 1) = n * n + 2 * n + 1 := by ring
    omega

/-- The constructor allocates `tri n + n / 2` cells. -/
theorem new_distances_length (parentIndex : Nat) (revInParent : Bool) (n : Nat)
    (inChain : Bool) (curr : Nat) (hn : n < 2 ^ 31) :
    (SnarlIndex.new parentIndex revInParent n inChain curr).distances.length
      = tri n + n / 2 := by
  have h1 : (n + 1) * n < 2 ^ 64 := tri_lt n (by omega)
  have h2 : (n + 1) * n / 2 < 2 ^ 63 := by
    apply Nat.div_lt_of_lt_mul
    have : 2 * 2 ^ 63 = 2 ^ 64 := by norm_num
    omega
  show (List.replicate (uadd (umul (uadd n 1) n / 2) (n / 2)) 0).length = _
  rw [List.length_replicate, uadd_of_lt n 1 (by omega), umul_of_lt _ _ h1,
    uadd_of_lt _ _ (by omega)]
  rfl

/-- The cell of the last slot pair below `n` lies past the allocated
cells. -/
theorem last_pair_past_end (n : Nat) (h2 : 2 ≤ n) (hn : n < 2 ^ 31) :
    tri n + n / 2 ≤ indexOffset n (n - 1) (n - 1) := by
  rw [indexOffset_eq n (n - 1) (n - 1) hn (le_refl _) (by omega), specOffset_eq_tri]
  have e : 2 * n - (n - 1) = n + 1 := by omega
  rw [e]
  have hA := two_mul_tri n
  have hB := two_mul_tri (2 * n)
  have hC := two_mul_tri (n + 1)
  have hm : 2 * n ≤ n * n := Nat.mul_le_mul_right n h2
  have h4 : 2 * n * (2 * n) = 4 * (n * n) := by ring
  have h5 : (n + 1) * (n + 1) = n * n + 2 * n + 1 := by ring
  have hCB : tri (n + 1) ≤ tri (2 * n) := tri_mono (by omega)
  omega

/-- C38 (failing input): for the first snarl `(1 → 2)` of the row, with the
four units `(1, fwd)`, `(1, rev)`, `(2, fwd)`, `(2, rev)`, `calculateMinIndex`
constructs the `SnarlIndex` with `size = 4`: the constructor allocates
`(5 * 4) / 2 + 4 / 2 = 12` cells and sets `num_nodes = 4`, and `index` lays
the table out for `num_nodes * 2 = 8` slots.  The pair of sides
`(1, rev)`, `(1, fwd)` has the slots `(1, 1)` and the cell 12, the pair
`(2, rev)`, `(2, fwd)` has the slots `(3, 3)` and the cell 25: `insertDistance`
and `snarlDistanceShort` are past the end of the vector.  For every number
`n` of units from 2 on, the cell of the slot pair `(n - 1, n - 1)` is past the
allocated cells. -/
theorem index_past_constructed_vector :
    rowFirstLocated.1 = [(1, false), (1, true), (2, false), (2, true)] ∧
    (SnarlIndex.new 0 false rowFirstLocated.1.length true 0).num_nodes = 4 ∧
    (SnarlIndex.new 0 false rowFirstLocated.1.length true 0).distances.length = 12 ∧
    (SnarlIndex.new 0 false rowFirstLocated.1.length true 0).slots rowFirstLocated.2
        (1, true) (1, false) = (1, 1) ∧
    (SnarlIndex.new 0 false rowFirstLocated.1.length true 0).index rowFirstLocated.2
        (1, true) (1, false) = 12 ∧
    (SnarlIndex.new 0 false rowFirstLocated.1.length true 0).slots rowFirstLocated.2
        (2, true) (2, false) = (3, 3) ∧
    (SnarlIndex.new 0 false rowFirstLocated.1.length true 0).index rowFirstLocated.2
        (2, true) (2, false) = 25 ∧
    ((SnarlIndex.new 0 false rowFirstLocated.1.length true 0).insertDistance
        rowFirstLocated.2 (2, true) (2, false) 5).isNone = true ∧
    (SnarlIndex.new 0 false rowFirstLocated.1.length true 0).snarlDistanceShort
        rowFirstLocated.2 (2, true) (2, false) = none ∧
    (∀ (n parentIndex curr : Nat) (revInParent inChain : Bool), 2 ≤ n → n < 2 ^ 31 →
      n - 1 < n ∧
      (SnarlIndex.new parentIndex revInParent n inChain curr).distances.length
        ≤ indexOffset (SnarlIndex.new parentIndex revInParent n inChain curr).num_nodes
            (n - 1) (n - 1)) := by
  refine ⟨by decide, by decide, by decide, by decide, by decide, by decide, by decide,
    by decide, by decide, ?_⟩
  intro n parentIndex curr revInParent inChain h2 hn
  refine ⟨by omega, ?_⟩
  rw [new_distances_length _ _ _ _ _ hn]
  exact last_pair_past_end n h2 hn

/-- C3 (failing input): the table that the constructor makes for the four
units of the first snarl `(1 → 2)` of the row is fresh, all of its 12 cells
are 0.  Of the 16 pairs of its sides, 6 have their cell inside the vector and
read as `-1`; the other 10 have a cell past the end of the vector.  For the
pair `((2, fwd), (1, fwd))` the cell is 20: `snarlDistanceShort` has no defined
result there, where the claim says `-1`, and `insertDistance` with the
distance 7 has none either, so nothing can be read back. -/
theorem fresh_table_pairs_past_end :
    (SnarlIndex.new 0 false rowFirstLocated.1.length true 0).distances
      = List.replicate 12 0 ∧
    ((rowFirstLocated.1.product rowFirstLocated.1).filter fun p =>
      decide ((SnarlIndex.new 0 false rowFirstLocated.1.length true 0).snarlDistanceShort
        rowFirstLocated.2 p.1 p.2 = some (-1))).length = 6 ∧
    ((rowFirstLocated.1.product rowFirstLocated.1).filter fun p =>
      decide ((SnarlIndex.new 0 false rowFirstLocated.1.length true 0).snarlDistanceShort
        rowFirstLocated.2 p.1 p.2 = none)).length = 10 ∧
    (SnarlIndex.new 0 false rowFirstLocated.1.length true 0).index rowFirstLocated.2
        (2, false) (1, false) = 20 ∧
    (SnarlIndex.new 0 false rowFirstLocated.1.length true 0).snarlDistanceShort
        rowFirstLocated.2 (2, false) (1, false) = none ∧
    ((SnarlIndex.new 0 false rowFirstLocated.1.length true 0).insertDistance
        rowFirstLocated.2 (2, false) (1, false) 7).isNone = true := by
  refine ⟨by decide, by decide, by decide, by decide, by decide, by decide⟩

/-! ## C39: termination of `stream::write` -/

/-- With elements left, a chunk size of at least 1 and at most `2^63`
elements in all, an iteration of `stream::write` throws, or strictly
decreases the chunk size and writes nothing, or writes at least one new
element. -/
theorem write_step_progress (E : Nat) (tell : List stream.Emitted → Int)
    (lambdaSize : Int → Nat → Nat → Nat) (st : stream.WriteState)
    (hE : E ≤ 2 ^ 63) (hs : st.serialized < E) (hc : 1 ≤ st.chunk_elements) :
    (∃ e, stream.write_step E tell lambdaSize st = Except.error e) ∨
    ∃ st2, stream.write_step E tell lambdaSize st = Except.ok st2 ∧
      st2.chunk_elements < 2 ^ 64 ∧
      ((st2.serialized = st.serialized ∧ 1 ≤ st2.chunk_elements ∧
          st2.chunk_elements < st.chunk_elements) ∨
       (st.serialized < st2.serialized ∧ st2.serialized ≤ E ∧
          (1 ≤ st2.chunk_elements ∨ st2.serialized = E))) := by
  have husub : usub E st.serialized = E - st.serialized := by
    unfold usub
    omega
  unfold stream.write_step
  simp only [husub]
  generalize hcdef : min st.chunk_elements (E - st.serialized) = c
  have hc1 : 1 ≤ c := by omega
  have hc2 : c ≤ E - st.serialized := by omega
  have hc3 : c ≤ st.chunk_elements := by omega
  generalize hsz : lambdaSize (tell st.out) st.serialized c = size
  by_cases hbig : size > stream.MAX_PROTOBUF_SIZE
  · rw [if_pos hbig]
    by_cases hgt : c > 1
    · rw [if_pos hgt]
      refine Or.inr ⟨_, rfl, ?_, Or.inl ⟨rfl, ?_, ?_⟩⟩
      · show c / 2 < 2 ^ 64
        omega
      · show 1 ≤ c / 2
        omega
      · show c / 2 < st.chunk_elements
        omega
    · rw [if_neg hgt]
      exact Or.inl ⟨_, rfl⟩
  · rw [if_neg hbig]
    have hadd : uadd st.serialized c = st.serialized + c := by
      unfold uadd
      omega
    have hmsg : ∀ k, k < 2 ^ 64 → (1 ≤ k ∨ st.serialized + c = E) →
        ∃ st2, (Except.ok ⟨uadd st.serialized c, k,
            st.out ++ [⟨1, size % 2 ^ 32, st.serialized, c⟩]⟩ :
            Except String stream.WriteState) = Except.ok st2 ∧
          st2.chunk_elements < 2 ^ 64 ∧
          ((st2.serialized = st.serialized ∧ 1 ≤ st2.chunk_elements ∧
              st2.chunk_elements < st.chunk_elements) ∨
           (st.serialized < st2.serialized ∧ st2.serialized ≤ E ∧
              (1 ≤ st2.chunk_elements ∨ st2.serialized = E))) := by
      intro k hk hk1
      refine ⟨_, rfl, hk, Or.inr ⟨?_, ?_, ?_⟩⟩
      · show st.serialized < uadd st.serialized c
        rw [hadd]
        omega
      · show uadd st.serialized c ≤ E
        rw [hadd]
        omega
      · show 1 ≤ k ∨ uadd st.serialized c = E
        rw [hadd]
        exact hk1
    by_cases hsmall : size < stream.TARGET_PROTOBUF_SIZE / 2
    · rw [if_pos hsmall]
      refine Or.inr (hmsg (umul c 2) ?_ ?_)
      · unfold umul
        omega
      · unfold umul
        omega
    · rw [if_neg hsmall]
      by_cases hlarge : size > stream.TARGET_PROTOBUF_SIZE ∧ c > 1
      · rw [if_pos hlarge]
        refine Or.inr (hmsg (c / 2) (by omega) (Or.inl ?_))
        have := hlarge.2
        omega
      · rw [if_neg hlarge]
        exact Or.inr (hmsg c (by omega) (Or.inl hc1))

/-- For at most `2^63` elements the loop of `stream::write` ends from every
state with a chunk size of at least 1: it returns true or throws. -/
theorem write_loop_terminates (E : Nat) (tell : List stream.Emitted → Int)
    (lambdaSize : Int → Nat → Nat → Nat) (hE : E ≤ 2 ^ 63) (μ : Nat) :
    ∀ st : stream.WriteState,
    (E - st.serialized) * 2 ^ 64 + st.chunk_elements ≤ μ →
    st.serialized ≤ E → st.chunk_elements < 2 ^ 64 →
    (1 ≤ st.chunk_elements ∨ st.serialized = E) →
    ∃ fuel, (∃ e, stream.write_loop E tell lambdaSize fuel st = some (Except.error e)) ∨
      ∃ out, stream.write_loop E tell lambdaSize fuel st = some (Except.ok (true, out)) := by
  induction μ using Nat.strong_induction_on with
  | _ μ ih =>
    intro st hμ hsE hc64 hc
    by_cases hs : st.serialized < E
    · have hc1 : 1 ≤ st.chunk_elements := by omega
      rcases write_step_progress E tell lambdaSize st hE hs hc1 with
        ⟨e, herr⟩ | ⟨st2, hstep, h64, hcase⟩
      · refine ⟨1, Or.inl ⟨e, ?_⟩⟩
        unfold stream.write_loop
        rw [if_pos hs, herr]
      · have hrec : ∃ fuel,
            (∃ e, stream.write_loop E tell lambdaSize fuel st2 = some (Except.error e)) ∨
            ∃ out, stream.write_loop E tell lambdaSize fuel st2
              = some (Except.ok (true, out)) := by
          rcases hcase with ⟨hser, h1, hlt⟩ | ⟨hlt, hle, h1⟩
          · exact ih ((E - st2.serialized) * 2 ^ 64 + st2.chunk_elements)
              (by rw [hser]; omega) st2 (le_refl _) (by rw [hser]; exact hsE) h64 (Or.inl h1)
          · exact ih ((E - st2.serialized) * 2 ^ 64 + st2.chunk_elements)
              (by omega) st2 (le_refl _) hle h64 h1
        obtain ⟨fuel, hfuel⟩ := hrec
        refine ⟨fuel + 1, ?_⟩
        have hunf : stream.write_loop E tell lambdaSize (fuel + 1) st
            = stream.write_loop E tell lambdaSize fuel st2 := by
          rw [stream.write_loop, if_pos hs, hstep]
        rw [hunf]
        exact hfuel
    · refine ⟨1, Or.inr ⟨st.out, ?_⟩⟩
      unfold stream.write_loop
      rw [if_neg hs]

/-- For at most `2^63` elements and an initial chunk size of at least 1,
`stream::write` terminates: it returns true or throws. -/
theorem write_terminates_up_to_half_range (element_count chunk_elements : Nat)
    (tell : List stream.Emitted → Int) (lambdaSize : Int → Nat → Nat → Nat)
    (hE : element_count ≤ 2 ^ 63) (hc : 1 ≤ chunk_elements) (hc64 : chunk_elements < 2 ^ 64) :
    ∃ fuel,
      (∃ e, stream.write fuel element_count chunk_elements tell lambdaSize
        = some (Except.error e)) ∨
      ∃ out, stream.write fuel element_count chunk_elements tell lambdaSize
        = some (Except.ok (true, out)) :=
  write_loop_terminates element_count tell lambdaSize hE _ ⟨0, chunk_elements, []⟩
    (le_refl _) (Nat.zero_le _) hc64 (Or.inl hc)

/-- With one element to write and the chunk size 0, an iteration writes a
message for the empty range and changes nothing else. -/
theorem write_step_zero_chunk (tell : List stream.Emitted → Int) (out : List stream.Emitted) :
    stream.write_step 1 tell (fun _ _ _ => 5) ⟨0, 0, out⟩
      = Except.ok ⟨0, 0, out ++ [⟨1, 5, 0, 0⟩]⟩ := by
  have e1 : usub 1 0 = 1 := by norm_num [usub]
  have e2 : uadd 0 0 = 0 := by norm_num [uadd]
  have e3 : umul 0 2 = 0 := by norm_num [umul]
  unfold stream.write_step
  simp only [e1]
  have m : min 0 1 = 0 := rfl
  rw [m, if_neg (by norm_num [stream.MAX_PROTOBUF_SIZE]),
    if_pos (by norm_num [stream.TARGET_PROTOBUF_SIZE, stream.MAX_PROTOBUF_SIZE])]
  simp only [e2, e3]
  rfl

theorem write_loop_zero_chunk (tell : List stream.Emitted → Int) (fuel : Nat) :
    ∀ out : List stream.Emitted,
      stream.write_loop 1 tell (fun _ _ _ => 5) fuel ⟨0, 0, out⟩ = none := by
  induction fuel with
  | zero => intro out; rfl
  | succ n ih =>
    intro out
    unfold stream.write_loop
    rw [if_pos (by norm_num), write_step_zero_chunk]
    exact ih _

/-- C39 (failing input): with one element to write and the initial guess
`chunk_elements = 0`, every iteration writes a message for the empty range
`(0, 0)`, leaves `serialized` at 0 and doubles the chunk size 0 to 0: the
iteration neither writes a new element nor decreases `chunk_elements`, and
the call neither returns nor throws.  With `2^63 + 1` elements and the guess
`2^63` the chunk size wraps to 0 after the first message and the call does
not end either. -/
theorem write_loops_forever :
    (∀ (tell : List stream.Emitted → Int) (out : List stream.Emitted),
      stream.write_step 1 tell (fun _ _ _ => 5) ⟨0, 0, out⟩
        = Except.ok ⟨0, 0, out ++ [⟨1, 5, 0, 0⟩]⟩) ∧
    (∀ (tell : List stream.Emitted → Int) (fuel : Nat),
      stream.write fuel 1 0 tell (fun _ _ _ => 5) = none) ∧
    (∀ (tell : List stream.Emitted → Int) (fuel : Nat),
      stream.write fuel (2 ^ 63 + 1) (2 ^ 63) tell (fun _ _ _ => 5) = none) := by
  refine ⟨write_step_zero_chunk, fun tell fuel => write_loop_zero_chunk tell fuel [], ?_⟩
  intro tell fuel
  cases fuel with
  | zero => rfl
  | succ n =>
    unfold stream.write stream.write_loop
    rw [if_pos (by norm_num), write_step_first]
    exact write_loop_stuck tell n _

/-! ## Two positions on one node, at any depth of the snarl tree -/

/-- The same with the two distances in the other order. -/
theorem addDist3_candidate_swap (a b x T B M : Int)
    (ha : a = -1 ∨ (0 ≤ a ∧ a < B)) (hb : b = -1 ∨ (T ≤ b ∧ b < B))
    (hx : x = -1 ∨ (0 ≤ x ∧ x < M)) (hBM : B + B + M ≤ 2 ^ 31) :
    addDist3 b a x = -1 ∨ (T ≤ addDist3 b a x ∧ addDist3 b a x < 2 ^ 31) := by
  unfold addDist3
  split_ifs <;> omega

end vg
